import Mathlib

/-!
# The ncnn graph optimizer and the Deconvolution layer

A shallow embedding of `tools/ncnnoptimize.cpp` (the rewrite passes of `NetOptimize`, `save`,
`main` and the capability query), of `src/layer/deconvolution.cpp` (`Deconvolution`) and of
`src/layer/arm/deconvolution_arm.cpp` (`Deconvolution_arm`).

Conventions of the embedding.

* `float` values are elements of a linearly ordered field `α` (exact arithmetic); the libm
  functions `sqrt` and `exp` are parameters of the definitions that call them.
* `int` parameters of layers are `Int`; indices into `layers` and `blobs` are `Nat`;
  `Blob::producer` is an `Int` (it is `-1` for a blob nobody produced yet).
* An `ncnn::Mat` used as a flat weight vector is a `List α`.  Reading a vector outside its bounds
  (undefined in C++) yields `0`, writing outside its bounds (undefined in C++) changes nothing.
  Reading a constant table (`support_table`, `deconv_func_table`) outside its bounds yields
  `none`.
* A `ncnn::Layer*` is a record with the header fields and the fields of the layer classes the
  passes downcast to; the C-style cast `(ncnn::BatchNorm*)layers[i]` is field selection.
* The functions that model the loops and the blocks of the passes are total.  Whether a call
  returns is modelled apart: `RewritePass.call` and `main` give the value returned or the
  `Fault` (an `int` division by zero, a `std::length_error`, an access outside a vector or a
  buffer) that stops the call before its `return` statement.
-/

namespace NcnnOptimize

/-- A blob of `ncnn::Net`: its `name` and the index `producer` of the layer writing it. -/
structure Blob where
  name : String := ""
  producer : Int := -1
deriving DecidableEq, Repr

/-- A layer object: the `ncnn::Layer` header (`type`, `name`, `bottoms`, `tops`) followed by
the fields of the derived classes that the optimizer and `Deconvolution` read or write. -/
structure Layer (α : Type) where
  type : String := ""
  name : String := ""
  bottoms : List Nat := []
  tops : List Nat := []
  /- BatchNorm -/
  channels : Int := 0
  eps : α
  slope_data : List α := []
  mean_data : List α := []
  var_data : List α := []
  /- BatchNorm, Scale, Convolution, ConvolutionDepthWise, Deconvolution,
     DeconvolutionDepthWise, InnerProduct -/
  bias_data : List α := []
  /- Scale -/
  scale_data : List α := []
  /- Scale and the five weighted kinds -/
  bias_term : Int := 0
  /- the five weighted kinds -/
  num_output : Int := 0
  weight_data_size : Int := 0
  weight_data : List α := []
  activation_type : Int := 0
  activation_params : List α := []
  /- Convolution, ConvolutionDepthWise, InnerProduct -/
  int8_scale_term : Int := 0
  /- Convolution -/
  impl_type : Int := 0
  /- Convolution and Deconvolution geometry -/
  kernel_w : Int := 0
  kernel_h : Int := 0
  dilation_w : Int := 1
  dilation_h : Int := 1
  stride_w : Int := 1
  stride_h : Int := 1
  pad_w : Int := 0
  pad_h : Int := 0
  output_pad_w : Int := 0
  output_pad_h : Int := 0
  /- Dropout -/
  scale : α
  /- ReLU -/
  slope : α
  /- Clip -/
  min : α
  max : α
  /- Pooling -/
  global_pooling : Int := 0
  pooling_type : Int := 0
  pad_left : Int := 0
  pad_right : Int := 0
  pad_top : Int := 0
  pad_bottom : Int := 0
  pad_mode : Int := 0
  /- ConvolutionDepthWise and DeconvolutionDepthWise -/
  group : Int := 1
  /- Softmax -/
  axis : Int := 0

/-- A layer with every field at the value its class constructor and `load_param` on an empty
dictionary leave it at (`Dropout::scale` is `1`; the `Clip` bounds are irrelevant here). -/
def Layer.blank {α : Type} [Zero α] [One α] : Layer α :=
  { eps := 0, scale := 1, slope := 0, min := 0, max := 0 }

/-- The part of `ncnn::Net` the passes work on: the layer list and the blob table. -/
structure Net (α : Type) where
  layers : List (Layer α) := []
  blobs : List Blob := []

/-- The assignment `L->tops[0] = t`. -/
def Layer.set_top0 {α : Type} (L : Layer α) (t : Nat) : Layer α :=
  { L with tops := L.tops.set 0 t }

/-- The assignment `L->type = "ncnnfused"`. -/
def Layer.set_fused {α : Type} (L : Layer α) : Layer α :=
  { L with type := "ncnnfused" }

/-- Two layers with the same header fields. -/
def same_header {α : Type} (X Y : Layer α) : Prop :=
  X.type = Y.type ∧ X.name = Y.name ∧ X.bottoms = Y.bottoms ∧ X.tops = Y.tops

/-- The assignment `blobs[idx].producer = i`. -/
def set_producer (blobs : List Blob) (idx : Nat) (i : Int) : List Blob :=
  match blobs[idx]? with
  | some b => blobs.set idx { b with producer := i }
  | none => blobs

/-- The inner loop `for (; j<layer_count; j++)` of the forward passes, run on the layers from
index `j` on.  It stops (`break`) at the first layer whose type passes `isB`, whose `bottoms`
has size one and whose `bottoms[0]` is `top_blob_index`; it ends with `j == layer_count`
when there is no such layer. -/
def forward_search {α : Type} (isB : String → Bool) (top_blob_index : Nat) :
    List (Layer α) → Nat → Nat
  | [], j => j
  | L :: rest, j =>
    if isB L.type = false then forward_search isB top_blob_index rest (j + 1)
    else if L.bottoms.length ≠ 1 then forward_search isB top_blob_index rest (j + 1)
    else if L.bottoms.getD 0 0 = top_blob_index then j
    else forward_search isB top_blob_index rest (j + 1)

/-- The test under which the inner loop of a forward pass breaks at a layer. -/
def is_match {α : Type} (isB : String → Bool) (top_blob_index : Nat) (L : Layer α) : Prop :=
  isB L.type = true ∧ L.bottoms.length = 1 ∧ L.bottoms.getD 0 0 = top_blob_index

/-- What distinguishes one forward pass from another: the tests on `layers[i]` that must
pass (`guardA`), the type test on `layers[j]` (`isB`), and the block that folds the fields of
`layers[j]` into `layers[i]` (`absorb`). -/
structure ChainRule (α : Type) where
  guardA : Layer α → Bool
  isB : String → Bool
  absorb : Layer α → Layer α → Layer α

/-- The index `j` at which the inner loop of the iteration for `i` breaks, if the iteration
gets past all its `continue` statements. -/
def chain_partner {α : Type} (R : ChainRule α) (net : Net α) (i : Nat) : Option Nat :=
  match net.layers[i]? with
  | none => none
  | some A =>
    if R.guardA A = false then none
    else
      let layer_count := net.layers.length
      let top_blob_index := A.tops.getD 0 0
      let j := forward_search R.isB top_blob_index (net.layers.drop (i + 1)) (i + 1)
      if j = layer_count then none else some j

/-- The tail of an iteration once `j` is found: fold `layers[j]` into `layers[i]`, then
`A->tops[0] = B->tops[0]; blobs[B->tops[0]].producer = i; B->type = "ncnnfused"`. -/
def chain_rewire {α : Type} (R : ChainRule α) (net : Net α) (i j : Nat) : Net α :=
  match net.layers[i]?, net.layers[j]? with
  | some A, some B =>
    let A1 := R.absorb A B
    let top_blob_index_final := B.tops.getD 0 0
    { layers := (net.layers.set i (A1.set_top0 top_blob_index_final)).set j B.set_fused,
      blobs := set_producer net.blobs top_blob_index_final i }
  | _, _ => net

/-- One iteration of the outer loop `for (int i=0; i<layer_count; i++)` of a forward pass. -/
def chain_step {α : Type} (R : ChainRule α) (net : Net α) (i : Nat) : Net α :=
  match chain_partner R net i with
  | none => net
  | some j => chain_rewire R net i j

/-- A whole forward pass: the outer loop over `i = 0 .. layer_count-1`. -/
def chain_pass {α : Type} (R : ChainRule α) (net : Net α) : Net α :=
  (List.range net.layers.length).foldl (chain_step R) net

/-! ## The arithmetic blocks of the fusion passes -/

/-- The block of `fuse_batchnorm_scale`:
`slope[q] = slope[q] * scale_data[q]` and `bias[q] = bias[q] * scale_data[q] (+ bias_data[q])`
for `q < channels`. -/
def absorb_scale {α : Type} [LinearOrderedField α] (batchnorm scale : Layer α) : Layer α :=
  let channels := batchnorm.channels
  let slope := batchnorm.slope_data
  let bias := batchnorm.bias_data
  let sb : List α × List α :=
    (List.range channels.toNat).foldl (fun sb q =>
      (sb.1.set q (sb.1.getD q 0 * scale.scale_data.getD q 0),
       if scale.bias_term ≠ 0 then
         sb.2.set q (sb.2.getD q 0 * scale.scale_data.getD q 0 + scale.bias_data.getD q 0)
       else
         sb.2.set q (sb.2.getD q 0 * scale.scale_data.getD q 0)))
      (slope, bias)
  { batchnorm with slope_data := sb.1, bias_data := sb.2 }

/-- The vector `a` of the batchnorm blocks:
`a[i] = bias_data[i] - slope_data[i] * mean_data[i] / sqrt(var_data[i] + eps)`. -/
def bn_a {α : Type} [LinearOrderedField α] (sqrt : α → α) (batchnorm : Layer α) : List α :=
  (List.range batchnorm.channels.toNat).map (fun i =>
    let sqrt_var := sqrt (batchnorm.var_data.getD i 0 + batchnorm.eps)
    batchnorm.bias_data.getD i 0
      - batchnorm.slope_data.getD i 0 * batchnorm.mean_data.getD i 0 / sqrt_var)

/-- The vector `b` of the batchnorm blocks: `b[i] = slope_data[i] / sqrt(var_data[i] + eps)`. -/
def bn_b {α : Type} [LinearOrderedField α] (sqrt : α → α) (batchnorm : Layer α) : List α :=
  (List.range batchnorm.channels.toNat).map (fun i =>
    let sqrt_var := sqrt (batchnorm.var_data.getD i 0 + batchnorm.eps)
    batchnorm.slope_data.getD i 0 / sqrt_var)

/-- The loop `for (j<weight_per_outch) conv_weight_outch[j] *= s` on the slice that starts at
`weight_per_outch * i`. -/
def scale_outch {α : Type} [LinearOrderedField α] (weight : List α) (weight_per_outch : Int)
    (i : Nat) (s : α) : List α :=
  (List.range weight_per_outch.toNat).foldl (fun w j =>
    w.set (weight_per_outch.toNat * i + j) (w.getD (weight_per_outch.toNat * i + j) 0 * s))
    weight

/-- The block shared by the five `fuse_<L>_batchnorm` passes: compute `a` and `b`, create a
zero bias when `bias_term == 0`, then per output channel `i < channels` multiply the weight
slice by `b[i]` and do `bias[i] += a[i]`.  The division `weight_data_size / channels` is the
truncating `int` division; for `channels == 0` the source does not get past it, and this
function, which gives the quotient 0 there, says nothing of the source: `ForwardPass.fault`
tells when the block runs to its end. -/
def absorb_batchnorm {α : Type} [LinearOrderedField α] (sqrt : α → α)
    (convolution batchnorm : Layer α) : Layer α :=
  let channels := batchnorm.channels
  let a := bn_a sqrt batchnorm
  let b := bn_b sqrt batchnorm
  let conv1 : Layer α :=
    if convolution.bias_term = 0 then
      { convolution with bias_term := 1, bias_data := List.replicate channels.toNat 0 }
    else convolution
  let weight_per_outch := Int.tdiv conv1.weight_data_size channels
  let weight := conv1.weight_data
  let bias := conv1.bias_data
  let wb : List α × List α :=
    (List.range channels.toNat).foldl (fun wb i =>
      (scale_outch wb.1 weight_per_outch i (b.getD i 0),
       wb.2.set i (wb.2.getD i 0 + a.getD i 0)))
      (weight, bias)
  { conv1 with weight_data := wb.1, bias_data := wb.2 }

/-- The block of `fuse_innerproduct_dropout`: when `scale != 1.f`, multiply the weight slices
of the `num_output` output channels by `scale` and, if `bias_term`, the first `num_output`
bias entries too.  For `num_output == 0` the source does not get past the division
`weight_data_size / num_output`, and this function, which gives the quotient 0 there, says
nothing of the source: `ForwardPass.fault` tells when the block runs to its end. -/
def absorb_dropout {α : Type} [LinearOrderedField α] (innerproduct dropout : Layer α) :
    Layer α :=
  let scale := dropout.scale
  if scale ≠ 1 then
    let num_output := innerproduct.num_output
    let weight_per_outch := Int.tdiv innerproduct.weight_data_size num_output
    let weight :=
      (List.range num_output.toNat).foldl (fun w i => scale_outch w weight_per_outch i scale)
        innerproduct.weight_data
    if innerproduct.bias_term ≠ 0 then
      let bias :=
        (List.range num_output.toNat).foldl (fun bs i => bs.set i (bs.getD i 0 * scale))
          innerproduct.bias_data
      { innerproduct with weight_data := weight, bias_data := bias }
    else { innerproduct with weight_data := weight }
  else innerproduct

/-- The block of the five `fuse_<L>_activation` passes. -/
def absorb_activation {α : Type} [LinearOrderedField α] (convolution activation : Layer α) :
    Layer α :=
  if activation.type = "ReLU" then
    if activation.slope = 0 then
      { convolution with activation_type := 1 }
    else
      { convolution with activation_type := 2, activation_params := [activation.slope] }
  else if activation.type = "Clip" then
    { convolution with activation_type := 3,
                       activation_params := [activation.min, activation.max] }
  else if activation.type = "Sigmoid" then
    { convolution with activation_type := 4 }
  else convolution

/-! ## The forward passes -/

/-- The five kinds that carry weights, a bias and a fused activation. -/
inductive Weighted
  | Convolution | ConvolutionDepthWise | Deconvolution | DeconvolutionDepthWise | InnerProduct
deriving DecidableEq, Repr

/-- The type string of a weighted kind. -/
def Weighted.type : Weighted → String
  | .Convolution => "Convolution"
  | .ConvolutionDepthWise => "ConvolutionDepthWise"
  | .Deconvolution => "Deconvolution"
  | .DeconvolutionDepthWise => "DeconvolutionDepthWise"
  | .InnerProduct => "InnerProduct"

/-- The forward passes of `NetOptimize` that absorb a successor into a predecessor:
`fuse_batchnorm_scale`, `fuse_<L>_batchnorm`, `fuse_innerproduct_dropout`,
`fuse_<L>_activation`, `eliminate_flatten_after_global_pooling` and
`eliminate_flatten_after_innerproduct`. -/
inductive ForwardPass
  | batchnorm_scale
  | batchnorm (L : Weighted)
  | innerproduct_dropout
  | activation (L : Weighted)
  | flatten_after_global_pooling
  | flatten_after_innerproduct
deriving DecidableEq, Repr

/-- The tests and the block of each forward pass, as written in its function body. -/
def ForwardPass.rule {α : Type} [LinearOrderedField α] (sqrt : α → α) :
    ForwardPass → ChainRule α
  | .batchnorm_scale =>
    { guardA := fun A => decide (A.type = "BatchNorm"),
      isB := fun t => decide (t = "Scale"),
      absorb := absorb_scale }
  | .batchnorm L =>
    { guardA := fun A => decide (A.type = L.type),
      isB := fun t => decide (t = "BatchNorm"),
      absorb := absorb_batchnorm sqrt }
  | .innerproduct_dropout =>
    { guardA := fun A => decide (A.type = "InnerProduct"),
      isB := fun t => decide (t = "Dropout"),
      absorb := absorb_dropout }
  | .activation L =>
    { guardA := fun A => decide (A.type = L.type),
      isB := fun t => decide (t = "ReLU" ∨ t = "Clip" ∨ t = "Sigmoid"),
      absorb := absorb_activation }
  | .flatten_after_global_pooling =>
    { guardA := fun A => decide (A.type = "Pooling" ∧ A.global_pooling ≠ 0),
      isB := fun t => decide (t = "Flatten"),
      absorb := fun pooling _ => pooling }
  | .flatten_after_innerproduct =>
    { guardA := fun A => decide (A.type = "InnerProduct"),
      isB := fun t => decide (t = "Flatten"),
      absorb := fun innerproduct _ => innerproduct }

/-- The pass `NetOptimize::fuse_batchnorm_scale`. -/
def fuse_batchnorm_scale {α : Type} [LinearOrderedField α] (net : Net α) : Net α :=
  chain_pass (ForwardPass.rule id .batchnorm_scale) net

/-- The pass `NetOptimize::fuse_convolution_batchnorm`. -/
def fuse_convolution_batchnorm {α : Type} [LinearOrderedField α] (sqrt : α → α)
    (net : Net α) : Net α :=
  chain_pass (ForwardPass.rule sqrt (.batchnorm .Convolution)) net

/-- The pass `NetOptimize::fuse_convolutiondepthwise_batchnorm`. -/
def fuse_convolutiondepthwise_batchnorm {α : Type} [LinearOrderedField α] (sqrt : α → α)
    (net : Net α) : Net α :=
  chain_pass (ForwardPass.rule sqrt (.batchnorm .ConvolutionDepthWise)) net

/-- The pass `NetOptimize::fuse_deconvolution_batchnorm`. -/
def fuse_deconvolution_batchnorm {α : Type} [LinearOrderedField α] (sqrt : α → α)
    (net : Net α) : Net α :=
  chain_pass (ForwardPass.rule sqrt (.batchnorm .Deconvolution)) net

/-- The pass `NetOptimize::fuse_deconvolutiondepthwise_batchnorm`. -/
def fuse_deconvolutiondepthwise_batchnorm {α : Type} [LinearOrderedField α] (sqrt : α → α)
    (net : Net α) : Net α :=
  chain_pass (ForwardPass.rule sqrt (.batchnorm .DeconvolutionDepthWise)) net

/-- The pass `NetOptimize::fuse_innerproduct_batchnorm`. -/
def fuse_innerproduct_batchnorm {α : Type} [LinearOrderedField α] (sqrt : α → α)
    (net : Net α) : Net α :=
  chain_pass (ForwardPass.rule sqrt (.batchnorm .InnerProduct)) net

/-- The pass `NetOptimize::fuse_innerproduct_dropout`. -/
def fuse_innerproduct_dropout {α : Type} [LinearOrderedField α] (net : Net α) : Net α :=
  chain_pass (ForwardPass.rule id .innerproduct_dropout) net

/-- The pass `NetOptimize::fuse_convolution_activation`. -/
def fuse_convolution_activation {α : Type} [LinearOrderedField α] (net : Net α) : Net α :=
  chain_pass (ForwardPass.rule id (.activation .Convolution)) net

/-- The pass `NetOptimize::fuse_convolutiondepthwise_activation`. -/
def fuse_convolutiondepthwise_activation {α : Type} [LinearOrderedField α] (net : Net α) :
    Net α :=
  chain_pass (ForwardPass.rule id (.activation .ConvolutionDepthWise)) net

/-- The pass `NetOptimize::fuse_deconvolution_activation`. -/
def fuse_deconvolution_activation {α : Type} [LinearOrderedField α] (net : Net α) : Net α :=
  chain_pass (ForwardPass.rule id (.activation .Deconvolution)) net

/-- The pass `NetOptimize::fuse_deconvolutiondepthwise_activation`. -/
def fuse_deconvolutiondepthwise_activation {α : Type} [LinearOrderedField α] (net : Net α) :
    Net α :=
  chain_pass (ForwardPass.rule id (.activation .DeconvolutionDepthWise)) net

/-- The pass `NetOptimize::fuse_innerproduct_activation`. -/
def fuse_innerproduct_activation {α : Type} [LinearOrderedField α] (net : Net α) : Net α :=
  chain_pass (ForwardPass.rule id (.activation .InnerProduct)) net

/-- The pass `NetOptimize::eliminate_flatten_after_global_pooling`. -/
def eliminate_flatten_after_global_pooling {α : Type} [LinearOrderedField α] (net : Net α) :
    Net α :=
  chain_pass (ForwardPass.rule id .flatten_after_global_pooling) net

/-- The pass `NetOptimize::eliminate_flatten_after_innerproduct`. -/
def eliminate_flatten_after_innerproduct {α : Type} [LinearOrderedField α] (net : Net α) :
    Net α :=
  chain_pass (ForwardPass.rule id .flatten_after_innerproduct) net

/-! ## Dropout elimination -/

/-- The inner loop `for (; j>=0; j--)` of `eliminate_dropout`, run on the layers below an
index, nearest first (`below` lists the layers at `j, j-1, .., 0`).  It skips fused layers
and layers whose `tops` has not size one, and breaks at the first layer whose `tops[0]` is
`bottom_blob_index`; `none` stands for the exit with `j == -1`. -/
def backward_search {α : Type} (bottom_blob_index : Nat) : List (Layer α) → Option Nat
  | [] => none
  | L :: below =>
    if L.type = "ncnnfused" then backward_search bottom_blob_index below
    else if L.tops.length ≠ 1 then backward_search bottom_blob_index below
    else if L.tops.getD 0 0 = bottom_blob_index then some below.length
    else backward_search bottom_blob_index below

/-- The test under which the inner loop of `eliminate_dropout` breaks at a layer. -/
def is_back_match {α : Type} (bottom_blob_index : Nat) (L : Layer α) : Prop :=
  L.type ≠ "ncnnfused" ∧ L.tops.length = 1 ∧ L.tops.getD 0 0 = bottom_blob_index

/-- The layer `any` found by the iteration of `eliminate_dropout` for `i`, if the iteration
gets past all its `continue` statements. -/
def dropout_partner {α : Type} [LinearOrderedField α] (net : Net α) (i : Nat) : Option Nat :=
  match net.layers[i]? with
  | none => none
  | some dropout =>
    if dropout.type ≠ "Dropout" then none
    else if dropout.scale ≠ 1 then none
    else
      let bottom_blob_index := dropout.bottoms.getD 0 0
      backward_search bottom_blob_index (net.layers.take i).reverse

/-- One iteration of the outer loop of `eliminate_dropout`:
`any->tops[0] = dropout->tops[0]; blobs[dropout->tops[0]].producer = j;
dropout->type = "ncnnfused"`. -/
def eliminate_dropout_step {α : Type} [LinearOrderedField α] (net : Net α) (i : Nat) :
    Net α :=
  match dropout_partner net i with
  | none => net
  | some j =>
    match net.layers[j]?, net.layers[i]? with
    | some any, some dropout =>
      let top_blob_index_final := dropout.tops.getD 0 0
      { layers := (net.layers.set j (any.set_top0 top_blob_index_final)).set i
          dropout.set_fused,
        blobs := set_producer net.blobs top_blob_index_final j }
    | _, _ => net

/-- The pass `NetOptimize::eliminate_dropout`. -/
def eliminate_dropout {α : Type} [LinearOrderedField α] (net : Net α) : Net α :=
  (List.range net.layers.length).foldl eliminate_dropout_step net

/-! ## The Deconvolution layer (`src/layer/deconvolution.cpp`) -/

/-- An `ncnn::Mat` holding a blob of `c` channels of `h` rows of `w` floats.  Channel `q` is
the slice of `data` that starts at `q * (w * h)` and row `y` of a channel starts at `y * w`
(the alignment padding between channels of the C++ layout is left out); `elemsize` is the
number of bytes of one element (`4` for a `float`). -/
structure Mat (α : Type) where
  w : Nat
  h : Nat
  c : Nat
  data : List α
  elemsize : Nat := 4

/-- The test `Mat::empty()`. -/
def Mat.empty {α : Type} (m : Mat α) : Prop := m.w * m.h * m.c = 0

instance {α : Type} (m : Mat α) : Decidable m.empty :=
  inferInstanceAs (Decidable (m.w * m.h * m.c = 0))

/-- Apply a function to every element of a blob. -/
def Mat.map {α : Type} (f : α → α) (m : Mat α) : Mat α :=
  { m with data := m.data.map f }

/-- Modelled from the spec: `copy_cut_border` is declared in `mat.h`, which is not among the
sources.  It is taken to be the crop its name and arguments describe, which removes `top` and
`bottom` rows and `left` and `right` columns from every channel; an element that the source
blob does not hold is not copied. -/
def copy_cut_border {α : Type} (src : Mat α) (top bottom left right : Int) : Mat α :=
  let w := ((src.w : Int) - left - right).toNat
  let h := ((src.h : Int) - top - bottom).toNat
  { w := w, h := h, c := src.c, elemsize := src.elemsize,
    data := (List.range src.c).flatMap fun q =>
      (List.range h).flatMap fun y =>
        (List.range w).flatMap fun x =>
          (src.data[(q * src.h + (top.toNat + y)) * src.w + (left.toNat + x)]?).toList }

/-- The block `// kernel offsets` of `Deconvolution::forward`: the table `space_ofs` of `maxk`
entries, filled row by row with `p2`, which advances by `dilation_w` per kernel column and by
`gap` more per kernel row. -/
def space_ofs {α : Type} (L : Layer α) (outw : Int) : List Int :=
  let maxk := L.kernel_w * L.kernel_h
  let gap := outw * L.dilation_h - L.kernel_w * L.dilation_w
  let st : List Int × Nat × Int :=
    (List.range L.kernel_h.toNat).foldl (fun st _ =>
      let st1 : List Int × Nat × Int :=
        (List.range L.kernel_w.toNat).foldl (fun st _ =>
          (st.1.set st.2.1 st.2.2, st.2.1 + 1, st.2.2 + L.dilation_w)) st
      (st1.1, st1.2.1, st1.2.2 + gap))
      (List.replicate maxk.toNat 0, 0, 0)
  st.1

/-- The update `out[idx] += v` on a channel buffer (`idx` is the offset of `outptr` plus the
entry of `space_ofs`).  The buffer is that of one channel: an index outside it, which in the
source is a write into a neighbouring channel or outside the blob (undefined in C++), is left
out here.  What is stated of `Deconvolution::forward` through this function is therefore
stated for parameters under which every index lies inside the channel (kernel, stride and
dilation at least 1, output padding at least 0). -/
def add_at {α : Type} [LinearOrderedField α] (out : List α) (idx : Int) (v : α) : List α :=
  if idx < 0 then out else out.set idx.toNat (out.getD idx.toNat 0 + v)

/-- The body of the loop over `p` in `Deconvolution::forward` up to the activation: the
channel `p` of the bordered output, `out.fill(bias)` followed by the scatter loops over the
input positions `(i, j)`, the input channels `q` and the kernel positions `k`. -/
def deconv_channel {α : Type} [LinearOrderedField α] (L : Layer α) (bottom_blob : Mat α)
    (outw outh : Int) (p : Nat) : List α :=
  let w := bottom_blob.w
  let h := bottom_blob.h
  let channels := bottom_blob.c
  let maxk := L.kernel_w * L.kernel_h
  let space_ofs := space_ofs L outw
  let bias : α := if L.bias_term ≠ 0 then L.bias_data.getD p 0 else 0
  let out := List.replicate (outw * outh).toNat bias
  (List.range h).foldl (fun (out : List α) (i : Nat) =>
    (List.range w).foldl (fun (out : List α) (j : Nat) =>
      let outptr : Int := (i : Int) * L.stride_h * outw + (j : Int) * L.stride_w
      let kptr : Nat := maxk.toNat * channels * p
      (List.range channels).foldl (fun (out : List α) (q : Nat) =>
        let val := bottom_blob.data.getD ((q * h + i) * w + j) 0
        (List.range maxk.toNat).foldl (fun (out : List α) (k : Nat) =>
          let wt := L.weight_data.getD (kptr + maxk.toNat * q + k) 0
          add_at out (outptr + space_ofs.getD k 0) (val * wt)) out) out) out) out

/-- The activation block of the loop over `p` in `Deconvolution::forward`. -/
def deconv_activation {α : Type} [LinearOrderedField α] (exp : α → α) (L : Layer α)
    (out : List α) : List α :=
  if L.activation_type = 1 then
    out.map fun x => max x 0
  else if L.activation_type = 2 then
    let slope := L.activation_params.getD 0 0
    out.map fun x => if x > 0 then x else x * slope
  else if L.activation_type = 3 then
    let min := L.activation_params.getD 0 0
    let max := L.activation_params.getD 1 0
    out.map fun x =>
      let x1 := if x < min then min else x
      if x1 > max then max else x1
  else if L.activation_type = 4 then
    out.map fun x => 1 / (1 + exp (-x))
  else out

/-- The width `outw` of the bordered output of `Deconvolution::forward`. -/
def Deconvolution.outw {α : Type} (L : Layer α) (bottom_blob : Mat α) : Int :=
  let w : Int := bottom_blob.w
  let kernel_extent_w := L.dilation_w * (L.kernel_w - 1) + 1
  (w - 1) * L.stride_w + kernel_extent_w + L.output_pad_w

/-- The height `outh` of the bordered output of `Deconvolution::forward`. -/
def Deconvolution.outh {α : Type} (L : Layer α) (bottom_blob : Mat α) : Int :=
  let h : Int := bottom_blob.h
  let kernel_extent_h := L.dilation_h * (L.kernel_h - 1) + 1
  (h - 1) * L.stride_h + kernel_extent_h + L.output_pad_h

/-- The blob `top_blob_bordered` of `Deconvolution::forward` after the loop over the output
channels `p < num_output`: each channel is accumulated, then activated. -/
def Deconvolution.top_blob_bordered {α : Type} [LinearOrderedField α] (exp : α → α)
    (L : Layer α) (bottom_blob : Mat α) : Mat α :=
  let outw := Deconvolution.outw L bottom_blob
  let outh := Deconvolution.outh L bottom_blob
  { w := outw.toNat, h := outh.toNat, c := L.num_output.toNat, elemsize := bottom_blob.elemsize,
    data := (List.range L.num_output.toNat).flatMap fun p =>
      deconv_activation exp L (deconv_channel L bottom_blob outw outh p) }

/-- The function `Deconvolution::forward`: `none` stands for the return value `-100` (a
`Mat::create` that leaves the blob empty), `some top_blob` for the return value `0`. -/
def Deconvolution.forward {α : Type} [LinearOrderedField α] (exp : α → α) (L : Layer α)
    (bottom_blob : Mat α) : Option (Mat α) :=
  let outw := Deconvolution.outw L bottom_blob
  let outh := Deconvolution.outh L bottom_blob
  if outw ≤ 0 ∨ outh ≤ 0 ∨ L.num_output ≤ 0 then none
  else
    let top_blob_bordered := Deconvolution.top_blob_bordered exp L bottom_blob
    if L.pad_w > 0 ∨ L.pad_h > 0 ∨ L.output_pad_w > 0 ∨ L.output_pad_h > 0 then
      let top_blob := copy_cut_border top_blob_bordered L.pad_h L.pad_h L.pad_w L.pad_w
      if top_blob.empty then none else some top_blob
    else some top_blob_bordered

/-- A three-layer graph `Convolution -> BatchNorm -> ReLU` over the rationals, with blobs
`data, conv, bn, relu`. -/
def conv_bn_relu : Net ℚ :=
  { layers :=
      [ { Layer.blank with
            type := "Convolution", name := "conv", bottoms := [0], tops := [1],
            num_output := 2, weight_data_size := 4, weight_data := [1, 2, 3, 4] },
        { Layer.blank with
            type := "BatchNorm", name := "bn", bottoms := [1], tops := [2],
            channels := 2, slope_data := [2, 3], mean_data := [1, 1], var_data := [1, 1],
            bias_data := [5, 7] },
        { Layer.blank with type := "ReLU", name := "relu", bottoms := [2], tops := [3] } ],
    blobs :=
      [ { name := "data" }, { name := "conv", producer := 0 }, { name := "bn", producer := 1 },
        { name := "relu", producer := 2 } ] }

/-- A two-layer graph `BatchNorm -> Scale(scale=[2,2,2], bias_term=1, bias=[1,1,1])` over the
rationals (scenario B of the specification). -/
def bn_scale : Net ℚ :=
  { layers :=
      [ { Layer.blank with
            type := "BatchNorm", name := "bn", bottoms := [0], tops := [1],
            channels := 3, slope_data := [1, 2, 3], mean_data := [4, 5, 6],
            var_data := [7, 8, 9], bias_data := [10, 11, 12] },
        { Layer.blank with
            type := "Scale", name := "scale", bottoms := [1], tops := [2],
            scale_data := [2, 2, 2], bias_term := 1, bias_data := [1, 1, 1] } ],
    blobs :=
      [ { name := "data" }, { name := "bn", producer := 0 },
        { name := "scale", producer := 1 } ] }

/-- The graph `bn_scale` over the reals. -/
def bn_scale_real : Net ℝ :=
  { layers :=
      [ { Layer.blank with
            type := "BatchNorm", name := "bn", bottoms := [0], tops := [1],
            channels := 3, slope_data := [1, 2, 3], mean_data := [4, 5, 6],
            var_data := [7, 8, 9], bias_data := [10, 11, 12] },
        { Layer.blank with
            type := "Scale", name := "scale", bottoms := [1], tops := [2],
            scale_data := [2, 2, 2], bias_term := 1, bias_data := [1, 1, 1] } ],
    blobs :=
      [ { name := "data" }, { name := "bn", producer := 0 },
        { name := "scale", producer := 1 } ] }

/-- A graph `InnerProduct(num_output=2, weight_data_size=3) -> Dropout(scale=1/2)`: the
number of outputs does not divide the number of weights. -/
def ip_dropout_odd : Net ℚ :=
  { layers :=
      [ { Layer.blank with
            type := "InnerProduct", name := "fc", bottoms := [0], tops := [1],
            num_output := 2, weight_data_size := 3, weight_data := [1, 1, 1] },
        { Layer.blank with
            type := "Dropout", name := "drop", bottoms := [1], tops := [2], scale := 1 / 2 } ],
    blobs :=
      [ { name := "data" }, { name := "fc", producer := 0 },
        { name := "drop", producer := 1 } ] }

/-- A graph `InnerProduct(num_output=10, weight=W) -> Dropout(scale=1/2)` with twenty weights
and no bias (scenario C of the specification). -/
def ip_dropout : Net ℚ :=
  { layers :=
      [ { Layer.blank with
            type := "InnerProduct", name := "fc", bottoms := [0], tops := [1],
            num_output := 10, weight_data_size := 20,
            weight_data := [1, 2, 3, 4, 5, 6, 7, 8, 9, 10, 11, 12, 13, 14, 15, 16, 17, 18, 19, 20] },
        { Layer.blank with
            type := "Dropout", name := "drop", bottoms := [1], tops := [2], scale := 1 / 2 } ],
    blobs :=
      [ { name := "data" }, { name := "fc", producer := 0 },
        { name := "drop", producer := 1 } ] }

/-- A graph `Convolution -> ReLU(slope=0)` whose Convolution already carries a fused Clip
(`activation_type = 3`, `activation_params = [0, 6]`), as written by an earlier run of the
optimizer. -/
def conv_clipped_relu : Net ℚ :=
  { layers :=
      [ { Layer.blank with
            type := "Convolution", name := "conv", bottoms := [0], tops := [1],
            num_output := 1, weight_data_size := 1, weight_data := [1],
            activation_type := 3, activation_params := [0, 6] },
        { Layer.blank with type := "ReLU", name := "relu", bottoms := [1], tops := [2] } ],
    blobs :=
      [ { name := "data" }, { name := "conv", producer := 0 },
        { name := "relu", producer := 1 } ] }

/-- A graph `Deconvolution -> Clip(min=0, max=6)`. -/
def deconv_clip : Net ℚ :=
  { layers :=
      [ { Layer.blank with
            type := "Deconvolution", name := "deconv", bottoms := [0], tops := [1],
            num_output := 1, kernel_w := 1, kernel_h := 1, weight_data_size := 1,
            weight_data := [1] },
        { Layer.blank with
            type := "Clip", name := "clip", bottoms := [1], tops := [2], min := 0, max := 6 } ],
    blobs :=
      [ { name := "data" }, { name := "deconv", producer := 0 },
        { name := "clip", producer := 1 } ] }

/-- A graph `Deconvolution -> BatchNorm` over the reals: one output channel, a `1x1` kernel of
weight `1`, `bias_term = 1` with bias `[1]`, no activation; the BatchNorm has `channels = 1`,
`slope = [2]`, `mean = [0]`, `var = [1]`, `bias = [0]` and `eps = 0`. -/
def deconv_bn : Net ℝ :=
  { layers :=
      [ { Layer.blank with
            type := "Deconvolution", name := "deconv", bottoms := [0], tops := [1],
            num_output := 1, kernel_w := 1, kernel_h := 1, bias_term := 1, bias_data := [1],
            weight_data_size := 1, weight_data := [1] },
        { Layer.blank with
            type := "BatchNorm", name := "bn", bottoms := [1], tops := [2],
            channels := 1, slope_data := [2], mean_data := [0], var_data := [1],
            bias_data := [0] } ],
    blobs :=
      [ { name := "data" }, { name := "deconv", producer := 0 },
        { name := "bn", producer := 1 } ] }

/-- A graph `Input -> Dropout(scale=1/2) -> Dropout(scale=1)`. -/
def dropout_chain : Net ℚ :=
  { layers :=
      [ { Layer.blank with type := "Input", name := "data", tops := [0] },
        { Layer.blank with
            type := "Dropout", name := "drop1", bottoms := [0], tops := [1], scale := 1 / 2 },
        { Layer.blank with
            type := "Dropout", name := "drop2", bottoms := [1], tops := [2], scale := 1 } ],
    blobs :=
      [ { name := "data", producer := 0 }, { name := "drop1", producer := 1 },
        { name := "drop2", producer := 2 } ] }

/-! ## Replacing a Convolution by an InnerProduct -/

/-- The block of the two `replace_convolution_with_innerproduct_*` passes that builds the
substitute of `convolution`.  `fresh` is the object returned by
`ncnn::create_layer("InnerProduct")` after `load_param` on an empty `ParamDict` (`layer.cpp`
and `innerproduct.cpp` are not among the sources, so it is a parameter); the block assigns
`type`, `name`, `bottoms`, `tops` and the seven fields copied from the Convolution. -/
def innerproduct_of {α : Type} (fresh convolution : Layer α) : Layer α :=
  { fresh with
    type := "InnerProduct",
    name := convolution.name,
    bottoms := convolution.bottoms,
    tops := convolution.tops,
    num_output := convolution.num_output,
    bias_term := convolution.bias_term,
    weight_data_size := convolution.weight_data_size,
    weight_data := convolution.weight_data,
    bias_data := convolution.bias_data,
    activation_type := convolution.activation_type,
    activation_params := convolution.activation_params }

/-- The tests of `replace_convolution_with_innerproduct_after_global_pooling`: `layers[i]` is a
Pooling with `global_pooling != 0`, `layers[j]` is a Convolution (nothing is folded into
`layers[i]`). -/
def pooling_convolution {α : Type} : ChainRule α :=
  { guardA := fun A => decide (A.type = "Pooling" ∧ A.global_pooling ≠ 0),
    isB := fun t => decide (t = "Convolution"),
    absorb := fun pooling _ => pooling }

/-- The tests of `replace_convolution_with_innerproduct_after_innerproduct`: `layers[i]` is an
InnerProduct, `layers[j]` is a Convolution (nothing is folded into `layers[i]`). -/
def innerproduct_convolution {α : Type} : ChainRule α :=
  { guardA := fun A => decide (A.type = "InnerProduct"),
    isB := fun t => decide (t = "Convolution"),
    absorb := fun innerproduct _ => innerproduct }

/-- One iteration of the loop over `i` of a replace pass: when the inner loop finds `j`,
`layers[j] = innerproduct`. -/
def replace_step {α : Type} (fresh : Layer α) (R : ChainRule α) (net : Net α) (i : Nat) :
    Net α :=
  match chain_partner R net i with
  | none => net
  | some j =>
    match net.layers[j]? with
    | some convolution =>
      { layers := net.layers.set j (innerproduct_of fresh convolution), blobs := net.blobs }
    | none => net

/-- The pass `NetOptimize::replace_convolution_with_innerproduct_after_global_pooling`. -/
def replace_convolution_with_innerproduct_after_global_pooling {α : Type} (fresh : Layer α)
    (net : Net α) : Net α :=
  (List.range net.layers.length).foldl (replace_step fresh pooling_convolution) net

/-- One sweep `for (int i=0; i<layer_count; i++)` of
`replace_convolution_with_innerproduct_after_innerproduct`: the graph after the sweep and the
flag `replaced`, which an iteration sets when it gets past all its `continue` statements. -/
def replace_sweep {α : Type} (fresh : Layer α) (net : Net α) : Net α × Bool :=
  (List.range net.layers.length).foldl (fun (st : Net α × Bool) i =>
    match chain_partner innerproduct_convolution st.1 i with
    | none => st
    | some _ => (replace_step fresh innerproduct_convolution st.1 i, true))
    (net, false)

/-- The loop `for (;;)` of `replace_convolution_with_innerproduct_after_innerproduct`, run for
at most `fuel` sweeps: `some net` when a sweep left `replaced` false (the `break`), `none`
when the sweeps allowed by `fuel` are used up. -/
def replace_loop {α : Type} (fresh : Layer α) : Nat → Net α → Option (Net α)
  | 0, _ => none
  | fuel + 1, net =>
    let st := replace_sweep fresh net
    if st.2 = true then replace_loop fresh fuel st.1 else some st.1

/-- The number of layers of type Convolution. -/
def count_convolution {α : Type} (net : Net α) : Nat :=
  net.layers.countP (fun L => decide (L.type = "Convolution"))

/-- The pass `NetOptimize::replace_convolution_with_innerproduct_after_innerproduct`.  The
loop is given one sweep per Convolution layer and one more, which is enough for it to reach
its `break`. -/
def replace_convolution_with_innerproduct_after_innerproduct {α : Type} (fresh : Layer α)
    (net : Net α) : Net α :=
  (replace_loop fresh (count_convolution net + 1) net).getD net

/-! ## The passes as one family, and the driver -/

/-- The seventeen rewrite passes of `NetOptimize`: the fourteen forward passes,
`eliminate_dropout` and the two `replace_convolution_with_innerproduct_*` passes. -/
inductive RewritePass
  | forward (p : ForwardPass)
  | dropout
  | replace_after_global_pooling
  | replace_after_innerproduct
deriving DecidableEq, Repr

/-- Run a rewrite pass. -/
def RewritePass.run {α : Type} [LinearOrderedField α] (sqrt : α → α) (fresh : Layer α) :
    RewritePass → Net α → Net α
  | .forward p => chain_pass (ForwardPass.rule sqrt p)
  | .dropout => eliminate_dropout
  | .replace_after_global_pooling =>
    replace_convolution_with_innerproduct_after_global_pooling fresh
  | .replace_after_innerproduct =>
    replace_convolution_with_innerproduct_after_innerproduct fresh

/-- The rewrite passes in the order in which `main` calls them (`find_fastest_fp32_conv`,
which is compiled in on aarch64 Linux only and runs before them, is not a rewrite pass). -/
def driver_order : List RewritePass :=
  [ .forward .batchnorm_scale,
    .forward (.batchnorm .Convolution),
    .forward (.batchnorm .ConvolutionDepthWise),
    .forward (.batchnorm .Deconvolution),
    .forward (.batchnorm .DeconvolutionDepthWise),
    .forward (.batchnorm .InnerProduct),
    .forward .innerproduct_dropout,
    .forward (.activation .Convolution),
    .forward (.activation .ConvolutionDepthWise),
    .forward (.activation .Deconvolution),
    .forward (.activation .DeconvolutionDepthWise),
    .forward (.activation .InnerProduct),
    .dropout,
    .forward .flatten_after_global_pooling,
    .replace_after_global_pooling,
    .replace_after_innerproduct,
    .forward .flatten_after_innerproduct ]

/-- Run a list of passes one after the other. -/
def run_passes {α : Type} [LinearOrderedField α] (sqrt : α → α) (fresh : Layer α)
    (passes : List RewritePass) (net : Net α) : Net α :=
  passes.foldl (fun net pass => pass.run sqrt fresh net) net

/-- The rewrite passes of `main`, between `load_model` and `save`. -/
def optimize {α : Type} [LinearOrderedField α] (sqrt : α → α) (fresh : Layer α)
    (net : Net α) : Net α :=
  run_passes sqrt fresh driver_order net

/-- The order of the claim that is compared with the driver's: the same passes, but with
`eliminate_flatten_after_innerproduct` moved before the two
`replace_convolution_with_innerproduct_*` passes. -/
def flatten_first_order : List RewritePass :=
  [ .forward .batchnorm_scale,
    .forward (.batchnorm .Convolution),
    .forward (.batchnorm .ConvolutionDepthWise),
    .forward (.batchnorm .Deconvolution),
    .forward (.batchnorm .DeconvolutionDepthWise),
    .forward (.batchnorm .InnerProduct),
    .forward .innerproduct_dropout,
    .forward (.activation .Convolution),
    .forward (.activation .ConvolutionDepthWise),
    .forward (.activation .Deconvolution),
    .forward (.activation .DeconvolutionDepthWise),
    .forward (.activation .InnerProduct),
    .dropout,
    .forward .flatten_after_global_pooling,
    .forward .flatten_after_innerproduct,
    .replace_after_global_pooling,
    .replace_after_innerproduct ]

/-- A graph `Pooling(global_pooling=1) -> Convolution -> Flatten` with blobs
`data, pool, conv, flat` (scenario D of the specification). -/
def pool_conv_flatten : Net ℚ :=
  { layers :=
      [ { Layer.blank with
            type := "Pooling", name := "pool", bottoms := [0], tops := [1],
            global_pooling := 1 },
        { Layer.blank with
            type := "Convolution", name := "conv", bottoms := [1], tops := [2],
            num_output := 2, kernel_w := 1, kernel_h := 1, weight_data_size := 4,
            weight_data := [1, 2, 3, 4] },
        { Layer.blank with type := "Flatten", name := "flat", bottoms := [2], tops := [3] } ],
    blobs :=
      [ { name := "data" }, { name := "pool", producer := 0 }, { name := "conv", producer := 1 },
        { name := "flat", producer := 2 } ] }

/-! ## What one iteration does to the graph, and the graph invariants -/

/-- The layer kinds that some pass marks as fused. -/
def absorbed_kind (t : String) : Prop :=
  t = "Scale" ∨ t = "BatchNorm" ∨ t = "Dropout" ∨ t = "ReLU" ∨ t = "Clip" ∨ t = "Sigmoid" ∨
    t = "Flatten"

/-- The effect of an iteration of a forward pass or of `eliminate_dropout` that found its
match: the layer `K` at index `a` (the matched predecessor) keeps its type, name and bottoms,
gets `tops[0]` of the layer `B` at index `b > a` and possibly new parameters; `B` only
changes its type to `"ncnnfused"`; the producer of `B->tops[0]` becomes `a`; every other
layer is unchanged. -/
def Rewired {α : Type} (net net1 : Net α) (a b : Nat) : Prop :=
  ∃ K K1 B : Layer α,
    net.layers[a]? = some K ∧ net.layers[b]? = some B ∧ a < b ∧
    K.type ≠ "ncnnfused" ∧ absorbed_kind B.type ∧
    B.bottoms.getD 0 0 = K.tops.getD 0 0 ∧
    K1.type = K.type ∧ K1.name = K.name ∧ K1.bottoms = K.bottoms ∧
    K1.tops = K.tops.set 0 (B.tops.getD 0 0) ∧
    net1.layers[a]? = some K1 ∧ net1.layers[b]? = some B.set_fused ∧
    (∀ k, k ≠ a → k ≠ b → net1.layers[k]? = net.layers[k]?) ∧
    net1.blobs = set_producer net.blobs (B.tops.getD 0 0) a

/-- The effect of an iteration of a replace pass that found its match: the Convolution at
index `j` is replaced by the InnerProduct built from it; nothing else changes. -/
def Replaced {α : Type} (fresh : Layer α) (net net1 : Net α) (j : Nat) : Prop :=
  ∃ C : Layer α,
    net.layers[j]? = some C ∧ C.type = "Convolution" ∧
    net1.layers = net.layers.set j (innerproduct_of fresh C) ∧ net1.blobs = net.blobs

/-- An iteration that changes the graph. -/
def Rewrite {α : Type} (fresh : Layer α) (net net1 : Net α) : Prop :=
  (∃ a b, Rewired net net1 a b) ∨ ∃ j, Replaced fresh net net1 j

/-- What a rewrite pass may change in a layer: not its name, not its bottoms, not the length
of its tops nor any entry of `tops` after the first; its type only to `"ncnnfused"` or from
Convolution to InnerProduct. -/
def frame {α : Type} (L L1 : Layer α) : Prop :=
  L1.name = L.name ∧ L1.bottoms = L.bottoms ∧ L1.tops.length = L.tops.length ∧
  L1.tops.drop 1 = L.tops.drop 1 ∧
  (L1.type = L.type ∨ L1.type = "ncnnfused" ∨
    (L.type = "Convolution" ∧ L1.type = "InnerProduct"))

/-- What a rewrite pass may change in a graph: not the number of layers, not the number of
blobs nor their names, and in each layer only what `frame` allows. -/
def framed {α : Type} (net net1 : Net α) : Prop :=
  net1.layers.length = net.layers.length ∧
  net1.blobs.length = net.blobs.length ∧
  net1.blobs.map Blob.name = net.blobs.map Blob.name ∧
  ∀ (k : Nat) (L L1 : Layer α),
    net.layers[k]? = some L → net1.layers[k]? = some L1 → frame L L1

/-- The producer invariant: every top `t` of a non-fused layer at index `k` has
`blobs[t].producer == k`, and no blob index is among the tops of two non-fused layers. -/
def producer_invariant {α : Type} (net : Net α) : Prop :=
  (∀ (k : Nat) (L : Layer α), net.layers[k]? = some L → L.type ≠ "ncnnfused" →
    ∀ t ∈ L.tops, ∃ b, net.blobs[t]? = some b ∧ b.producer = (k : Int)) ∧
  (∀ (k k1 : Nat) (L L1 : Layer α) (t : Nat), net.layers[k]? = some L →
    net.layers[k1]? = some L1 → L.type ≠ "ncnnfused" → L1.type ≠ "ncnnfused" →
    t ∈ L.tops → t ∈ L1.tops → k = k1)

/-- The read `B->tops[0]` of the passes is defined: every layer of a kind that a pass marks as
fused has at least one top. -/
def absorbed_tops_defined {α : Type} (net : Net α) : Prop :=
  ∀ (k : Nat) (L : Layer α), net.layers[k]? = some L → absorbed_kind L.type → L.tops ≠ []

/-- The topological invariant: every bottom `b` of a non-fused layer at index `k` has a
producer `blobs[b].producer` that is the index of a non-fused layer before `k`. -/
def topological_invariant {α : Type} (net : Net α) : Prop :=
  ∀ (k : Nat) (L : Layer α), net.layers[k]? = some L → L.type ≠ "ncnnfused" →
    ∀ b ∈ L.bottoms, ∃ (bl : Blob) (p : Nat) (M : Layer α),
      net.blobs[b]? = some bl ∧ bl.producer = (p : Int) ∧ p < k ∧
      net.layers[p]? = some M ∧ M.type ≠ "ncnnfused"

/-- A test that decides the topological invariant on a given graph. -/
def topological_check {α : Type} (net : Net α) : Bool :=
  (List.range net.layers.length).all fun k =>
    match net.layers[k]? with
    | none => true
    | some L =>
      decide (L.type = "ncnnfused") || L.bottoms.all fun b =>
        match net.blobs[b]? with
        | none => false
        | some bl =>
          decide (0 ≤ bl.producer) && decide (bl.producer.toNat < k) &&
            match net.layers[bl.producer.toNat]? with
            | none => false
            | some M => decide (M.type ≠ "ncnnfused")

/-- Every bottom of a non-fused layer is among the tops of a non-fused layer before it. -/
def bottoms_produced {α : Type} (net : Net α) : Prop :=
  ∀ (k : Nat) (L : Layer α), net.layers[k]? = some L → L.type ≠ "ncnnfused" →
    ∀ b ∈ L.bottoms, ∃ (p : Nat) (M : Layer α),
      p < k ∧ net.layers[p]? = some M ∧ M.type ≠ "ncnnfused" ∧ b ∈ M.tops

/-- No blob is among the bottoms of two non-fused layers. -/
def single_consumer {α : Type} (net : Net α) : Prop :=
  ∀ (k k1 : Nat) (L L1 : Layer α) (b : Nat), net.layers[k]? = some L →
    net.layers[k1]? = some L1 → L.type ≠ "ncnnfused" → L1.type ≠ "ncnnfused" →
    b ∈ L.bottoms → b ∈ L1.bottoms → k = k1

/-- Every non-fused layer has a top, and every non-fused layer of a kind that some pass
absorbs has exactly one top and at least one bottom. -/
def unary_absorbed {α : Type} (net : Net α) : Prop :=
  ∀ (k : Nat) (L : Layer α), net.layers[k]? = some L → L.type ≠ "ncnnfused" →
    L.tops ≠ [] ∧ (absorbed_kind L.type → L.tops.length = 1 ∧ L.bottoms ≠ [])

/-- A well-formed graph: the producer invariant holds, every bottom is a top of an earlier
non-fused layer, every blob has at most one consumer, and the absorbed kinds are unary. -/
def well_formed {α : Type} (net : Net α) : Prop :=
  producer_invariant net ∧ bottoms_produced net ∧ single_consumer net ∧ unary_absorbed net

/-- A graph `Input -> Convolution -> BatchNorm -> Scale` in which the top of the BatchNorm is
also consumed by a Softmax. -/
def conv_bn_scale_branch : Net ℚ :=
  { layers :=
      [ { Layer.blank with type := "Input", name := "data", tops := [0] },
        { Layer.blank with
            type := "Convolution", name := "conv", bottoms := [0], tops := [1],
            num_output := 1, weight_data_size := 1, weight_data := [1] },
        { Layer.blank with
            type := "BatchNorm", name := "bn", bottoms := [1], tops := [2],
            channels := 1, slope_data := [1], mean_data := [0], var_data := [1],
            bias_data := [0] },
        { Layer.blank with
            type := "Scale", name := "scale", bottoms := [2], tops := [3],
            scale_data := [1] },
        { Layer.blank with type := "Softmax", name := "prob", bottoms := [2], tops := [4] } ],
    blobs :=
      [ { name := "data", producer := 0 }, { name := "conv", producer := 1 },
        { name := "bn", producer := 2 }, { name := "scale", producer := 3 },
        { name := "prob", producer := 4 } ] }

/-- A graph `Input -> Convolution -> ReLU` whose ReLU has two tops, the second of which is
consumed by a Softmax. -/
def conv_relu_two_tops : Net ℚ :=
  { layers :=
      [ { Layer.blank with type := "Input", name := "data", tops := [0] },
        { Layer.blank with
            type := "Convolution", name := "conv", bottoms := [0], tops := [1],
            num_output := 1, weight_data_size := 1, weight_data := [1] },
        { Layer.blank with type := "ReLU", name := "relu", bottoms := [1], tops := [2, 3] },
        { Layer.blank with type := "Softmax", name := "prob", bottoms := [3], tops := [4] } ],
    blobs :=
      [ { name := "data", producer := 0 }, { name := "conv", producer := 1 },
        { name := "relu", producer := 2 }, { name := "relu2", producer := 2 },
        { name := "prob", producer := 3 } ] }

/-- The Convolution of scenario A of the specification, with weights `W`:
`Conv(num_output=4, bias_term=0, weight_data_size=36)`. -/
def scenario_a_conv {α : Type} [LinearOrderedField α] (W : List α) : Layer α :=
  { Layer.blank with
    type := "Convolution", name := "conv", bottoms := [0], tops := [1],
    num_output := 4, bias_term := 0, weight_data_size := 36, weight_data := W }

/-- The BatchNorm of scenario A:
`BN(channels=4, eps=1e-5, slope=[1,2,3,4], mean=0, var=1, bias=[0.1,0.2,0.3,0.4])`. -/
def scenario_a_bn {α : Type} [LinearOrderedField α] : Layer α :=
  { Layer.blank with
    type := "BatchNorm", name := "bn", bottoms := [1], tops := [2],
    channels := 4, eps := 1 / 100000, slope_data := [1, 2, 3, 4],
    mean_data := [0, 0, 0, 0], var_data := [1, 1, 1, 1],
    bias_data := [1 / 10, 2 / 10, 3 / 10, 4 / 10] }

/-- The ReLU of scenario A: `ReLU(slope=0)`. -/
def scenario_a_relu {α : Type} [LinearOrderedField α] : Layer α :=
  { Layer.blank with type := "ReLU", name := "relu", bottoms := [2], tops := [3], slope := 0 }

/-- The graph of scenario A of the specification over any ordered field:
`Convolution -> BatchNorm -> ReLU` with blobs `data, conv, bn, relu`. -/
def scenario_a {α : Type} [LinearOrderedField α] (W : List α) : Net α :=
  { layers := [scenario_a_conv W, scenario_a_bn, scenario_a_relu],
    blobs :=
      [ { name := "data" }, { name := "conv", producer := 0 }, { name := "bn", producer := 1 },
        { name := "relu", producer := 2 } ] }

/-- A graph `Input -> InnerProduct` whose InnerProduct top is read by two Convolutions. -/
def ip_two_convs : Net ℚ :=
  { layers :=
      [ { Layer.blank with type := "Input", name := "data", tops := [0] },
        { Layer.blank with
            type := "InnerProduct", name := "fc", bottoms := [0], tops := [1],
            num_output := 1, weight_data_size := 1, weight_data := [1] },
        { Layer.blank with
            type := "Convolution", name := "conv1", bottoms := [1], tops := [2],
            num_output := 1, kernel_w := 1, kernel_h := 1, weight_data_size := 1,
            weight_data := [2] },
        { Layer.blank with
            type := "Convolution", name := "conv2", bottoms := [1], tops := [3],
            num_output := 1, kernel_w := 1, kernel_h := 1, weight_data_size := 1,
            weight_data := [3] } ],
    blobs :=
      [ { name := "data", producer := 0 }, { name := "fc", producer := 1 },
        { name := "conv1", producer := 2 }, { name := "conv2", producer := 3 } ] }

/-! ## Saving: the head of the param file -/

/-- The name `blobs[idx].name` that `save` prints for a blob index (an index outside the blob
table, undefined in C++, reads the empty name). -/
def blob_name {α : Type} (net : Net α) (idx : Nat) : String :=
  (net.blobs.getD idx {}).name

/-- The first loop of `NetOptimize::save`: it skips the fused layers, counts the others in
`layer_count_fused` and inserts the names of their bottoms and tops into the set
`blob_names` (a list without repetition). -/
def save_count {α : Type} (net : Net α) : Nat × List String :=
  net.layers.foldl (fun (st : Nat × List String) layer =>
    if layer.type = "ncnnfused" then st
    else
      let blob_names := layer.bottoms.foldl (fun (names : List String) bottom_blob_index =>
        names.insert (blob_name net bottom_blob_index)) st.2
      let blob_names := layer.tops.foldl (fun (names : List String) top_blob_index =>
        names.insert (blob_name net top_blob_index)) blob_names
      (st.1 + 1, blob_names)) (0, [])

/-- The head of a layer line of the param file, as printed by
`"%-24s %-24s %d %d"` and the `" %s"` of each bottom and each top; the parameters that follow
on the line depend on the layer class. -/
structure LayerLine where
  type : String
  name : String
  bottom_count : Nat
  top_count : Nat
  bottom_names : List String
  top_names : List String
deriving DecidableEq, Repr

/-- The head of the line that `save` prints for a layer. -/
def layer_line {α : Type} (net : Net α) (layer : Layer α) : LayerLine :=
  { type := layer.type, name := layer.name,
    bottom_count := layer.bottoms.length, top_count := layer.tops.length,
    bottom_names := layer.bottoms.map (blob_name net),
    top_names := layer.tops.map (blob_name net) }

/-- The second loop of `NetOptimize::save`: one line per layer that is not fused. -/
def save_lines {α : Type} (net : Net α) : List LayerLine :=
  net.layers.foldl (fun (lines : List LayerLine) layer =>
    if layer.type = "ncnnfused" then lines else lines ++ [layer_line net layer]) []

/-- The param file written by `NetOptimize::save`, up to the class-specific parameters of
the layer lines: the magic number of line 1, the two counts of line 2, and the layer lines. -/
structure ParamFile where
  magic : String
  layer_count : Nat
  blob_count : Nat
  lines : List LayerLine
deriving DecidableEq, Repr

/-- The param file of `NetOptimize::save`. -/
def save {α : Type} (net : Net α) : ParamFile :=
  { magic := "7767517",
    layer_count := (save_count net).1,
    blob_count := (save_count net).2.length,
    lines := save_lines net }

/-- The blob names of the claim: the names of the bottoms and of the tops of the layers that
are not fused, with repetitions. -/
def referenced_names {α : Type} (net : Net α) : List String :=
  (net.layers.filter (fun L => decide (L.type ≠ "ncnnfused"))).flatMap
    (fun L => (L.bottoms ++ L.tops).map (blob_name net))

/-! ## Saving: the records of the weight file -/

/-- The function `alignSize(sz, n)`, `(sz + n-1) & -n`, computed in `size_t`, taken to be 64
bits wide: `n`, `1` and `-n` are converted to `size_t` and the sum wraps modulo `2^64`. -/
def alignSize (sz : Nat) (n : Int) : Nat :=
  ((sz + (n % 2 ^ 64).toNat + (2 ^ 64 - 1)) % 2 ^ 64) &&& ((-n) % 2 ^ 64).toNat

/-- Modelled from the spec: `ncnn::cast_float32_to_float16` is not among the sources.  The
specification stores an fp16 payload with two bytes per element; the cast keeps the shape (the
rounding of the values is left out). -/
def cast_float32_to_float16 {α : Type} (m : Mat α) : Mat α :=
  { m with elemsize := 2 }

/-- What one call of `fwrite_weight_tag_data` or `fwrite_weight_data` appends to the weight
file: the tag written by `fwrite(&tag, sizeof(int), 1, bp)` if there is one, a payload of
`count` elements of `elemsize` bytes each, and the padding bytes. -/
structure WeightRecord where
  tag : Option Int
  elemsize : Nat
  count : Nat
  padding : List Nat
deriving DecidableEq, Repr

/-- The value of `nwrite`: the bytes of the tag (`sizeof(int)` is 4) and of the payload. -/
def WeightRecord.nwrite (r : WeightRecord) : Nat :=
  (match r.tag with | some _ => 4 | none => 0) + r.elemsize * r.count

/-- The number of bytes of a record: tag, payload and padding. -/
def WeightRecord.nbytes (r : WeightRecord) : Nat :=
  r.nwrite + r.padding.length

/-- The block `// padding to 32bit align`: `nalign = alignSize(nwrite, 4)` and the first
`nalign - nwrite` bytes of `padding[4] = {0, 0, 0, 0}`.  The `int` variables `nwrite` and
`nalign` are taken exact. -/
def padding_bytes (nwrite : Nat) : List Nat :=
  let nalign : Int := alignSize nwrite 4
  ([0, 0, 0, 0] : List Nat).take (nalign - nwrite).toNat

/-- The function `NetOptimize::fwrite_weight_tag_data`; `storage_type` is the member of
`NetOptimize` that `main` sets. -/
def fwrite_weight_tag_data {α : Type} (storage_type : Int) (tag : Int) (data : Mat α) :
    WeightRecord :=
  let data_flattened : Mat α :=
    { w := data.w * data.h * data.c, h := 1, c := 1, data := data.data,
      elemsize := data.elemsize }
  if storage_type = 1 ∧ tag = 0 then
    let tag : Int := 0x01306B47
    let data_flattened_fp16 := cast_float32_to_float16 data_flattened
    let nwrite := 4 + data_flattened_fp16.elemsize * data_flattened_fp16.w
    { tag := some tag, elemsize := data_flattened_fp16.elemsize,
      count := data_flattened_fp16.w, padding := padding_bytes nwrite }
  else
    let nwrite := 4 + data_flattened.elemsize * data_flattened.w
    { tag := some tag, elemsize := data_flattened.elemsize, count := data_flattened.w,
      padding := padding_bytes nwrite }

/-- The function `NetOptimize::fwrite_weight_data`. -/
def fwrite_weight_data {α : Type} (data : Mat α) : WeightRecord :=
  let data_flattened : Mat α :=
    { w := data.w * data.h * data.c, h := 1, c := 1, data := data.data,
      elemsize := data.elemsize }
  let nwrite := data_flattened.elemsize * data_flattened.w
  { tag := none, elemsize := data_flattened.elemsize, count := data_flattened.w,
    padding := padding_bytes nwrite }

/-! ## Saving: the parameters of a layer line -/

/-- One parameter printed on a layer line: a scalar printed by `" K=%d"`, or an array printed
by `fprintf_param_float_array`. -/
inductive Param (α : Type)
  | int (key : Int) (value : Int)
  | float_array (id : Int) (values : List α)
deriving DecidableEq, Repr

/-- The key as it appears in the file: `K` for a scalar; for an array
`fprintf_param_float_array` prints `" -%d=%d"` with `23300 + id` and the count. -/
def Param.key {α : Type} : Param α → Int
  | .int key _ => key
  | .float_array id _ => -(23300 + id)

/-- The macro `fprintf_param_value(" K=%d", phase)`:
`if (op->phase != op_default->phase) fprintf(pp, format, op->phase)`. -/
def fprintf_param_value {α : Type} (key : Int) (phase phase_default : Int) :
    List (Param α) :=
  if phase ≠ phase_default then [.int key phase] else []

/-- The lines `{ if (op->X_h != op->X_w) fprintf(pp, " K=%d", op->X_h); }` of `save`. -/
def fprintf_param_secondary {α : Type} (key : Int) (secondary primary : Int) :
    List (Param α) :=
  if secondary ≠ primary then [.int key secondary] else []

/-- The line `{ if (!op->activation_params.empty()) fprintf_param_float_array(10, ...); }`. -/
def fprintf_activation_params {α : Type} (activation_params : List α) : List (Param α) :=
  if activation_params.isEmpty then [] else [.float_array 10 activation_params]

/-- The parameters printed by the block `layer->type == "Convolution"` of `save`;
`op_default` is the object `layer_default` after `load_param` on an empty `ParamDict`. -/
def save_Convolution {α : Type} (op op_default : Layer α) : List (Param α) :=
  fprintf_param_value 0 op.num_output op_default.num_output ++
  fprintf_param_value 1 op.kernel_w op_default.kernel_w ++
  fprintf_param_secondary 11 op.kernel_h op.kernel_w ++
  fprintf_param_value 2 op.dilation_w op_default.dilation_w ++
  fprintf_param_secondary 12 op.dilation_h op.dilation_w ++
  fprintf_param_value 3 op.stride_w op_default.stride_w ++
  fprintf_param_secondary 13 op.stride_h op.stride_w ++
  fprintf_param_value 4 op.pad_w op_default.pad_w ++
  fprintf_param_secondary 14 op.pad_h op.pad_w ++
  fprintf_param_value 5 op.bias_term op_default.bias_term ++
  fprintf_param_value 6 op.weight_data_size op_default.weight_data_size ++
  fprintf_param_value 8 op.int8_scale_term op_default.int8_scale_term ++
  fprintf_param_value 9 op.activation_type op_default.activation_type ++
  fprintf_activation_params op.activation_params ++
  fprintf_param_value 15 op.impl_type op_default.impl_type

/-- The parameters printed by the block `layer->type == "ConvolutionDepthWise"` of `save`. -/
def save_ConvolutionDepthWise {α : Type} (op op_default : Layer α) : List (Param α) :=
  fprintf_param_value 0 op.num_output op_default.num_output ++
  fprintf_param_value 1 op.kernel_w op_default.kernel_w ++
  fprintf_param_secondary 11 op.kernel_h op.kernel_w ++
  fprintf_param_value 2 op.dilation_w op_default.dilation_w ++
  fprintf_param_secondary 12 op.dilation_h op.dilation_w ++
  fprintf_param_value 3 op.stride_w op_default.stride_w ++
  fprintf_param_secondary 13 op.stride_h op.stride_w ++
  fprintf_param_value 4 op.pad_w op_default.pad_w ++
  fprintf_param_secondary 14 op.pad_h op.pad_w ++
  fprintf_param_value 5 op.bias_term op_default.bias_term ++
  fprintf_param_value 6 op.weight_data_size op_default.weight_data_size ++
  fprintf_param_value 7 op.group op_default.group ++
  fprintf_param_value 8 op.int8_scale_term op_default.int8_scale_term ++
  fprintf_param_value 9 op.activation_type op_default.activation_type ++
  fprintf_activation_params op.activation_params

/-- The parameters printed by the block `layer->type == "Deconvolution"` of `save`. -/
def save_Deconvolution {α : Type} (op op_default : Layer α) : List (Param α) :=
  fprintf_param_value 0 op.num_output op_default.num_output ++
  fprintf_param_value 1 op.kernel_w op_default.kernel_w ++
  fprintf_param_secondary 11 op.kernel_h op.kernel_w ++
  fprintf_param_value 2 op.dilation_w op_default.dilation_w ++
  fprintf_param_secondary 12 op.dilation_h op.dilation_w ++
  fprintf_param_value 3 op.stride_w op_default.stride_w ++
  fprintf_param_secondary 13 op.stride_h op.stride_w ++
  fprintf_param_value 4 op.pad_w op_default.pad_w ++
  fprintf_param_secondary 14 op.pad_h op.pad_w ++
  fprintf_param_value 5 op.bias_term op_default.bias_term ++
  fprintf_param_value 6 op.weight_data_size op_default.weight_data_size ++
  fprintf_param_value 8 op.output_pad_w op_default.output_pad_w ++
  fprintf_param_secondary 18 op.output_pad_h op.output_pad_w ++
  fprintf_param_value 9 op.activation_type op_default.activation_type ++
  fprintf_activation_params op.activation_params

/-- The parameters printed by the block `layer->type == "DeconvolutionDepthWise"` of `save`
(it prints no output padding). -/
def save_DeconvolutionDepthWise {α : Type} (op op_default : Layer α) : List (Param α) :=
  fprintf_param_value 0 op.num_output op_default.num_output ++
  fprintf_param_value 1 op.kernel_w op_default.kernel_w ++
  fprintf_param_secondary 11 op.kernel_h op.kernel_w ++
  fprintf_param_value 2 op.dilation_w op_default.dilation_w ++
  fprintf_param_secondary 12 op.dilation_h op.dilation_w ++
  fprintf_param_value 3 op.stride_w op_default.stride_w ++
  fprintf_param_secondary 13 op.stride_h op.stride_w ++
  fprintf_param_value 4 op.pad_w op_default.pad_w ++
  fprintf_param_secondary 14 op.pad_h op.pad_w ++
  fprintf_param_value 5 op.bias_term op_default.bias_term ++
  fprintf_param_value 6 op.weight_data_size op_default.weight_data_size ++
  fprintf_param_value 7 op.group op_default.group ++
  fprintf_param_value 9 op.activation_type op_default.activation_type ++
  fprintf_activation_params op.activation_params

/-- The parameters printed by the block `layer->type == "Pooling"` of `save`. -/
def save_Pooling {α : Type} (op op_default : Layer α) : List (Param α) :=
  fprintf_param_value 0 op.pooling_type op_default.pooling_type ++
  fprintf_param_value 1 op.kernel_w op_default.kernel_w ++
  fprintf_param_secondary 11 op.kernel_h op.kernel_w ++
  fprintf_param_value 2 op.stride_w op_default.stride_w ++
  fprintf_param_secondary 12 op.stride_h op.stride_w ++
  fprintf_param_value 3 op.pad_left op_default.pad_left ++
  fprintf_param_secondary 13 op.pad_top op.pad_left ++
  fprintf_param_secondary 14 op.pad_right op.pad_left ++
  fprintf_param_secondary 15 op.pad_bottom op.pad_top ++
  fprintf_param_value 4 op.global_pooling op_default.global_pooling ++
  fprintf_param_value 5 op.pad_mode op_default.pad_mode

/-- The parameters that `save` prints for a layer of one of the five kinds with paired
parameters; `none` for every other kind. -/
def save_paired {α : Type} (op op_default : Layer α) : Option (List (Param α)) :=
  if op.type = "Convolution" then some (save_Convolution op op_default)
  else if op.type = "ConvolutionDepthWise" then some (save_ConvolutionDepthWise op op_default)
  else if op.type = "Deconvolution" then some (save_Deconvolution op op_default)
  else if op.type = "DeconvolutionDepthWise" then
    some (save_DeconvolutionDepthWise op op_default)
  else if op.type = "Pooling" then some (save_Pooling op op_default)
  else none

/-! ## Loading a Deconvolution -/

/-- Modelled from the spec: `ParamDict` (paramdict.h) is not among the sources.  It holds the
`key=value` items of a layer line, and `get(id, def)` is the dict's value for the key `id`, or
`def` when the key is absent. -/
structure ParamDict (α : Type) where
  items : List (Param α)

/-- The dictionary without any item (`ParamDict pd;`). -/
def ParamDict.empty {α : Type} : ParamDict α := { items := [] }

/-- The call `pd.get(id, def)` for a scalar. -/
def ParamDict.get {α : Type} (pd : ParamDict α) (id : Int) (dflt : Int) : Int :=
  (pd.items.findSome? fun
    | .int key value => if key = id then some value else none
    | .float_array _ _ => none).getD dflt

/-- The call `pd.get(id, def)` for an array. -/
def ParamDict.get_array {α : Type} (pd : ParamDict α) (id : Int) (dflt : List α) : List α :=
  (pd.items.findSome? fun
    | .int _ _ => none
    | .float_array key values => if key = id then some values else none).getD dflt

/-- The function `Deconvolution::load_param`. -/
def Deconvolution.load_param {α : Type} (pd : ParamDict α) (L : Layer α) : Layer α :=
  let num_output := pd.get 0 0
  let kernel_w := pd.get 1 0
  let kernel_h := pd.get 11 kernel_w
  let dilation_w := pd.get 2 1
  let dilation_h := pd.get 12 dilation_w
  let stride_w := pd.get 3 1
  let stride_h := pd.get 13 stride_w
  let pad_w := pd.get 4 0
  let pad_h := pd.get 14 pad_w
  let bias_term := pd.get 5 0
  let weight_data_size := pd.get 6 0
  let output_pad_w := pd.get 8 0
  let output_pad_h := pd.get 18 output_pad_w
  let activation_type := pd.get 9 0
  let activation_params := pd.get_array 10 []
  { L with
    num_output := num_output, kernel_w := kernel_w, kernel_h := kernel_h,
    dilation_w := dilation_w, dilation_h := dilation_h, stride_w := stride_w,
    stride_h := stride_h, pad_w := pad_w, pad_h := pad_h, bias_term := bias_term,
    weight_data_size := weight_data_size, output_pad_w := output_pad_w,
    output_pad_h := output_pad_h, activation_type := activation_type,
    activation_params := activation_params }

/-- The function `Deconvolution::load_model`.  The reader `mb` (`ModelBin`, whose source is not
among the sources) is a state `mb` with the parameter `load`: `load mb w type` is the `Mat`
that `mb.load(w, type)` returns and the state of the reader after the call.  The result is the
value returned, the layer, the reader, and the requests `(w, type)` made, in order. -/
def Deconvolution.load_model {α σ : Type} (load : σ → Int → Int → Mat α × σ) (mb : σ)
    (L : Layer α) : Int × Layer α × σ × List (Int × Int) :=
  let weight_data := load mb L.weight_data_size 0
  let L1 := { L with weight_data := weight_data.1.data }
  if weight_data.1.empty then (-100, L1, weight_data.2, [(L.weight_data_size, 0)])
  else if L.bias_term ≠ 0 then
    let bias_data := load weight_data.2 L.num_output 1
    let L2 := { L1 with bias_data := bias_data.1.data }
    if bias_data.1.empty then
      (-100, L2, bias_data.2, [(L.weight_data_size, 0), (L.num_output, 1)])
    else (0, L2, bias_data.2, [(L.weight_data_size, 0), (L.num_output, 1)])
  else (0, L1, weight_data.2, [(L.weight_data_size, 0)])

/-! ## Calls that do not return -/

/-- What stops a call before its `return` statement: an `int` division that the processor
refuses (a division by zero, or of `INT_MIN` by `-1`), the exception `std::length_error` of a
`std::vector` constructed with a negative size, or an element access outside a vector or a
buffer, after which C++ defines no behaviour. -/
inductive Fault
  | division
  | length_error
  | out_of_bounds
deriving DecidableEq, Repr

/-- The first fault that the block of a forward pass runs into when it folds `layers[j]` (the
second layer) into `layers[i]` (the first), in the order of the statements of the block;
`none` when the block runs to its end.

* `fuse_batchnorm_scale` reads and writes `slope[q]`, `bias[q]` and reads `scale_data[q]`
  (and `bias_data[q]` of the Scale when `bias_term`) for `q < channels`.
* `fuse_<L>_batchnorm` constructs `std::vector<float> a(channels)`, reads the four arrays of
  the BatchNorm for `i < channels`, divides `weight_data_size / channels`, and then reads and
  writes `weight[weight_per_outch * i + j]` and `bias[i]` for `i < channels`,
  `j < weight_per_outch` (the bias has `channels` entries when the block creates it).
* `fuse_innerproduct_dropout` does nothing when `scale == 1.f`; otherwise it divides
  `weight_data_size / num_output` and then reads and writes
  `weight[weight_per_outch * i + j]` and, when `bias_term`, `bias[i]` for `i < num_output`,
  `j < weight_per_outch`.
* The activation and the Flatten blocks access no array. -/
def ForwardPass.fault {α : Type} [LinearOrderedField α] :
    ForwardPass → Layer α → Layer α → Option Fault
  | .batchnorm_scale, bn, scale =>
    let channels := bn.channels
    if bn.slope_data.length < channels.toNat ∨
        bn.bias_data.length < channels.toNat ∨
        scale.scale_data.length < channels.toNat ∨
        (scale.bias_term ≠ 0 ∧ scale.bias_data.length < channels.toNat) then
      some .out_of_bounds
    else none
  | .batchnorm _, convolution, bn =>
    let channels := bn.channels
    if channels < 0 then some .length_error
    else if bn.var_data.length < channels.toNat ∨
        bn.bias_data.length < channels.toNat ∨
        bn.slope_data.length < channels.toNat ∨
        bn.mean_data.length < channels.toNat then
      some .out_of_bounds
    else if channels = 0 then some .division
    else
      let weight_per_outch := Int.tdiv convolution.weight_data_size channels
      if (convolution.weight_data.length : Int) < weight_per_outch * channels ∨
          (convolution.bias_term ≠ 0 ∧ convolution.bias_data.length < channels.toNat) then
        some .out_of_bounds
      else none
  | .innerproduct_dropout, innerproduct, dropout =>
    if dropout.scale ≠ 1 then
      let num_output := innerproduct.num_output
      if num_output = 0 ∨ (innerproduct.weight_data_size = -2147483648 ∧ num_output = -1) then
        some .division
      else
        let weight_per_outch := Int.tdiv innerproduct.weight_data_size num_output
        if (0 < num_output ∧
              (innerproduct.weight_data.length : Int) < weight_per_outch * num_output) ∨
            (innerproduct.bias_term ≠ 0 ∧
              innerproduct.bias_data.length < num_output.toNat) then
          some .out_of_bounds
        else none
    else none
  | .activation _, _, _ => none
  | .flatten_after_global_pooling, _, _ => none
  | .flatten_after_innerproduct, _, _ => none

/-- The first fault of the iteration for `i` of a forward pass on the graph `net`:
`layers[i]->tops[0]` is read once `layers[i]` has passed its tests, then the inner loop runs
(it reads `bottoms[0]` only after testing `bottoms.size()`), then the block, then
`layers[j]->tops[0]` is read and `blobs[top_blob_index_final]` is written. -/
def chain_fault {α : Type} (R : ChainRule α) (block : Layer α → Layer α → Option Fault)
    (net : Net α) (i : Nat) : Option Fault :=
  match net.layers[i]? with
  | none => none
  | some A =>
    if R.guardA A = false then none
    else if A.tops.length = 0 then some .out_of_bounds
    else
      match chain_partner R net i with
      | none => none
      | some j =>
        match net.layers[j]? with
        | none => none
        | some B =>
          match block A B with
          | some f => some f
          | none =>
            if B.tops.length = 0 ∨ net.blobs.length ≤ B.tops.getD 0 0 then some .out_of_bounds
            else none

/-- The first fault of the iteration for `i` of `eliminate_dropout`: `layers[i]->bottoms[0]`
is read once the Dropout has passed its tests, then the inner loop runs (it reads `tops[0]`
only after testing `tops.size()`), then `dropout->tops[0]` is read and
`blobs[top_blob_index_final]` is written. -/
def eliminate_dropout_fault {α : Type} [LinearOrderedField α] (net : Net α) (i : Nat) :
    Option Fault :=
  match net.layers[i]? with
  | none => none
  | some dropout =>
    if dropout.type ≠ "Dropout" then none
    else if dropout.scale ≠ 1 then none
    else if dropout.bottoms.length = 0 then some .out_of_bounds
    else
      match dropout_partner net i with
      | none => none
      | some _ =>
        if dropout.tops.length = 0 ∨ net.blobs.length ≤ dropout.tops.getD 0 0 then
          some .out_of_bounds
        else none

/-- The first fault of the iteration for `i` of a replace pass: `layers[i]->tops[0]` is read
once `layers[i]` has passed its tests; the statements that build the InnerProduct copy whole
vectors and index none. -/
def replace_fault {α : Type} (R : ChainRule α) (net : Net α) (i : Nat) : Option Fault :=
  match net.layers[i]? with
  | none => none
  | some A =>
    if R.guardA A = false then none
    else if A.tops.length = 0 then some .out_of_bounds
    else none

/-- A loop `for (int i=0; i<n; i++)` whose iteration for `i`, in the state `s`, either runs
into `fault s i` or leaves the state `step s i`: the state after the loop, or the first
fault. -/
def checked_loop {σ : Type} (fault : σ → Nat → Option Fault) (step : σ → Nat → σ) (n : Nat)
    (s : σ) : Except Fault σ :=
  (List.range n).foldl (fun (r : Except Fault σ) (i : Nat) =>
    match r with
    | .error f => .error f
    | .ok s =>
      match fault s i with
      | some f => .error f
      | none => .ok (step s i)) (.ok s)

/-- One sweep of `replace_convolution_with_innerproduct_after_innerproduct` with the faults
of its iterations: the graph after the sweep and the flag `replaced`, or the first fault. -/
def replace_sweep_checked {α : Type} (fresh : Layer α) (net : Net α) :
    Except Fault (Net α × Bool) :=
  checked_loop (fun (st : Net α × Bool) i => replace_fault innerproduct_convolution st.1 i)
    (fun (st : Net α × Bool) i =>
      match chain_partner innerproduct_convolution st.1 i with
      | none => st
      | some _ => (replace_step fresh innerproduct_convolution st.1 i, true))
    net.layers.length (net, false)

/-- The loop `for (;;)` of `replace_convolution_with_innerproduct_after_innerproduct` with
the faults of its sweeps, run for at most `fuel` sweeps (`none` when they are used up). -/
def replace_loop_checked {α : Type} (fresh : Layer α) :
    Nat → Net α → Except Fault (Option (Net α))
  | 0, _ => .ok none
  | fuel + 1, net =>
    match replace_sweep_checked fresh net with
    | .error f => .error f
    | .ok st => if st.2 = true then replace_loop_checked fresh fuel st.1 else .ok (some st.1)

/-- A call of a rewrite pass: the value returned and the graph afterwards, or the fault that
stops the call.  Each of the seventeen functions has one `return` statement, the `return 0;`
at its end, which is reached when no iteration of its loop runs into a fault. -/
def RewritePass.call {α : Type} [LinearOrderedField α] (sqrt : α → α) (fresh : Layer α) :
    RewritePass → Net α → Except Fault (Int × Net α)
  | .forward p, net =>
    (checked_loop (chain_fault (p.rule sqrt) p.fault) (chain_step (p.rule sqrt))
      net.layers.length net).map fun net1 => (0, net1)
  | .dropout, net =>
    (checked_loop eliminate_dropout_fault eliminate_dropout_step net.layers.length net).map
      fun net1 => (0, net1)
  | .replace_after_global_pooling, net =>
    (checked_loop (replace_fault pooling_convolution) (replace_step fresh pooling_convolution)
      net.layers.length net).map fun net1 => (0, net1)
  | .replace_after_innerproduct, net =>
    (replace_loop_checked fresh (count_convolution net + 1) net).map
      fun r => (0, r.getD net)

/-- Conditions on a graph under which a call of a rewrite pass runs into no fault.  For a
forward pass: every layer that passes the tests on `layers[i]` has a top, and for every pair
of layers that matches the pattern the block has no fault and the top of the second layer is
a blob of the graph.  For `eliminate_dropout`: every Dropout with `scale == 1` has a bottom
and a top that is a blob of the graph.  For the replace passes: every layer that passes the
tests on `layers[i]` has a top; the sweeps of
`replace_convolution_with_innerproduct_after_innerproduct` also test the InnerProduct layers
they have made of Convolution layers. -/
def RewritePass.defined {α : Type} [LinearOrderedField α] (sqrt : α → α) :
    RewritePass → Net α → Prop
  | .forward p, net =>
    (∀ A ∈ net.layers, (p.rule sqrt).guardA A = true → A.tops.length ≠ 0) ∧
    ∀ (i j : Nat) (A B : Layer α), i < j → net.layers[i]? = some A →
      net.layers[j]? = some B → (p.rule sqrt).guardA A = true →
      (p.rule sqrt).isB B.type = true → B.bottoms.length = 1 →
      B.bottoms.getD 0 0 = A.tops.getD 0 0 →
      p.fault A B = none ∧ B.tops.length ≠ 0 ∧ B.tops.getD 0 0 < net.blobs.length
  | .dropout, net =>
    ∀ D ∈ net.layers, D.type = "Dropout" → D.scale = 1 →
      D.bottoms.length ≠ 0 ∧ D.tops.length ≠ 0 ∧ D.tops.getD 0 0 < net.blobs.length
  | .replace_after_global_pooling, net =>
    ∀ A ∈ net.layers, (pooling_convolution : ChainRule α).guardA A = true → A.tops.length ≠ 0
  | .replace_after_innerproduct, net =>
    ∀ A ∈ net.layers, A.type = "InnerProduct" ∨ A.type = "Convolution" → A.tops.length ≠ 0

/-! ## The driver -/

/-- What `load_param` and `load_model` of `ncnn::Net` (not among the sources) hand to `main`:
the two values they return, and the graph they leave in the optimizer. -/
structure Loaded (α : Type) where
  param_status : Int
  model_status : Int
  net : Net α

/-- The course of a run of `main`: the value returned (or the fault of the rewrite pass that
stops the run, after which `main` does not return), whether `load_param` and `load_model`
were called, the value given to `storage_type`, the rewrite passes called, in order, and the
graph on which `save` was called (`none` when it was not). -/
structure Run (α : Type) where
  status : Except Fault Int
  loads : Bool
  storage_type : Option Int
  passes : List RewritePass
  saved : Option (Net α)

/-- The calls of the rewrite passes in `main`, which are statements: the value a pass
returns is not looked at.  The result is the list of the passes called, in order, and the
graph after the last of them, or the fault of the pass that does not return. -/
def call_passes {α : Type} [LinearOrderedField α] (sqrt : α → α) (fresh : Layer α) :
    List RewritePass → Net α → List RewritePass × Except Fault (Net α)
  | [], net => ([], .ok net)
  | pass :: rest, net =>
    match pass.call sqrt fresh net with
    | .error f => ([pass], .error f)
    | .ok r =>
      let t := call_passes sqrt fresh rest r.2
      (pass :: t.1, t.2)

/-- The function `main` in its short form (without the hardware-gated arguments): `argc` is
the argument count, `flag` the value of `atoi(argv[5])`.  The values returned by
`optimizer.load_param(inparam)` and `optimizer.load_model(inbin)` are not looked at.  The
statement `return 0;` follows the call of `save`, whose file operations are outside this
model: `save` is taken to return. -/
def main {α : Type} [LinearOrderedField α] (sqrt : α → α) (fresh : Layer α) (argc : Int)
    (flag : Int) (loaded : Loaded α) : Run α :=
  if argc ≠ 6 then
    { status := .ok (-1), loads := false, storage_type := none, passes := [], saved := none }
  else
    let storage_type : Int := if flag = 65536 then 1 else 0
    let run := call_passes sqrt fresh driver_order loaded.net
    { status := run.2.map fun _ => 0, loads := true, storage_type := some storage_type,
      passes := run.1, saved := run.2.toOption }

/-- The weight vector of a layer as the `ncnn::Mat` handed to the writers: `w` floats of four
bytes. -/
def Mat.of_weights {α : Type} (weights : List α) : Mat α :=
  { w := weights.length, h := 1, c := 1, data := weights, elemsize := 4 }

/-- The records that the Convolution, ConvolutionDepthWise, Deconvolution and
DeconvolutionDepthWise blocks of `save` append to the weight file:
`fwrite_weight_tag_data(0, op->weight_data, bp); fwrite_weight_data(op->bias_data, bp);`. -/
def save_weights {α : Type} (storage_type : Int) (op : Layer α) : List WeightRecord :=
  [fwrite_weight_tag_data storage_type 0 (Mat.of_weights op.weight_data),
   fwrite_weight_data (Mat.of_weights op.bias_data)]

/-! ## The patterns of the passes -/

/-- The pattern of a forward pass or of a replace pass, as the claim words it: a layer `A`
that passes the tests on `layers[i]`, and a later layer `B` of the kind of `layers[j]` with
exactly one bottom, which is `A.tops[0]`. -/
def pattern_match {α : Type} (R : ChainRule α) (net : Net α) : Prop :=
  ∃ (i j : Nat) (A B : Layer α), i < j ∧ net.layers[i]? = some A ∧ net.layers[j]? = some B ∧
    R.guardA A = true ∧ R.isB B.type = true ∧ B.bottoms.length = 1 ∧
    B.bottoms.getD 0 0 = A.tops.getD 0 0

/-- The pattern of `eliminate_dropout`, as the claim words it: a Dropout with `scale == 1` and
an earlier layer that is not fused, has exactly one top, and that top is the Dropout's
`bottoms[0]`. -/
def dropout_match {α : Type} [LinearOrderedField α] (net : Net α) : Prop :=
  ∃ (i j : Nat) (D L : Layer α), j < i ∧ net.layers[i]? = some D ∧ net.layers[j]? = some L ∧
    D.type = "Dropout" ∧ D.scale = 1 ∧ L.type ≠ "ncnnfused" ∧ L.tops.length = 1 ∧
    L.tops.getD 0 0 = D.bottoms.getD 0 0

/-- The pattern of each rewrite pass. -/
def RewritePass.has_match {α : Type} [LinearOrderedField α] (sqrt : α → α) :
    RewritePass → Net α → Prop
  | .forward p => pattern_match (p.rule sqrt)
  | .dropout => dropout_match
  | .replace_after_global_pooling => pattern_match pooling_convolution
  | .replace_after_innerproduct => pattern_match innerproduct_convolution

/-- A graph `Input -> Convolution -> BatchNorm` in which the top of the Convolution is also
read by a Softmax. -/
def conv_bn_branch : Net ℚ :=
  { layers :=
      [ { Layer.blank with type := "Input", name := "data", tops := [0] },
        { Layer.blank with
            type := "Convolution", name := "conv", bottoms := [0], tops := [1],
            num_output := 1, kernel_w := 1, kernel_h := 1, weight_data_size := 1,
            weight_data := [1] },
        { Layer.blank with
            type := "BatchNorm", name := "bn", bottoms := [1], tops := [2],
            channels := 1, slope_data := [1], mean_data := [0], var_data := [1],
            bias_data := [0] },
        { Layer.blank with type := "Softmax", name := "prob", bottoms := [1], tops := [3] } ],
    blobs :=
      [ { name := "data", producer := 0 }, { name := "conv", producer := 1 },
        { name := "bn", producer := 2 }, { name := "prob", producer := 3 } ] }

/-- A Pooling with `pad_right = 1` and `global_pooling = 1`, every other parameter as in
`Layer.blank` (in particular `pad_left = 0`). -/
def pooling_pad_right : Layer ℚ :=
  { Layer.blank with type := "Pooling", name := "pool", pad_right := 1, global_pooling := 1 }

/-- A pair of parameters that `save` encodes together: the key and the field of the primary
member, and the key and the field of the secondary member, which `save` compares with the
primary member before printing it. -/
structure ParamPair (α : Type) where
  primary_key : Int
  primary : Layer α → Int
  secondary_key : Int
  secondary : Layer α → Int

/-- The pairs of each kind, read off the lines
`{ if (op->S != op->P) fprintf(pp, " K=%d", op->S); }` of its block in `save`. -/
def paired_parameters {α : Type} (kind : String) : List (ParamPair α) :=
  if kind = "Convolution" ∨ kind = "ConvolutionDepthWise" ∨ kind = "DeconvolutionDepthWise"
  then
    [ ⟨1, fun op => op.kernel_w, 11, fun op => op.kernel_h⟩,
      ⟨2, fun op => op.dilation_w, 12, fun op => op.dilation_h⟩,
      ⟨3, fun op => op.stride_w, 13, fun op => op.stride_h⟩,
      ⟨4, fun op => op.pad_w, 14, fun op => op.pad_h⟩ ]
  else if kind = "Deconvolution" then
    [ ⟨1, fun op => op.kernel_w, 11, fun op => op.kernel_h⟩,
      ⟨2, fun op => op.dilation_w, 12, fun op => op.dilation_h⟩,
      ⟨3, fun op => op.stride_w, 13, fun op => op.stride_h⟩,
      ⟨4, fun op => op.pad_w, 14, fun op => op.pad_h⟩,
      ⟨8, fun op => op.output_pad_w, 18, fun op => op.output_pad_h⟩ ]
  else if kind = "Pooling" then
    [ ⟨1, fun op => op.kernel_w, 11, fun op => op.kernel_h⟩,
      ⟨2, fun op => op.stride_w, 12, fun op => op.stride_h⟩,
      ⟨3, fun op => op.pad_left, 13, fun op => op.pad_top⟩,
      ⟨3, fun op => op.pad_left, 14, fun op => op.pad_right⟩,
      ⟨13, fun op => op.pad_top, 15, fun op => op.pad_bottom⟩ ]
  else []

/-! ## Saving: the Softmax block -/

/-- The parameters printed by the block `layer->type == "Softmax"` of `save`:
`fprintf_param_value(" 0=%d", axis)`, then, under the comment `// HACK`, the item `1=1`
(`fixbug0`) when `op->axis != 0`.  The block writes nothing to the weight file. -/
def save_Softmax {α : Type} (op op_default : Layer α) : List (Param α) :=
  fprintf_param_value 0 op.axis op_default.axis ++
  (if op.axis ≠ 0 then [.int 1 1] else [])

/-! ## The capability query (`support_fp32_conv_type`) -/

/-- The element `a[i]` of a C array for an `int` index `i`: `none` when `i` is outside the
array (the access is undefined). -/
def array_at {β : Type} (a : List β) (i : Int) : Option β :=
  if i < 0 then none else a[i.toNat]?

/-- The table `support_table[7][4]` of `support_fp32_conv_type`: row `kernel - 1`, column
`stride - 1`. -/
def support_table : List (List Int) :=
  [ [1, 1, 0, 0],
    [1, 0, 0, 0],
    [1, 1, 0, 0],
    [0, 0, 0, 1],
    [1, 1, 0, 0],
    [0, 0, 0, 0],
    [1, 1, 0, 0] ]

/-- The pairs `(kernel, stride)` listed in the comment above `support_table`. -/
def direct_conv_pairs : List (Int × Int) :=
  [(1, 1), (1, 2), (2, 1), (3, 1), (3, 2), (4, 4), (5, 1), (5, 2), (7, 1), (7, 2)]

/-- The function `NetOptimize::support_fp32_conv_type`.  The result is `none` when the function
reads `support_table` outside its bounds, `some` of the value returned otherwise. -/
def support_fp32_conv_type {α : Type} (op : Layer α) (bottom : Mat α) (type : Int) :
    Option Int :=
  if op.kernel_w ≠ op.kernel_h ∨ op.stride_w ≠ op.stride_h ∨ op.dilation_w ≠ op.dilation_h ∨
      op.dilation_h ≠ 1 then some (-1)
  else
    let kernel := op.kernel_h
    let stride := op.stride_h
    if type = 1 then
      if kernel ≠ 3 ∨ stride ≠ 1 then some (-1) else some 1
    else if type = 2 then
      if bottom.h ≠ 1 ∨ bottom.w ≠ 1 ∨ stride ≠ 1 then some (-1) else some 1
    else if type = 3 then some 1
    else if type = 4 then
      match (array_at support_table (kernel - 1)).bind fun row => array_at row (stride - 1) with
      | none => none
      | some v => if v = 0 then some (-1) else some 1
    else if type = 5 then
      if kernel ≠ 3 ∨ stride ≠ 2 then some (-1) else some 1
    else some 1

/-! ## The ARM Deconvolution layer (`src/layer/arm/deconvolution_arm.cpp`) -/

/-- The layer `activation` that `Deconvolution_arm::create_pipeline` builds: the kind passed to
`create_layer`, and the calls `pd.set(id, value)` made on the dictionary handed to its
`load_param`, in order. -/
structure ActivationLayer (α : Type) where
  type : String
  pd : List (Int × α)

/-- The function `Deconvolution_arm::create_pipeline`: the value returned and the member
`activation` (`none` is the null pointer the constructor leaves). -/
def Deconvolution_arm.create_pipeline {α : Type} [Zero α] (L : Layer α) :
    Int × Option (ActivationLayer α) :=
  let activation : Option (ActivationLayer α) :=
    if L.activation_type = 1 then some { type := "ReLU", pd := [] }
    else if L.activation_type = 2 then
      some { type := "ReLU", pd := [(0, L.activation_params.getD 0 0)] }
    else if L.activation_type = 3 then
      some { type := "Clip",
             pd := [(0, L.activation_params.getD 0 0), (1, L.activation_params.getD 1 0)] }
    else if L.activation_type = 4 then some { type := "Sigmoid", pd := [] }
    else none
  (0, activation)

/-- The four NEON kernels of `deconvolution_3x3.h` and `deconvolution_4x4.h` (not among the
sources), each a function of the input blob, the output blob as created, the weights and the
bias that gives the output blob as the kernel leaves it. -/
structure NeonKernels (α : Type) where
  deconv3x3s1_neon : Mat α → Mat α → List α → List α → Mat α
  deconv3x3s2_neon : Mat α → Mat α → List α → List α → Mat α
  deconv4x4s1_neon : Mat α → Mat α → List α → List α → Mat α
  deconv4x4s2_neon : Mat α → Mat α → List α → List α → Mat α

/-- The table `deconv_func_table[2][2]` of `Deconvolution_arm::forward`: row
`kernel_size - 3`, column `stride - 1`. -/
def deconv_func_table {α : Type} (K : NeonKernels α) :
    List (List (Mat α → Mat α → List α → List α → Mat α)) :=
  [ [K.deconv3x3s1_neon, K.deconv3x3s2_neon],
    [K.deconv4x4s1_neon, K.deconv4x4s2_neon] ]

/-- The first test of `Deconvolution_arm::forward`:
`kernel_w != kernel_h || stride_w != stride_h`. -/
def Deconvolution_arm.guard1 {α : Type} (L : Layer α) : Prop :=
  L.kernel_w ≠ L.kernel_h ∨ L.stride_w ≠ L.stride_h

instance {α : Type} (L : Layer α) : Decidable (Deconvolution_arm.guard1 L) :=
  inferInstanceAs (Decidable (L.kernel_w ≠ L.kernel_h ∨ L.stride_w ≠ L.stride_h))

/-- The second test of `Deconvolution_arm::forward`, with `kernel_size = kernel_w` and
`stride = stride_w`:
`(kernel_size != 3 && kernel_size != 4) || stride > 2 || dilation_w != 1 || dilation_h != 1`. -/
def Deconvolution_arm.guard2 {α : Type} (L : Layer α) : Prop :=
  (L.kernel_w ≠ 3 ∧ L.kernel_w ≠ 4) ∨ L.stride_w > 2 ∨ L.dilation_w ≠ 1 ∨ L.dilation_h ≠ 1

instance {α : Type} (L : Layer α) : Decidable (Deconvolution_arm.guard2 L) :=
  inferInstanceAs (Decidable
    ((L.kernel_w ≠ 3 ∧ L.kernel_w ≠ 4) ∨ L.stride_w > 2 ∨ L.dilation_w ≠ 1 ∨ L.dilation_h ≠ 1))

/-- Modelled from the spec: `Mat::create(w, h, c, elemsize, allocator)` is declared in `mat.h`,
which is not among the sources.  It is taken to leave the blob of `w` by `h` by `c` elements
of `elemsize` bytes each, which holds no element, and is `empty()`, when one of the three
sizes is not positive.  The elements, which `create` does not set, are 0 here. -/
def Mat.create {α : Type} [Zero α] (w h c : Int) (elemsize : Nat) : Mat α :=
  { w := w.toNat, h := h.toNat, c := c.toNat, elemsize := elemsize,
    data := List.replicate (w.toNat * h.toNat * c.toNat) 0 }

/-- The course of a call of `Deconvolution_arm::forward`: it returned what
`Deconvolution::forward` returns (`generic`), it indexed `deconv_func_table` outside its
bounds (`out_of_table`), or it took the fast path (`neon`): it created the blob
`top_blob_bordered`, given here as `create` left it, and returned `-100` (`none`) or `0` with
the blob `top_blob` (`some`). -/
inductive ArmForward (α : Type)
  | generic (result : Option (Mat α))
  | out_of_table
  | neon (top_blob_bordered : Mat α) (result : Option (Mat α))

/-- The statements of `Deconvolution_arm::forward` that follow the call of the NEON kernel:
the border cut when a padding is positive, then the activation layer, if there is one.
`none` stands for the return value `-100`. -/
def Deconvolution_arm.cut_and_activate {α : Type} (activation : Option (Mat α → Mat α))
    (L : Layer α) (top_blob_bordered : Mat α) : Option (Mat α) :=
  if L.pad_w > 0 ∨ L.pad_h > 0 ∨ L.output_pad_w > 0 ∨ L.output_pad_h > 0 then
    let top_blob := copy_cut_border top_blob_bordered L.pad_h L.pad_h L.pad_w L.pad_w
    if top_blob.empty then none
    else
      some (match activation with
        | some f => f top_blob
        | none => top_blob)
  else
    some (match activation with
      | some f => f top_blob_bordered
      | none => top_blob_bordered)

/-- The function `Deconvolution_arm::forward`.  `activation` is the `forward_inplace` of the
layer built by `create_pipeline`, if there is one.  The test `if (!deconv)` is left out: no
entry of the table is null.  Both branches of the test on the paddings create
`top_blob_bordered` with the same sizes (they differ in the allocator). -/
def Deconvolution_arm.forward {α : Type} [LinearOrderedField α] (exp : α → α)
    (K : NeonKernels α) (activation : Option (Mat α → Mat α)) (L : Layer α)
    (bottom_blob : Mat α) : ArmForward α :=
  if Deconvolution_arm.guard1 L then .generic (Deconvolution.forward exp L bottom_blob)
  else
    let kernel_size := L.kernel_w
    let stride := L.stride_w
    if Deconvolution_arm.guard2 L then .generic (Deconvolution.forward exp L bottom_blob)
    else
      match (array_at (deconv_func_table K) (kernel_size - 3)).bind
          fun row => array_at row (stride - 1) with
      | none => .out_of_table
      | some deconv =>
        let w : Int := bottom_blob.w
        let h : Int := bottom_blob.h
        let elemsize := bottom_blob.elemsize
        let outw := (w - 1) * stride + kernel_size + L.output_pad_w
        let outh := (h - 1) * stride + kernel_size + L.output_pad_h
        let top_blob_bordered : Mat α := Mat.create outw outh L.num_output elemsize
        if top_blob_bordered.empty then .neon top_blob_bordered none
        else
          .neon top_blob_bordered
            (Deconvolution_arm.cut_and_activate activation L
              (deconv bottom_blob top_blob_bordered L.weight_data L.bias_data))

/-- A Softmax with `axis = 1`. -/
def softmax_axis1 : Layer ℚ :=
  { Layer.blank with type := "Softmax", name := "prob", axis := 1 }

/-- A Convolution with an 11x11 kernel and stride 4 (the first layer of AlexNet). -/
def conv11s4 : Layer ℚ :=
  { Layer.blank with
    type := "Convolution", name := "conv1", kernel_w := 11, kernel_h := 11, stride_w := 4,
    stride_h := 4 }

/-- A Deconvolution with a 3x3 kernel and stride 0. -/
def deconv3s0 : Layer ℚ :=
  { Layer.blank with
    type := "Deconvolution", name := "up", kernel_w := 3, kernel_h := 3, stride_w := 0,
    stride_h := 0 }

/-- A Deconvolution with a 4x4 kernel and stride 2. -/
def deconv4s2 : Layer ℚ :=
  { Layer.blank with
    type := "Deconvolution", name := "up", num_output := 1, kernel_w := 4, kernel_h := 4,
    stride_w := 2, stride_h := 2, weight_data_size := 16,
    weight_data := List.replicate 16 1 }

/-- NEON kernels that leave the output blob as created. -/
def idle_kernels : NeonKernels ℚ :=
  { deconv3x3s1_neon := fun _ top _ _ => top,
    deconv3x3s2_neon := fun _ top _ _ => top,
    deconv4x4s1_neon := fun _ top _ _ => top,
    deconv4x4s2_neon := fun _ top _ _ => top }

/-- A blob of one channel of one pixel. -/
def one_pixel : Mat ℚ := { w := 1, h := 1, c := 1, data := [1] }

/-- The five kinds whose block in `save` ends with the unconditional
`fwrite_weight_data(op->bias_data, bp)`. -/
def weighted_kind (t : String) : Prop :=
  t = "Convolution" ∨ t = "ConvolutionDepthWise" ∨ t = "Deconvolution" ∨
    t = "DeconvolutionDepthWise" ∨ t = "InnerProduct"

/-- Bias consistency of a graph: every layer of the five weighted kinds that is not fused has
a non-empty `bias_data` if and only if its `bias_term` is not 0. -/
def bias_consistent {α : Type} (net : Net α) : Prop :=
  ∀ (k : Nat) (L : Layer α), net.layers[k]? = some L → L.type ≠ "ncnnfused" →
    weighted_kind L.type → (L.bias_data ≠ [] ↔ L.bias_term ≠ 0)

/-- Every BatchNorm of the graph has `channels > 0`. -/
def batchnorm_positive {α : Type} (net : Net α) : Prop :=
  ∀ (k : Nat) (B : Layer α), net.layers[k]? = some B → B.type = "BatchNorm" → 0 < B.channels

/-- Every BatchNorm that matches the pattern of the pass in the graph (it has one bottom, the
`tops[0]` of an earlier layer that passes the tests of the pass on `layers[i]`, and the pass
looks for a BatchNorm) has `channels > 0`. -/
def RewritePass.matched_batchnorm_positive {α : Type} [LinearOrderedField α] (sqrt : α → α)
    (pass : RewritePass) (net : Net α) : Prop :=
  match pass with
  | .forward p =>
    ∀ (i j : Nat) (A B : Layer α), i < j → net.layers[i]? = some A →
      net.layers[j]? = some B → (p.rule sqrt).guardA A = true →
      (p.rule sqrt).isB B.type = true → B.bottoms.length = 1 →
      B.bottoms.getD 0 0 = A.tops.getD 0 0 → B.type = "BatchNorm" → 0 < B.channels
  | _ => True

/-! ## Convolution and InnerProduct on the output of a global pooling -/

/-- Modelled from the spec: `Convolution::forward` is not among the sources.  It is taken to be
the convolution of which `Deconvolution::forward` is the transpose, with the same layout of
`weight_data`: the input is padded with `pad_w` columns and `pad_h` rows of zeros on each
side, the output is `(w + 2*pad_w - kernel_extent_w) / stride_w + 1` wide and
`(h + 2*pad_h - kernel_extent_h) / stride_h + 1` high, and the value at `(p, y, x)` is the
bias of `p` plus the sum over the input channels `q` and the kernel positions `(ky, kx)` of
the padded input at `(q, y*stride_h + ky*dilation_h, x*stride_w + kx*dilation_w)` times
`weight_data[((p*channels + q)*kernel_h + ky)*kernel_w + kx]`, followed by the fused
activation. -/
def Convolution.forward {α : Type} [LinearOrderedField α] (exp : α → α) (L : Layer α)
    (bottom_blob : Mat α) : Mat α :=
  let w : Int := (bottom_blob.w : Int) + 2 * L.pad_w
  let h : Int := (bottom_blob.h : Int) + 2 * L.pad_h
  let kernel_extent_w := L.dilation_w * (L.kernel_w - 1) + 1
  let kernel_extent_h := L.dilation_h * (L.kernel_h - 1) + 1
  let outw := Int.tdiv (w - kernel_extent_w) L.stride_w + 1
  let outh := Int.tdiv (h - kernel_extent_h) L.stride_h + 1
  { w := outw.toNat, h := outh.toNat, c := L.num_output.toNat,
    elemsize := bottom_blob.elemsize,
    data := (List.range L.num_output.toNat).flatMap fun (p : Nat) =>
      deconv_activation exp L
        ((List.range outh.toNat).flatMap fun (y : Nat) =>
          (List.range outw.toNat).map fun (x : Nat) =>
            (if L.bias_term ≠ 0 then L.bias_data.getD p 0 else 0) +
            ((List.range bottom_blob.c).map fun (q : Nat) =>
              ((List.range L.kernel_h.toNat).map fun (ky : Nat) =>
                ((List.range L.kernel_w.toNat).map fun (kx : Nat) =>
                  let iy : Int := (y : Int) * L.stride_h + (ky : Int) * L.dilation_h - L.pad_h
                  let ix : Int := (x : Int) * L.stride_w + (kx : Int) * L.dilation_w - L.pad_w
                  if 0 ≤ iy ∧ iy < bottom_blob.h ∧ 0 ≤ ix ∧ ix < bottom_blob.w then
                    bottom_blob.data.getD
                      ((q * bottom_blob.h + iy.toNat) * bottom_blob.w + ix.toNat) 0 *
                    L.weight_data.getD
                      (((p * bottom_blob.c + q) * L.kernel_h.toNat + ky) * L.kernel_w.toNat
                        + kx) 0
                  else 0).sum).sum).sum) }

/-- Modelled from the spec: `InnerProduct::forward` is not among the sources.  It is taken to
be the product of the flattened input, of `size = w*h*channels` elements, with the
`num_output` rows of `weight_data`: the value at `p` is the bias of `p` plus the sum over
`i < size` of `in[i] * weight_data[p*size + i]`, followed by the fused activation; the output
is a vector of `num_output` elements. -/
def InnerProduct.forward {α : Type} [LinearOrderedField α] (exp : α → α) (L : Layer α)
    (bottom_blob : Mat α) : Mat α :=
  let size := bottom_blob.w * bottom_blob.h * bottom_blob.c
  { w := L.num_output.toNat, h := 1, c := 1, elemsize := bottom_blob.elemsize,
    data := deconv_activation exp L
      ((List.range L.num_output.toNat).map fun (p : Nat) =>
        (if L.bias_term ≠ 0 then L.bias_data.getD p 0 else 0) +
        ((List.range size).map fun (i : Nat) =>
          bottom_blob.data.getD i 0 * L.weight_data.getD (p * size + i) 0).sum) }

/-- A Convolution with one 3x3 kernel whose only non-zero weight is the central one, padded
by 1 on each side (it maps a blob to a blob of the same size). -/
def conv3x3_same : Layer ℚ :=
  { Layer.blank with
    type := "Convolution", name := "conv", bottoms := [1], tops := [2], num_output := 1,
    kernel_w := 3, kernel_h := 3, pad_w := 1, pad_h := 1, weight_data_size := 9,
    weight_data := [0, 0, 0, 0, 1, 0, 0, 0, 0] }

/-- A graph `Pooling(global_pooling=1) -> Convolution(3x3, pad 1)`. -/
def pool_conv3x3 : Net ℚ :=
  { layers :=
      [ { Layer.blank with
            type := "Pooling", name := "pool", bottoms := [0], tops := [1],
            global_pooling := 1 },
        conv3x3_same ],
    blobs :=
      [ { name := "data" }, { name := "pool", producer := 0 },
        { name := "conv", producer := 1 } ] }

/-- A graph `Convolution -> BatchNorm` whose BatchNorm has `channels = 0` (and so no entry in
its four arrays). -/
def conv_bn_zero : Net ℚ :=
  { layers :=
      [ { Layer.blank with
            type := "Convolution", name := "conv", bottoms := [0], tops := [1],
            num_output := 2, weight_data_size := 4, weight_data := [1, 2, 3, 4] },
        { Layer.blank with
            type := "BatchNorm", name := "bn", bottoms := [1], tops := [2], channels := 0 } ],
    blobs :=
      [ { name := "data" }, { name := "conv", producer := 0 },
        { name := "bn", producer := 1 } ] }

/-- A graph of one Input layer. -/
def input_only : Net ℚ :=
  { layers := [ { Layer.blank with type := "Input", name := "data", tops := [0] } ],
    blobs := [ { name := "data", producer := 0 } ] }

section Properties
variable {α : Type}

/-! ## The search loops -/

theorem forward_search_spec (isB : String → Bool) (top : Nat) :
    ∀ (ls : List (Layer α)) (j : Nat),
      j ≤ forward_search isB top ls j ∧ forward_search isB top ls j ≤ j + ls.length ∧
      (∀ k, k < forward_search isB top ls j - j → ∀ L, ls[k]? = some L →
        ¬ is_match isB top L) ∧
      (forward_search isB top ls j < j + ls.length →
        ∃ L, ls[forward_search isB top ls j - j]? = some L ∧ is_match isB top L) := by
  intro ls
  induction ls with
  | nil => intro j; simp [forward_search]
  | cons L rest ih =>
    intro j
    obtain ⟨h1, h2, h3, h4⟩ := ih (j + 1)
    by_cases hm : is_match isB top L
    · have hr : forward_search isB top (L :: rest) j = j := by
        obtain ⟨a, b, c⟩ := hm
        simp only [forward_search]
        rw [if_neg (by simp [a]), if_neg (by simp [b]), if_pos c]
      rw [hr]
      refine ⟨le_refl _, by omega, ?_, ?_⟩
      · intro k hk; omega
      · intro _; exact ⟨L, by simp, hm⟩
    · have hr : forward_search isB top (L :: rest) j = forward_search isB top rest (j + 1) := by
        unfold is_match at hm
        by_cases a : isB L.type = true
        · by_cases b : L.bottoms.length = 1
          · have c : ¬ L.bottoms.getD 0 0 = top := fun c => hm ⟨a, b, c⟩
            simp only [forward_search]
            rw [if_neg (by simp [a]), if_neg (by simp [b]), if_neg c]
          · simp only [forward_search]
            rw [if_neg (by simp [a]), if_pos b]
        · simp only [forward_search]
          rw [if_pos (by simpa using a)]
      rw [hr]
      refine ⟨by omega, by simp only [List.length_cons]; omega, ?_, ?_⟩
      · intro k hk M hM
        cases k with
        | zero => simp at hM; subst hM; exact hm
        | succ k => 
          simp at hM
          exact h3 k (by omega) M hM
      · intro hlt
        simp only [List.length_cons] at hlt
        obtain ⟨M, hM, hMm⟩ := h4 (by omega)
        refine ⟨M, ?_, hMm⟩
        have : forward_search isB top rest (j + 1) - j = (forward_search isB top rest (j + 1) - (j + 1)) + 1 := by omega
        rw [this]; simpa using hM

theorem chain_partner_eq_some (R : ChainRule α) (net : Net α) (i j : Nat) (A : Layer α)
    (hA : net.layers[i]? = some A) (hg : R.guardA A = true) :
    chain_partner R net i = some j ↔
      i < j ∧ (∃ B, net.layers[j]? = some B ∧ is_match R.isB (A.tops.getD 0 0) B) ∧
      ∀ k B, i < k → k < j → net.layers[k]? = some B →
        ¬ is_match R.isB (A.tops.getD 0 0) B := by
  have hi : i < net.layers.length := by
    rcases List.getElem?_eq_some_iff.mp hA with ⟨h, _⟩; exact h
  obtain ⟨h1, h2, h3, h4⟩ :=
    forward_search_spec R.isB (A.tops.getD 0 0) (net.layers.drop (i + 1)) (i + 1)
  have hlen : (net.layers.drop (i + 1)).length = net.layers.length - (i + 1) := by simp
  rw [hlen] at h2 h4
  have hget : ∀ k, (net.layers.drop (i + 1))[k]? = net.layers[i + 1 + k]? := by
    intro k; simp
  simp only [chain_partner, hA, hg]
  simp only [Bool.true_eq_false, if_false]
  generalize forward_search R.isB (A.tops.getD 0 0) (net.layers.drop (i + 1)) (i + 1) = r
    at h1 h2 h3 h4 ⊢
  constructor
  · intro h
    split at h
    · cases h
    · rename_i hne
      simp only [Option.some.injEq] at h
      subst h
      refine ⟨by omega, ?_, ?_⟩
      · obtain ⟨B, hB, hBm⟩ := h4 (by omega)
        rw [hget] at hB
        refine ⟨B, ?_, hBm⟩
        rw [← hB]; congr 1; omega
      · intro k B hik hkj hB
        apply h3 (k - (i + 1)) (by omega) B
        rw [hget, ← hB]; congr 1; omega
  · rintro ⟨hij, ⟨B, hB, hBm⟩, hmin⟩
    have hj : j < net.layers.length := by
      rcases List.getElem?_eq_some_iff.mp hB with ⟨h, _⟩; exact h
    have hle : r ≤ j := by
      by_contra hcon
      apply h3 (j - (i + 1)) (by omega) B _ hBm
      rw [hget, ← hB]; congr 1; omega
    have hge : j ≤ r := by
      by_contra hcon
      obtain ⟨M, hM, hMm⟩ := h4 (by omega)
      rw [hget] at hM
      apply hmin r M (by omega) (by omega) _ hMm
      rw [← hM]; congr 1; omega
    have : r = j := by omega
    rw [this]
    simp; omega

theorem absorb_header [LinearOrderedField α] (sqrt : α → α) (p : ForwardPass) (A B : Layer α) :
    same_header ((p.rule sqrt).absorb A B) A := by
  cases p with
  | batchnorm_scale => exact ⟨rfl, rfl, rfl, rfl⟩
  | batchnorm L =>
    show same_header (absorb_batchnorm sqrt A B) A
    unfold absorb_batchnorm
    simp only []
    split_ifs <;> exact ⟨rfl, rfl, rfl, rfl⟩
  | innerproduct_dropout =>
    show same_header (absorb_dropout A B) A
    unfold absorb_dropout
    simp only []
    split_ifs <;> exact ⟨rfl, rfl, rfl, rfl⟩
  | activation L =>
    show same_header (absorb_activation A B) A
    unfold absorb_activation
    split_ifs <;> exact ⟨rfl, rfl, rfl, rfl⟩
  | flatten_after_global_pooling => exact ⟨rfl, rfl, rfl, rfl⟩
  | flatten_after_innerproduct => exact ⟨rfl, rfl, rfl, rfl⟩

theorem getElem?_set_set {β : Type} (l : List β) (i j : Nat) (a b : β) (hij : i ≠ j)
    (hi : i < l.length) (hj : j < l.length) :
    ((l.set i a).set j b)[i]? = some a ∧ ((l.set i a).set j b)[j]? = some b ∧
      ∀ k, k ≠ i → k ≠ j → ((l.set i a).set j b)[k]? = l[k]? := by
  refine ⟨?_, ?_, ?_⟩
  · simp [List.getElem?_set, hi, Ne.symm hij]
  · simp [List.getElem?_set, hj]
  · intro k h1 h2
    simp [List.getElem?_set, Ne.symm h1, Ne.symm h2]

theorem chain_partner_some_guard (R : ChainRule α) (net : Net α) (i j : Nat)
    (h : chain_partner R net i = some j) :
    ∃ A, net.layers[i]? = some A ∧ R.guardA A = true := by
  unfold chain_partner at h
  split at h
  · cases h
  · rename_i A hA
    refine ⟨A, hA, ?_⟩
    by_contra hg
    rw [if_pos (by simpa using hg)] at h
    cases h

theorem set_producer_getElem? (blobs : List Blob) (idx : Nat) (i : Int) (k : Nat) :
    (set_producer blobs idx i)[k]? =
      if k = idx then (blobs[idx]?).map (fun b => { b with producer := i }) else blobs[k]? := by
  unfold set_producer
  cases hb : blobs[idx]? with
  | none =>
    simp only [Option.map_none']
    split
    · rename_i h; subst h; exact hb
    · rfl
  | some b =>
    simp only [Option.map_some', List.getElem?_set]
    have hlt : idx < blobs.length := (List.getElem?_eq_some_iff.mp hb).1
    by_cases h : k = idx
    · subst h; simp [hlt]
    · rw [if_neg (Ne.symm h), if_neg h]

/-- C1. Fusion rewiring rule. For every forward pass, when the iteration for index `i` (layer
`A`) matches the layer `B` at index `j`, then after the iteration `layers[i].tops[0]` is the
former `B.tops[0]`, `blobs[B.tops[0]].producer` is `i`, `layers[j].type` is `"ncnnfused"`
while the bottoms and tops of `layers[j]` are those of `B`, and every other blob is
unchanged.  The two side conditions say that the writes `A.tops[0] = ..` and
`blobs[B.tops[0]].producer = ..` stay inside their vectors. -/
theorem fusion_rewiring_rule [LinearOrderedField α] (sqrt : α → α) (p : ForwardPass)
    (net : Net α) (i j : Nat) (A B : Layer α)
    (hA : net.layers[i]? = some A) (hB : net.layers[j]? = some B)
    (hm : chain_partner (p.rule sqrt) net i = some j)
    (htops : A.tops ≠ []) (hblob : B.tops.getD 0 0 < net.blobs.length) :
    (∃ A1, (chain_step (p.rule sqrt) net i).layers[i]? = some A1 ∧
      A1.tops.getD 0 0 = B.tops.getD 0 0) ∧
    (∃ b, (chain_step (p.rule sqrt) net i).blobs[B.tops.getD 0 0]? = some b ∧
      b.producer = (i : Int)) ∧
    (∃ B1, (chain_step (p.rule sqrt) net i).layers[j]? = some B1 ∧ B1.type = "ncnnfused" ∧
      B1.bottoms = B.bottoms ∧ B1.tops = B.tops) ∧
    (∀ k, k ≠ B.tops.getD 0 0 →
      (chain_step (p.rule sqrt) net i).blobs[k]? = net.blobs[k]?) := by
  obtain ⟨A0, hA0, hg⟩ := chain_partner_some_guard _ _ _ _ hm
  rw [hA] at hA0; cases hA0
  have hij : i < j := ((chain_partner_eq_some _ net i j A hA hg).mp hm).1
  have hi : i < net.layers.length := (List.getElem?_eq_some_iff.mp hA).1
  have hj : j < net.layers.length := (List.getElem?_eq_some_iff.mp hB).1
  have hstep : chain_step (p.rule sqrt) net i =
      { layers := (net.layers.set i
          (((p.rule sqrt).absorb A B).set_top0 (B.tops.getD 0 0))).set j B.set_fused,
        blobs := set_producer net.blobs (B.tops.getD 0 0) i } := by
    simp only [chain_step, hm, chain_rewire, hA, hB]
  rw [hstep]
  refine ⟨⟨((p.rule sqrt).absorb A B).set_top0 (B.tops.getD 0 0), ?_, ?_⟩, ?_,
    ⟨B.set_fused, ?_, rfl, rfl, rfl⟩, ?_⟩
  · exact (getElem?_set_set _ i j _ _ (by omega) hi hj).1
  · show (((p.rule sqrt).absorb A B).tops.set 0 (B.tops.getD 0 0)).getD 0 0 = _
    rw [(absorb_header sqrt p A B).2.2.2]
    cases hA' : A.tops with
    | nil => exact absurd hA' htops
    | cons x xs => simp
  · obtain ⟨b, hb⟩ : ∃ b, net.blobs[B.tops.getD 0 0]? = some b :=
      ⟨_, List.getElem?_eq_getElem hblob⟩
    refine ⟨{ b with producer := i }, ?_, rfl⟩
    simp only [set_producer_getElem?, if_true, hb, Option.map_some']
  · exact (getElem?_set_set _ i j _ _ (by omega) hi hj).2.1
  · intro k hk
    simp only [set_producer_getElem?, if_neg hk]

theorem isB_fused [LinearOrderedField α] (sqrt : α → α) (p : ForwardPass) :
    (p.rule sqrt).isB "ncnnfused" = false := by
  cases p <;> simp [ForwardPass.rule]

theorem guardA_not_fused [LinearOrderedField α] (sqrt : α → α) (p : ForwardPass) (A : Layer α)
    (h : (p.rule sqrt).guardA A = true) : A.type ≠ "ncnnfused" := by
  intro hf
  cases p with
  | batchnorm L => cases L <;> simp [ForwardPass.rule, Weighted.type, hf] at h
  | activation L => cases L <;> simp [ForwardPass.rule, Weighted.type, hf] at h
  | _ => simp [ForwardPass.rule, hf] at h

/-- C1, instance: the iteration of `fuse_convolution_batchnorm` for the Convolution of
`conv_bn_relu`. -/
theorem fusion_rewiring_rule_witness :
    (∃ A1, (chain_step (ForwardPass.rule id (.batchnorm .Convolution)) conv_bn_relu 0).layers[0]?
        = some A1 ∧ A1.tops.getD 0 0 = 2) ∧
    (∃ b, (chain_step (ForwardPass.rule id (.batchnorm .Convolution)) conv_bn_relu 0).blobs[2]?
        = some b ∧ b.producer = 0) ∧
    (∃ B1, (chain_step (ForwardPass.rule id (.batchnorm .Convolution)) conv_bn_relu 0).layers[1]?
        = some B1 ∧ B1.type = "ncnnfused" ∧ B1.bottoms = [1] ∧ B1.tops = [2]) ∧
    (∀ k, k ≠ 2 →
      (chain_step (ForwardPass.rule id (.batchnorm .Convolution)) conv_bn_relu 0).blobs[k]?
        = conv_bn_relu.blobs[k]?) :=
  fusion_rewiring_rule id (.batchnorm .Convolution) conv_bn_relu 0 1 _ _ rfl rfl (by decide)
    (by decide) (by decide)

/-- C2. Forward chain match. In every graph, for an index `i` whose layer `A` passes the
tests of a forward pass on `layers[i]`, the partner the pass chooses is the smallest `j > i`
whose layer has the type `B` of the pass, exactly one bottom, and `bottoms[0] == A.tops[0]`;
when there is no such `j` the iteration changes nothing; a layer of type `"ncnnfused"` is
neither `A` nor the chosen `B`. -/
theorem forward_chain_match [LinearOrderedField α] (sqrt : α → α) (p : ForwardPass)
    (net : Net α) (i : Nat) (A : Layer α)
    (hA : net.layers[i]? = some A) (hkind : (p.rule sqrt).guardA A = true) :
    (∀ j, chain_partner (p.rule sqrt) net i = some j ↔
      i < j ∧
      (∃ B, net.layers[j]? = some B ∧ (p.rule sqrt).isB B.type = true ∧
        B.bottoms.length = 1 ∧ B.bottoms.getD 0 0 = A.tops.getD 0 0) ∧
      ∀ k B, i < k → k < j → net.layers[k]? = some B →
        ¬ ((p.rule sqrt).isB B.type = true ∧ B.bottoms.length = 1 ∧
          B.bottoms.getD 0 0 = A.tops.getD 0 0)) ∧
    ((¬ ∃ j B, i < j ∧ net.layers[j]? = some B ∧ (p.rule sqrt).isB B.type = true ∧
        B.bottoms.length = 1 ∧ B.bottoms.getD 0 0 = A.tops.getD 0 0) →
      chain_step (p.rule sqrt) net i = net) ∧
    A.type ≠ "ncnnfused" ∧
    (∀ j B, chain_partner (p.rule sqrt) net i = some j → net.layers[j]? = some B →
      B.type ≠ "ncnnfused") := by
  have hiff := fun j => chain_partner_eq_some (p.rule sqrt) net i j A hA hkind
  refine ⟨hiff, ?_, guardA_not_fused sqrt p A hkind, ?_⟩
  · intro hno
    unfold chain_step
    cases hc : chain_partner (p.rule sqrt) net i with
    | none => rfl
    | some j =>
      obtain ⟨hij, ⟨B, hB, hBm⟩, _⟩ := (hiff j).mp hc
      exact absurd ⟨j, B, hij, hB, hBm⟩ hno
  · intro j B hc hB hf
    obtain ⟨_, ⟨B0, hB0, hBm, _⟩, _⟩ := (hiff j).mp hc
    rw [hB] at hB0; cases hB0
    rw [hf, isB_fused] at hBm
    cases hBm

/-- C2, instance: in `conv_bn_relu` the partner of the Convolution under
`fuse_convolution_batchnorm` is the BatchNorm at index 1, and under
`fuse_convolution_activation` there is none (the ReLU consumes the BatchNorm), so that
iteration changes nothing. -/
theorem forward_chain_match_witness :
    chain_partner (ForwardPass.rule id (.batchnorm .Convolution)) conv_bn_relu 0 = some 1 ∧
    chain_step (ForwardPass.rule (id : ℚ → ℚ) (.activation .Convolution)) conv_bn_relu 0
      = conv_bn_relu :=
  ⟨((forward_chain_match id (.batchnorm .Convolution) conv_bn_relu 0 _ rfl (by decide)).1 1).mpr
      ⟨by decide, ⟨_, rfl, by decide, by decide, by decide⟩, fun k B h1 h2 => by omega⟩,
   (forward_chain_match id (.activation .Convolution) conv_bn_relu 0 _ rfl (by decide)).2.1
      (by
        rintro ⟨j, B, hij, hB, hb, -, h0⟩
        have hj : j < 3 := (List.getElem?_eq_some_iff.mp hB).1
        have : j = 1 ∨ j = 2 := by omega
        rcases this with rfl | rfl
        · simp [conv_bn_relu] at hB; subst hB; simp [ForwardPass.rule] at hb
        · simp [conv_bn_relu] at hB; subst hB; simp [conv_bn_relu] at h0)⟩

/-! ## The loops over weight and bias vectors -/

theorem chain_step_matched (R : ChainRule α) (net : Net α) (i j : Nat) (A B : Layer α)
    (hA : net.layers[i]? = some A) (hB : net.layers[j]? = some B)
    (hm : chain_partner R net i = some j) :
    i < j ∧
    (chain_step R net i).layers[i]? = some ((R.absorb A B).set_top0 (B.tops.getD 0 0)) ∧
    (chain_step R net i).layers[j]? = some B.set_fused ∧
    (∀ k, k ≠ i → k ≠ j → (chain_step R net i).layers[k]? = net.layers[k]?) ∧
    (chain_step R net i).blobs = set_producer net.blobs (B.tops.getD 0 0) i := by
  obtain ⟨A0, hA0, hg⟩ := chain_partner_some_guard _ _ _ _ hm
  rw [hA] at hA0; cases hA0
  have hij : i < j := ((chain_partner_eq_some _ net i j A hA hg).mp hm).1
  have hi : i < net.layers.length := (List.getElem?_eq_some_iff.mp hA).1
  have hj : j < net.layers.length := (List.getElem?_eq_some_iff.mp hB).1
  have hstep : chain_step R net i =
      { layers := (net.layers.set i ((R.absorb A B).set_top0 (B.tops.getD 0 0))).set j
          B.set_fused,
        blobs := set_producer net.blobs (B.tops.getD 0 0) i } := by
    simp only [chain_step, hm, chain_rewire, hA, hB]
  rw [hstep]
  obtain ⟨h1, h2, h3⟩ := getElem?_set_set net.layers i j
    ((R.absorb A B).set_top0 (B.tops.getD 0 0)) B.set_fused (by omega) hi hj
  exact ⟨hij, h1, h2, h3, rfl⟩

theorem foldl_pair {σ τ β : Type} (g : σ → β → σ) (h : τ → β → τ) (l : List β) (a : σ)
    (b : τ) :
    l.foldl (fun (s : σ × τ) x => (g s.1 x, h s.2 x)) (a, b) = (l.foldl g a, l.foldl h b) := by
  induction l generalizing a b with
  | nil => rfl
  | cons x xs ih => simp only [List.foldl_cons]; exact ih _ _

theorem getD_set_zero [Zero α] (l : List α) (k q : Nat) (v : α) :
    (l.set q v).getD k 0 = if k = q ∧ q < l.length then v else l.getD k 0 := by
  simp only [List.getD_eq_getElem?_getD, List.getElem?_set]
  by_cases h : q = k
  · subst h
    by_cases h2 : q < l.length
    · simp [h2]
    · simp [h2, List.getElem?_eq_none (Nat.le_of_not_lt h2)]
  · have : ¬ k = q := fun e => h e.symm
    simp [h, this]

/-- The loop `for (q<n) v[q] = f(q, v[q])`. -/
theorem foldl_set_getD [Zero α] (f : Nat → α → α) (n : Nat) (l : List α) :
    ((List.range n).foldl (fun v q => v.set q (f q (v.getD q 0))) l).length = l.length ∧
    ∀ k, ((List.range n).foldl (fun v q => v.set q (f q (v.getD q 0))) l).getD k 0 =
      if k < n ∧ k < l.length then f k (l.getD k 0) else l.getD k 0 := by
  induction n with
  | zero => simp
  | succ n ih =>
    obtain ⟨ih1, ih2⟩ := ih
    rw [List.range_succ, List.foldl_append]
    simp only [List.foldl_cons, List.foldl_nil]
    refine ⟨by rw [List.length_set, ih1], ?_⟩
    intro k
    rw [getD_set_zero, ih1, ih2 n, ih2 k]
    by_cases hk : k = n
    · subst hk
      by_cases hl : k < l.length
      · simp [hl]
      · simp [hl]
    · by_cases hl : k < l.length
      · by_cases hkn : k < n
        · simp [hk, hl, hkn, Nat.lt_succ_of_lt hkn]
        · have : ¬ k < n + 1 := by omega
          simp [hk, hl, hkn, this]
      · simp [hk, hl]

/-- The loop `for (j<n) w[off + j] = g(w[off + j])`. -/
theorem foldl_set_offset [Zero α] (g : α → α) (off n : Nat) (l : List α) :
    ((List.range n).foldl (fun w j => w.set (off + j) (g (w.getD (off + j) 0))) l).length
      = l.length ∧
    ∀ k, ((List.range n).foldl (fun w j => w.set (off + j) (g (w.getD (off + j) 0))) l).getD k 0
      = if off ≤ k ∧ k < off + n ∧ k < l.length then g (l.getD k 0) else l.getD k 0 := by
  induction n with
  | zero =>
    refine ⟨rfl, fun k => ?_⟩
    have : ¬ (off ≤ k ∧ k < off + 0 ∧ k < l.length) := by omega
    rw [if_neg this]; rfl
  | succ n ih =>
    obtain ⟨ih1, ih2⟩ := ih
    rw [List.range_succ, List.foldl_append]
    simp only [List.foldl_cons, List.foldl_nil]
    refine ⟨by rw [List.length_set, ih1], ?_⟩
    intro k
    rw [getD_set_zero, ih1, ih2 (off + n), ih2 k]
    by_cases hk : k = off + n
    · subst hk
      by_cases hl : off + n < l.length
      · have h1 : ¬ (off ≤ off + n ∧ off + n < off + n ∧ off + n < l.length) := by omega
        have h2 : off ≤ off + n ∧ off + n < off + (n + 1) ∧ off + n < l.length := by omega
        rw [if_pos ⟨rfl, hl⟩, if_neg h1, if_pos h2]
      · have h1 : ¬ (off ≤ off + n ∧ off + n < off + n ∧ off + n < l.length) := by omega
        have h2 : ¬ (off ≤ off + n ∧ off + n < off + (n + 1) ∧ off + n < l.length) := by omega
        rw [if_neg (fun h => hl h.2), if_neg h1, if_neg h2]
    · have h0 : ¬ (k = off + n ∧ off + n < l.length) := fun h => hk h.1
      rw [if_neg h0]
      by_cases hc : off ≤ k ∧ k < off + n ∧ k < l.length
      · have h2 : off ≤ k ∧ k < off + (n + 1) ∧ k < l.length := by omega
        rw [if_pos hc, if_pos h2]
      · have h2 : ¬ (off ≤ k ∧ k < off + (n + 1) ∧ k < l.length) := by omega
        rw [if_neg hc, if_neg h2]

theorem scale_outch_spec [LinearOrderedField α] (w : List α) (wpo : Int) (i : Nat) (s : α) :
    (scale_outch w wpo i s).length = w.length ∧
    ∀ k, (scale_outch w wpo i s).getD k 0 =
      if wpo.toNat * i ≤ k ∧ k < wpo.toNat * i + wpo.toNat ∧ k < w.length then w.getD k 0 * s
      else w.getD k 0 :=
  foldl_set_offset (fun x => x * s) (wpo.toNat * i) wpo.toNat w

/-- The double loop over output channels `i < m` and slice positions `j < wpo`. -/
theorem foldl_scale_outch [LinearOrderedField α] (b : Nat → α) (wpo : Int) (m : Nat)
    (w : List α) :
    ((List.range m).foldl (fun w i => scale_outch w wpo i (b i)) w).length = w.length ∧
    ∀ k, ((List.range m).foldl (fun w i => scale_outch w wpo i (b i)) w).getD k 0 =
      if k < wpo.toNat * m ∧ k < w.length then w.getD k 0 * b (k / wpo.toNat)
      else w.getD k 0 := by
  induction m with
  | zero => simp
  | succ m ih =>
    obtain ⟨ih1, ih2⟩ := ih
    rw [List.range_succ, List.foldl_append]
    simp only [List.foldl_cons, List.foldl_nil]
    obtain ⟨s1, s2⟩ := scale_outch_spec
      ((List.range m).foldl (fun w i => scale_outch w wpo i (b i)) w) wpo m (b m)
    refine ⟨by rw [s1, ih1], ?_⟩
    intro k
    rw [s2, ih1, ih2]
    have hmul : wpo.toNat * (m + 1) = wpo.toNat * m + wpo.toNat := by ring
    by_cases hc : wpo.toNat * m ≤ k ∧ k < wpo.toNat * m + wpo.toNat ∧ k < w.length
    · have h1 : ¬ (k < wpo.toNat * m ∧ k < w.length) := by omega
      have h2 : k < wpo.toNat * (m + 1) ∧ k < w.length := by omega
      have hdiv : k / wpo.toNat = m := by
        have hpos : 0 < wpo.toNat := by omega
        apply Nat.div_eq_of_lt_le
        · rw [Nat.mul_comm]; exact hc.1
        · rw [Nat.mul_comm]; rw [hmul] at *; exact hc.2.1
      rw [if_pos hc, if_neg h1, if_pos h2, hdiv]
    · rw [if_neg hc]
      by_cases h1 : k < wpo.toNat * m ∧ k < w.length
      · have h2 : k < wpo.toNat * (m + 1) ∧ k < w.length := by omega
        rw [if_pos h1, if_pos h2]
      · have h2 : ¬ (k < wpo.toNat * (m + 1) ∧ k < w.length) := by omega
        rw [if_neg h1, if_neg h2]

/-! ## BatchNorm and Scale -/

theorem absorb_scale_spec [LinearOrderedField α] (A B : Layer α) :
    (absorb_scale A B).mean_data = A.mean_data ∧ (absorb_scale A B).var_data = A.var_data ∧
    (absorb_scale A B).eps = A.eps ∧ (absorb_scale A B).channels = A.channels ∧
    (∀ q, (absorb_scale A B).slope_data.getD q 0 =
      if q < A.channels.toNat ∧ q < A.slope_data.length then
        A.slope_data.getD q 0 * B.scale_data.getD q 0
      else A.slope_data.getD q 0) ∧
    (∀ q, (absorb_scale A B).bias_data.getD q 0 =
      if q < A.channels.toNat ∧ q < A.bias_data.length then
        (if B.bias_term ≠ 0 then
          A.bias_data.getD q 0 * B.scale_data.getD q 0 + B.bias_data.getD q 0
        else A.bias_data.getD q 0 * B.scale_data.getD q 0)
      else A.bias_data.getD q 0) := by
  have hfold : (List.range A.channels.toNat).foldl (fun (sb : List α × List α) q =>
      (sb.1.set q (sb.1.getD q 0 * B.scale_data.getD q 0),
       if B.bias_term ≠ 0 then
         sb.2.set q (sb.2.getD q 0 * B.scale_data.getD q 0 + B.bias_data.getD q 0)
       else
         sb.2.set q (sb.2.getD q 0 * B.scale_data.getD q 0)))
      (A.slope_data, A.bias_data) =
      ((List.range A.channels.toNat).foldl
          (fun v q => v.set q ((fun q x => x * B.scale_data.getD q 0) q (v.getD q 0)))
          A.slope_data,
       (List.range A.channels.toNat).foldl
          (fun v q => v.set q ((fun q x =>
            if B.bias_term ≠ 0 then x * B.scale_data.getD q 0 + B.bias_data.getD q 0
            else x * B.scale_data.getD q 0) q (v.getD q 0)))
          A.bias_data) := by
    rw [← foldl_pair]
    congr 1
    funext sb q
    split <;> rfl
  refine ⟨rfl, rfl, rfl, rfl, ?_, ?_⟩
  · intro q
    show (((List.range A.channels.toNat).foldl _ (A.slope_data, A.bias_data)).1).getD q 0 = _
    rw [hfold]
    exact (foldl_set_getD (fun q x => x * B.scale_data.getD q 0) A.channels.toNat
      A.slope_data).2 q
  · intro q
    show (((List.range A.channels.toNat).foldl _ (A.slope_data, A.bias_data)).2).getD q 0 = _
    rw [hfold]
    exact (foldl_set_getD (fun q x =>
      if B.bias_term ≠ 0 then x * B.scale_data.getD q 0 + B.bias_data.getD q 0
      else x * B.scale_data.getD q 0) A.channels.toNat A.bias_data).2 q

/-- C5. BatchNorm+Scale folding. When `fuse_batchnorm_scale` fuses the Scale `B` at `j` into
the BatchNorm `A` at `i`, then for every channel `q < channels` the new slope is
`slope[q]*scale[q]` and the new bias is `bias[q]*scale[q] + scale_bias[q]` if
`B.bias_term != 0` and `bias[q]*scale[q]` otherwise; `mean`, `var`, `eps` and `channels` are
unchanged.  The two side conditions say that the BatchNorm vectors hold `channels` entries, so
that the writes `slope[q] = ..` and `bias[q] = ..` stay inside them. -/
theorem batchnorm_scale_folding [LinearOrderedField α] (net : Net α) (i j : Nat)
    (A B : Layer α) (hA : net.layers[i]? = some A) (hB : net.layers[j]? = some B)
    (hm : chain_partner (ForwardPass.rule id .batchnorm_scale) net i = some j)
    (hslope : A.channels.toNat ≤ A.slope_data.length)
    (hbias : A.channels.toNat ≤ A.bias_data.length) :
    ∃ A1, (chain_step (ForwardPass.rule id .batchnorm_scale) net i).layers[i]? = some A1 ∧
      (∀ q : Nat, (q : Int) < A.channels →
        A1.slope_data.getD q 0 = A.slope_data.getD q 0 * B.scale_data.getD q 0 ∧
        A1.bias_data.getD q 0 =
          if B.bias_term ≠ 0 then
            A.bias_data.getD q 0 * B.scale_data.getD q 0 + B.bias_data.getD q 0
          else A.bias_data.getD q 0 * B.scale_data.getD q 0) ∧
      A1.mean_data = A.mean_data ∧ A1.var_data = A.var_data ∧ A1.eps = A.eps ∧
      A1.channels = A.channels := by
  obtain ⟨_, h1, _⟩ := chain_step_matched _ net i j A B hA hB hm
  obtain ⟨s1, s2, s3, s4, s5, s6⟩ := absorb_scale_spec A B
  refine ⟨_, h1, ?_, s1, s2, s3, s4⟩
  intro q hq
  have hq1 : q < A.channels.toNat := by omega
  constructor
  · show (absorb_scale A B).slope_data.getD q 0 = _
    rw [s5, if_pos ⟨hq1, by omega⟩]
  · show (absorb_scale A B).bias_data.getD q 0 = _
    rw [s6, if_pos ⟨hq1, by omega⟩]

/-- C5, instance (scenario B): `scale=[2,2,2]`, `bias_term=1`, `bias=[1,1,1]` gives `slope*2`
and `bias*2+1`. -/
theorem batchnorm_scale_folding_witness :
    ∃ A1, (chain_step (ForwardPass.rule id .batchnorm_scale) bn_scale 0).layers[0]? = some A1 ∧
      (∀ q : Nat, (q : Int) < 3 →
        A1.slope_data.getD q 0 = ([1, 2, 3] : List ℚ).getD q 0 * ([2, 2, 2] : List ℚ).getD q 0 ∧
        A1.bias_data.getD q 0 =
          ([10, 11, 12] : List ℚ).getD q 0 * ([2, 2, 2] : List ℚ).getD q 0
            + ([1, 1, 1] : List ℚ).getD q 0) ∧
      A1.mean_data = [4, 5, 6] ∧ A1.var_data = [7, 8, 9] ∧ A1.eps = 0 ∧ A1.channels = 3 :=
  batchnorm_scale_folding bn_scale 0 1 _ _ rfl rfl (by decide) (by decide) (by decide)

/-- C6. BatchNorm+Scale fusion preserves outputs. Over the reals, when `fuse_batchnorm_scale`
fuses the Scale `B` into the BatchNorm `A` (giving `A1`), then for every channel
`q < channels` and every value `v` the map of the fused BatchNorm,
`(v - mean[q]) / sqrt(var[q] + eps) * slope1[q] + bias1[q]`, is the composition
`((v - mean[q]) / sqrt(var[q] + eps) * slope[q] + bias[q]) * s[q] + b[q]` of the original
BatchNorm and the Scale, where `b[q]` is the Scale bias (`0` when `bias_term == 0`).  The side
conditions say that the BatchNorm vectors hold `channels` entries.  The identity needs no
sign condition on `var[q] + eps`. -/
theorem batchnorm_scale_fusion_preserves_output (net : Net ℝ) (i j : Nat) (A B : Layer ℝ)
    (hA : net.layers[i]? = some A) (hB : net.layers[j]? = some B)
    (hm : chain_partner (ForwardPass.rule id .batchnorm_scale) net i = some j)
    (hslope : A.channels.toNat ≤ A.slope_data.length)
    (hbias : A.channels.toNat ≤ A.bias_data.length) :
    ∃ A1, (chain_step (ForwardPass.rule id .batchnorm_scale) net i).layers[i]? = some A1 ∧
      ∀ q : Nat, (q : Int) < A.channels → ∀ v : ℝ,
        (v - A1.mean_data.getD q 0) / Real.sqrt (A1.var_data.getD q 0 + A1.eps)
            * A1.slope_data.getD q 0 + A1.bias_data.getD q 0
          = ((v - A.mean_data.getD q 0) / Real.sqrt (A.var_data.getD q 0 + A.eps)
              * A.slope_data.getD q 0 + A.bias_data.getD q 0) * B.scale_data.getD q 0
            + (if B.bias_term ≠ 0 then B.bias_data.getD q 0 else 0) := by
  obtain ⟨_, h1, _⟩ := chain_step_matched _ net i j A B hA hB hm
  obtain ⟨s1, s2, s3, s4, s5, s6⟩ := absorb_scale_spec A B
  refine ⟨_, h1, ?_⟩
  intro q hq v
  have hq1 : q < A.channels.toNat := by omega
  show (v - (absorb_scale A B).mean_data.getD q 0)
      / Real.sqrt ((absorb_scale A B).var_data.getD q 0 + (absorb_scale A B).eps)
      * (absorb_scale A B).slope_data.getD q 0 + (absorb_scale A B).bias_data.getD q 0 = _
  rw [s1, s2, s3, s5, s6, if_pos ⟨hq1, by omega⟩, if_pos ⟨hq1, by omega⟩]
  split_ifs <;> ring

/-- C6, instance: the fused BatchNorm of `bn_scale_real` computes `Scale (BatchNorm v)`. -/
theorem batchnorm_scale_fusion_preserves_output_witness :
    ∃ A1, (chain_step (ForwardPass.rule id .batchnorm_scale) bn_scale_real 0).layers[0]?
        = some A1 ∧
      ∀ q : Nat, (q : Int) < 3 → ∀ v : ℝ,
        (v - A1.mean_data.getD q 0) / Real.sqrt (A1.var_data.getD q 0 + A1.eps)
            * A1.slope_data.getD q 0 + A1.bias_data.getD q 0
          = ((v - ([4, 5, 6] : List ℝ).getD q 0)
                / Real.sqrt (([7, 8, 9] : List ℝ).getD q 0 + 0)
              * ([1, 2, 3] : List ℝ).getD q 0 + ([10, 11, 12] : List ℝ).getD q 0)
              * ([2, 2, 2] : List ℝ).getD q 0
            + (if (1 : Int) ≠ 0 then ([1, 1, 1] : List ℝ).getD q 0 else 0) :=
  batchnorm_scale_fusion_preserves_output bn_scale_real 0 1 _ _ rfl rfl (by decide)
    (by decide) (by decide)

/-! ## Folding a BatchNorm into a weighted layer -/

theorem getD_range_map [Zero α] (f : Nat → α) (n q : Nat) (hq : q < n) :
    ((List.range n).map f).getD q 0 = f q := by
  simp [List.getD_eq_getElem?_getD, hq]

theorem getD_replicate_zero [Zero α] (n q : Nat) :
    (List.replicate n (0 : α)).getD q 0 = 0 := by
  by_cases h : q < n
  · simp [List.getD_eq_getElem?_getD, h]
  · have hl : (List.replicate n (0 : α)).length ≤ q := by simp; omega
    simp [List.getD_eq_getElem?_getD, List.getElem?_eq_none hl]

theorem list_eq_of_getD [Zero α] (l1 l2 : List α) (hlen : l1.length = l2.length)
    (h : ∀ q, q < l1.length → l1.getD q 0 = l2.getD q 0) : l1 = l2 := by
  apply List.ext_getElem hlen
  intro n h1 h2
  have := h n h1
  simpa [List.getD_eq_getElem?_getD, List.getElem?_eq_getElem h1,
    List.getElem?_eq_getElem h2] using this

theorem absorb_batchnorm_spec [LinearOrderedField α] (sqrt : α → α) (A B : Layer α) :
    (absorb_batchnorm sqrt A B).bias_term = (if A.bias_term = 0 then 1 else A.bias_term) ∧
    (∀ k, (absorb_batchnorm sqrt A B).weight_data.getD k 0 =
      if k < (Int.tdiv A.weight_data_size B.channels).toNat * B.channels.toNat ∧
          k < A.weight_data.length then
        A.weight_data.getD k 0
          * (bn_b sqrt B).getD (k / (Int.tdiv A.weight_data_size B.channels).toNat) 0
      else A.weight_data.getD k 0) ∧
    (absorb_batchnorm sqrt A B).bias_data.length =
      (if A.bias_term = 0 then B.channels.toNat else A.bias_data.length) ∧
    (∀ q, (absorb_batchnorm sqrt A B).bias_data.getD q 0 =
      if q < B.channels.toNat ∧
          q < (if A.bias_term = 0 then B.channels.toNat else A.bias_data.length) then
        (if A.bias_term = 0 then 0 else A.bias_data.getD q 0) + (bn_a sqrt B).getD q 0
      else (if A.bias_term = 0 then 0 else A.bias_data.getD q 0)) := by
  have hfold : ∀ (w bs : List α),
      (List.range B.channels.toNat).foldl (fun (wb : List α × List α) i =>
        (scale_outch wb.1 (Int.tdiv A.weight_data_size B.channels) i ((bn_b sqrt B).getD i 0),
         wb.2.set i (wb.2.getD i 0 + (bn_a sqrt B).getD i 0))) (w, bs) =
      ((List.range B.channels.toNat).foldl
          (fun w i => scale_outch w (Int.tdiv A.weight_data_size B.channels) i
            ((fun i => (bn_b sqrt B).getD i 0) i)) w,
       (List.range B.channels.toNat).foldl
          (fun v q => v.set q ((fun q x => x + (bn_a sqrt B).getD q 0) q (v.getD q 0))) bs) := by
    intro w bs
    rw [← foldl_pair]
  have hw := fun w => foldl_scale_outch (fun i => (bn_b sqrt B).getD i 0)
    (Int.tdiv A.weight_data_size B.channels) B.channels.toNat w
  have hb := fun bs => foldl_set_getD (fun q x => x + (bn_a sqrt B).getD q 0)
    B.channels.toNat bs
  have heq : absorb_batchnorm sqrt A B =
      { (if A.bias_term = 0 then
          { A with bias_term := 1, bias_data := List.replicate B.channels.toNat 0 }
         else A) with
        weight_data := (List.range B.channels.toNat).foldl
          (fun w i => scale_outch w (Int.tdiv A.weight_data_size B.channels) i
            ((fun i => (bn_b sqrt B).getD i 0) i)) A.weight_data,
        bias_data := (List.range B.channels.toNat).foldl
          (fun v q => v.set q ((fun q x => x + (bn_a sqrt B).getD q 0) q (v.getD q 0)))
          (if A.bias_term = 0 then List.replicate B.channels.toNat 0 else A.bias_data) } := by
    unfold absorb_batchnorm
    simp only []
    by_cases h0 : A.bias_term = 0
    · simp only [if_pos h0]; rw [hfold]
    · simp only [if_neg h0]; rw [hfold]
  rw [heq]
  refine ⟨?_, fun k => (hw _).2 k, ?_, fun q => ?_⟩
  · show (if A.bias_term = 0 then _ else A).bias_term = _
    split_ifs <;> rfl
  · show List.length (List.foldl _ _ _) = _
    rw [(hb _).1]
    split_ifs <;> simp
  · show List.getD (List.foldl _ _ _) q 0 = _
    rw [(hb _).2 q]
    by_cases h0 : A.bias_term = 0
    · simp only [if_pos h0, getD_replicate_zero, List.length_replicate]
    · simp only [if_neg h0]

/-- C4. BatchNorm folding formulas. For each weighted kind `L`, when `fuse_<L>_batchnorm`
fuses the BatchNorm `B` (with `channels > 0` dividing `weight_data_size`) into the layer `A`,
then with `a[q] = bn_bias[q] - bn_slope[q]*mean[q]/sqrt(var[q]+eps)` and
`b[q] = bn_slope[q]/sqrt(var[q]+eps)`: every weight at flat index `n < weight_data_size`
becomes `old_weight[n] * b[n / (weight_data_size/channels)]`; if `A.bias_term != 0` the bias at
`q < channels` becomes `old_bias[q] + a[q]` and `bias_term` is kept; if `A.bias_term == 0` then
`bias_term` becomes `1` and the bias is the vector `a` of length `channels`.  The side
condition `hbias` says that an existing bias buffer holds `channels` entries, so that the
writes `bias[i] += a[i]` stay inside it. -/
theorem batchnorm_folding_formulas [LinearOrderedField α] (sqrt : α → α) (L : Weighted)
    (net : Net α) (i j : Nat) (A B : Layer α)
    (hA : net.layers[i]? = some A) (hB : net.layers[j]? = some B)
    (hm : chain_partner (ForwardPass.rule sqrt (.batchnorm L)) net i = some j)
    (hc : 0 < B.channels) (hdiv : B.channels ∣ A.weight_data_size)
    (hbias : A.bias_term ≠ 0 → B.channels.toNat ≤ A.bias_data.length) :
    ∃ A1, (chain_step (ForwardPass.rule sqrt (.batchnorm L)) net i).layers[i]? = some A1 ∧
      (∀ q : Nat, (q : Int) < B.channels →
        (bn_a sqrt B).getD q 0 =
          B.bias_data.getD q 0 - B.slope_data.getD q 0 * B.mean_data.getD q 0
            / sqrt (B.var_data.getD q 0 + B.eps) ∧
        (bn_b sqrt B).getD q 0 =
          B.slope_data.getD q 0 / sqrt (B.var_data.getD q 0 + B.eps)) ∧
      (∀ n : Nat, (n : Int) < A.weight_data_size →
        A1.weight_data.getD n 0 = A.weight_data.getD n 0
          * (bn_b sqrt B).getD (n / (Int.tdiv A.weight_data_size B.channels).toNat) 0) ∧
      (A.bias_term ≠ 0 → A1.bias_term = A.bias_term ∧
        ∀ q : Nat, (q : Int) < B.channels →
          A1.bias_data.getD q 0 = A.bias_data.getD q 0 + (bn_a sqrt B).getD q 0) ∧
      (A.bias_term = 0 → A1.bias_term = 1 ∧ A1.bias_data.length = B.channels.toNat ∧
        A1.bias_data = bn_a sqrt B) := by
  obtain ⟨_, h1, _⟩ := chain_step_matched _ net i j A B hA hB hm
  obtain ⟨s1, s2, s3, s4⟩ := absorb_batchnorm_spec sqrt A B
  refine ⟨_, h1, ?_, ?_, ?_, ?_⟩
  · intro q hq
    have hq1 : q < B.channels.toNat := by omega
    exact ⟨getD_range_map _ _ _ hq1, getD_range_map _ _ _ hq1⟩
  · intro n hn
    show (absorb_batchnorm sqrt A B).weight_data.getD n 0 = _
    rw [s2]
    obtain ⟨c, hcdiv⟩ := hdiv
    have htd : Int.tdiv A.weight_data_size B.channels = c := by
      rw [hcdiv]; exact Int.mul_tdiv_cancel_left _ (by omega)
    have hcpos : 0 ≤ c := by
      by_contra hneg
      have : B.channels * c < 0 := Int.mul_neg_of_pos_of_neg hc (by omega)
      omega
    have hprod : (Int.tdiv A.weight_data_size B.channels).toNat * B.channels.toNat
        = A.weight_data_size.toNat := by
      rw [htd, hcdiv]
      have h1 : ((c.toNat * B.channels.toNat : Nat) : Int) = B.channels * c := by
        push_cast
        rw [Int.toNat_of_nonneg hcpos, Int.toNat_of_nonneg (le_of_lt hc)]
        ring
      have h2 : 0 ≤ B.channels * c := by omega
      omega
    by_cases hlen : n < A.weight_data.length
    · rw [if_pos ⟨by omega, hlen⟩]
    · rw [if_neg (fun h => hlen h.2)]
      have h0 : A.weight_data.getD n 0 = 0 := by
        simp [List.getD_eq_getElem?_getD, List.getElem?_eq_none (Nat.le_of_not_lt hlen)]
      rw [h0, zero_mul]
  · intro hb
    refine ⟨by show (absorb_batchnorm sqrt A B).bias_term = _; rw [s1, if_neg hb], ?_⟩
    intro q hq
    show (absorb_batchnorm sqrt A B).bias_data.getD q 0 = _
    have := hbias hb
    rw [s4]
    simp only [if_neg hb]
    rw [if_pos ⟨by omega, by omega⟩]
  · intro hb
    have hlen : (absorb_batchnorm sqrt A B).bias_data.length = B.channels.toNat := by
      rw [s3, if_pos hb]
    refine ⟨by show (absorb_batchnorm sqrt A B).bias_term = _; rw [s1, if_pos hb], hlen, ?_⟩
    show (absorb_batchnorm sqrt A B).bias_data = _
    apply list_eq_of_getD
    · rw [hlen]; simp [bn_a]
    · intro q hq
      rw [hlen] at hq
      rw [s4]
      simp only [if_pos hb]
      rw [if_pos ⟨hq, hq⟩, zero_add]

/-- C4, instance: the iteration of `fuse_convolution_batchnorm` for the Convolution of
`conv_bn_relu` (2 channels, 4 weights, no bias), with the identity in the place of `sqrt`
(the variances are `1`). -/
theorem batchnorm_folding_formulas_witness :
    ∃ A1, (chain_step (ForwardPass.rule id (.batchnorm .Convolution)) conv_bn_relu 0).layers[0]?
        = some A1 ∧
      (∀ n : Nat, (n : Int) < 4 →
        A1.weight_data.getD n 0 = ([1, 2, 3, 4] : List ℚ).getD n 0
          * (bn_b id (conv_bn_relu.layers.getD 1 Layer.blank)).getD (n / 2) 0) ∧
      A1.bias_term = 1 ∧ A1.bias_data = bn_a id (conv_bn_relu.layers.getD 1 Layer.blank) :=
  have h := batchnorm_folding_formulas id .Convolution conv_bn_relu 0 1 _ _ rfl rfl
    (by decide) (by decide) (by decide) (by decide)
  h.imp fun _ h => ⟨h.1, h.2.2.1, (h.2.2.2.2 rfl).1, (h.2.2.2.2 rfl).2.2⟩

/-! ## Folding a Dropout into an InnerProduct -/

theorem absorb_dropout_spec [LinearOrderedField α] (A B : Layer α) :
    (B.scale = 1 → absorb_dropout A B = A) ∧
    (B.scale ≠ 1 →
      (∀ k, (absorb_dropout A B).weight_data.getD k 0 =
        if k < (Int.tdiv A.weight_data_size A.num_output).toNat * A.num_output.toNat ∧
            k < A.weight_data.length then A.weight_data.getD k 0 * B.scale
        else A.weight_data.getD k 0) ∧
      (A.bias_term ≠ 0 → ∀ q, (absorb_dropout A B).bias_data.getD q 0 =
        if q < A.num_output.toNat ∧ q < A.bias_data.length then A.bias_data.getD q 0 * B.scale
        else A.bias_data.getD q 0) ∧
      (A.bias_term = 0 → (absorb_dropout A B).bias_data = A.bias_data)) := by
  have hw := foldl_scale_outch (fun _ => B.scale) (Int.tdiv A.weight_data_size A.num_output)
    A.num_output.toNat A.weight_data
  have hb := foldl_set_getD (fun _ x => x * B.scale) A.num_output.toNat A.bias_data
  constructor
  · intro h1
    unfold absorb_dropout
    simp only []
    rw [if_neg (not_not.mpr h1)]
  · intro h1
    unfold absorb_dropout
    simp only []
    rw [if_pos h1]
    by_cases h2 : A.bias_term = 0
    · rw [if_neg (not_not.mpr h2)]
      exact ⟨fun k => hw.2 k, fun h => absurd h2 h, fun _ => rfl⟩
    · rw [if_pos h2]
      exact ⟨fun k => hw.2 k, fun _ q => hb.2 q, fun h => absurd h h2⟩

/-- C7, as stated, fails: in `ip_dropout_odd` the Dropout has `scale = 1/2 != 1` and is fused
into the InnerProduct, yet the weight at index `2 < weight_data_size = 3` is not multiplied
by `scale` (`weight_per_outch = 3 / 2 = 1`, so the loops reach the indices `0` and `1`
only). -/
theorem innerproduct_dropout_folding_counterexample :
    ∃ A B A1, ip_dropout_odd.layers[0]? = some A ∧ ip_dropout_odd.layers[1]? = some B ∧
      chain_partner (ForwardPass.rule id .innerproduct_dropout) ip_dropout_odd 0 = some 1 ∧
      B.scale ≠ 1 ∧
      (chain_step (ForwardPass.rule id .innerproduct_dropout) ip_dropout_odd 0).layers[0]?
        = some A1 ∧
      A1.weight_data = [1 / 2, 1 / 2, 1] ∧
      ¬ (∀ n : Nat, (n : Int) < A.weight_data_size →
          A1.weight_data.getD n 0 = A.weight_data.getD n 0 * B.scale) := by
  refine ⟨_, _, _, rfl, rfl, by decide, by norm_num [ip_dropout_odd],
    (chain_step_matched _ ip_dropout_odd 0 1 _ _ rfl rfl (by decide)).2.1, ?_, ?_⟩
  · norm_num [ip_dropout_odd, ForwardPass.rule, absorb_dropout, Layer.set_top0, Layer.blank,
      scale_outch, List.range_succ, (by decide : Int.tdiv 3 2 = 1), (by decide : Int.toNat 2 = 2)]
  · intro h
    have := h 2 (by norm_num [ip_dropout_odd])
    norm_num [ip_dropout_odd, ForwardPass.rule, absorb_dropout, Layer.set_top0, Layer.blank,
      scale_outch, List.range_succ, (by decide : Int.tdiv 3 2 = 1), (by decide : Int.toNat 2 = 2)] at this

theorem tdiv_toNat_mul_toNat (a c : Int) (hc : 0 < c) (hdiv : c ∣ a) (ha : 0 ≤ a) :
    (Int.tdiv a c).toNat * c.toNat = a.toNat := by
  obtain ⟨d, hd⟩ := hdiv
  have htd : Int.tdiv a c = d := by
    rw [hd]; exact Int.mul_tdiv_cancel_left _ (by omega)
  have hdpos : 0 ≤ d := by
    by_contra hneg
    have : c * d < 0 := Int.mul_neg_of_pos_of_neg hc (by omega)
    omega
  rw [htd, hd]
  have h1 : ((d.toNat * c.toNat : Nat) : Int) = c * d := by
    push_cast
    rw [Int.toNat_of_nonneg hdpos, Int.toNat_of_nonneg (le_of_lt hc)]
    ring
  have h2 : 0 ≤ c * d := by omega
  omega

/-- C7, amended. When `fuse_innerproduct_dropout` fuses the Dropout `B` into the
InnerProduct `A`, the Dropout becomes fused in both cases; when `scale == 1` the weights and
the bias are left exactly unchanged; when `scale != 1` and `num_output > 0` divides
`weight_data_size`, each of the `weight_data_size` weights is multiplied by `scale`, and,
if `bias_term != 0`, so is each bias entry at an index below `num_output` (the bias is
untouched if `bias_term == 0`). -/
theorem innerproduct_dropout_folding [LinearOrderedField α] (net : Net α) (i j : Nat)
    (A B : Layer α) (hA : net.layers[i]? = some A) (hB : net.layers[j]? = some B)
    (hm : chain_partner (ForwardPass.rule id .innerproduct_dropout) net i = some j) :
    ∃ A1 B1,
      (chain_step (ForwardPass.rule id .innerproduct_dropout) net i).layers[i]? = some A1 ∧
      (chain_step (ForwardPass.rule id .innerproduct_dropout) net i).layers[j]? = some B1 ∧
      B1.type = "ncnnfused" ∧
      (B.scale = 1 → A1.weight_data = A.weight_data ∧ A1.bias_data = A.bias_data) ∧
      (B.scale ≠ 1 →
        (0 < A.num_output → A.num_output ∣ A.weight_data_size →
          ∀ n : Nat, (n : Int) < A.weight_data_size →
            A1.weight_data.getD n 0 = A.weight_data.getD n 0 * B.scale) ∧
        (A.bias_term ≠ 0 → ∀ q : Nat, (q : Int) < A.num_output →
          A1.bias_data.getD q 0 = A.bias_data.getD q 0 * B.scale) ∧
        (A.bias_term = 0 → A1.bias_data = A.bias_data)) := by
  obtain ⟨_, h1, h2, _⟩ := chain_step_matched _ net i j A B hA hB hm
  obtain ⟨s1, s2⟩ := absorb_dropout_spec A B
  refine ⟨_, _, h1, h2, rfl, ?_, ?_⟩
  · intro hs
    show (absorb_dropout A B).weight_data = _ ∧ (absorb_dropout A B).bias_data = _
    rw [s1 hs]; exact ⟨rfl, rfl⟩
  · intro hs
    obtain ⟨w, b1, b0⟩ := s2 hs
    refine ⟨?_, ?_, b0⟩
    · intro hpos hdiv n hn
      show (absorb_dropout A B).weight_data.getD n 0 = _
      rw [w, tdiv_toNat_mul_toNat _ _ hpos hdiv (by omega)]
      by_cases hlen : n < A.weight_data.length
      · rw [if_pos ⟨by omega, hlen⟩]
      · rw [if_neg (fun h => hlen h.2)]
        have h0 : A.weight_data.getD n 0 = 0 := by
          simp [List.getD_eq_getElem?_getD, List.getElem?_eq_none (Nat.le_of_not_lt hlen)]
        rw [h0, zero_mul]
    · intro hb q hq
      show (absorb_dropout A B).bias_data.getD q 0 = _
      rw [b1 hb]
      by_cases hlen : q < A.bias_data.length
      · rw [if_pos ⟨by omega, hlen⟩]
      · rw [if_neg (fun h => hlen h.2)]
        have h0 : A.bias_data.getD q 0 = 0 := by
          simp [List.getD_eq_getElem?_getD, List.getElem?_eq_none (Nat.le_of_not_lt hlen)]
        rw [h0, zero_mul]

/-- C7, instance (scenario C): `num_output = 10` and `scale = 1/2` give `weight = W/2`, and
the Dropout becomes fused. -/
theorem innerproduct_dropout_folding_witness :
    ∃ A1 B1,
      (chain_step (ForwardPass.rule id .innerproduct_dropout) ip_dropout 0).layers[0]?
        = some A1 ∧
      (chain_step (ForwardPass.rule id .innerproduct_dropout) ip_dropout 0).layers[1]?
        = some B1 ∧
      B1.type = "ncnnfused" ∧
      ∀ n : Nat, (n : Int) < 20 →
        A1.weight_data.getD n 0 =
          ([1, 2, 3, 4, 5, 6, 7, 8, 9, 10, 11, 12, 13, 14, 15, 16, 17, 18, 19, 20] :
            List ℚ).getD n 0 * (1 / 2) :=
  have h := innerproduct_dropout_folding ip_dropout 0 1 _ _ rfl rfl (by decide)
  h.imp fun _ h => h.imp fun _ h =>
    ⟨h.1, h.2.1, h.2.2.1,
      (h.2.2.2.2 (by norm_num [ip_dropout])).1 (by decide) (by decide)⟩

/-! ## Absorbing an activation -/

/-- C8, as stated, fails: in `conv_clipped_relu` the Convolution absorbs a ReLU with
`slope == 0`; it ends with `activation_type = 1` but keeps the `activation_params = [0, 6]`
it had, instead of having none. -/
theorem activation_fusion_mapping_counterexample :
    ∃ A B A1, conv_clipped_relu.layers[0]? = some A ∧ conv_clipped_relu.layers[1]? = some B ∧
      chain_partner (ForwardPass.rule id (.activation .Convolution)) conv_clipped_relu 0
        = some 1 ∧
      B.type = "ReLU" ∧ B.slope = 0 ∧
      (chain_step (ForwardPass.rule id (.activation .Convolution)) conv_clipped_relu 0).layers[0]?
        = some A1 ∧
      A1.activation_type = 1 ∧ A1.activation_params = [0, 6] ∧ A1.activation_params ≠ [] := by
  refine ⟨_, _, _, rfl, rfl, by decide, rfl, rfl,
    (chain_step_matched _ conv_clipped_relu 0 1 _ _ rfl rfl (by decide)).2.1, ?_, ?_, ?_⟩
  · simp [conv_clipped_relu, ForwardPass.rule, absorb_activation, Layer.set_top0, Layer.blank]
  · simp [conv_clipped_relu, ForwardPass.rule, absorb_activation, Layer.set_top0, Layer.blank]
  · simp [conv_clipped_relu, ForwardPass.rule, absorb_activation, Layer.set_top0, Layer.blank]

/-- C8, amended. For each weighted kind `L` and every predecessor state `A`, after
`fuse_<L>_activation` absorbs the successor `B`: a ReLU with `slope == 0` gives
`activation_type` 1 and leaves `activation_params` as they were; a ReLU with `slope != 0`
gives type 2 and params `[slope]`; a Clip gives type 3 and params `[min, max]`; a Sigmoid
gives type 4 and leaves `activation_params` as they were.  In particular a predecessor
without `activation_params` has none after absorbing a ReLU with `slope == 0` or a
Sigmoid. -/
theorem activation_fusion_mapping [LinearOrderedField α] (L : Weighted) (net : Net α)
    (i j : Nat) (A B : Layer α)
    (hA : net.layers[i]? = some A) (hB : net.layers[j]? = some B)
    (hm : chain_partner (ForwardPass.rule id (.activation L)) net i = some j) :
    ∃ A1, (chain_step (ForwardPass.rule id (.activation L)) net i).layers[i]? = some A1 ∧
      (B.type = "ReLU" ∨ B.type = "Clip" ∨ B.type = "Sigmoid") ∧
      (B.type = "ReLU" → B.slope = 0 →
        A1.activation_type = 1 ∧ A1.activation_params = A.activation_params) ∧
      (B.type = "ReLU" → B.slope ≠ 0 →
        A1.activation_type = 2 ∧ A1.activation_params = [B.slope]) ∧
      (B.type = "Clip" →
        A1.activation_type = 3 ∧ A1.activation_params = [B.min, B.max]) ∧
      (B.type = "Sigmoid" →
        A1.activation_type = 4 ∧ A1.activation_params = A.activation_params) := by
  obtain ⟨_, h1, _⟩ := chain_step_matched _ net i j A B hA hB hm
  obtain ⟨A0, hA0, hg⟩ := chain_partner_some_guard _ _ _ _ hm
  rw [hA] at hA0; cases hA0
  obtain ⟨_, ⟨B0, hB0, hBm, _⟩, _⟩ := (chain_partner_eq_some _ net i j A hA hg).mp hm
  rw [hB] at hB0; cases hB0
  have hty : B.type = "ReLU" ∨ B.type = "Clip" ∨ B.type = "Sigmoid" := by
    simpa [ForwardPass.rule] using hBm
  refine ⟨_, h1, hty, ?_, ?_, ?_, ?_⟩
  · intro ht hs
    show (absorb_activation A B).activation_type = 1 ∧
      (absorb_activation A B).activation_params = A.activation_params
    unfold absorb_activation
    rw [if_pos ht, if_pos hs]; exact ⟨rfl, rfl⟩
  · intro ht hs
    show (absorb_activation A B).activation_type = 2 ∧
      (absorb_activation A B).activation_params = [B.slope]
    unfold absorb_activation
    rw [if_pos ht, if_neg hs]; exact ⟨rfl, rfl⟩
  · intro ht
    show (absorb_activation A B).activation_type = 3 ∧
      (absorb_activation A B).activation_params = [B.min, B.max]
    unfold absorb_activation
    rw [if_neg (by rw [ht]; decide), if_pos ht]; exact ⟨rfl, rfl⟩
  · intro ht
    show (absorb_activation A B).activation_type = 4 ∧
      (absorb_activation A B).activation_params = A.activation_params
    unfold absorb_activation
    rw [if_neg (by rw [ht]; decide), if_neg (by rw [ht]; decide), if_pos ht]; exact ⟨rfl, rfl⟩

/-- C8, instance: the Deconvolution of `deconv_clip` absorbs `Clip(0, 6)` as type 3 with
params `[0, 6]`. -/
theorem activation_fusion_mapping_witness :
    ∃ A1, (chain_step (ForwardPass.rule id (.activation .Deconvolution)) deconv_clip 0).layers[0]?
        = some A1 ∧ A1.activation_type = 3 ∧ A1.activation_params = [(0 : ℚ), 6] :=
  have h := activation_fusion_mapping .Deconvolution deconv_clip 0 1 _ _ rfl rfl (by decide)
  h.imp fun _ h => ⟨h.1, h.2.2.2.2.1 rfl⟩

/-! ## Deconvolution::forward and a fused activation -/

/-- C3, the code at the failing input. In `deconv_bn` the Deconvolution has `bias_term = 1`,
`activation_type = 0`, and the BatchNorm has `channels = num_output = 1` dividing
`weight_data_size`, with `var + eps = 1 > 0`.  On the `1x1x1` input `[0]` the original
Deconvolution outputs `[1]`, which the BatchNorm maps to `2 * (1 - 0) / sqrt 1 + 0 = 2`; the
layer rewritten by `fuse_deconvolution_batchnorm` has weight `[2]` and bias `[1 + 0]`, and
outputs `[1]`. -/
theorem deconvolution_batchnorm_fusion_bias_diverges :
    ∃ A B A1, deconv_bn.layers[0]? = some A ∧ deconv_bn.layers[1]? = some B ∧
      chain_partner (ForwardPass.rule Real.sqrt (.batchnorm .Deconvolution)) deconv_bn 0
        = some 1 ∧
      (A.bias_term = 1 ∧ A.activation_type = 0 ∧ B.channels = A.num_output ∧
        0 < B.channels ∧ B.channels ∣ A.weight_data_size ∧
        0 < B.var_data.getD 0 0 + B.eps) ∧
      (chain_step (ForwardPass.rule Real.sqrt (.batchnorm .Deconvolution)) deconv_bn 0).layers[0]?
        = some A1 ∧
      A1.weight_data = [2] ∧ A1.bias_data = [1] ∧
      Deconvolution.forward Real.exp A1 { w := 1, h := 1, c := 1, data := [0] }
        = some { w := 1, h := 1, c := 1, data := [1] } ∧
      (Deconvolution.forward Real.exp A { w := 1, h := 1, c := 1, data := [0] }).map
          (Mat.map fun v =>
            B.slope_data.getD 0 0 * (v - B.mean_data.getD 0 0)
              / Real.sqrt (B.var_data.getD 0 0 + B.eps) + B.bias_data.getD 0 0)
        = some { w := 1, h := 1, c := 1, data := [2] } := by
  refine ⟨_, _, _, rfl, rfl, by decide, ⟨rfl, rfl, rfl, by decide, by decide, ?_⟩,
    (chain_step_matched _ deconv_bn 0 1 _ _ rfl rfl (by decide)).2.1, ?_, ?_, ?_, ?_⟩
  · norm_num [deconv_bn, Layer.blank]
  · norm_num [deconv_bn, ForwardPass.rule, absorb_batchnorm, bn_a, bn_b, scale_outch,
      Layer.set_top0, Layer.blank, List.range_succ, (by decide : Int.tdiv 1 1 = 1),
      (by decide : Int.toNat 1 = 1)]
  · norm_num [deconv_bn, ForwardPass.rule, absorb_batchnorm, bn_a, bn_b, scale_outch,
      Layer.set_top0, Layer.blank, List.range_succ, (by decide : Int.tdiv 1 1 = 1),
      (by decide : Int.toNat 1 = 1)]
  · norm_num [deconv_bn, ForwardPass.rule, absorb_batchnorm, bn_a, bn_b, scale_outch,
      Layer.set_top0, Layer.blank, List.range_succ, (by decide : Int.tdiv 1 1 = 1),
      (by decide : Int.toNat 1 = 1),
      Deconvolution.forward, Deconvolution.top_blob_bordered, Deconvolution.outw,
      Deconvolution.outh, deconv_channel, deconv_activation, space_ofs, add_at, Mat.empty]
  · norm_num [deconv_bn, Deconvolution.forward, Deconvolution.top_blob_bordered,
      Deconvolution.outw, Deconvolution.outh, deconv_channel, deconv_activation, space_ofs,
      add_at, Layer.blank, List.range_succ, Mat.empty, Mat.map]

/-! ## Dropout elimination -/

theorem backward_search_spec (b : Nat) :
    ∀ (ls : List (Layer α)) (j : Nat),
      backward_search b ls = some j ↔
        j < ls.length ∧ (∃ L, ls.reverse[j]? = some L ∧ is_back_match b L) ∧
        ∀ k L, j < k → k < ls.length → ls.reverse[k]? = some L → ¬ is_back_match b L := by
  intro ls
  induction ls with
  | nil => intro j; simp [backward_search]
  | cons L below ih =>
    intro j
    have hlast : (L :: below).reverse[below.length]? = some L := by
      simp [List.getElem?_append_right]
    have hinit : ∀ k, k < below.length → (L :: below).reverse[k]? = below.reverse[k]? := by
      intro k hk
      simp [List.getElem?_append_left, hk]
    by_cases hm : is_back_match b L
    · have hr : backward_search b (L :: below) = some below.length := by
        obtain ⟨a, c, d⟩ := hm
        simp only [backward_search]
        rw [if_neg a, if_neg (by simp [c]), if_pos d]
      rw [hr]
      constructor
      · intro h
        simp only [Option.some.injEq] at h
        subst h
        refine ⟨by simp, ⟨L, hlast, hm⟩, ?_⟩
        intro k _ h1 h2
        simp only [List.length_cons] at h2
        omega
      · rintro ⟨h1, _, h3⟩
        simp only [List.length_cons] at h1
        by_contra hne
        have hlt : j < below.length := by
          have : below.length ≠ j := fun e => hne (by rw [e])
          omega
        exact h3 below.length L hlt (by simp) hlast hm
    · have hr : backward_search b (L :: below) = backward_search b below := by
        unfold is_back_match at hm
        simp only [backward_search]
        by_cases a : L.type = "ncnnfused"
        · rw [if_pos a]
        · by_cases c : L.tops.length = 1
          · have d : ¬ L.tops.getD 0 0 = b := fun d => hm ⟨a, c, d⟩
            rw [if_neg a, if_neg (by simp [c]), if_neg d]
          · rw [if_neg a, if_pos c]
      rw [hr, ih j]
      constructor
      · rintro ⟨h1, ⟨M, hM, hMm⟩, h3⟩
        refine ⟨by simp only [List.length_cons]; omega, ⟨M, by rw [hinit j h1]; exact hM, hMm⟩, ?_⟩
        intro k M1 hjk hk hM1
        simp only [List.length_cons] at hk
        by_cases hkl : k < below.length
        · rw [hinit k hkl] at hM1
          exact h3 k M1 hjk hkl hM1
        · have : k = below.length := by omega
          subst this
          rw [hlast] at hM1
          cases hM1
          exact hm
      · rintro ⟨h1, ⟨M, hM, hMm⟩, h3⟩
        simp only [List.length_cons] at h1
        have hlt : j < below.length := by
          by_contra hge
          have : j = below.length := by omega
          subst this
          rw [hlast] at hM
          cases hM
          exact hm hMm
        refine ⟨hlt, ⟨M, by rw [← hinit j hlt]; exact hM, hMm⟩, ?_⟩
        intro k M1 hjk hk hM1
        exact h3 k M1 hjk (by simp only [List.length_cons]; omega) (by rw [hinit k hk]; exact hM1)

theorem dropout_partner_eq_some [LinearOrderedField α] (net : Net α) (i j : Nat)
    (D : Layer α) (hD : net.layers[i]? = some D) (hty : D.type = "Dropout")
    (hs : D.scale = 1) :
    dropout_partner net i = some j ↔
      j < i ∧ (∃ L, net.layers[j]? = some L ∧ is_back_match (D.bottoms.getD 0 0) L) ∧
      ∀ k L, j < k → k < i → net.layers[k]? = some L →
        ¬ is_back_match (D.bottoms.getD 0 0) L := by
  have hi : i < net.layers.length := (List.getElem?_eq_some_iff.mp hD).1
  have hlen : (net.layers.take i).reverse.length = i := by
    simp [List.length_take]; omega
  have hget : ∀ k, k < i → (net.layers.take i).reverse.reverse[k]? = net.layers[k]? := by
    intro k hk
    rw [List.reverse_reverse, List.getElem?_take_of_lt hk]
  unfold dropout_partner
  simp only [hD]
  rw [if_neg (not_not.mpr hty), if_neg (not_not.mpr hs)]
  rw [backward_search_spec, hlen]
  constructor
  · rintro ⟨h1, ⟨L, hL, hLm⟩, h3⟩
    refine ⟨h1, ⟨L, by rw [← hget j h1]; exact hL, hLm⟩, ?_⟩
    intro k M hjk hk hM
    exact h3 k M hjk hk (by rw [hget k hk]; exact hM)
  · rintro ⟨h1, ⟨L, hL, hLm⟩, h3⟩
    refine ⟨h1, ⟨L, by rw [hget j h1]; exact hL, hLm⟩, ?_⟩
    intro k M hjk hk hM
    exact h3 k M hjk hk (by rw [← hget k hk]; exact hM)

theorem dropout_partner_some [LinearOrderedField α] (net : Net α) (i j : Nat)
    (h : dropout_partner net i = some j) :
    ∃ D, net.layers[i]? = some D ∧ D.type = "Dropout" ∧ D.scale = 1 := by
  unfold dropout_partner at h
  split at h
  · cases h
  · rename_i D hD
    refine ⟨D, hD, ?_, ?_⟩
    · by_contra hty
      rw [if_pos hty] at h
      cases h
    · by_contra hs
      by_cases hty : D.type ≠ "Dropout"
      · rw [if_pos hty] at h; cases h
      · rw [if_neg hty, if_pos hs] at h; cases h

theorem eliminate_dropout_step_matched [LinearOrderedField α] (net : Net α) (i j : Nat)
    (D L : Layer α) (hD : net.layers[i]? = some D) (hL : net.layers[j]? = some L)
    (hm : dropout_partner net i = some j) :
    j < i ∧
    (eliminate_dropout_step net i).layers[j]? = some (L.set_top0 (D.tops.getD 0 0)) ∧
    (eliminate_dropout_step net i).layers[i]? = some D.set_fused ∧
    (∀ k, k ≠ j → k ≠ i → (eliminate_dropout_step net i).layers[k]? = net.layers[k]?) ∧
    (eliminate_dropout_step net i).blobs = set_producer net.blobs (D.tops.getD 0 0) j := by
  obtain ⟨D0, hD0, hty, hs⟩ := dropout_partner_some net i j hm
  rw [hD] at hD0; cases hD0
  have hji : j < i := ((dropout_partner_eq_some net i j D hD hty hs).mp hm).1
  have hi : i < net.layers.length := (List.getElem?_eq_some_iff.mp hD).1
  have hj : j < net.layers.length := (List.getElem?_eq_some_iff.mp hL).1
  have hstep : eliminate_dropout_step net i =
      { layers := (net.layers.set j (L.set_top0 (D.tops.getD 0 0))).set i D.set_fused,
        blobs := set_producer net.blobs (D.tops.getD 0 0) j } := by
    simp only [eliminate_dropout_step, hm, hD, hL]
  rw [hstep]
  obtain ⟨h1, h2, h3⟩ := getElem?_set_set net.layers j i
    (L.set_top0 (D.tops.getD 0 0)) D.set_fused (by omega) hj hi
  exact ⟨hji, h1, h2, h3, rfl⟩

theorem foldl_invariant {σ β : Type} (P : σ → Prop) (f : σ → β → σ)
    (h : ∀ s x, P s → P (f s x)) (l : List β) (s : σ) (hs : P s) : P (l.foldl f s) := by
  induction l generalizing s with
  | nil => exact hs
  | cons x xs ih => exact ih _ (h s x hs)

/-- C10, as stated, fails: in `dropout_chain` the Dropout at index 1 has `scale = 1/2 != 1`,
yet `eliminate_dropout` modifies it: as the nearest producer of the input of the Dropout at
index 2 (whose `scale` is `1`) it takes over that Dropout's top, so its `tops` change from
`[1]` to `[2]`. -/
theorem dropout_elimination_counterexample :
    ∃ D D1, dropout_chain.layers[1]? = some D ∧ D.type = "Dropout" ∧ D.scale ≠ 1 ∧
      (eliminate_dropout dropout_chain).layers[1]? = some D1 ∧
      D.tops = [1] ∧ D1.tops = [2] := by
  have h0 : eliminate_dropout_step dropout_chain 0 = dropout_chain := by
    simp [eliminate_dropout_step, dropout_partner, dropout_chain]
  have h1 : eliminate_dropout_step dropout_chain 1 = dropout_chain := by
    norm_num [eliminate_dropout_step, dropout_partner, dropout_chain, Layer.blank]
  have h2 : dropout_partner dropout_chain 2 = some 1 := by
    norm_num [dropout_partner, dropout_chain, Layer.blank, backward_search,
      (by decide : ("Dropout" : String) ≠ "ncnnfused")]
  have hpass : eliminate_dropout dropout_chain = eliminate_dropout_step dropout_chain 2 := by
    show List.foldl eliminate_dropout_step dropout_chain (List.range 3) = _
    simp only [List.range_succ, List.range_zero, List.nil_append, List.cons_append,
      List.foldl_cons, List.foldl_nil, h0, h1]
  refine ⟨dropout_chain.layers.getD 1 Layer.blank,
    (dropout_chain.layers.getD 1 Layer.blank).set_top0 2, rfl, rfl,
    by norm_num [dropout_chain], ?_, rfl, rfl⟩
  rw [hpass]
  exact (eliminate_dropout_step_matched dropout_chain 2 1 _ _ rfl rfl h2).2.1

/-- C10, amended. For every graph and every Dropout layer `D` at index `i`, the iteration of
`eliminate_dropout` for `i` marks `D` fused if and only if `D.scale == 1` and some layer that
is not fused at an index `j < i` has exactly one top and that top equals `D.bottoms[0]`; in
that case the nearest such layer takes over the top of `D` (its `tops[0]` becomes
`D.tops[0]`, and `blobs[D.tops[0]].producer` becomes `j` when `D.tops[0]` indexes into
`blobs`).  When `D.scale != 1` that iteration changes nothing, and the whole pass never marks
`D` fused nor changes its `scale`, `bottoms` or name (its `tops[0]` can still change when it
is the nearest producer of a later Dropout whose `scale` is `1`). -/
theorem dropout_elimination [LinearOrderedField α] (net : Net α) (i : Nat) (D : Layer α)
    (hD : net.layers[i]? = some D) (hty : D.type = "Dropout") :
    ((∃ D1, (eliminate_dropout_step net i).layers[i]? = some D1 ∧ D1.type = "ncnnfused") ↔
      D.scale = 1 ∧ ∃ j L, j < i ∧ net.layers[j]? = some L ∧ L.type ≠ "ncnnfused" ∧
        L.tops.length = 1 ∧ L.tops.getD 0 0 = D.bottoms.getD 0 0) ∧
    (∀ j L, D.scale = 1 → j < i → net.layers[j]? = some L →
      (L.type ≠ "ncnnfused" ∧ L.tops.length = 1 ∧ L.tops.getD 0 0 = D.bottoms.getD 0 0) →
      (∀ k M, j < k → k < i → net.layers[k]? = some M →
        ¬ (M.type ≠ "ncnnfused" ∧ M.tops.length = 1 ∧
          M.tops.getD 0 0 = D.bottoms.getD 0 0)) →
      (∃ L1, (eliminate_dropout_step net i).layers[j]? = some L1 ∧
        L1.tops.getD 0 0 = D.tops.getD 0 0) ∧
      (D.tops.getD 0 0 < net.blobs.length →
        ∃ b, (eliminate_dropout_step net i).blobs[D.tops.getD 0 0]? = some b ∧
          b.producer = (j : Int))) ∧
    (D.scale ≠ 1 → eliminate_dropout_step net i = net ∧
      ∃ D1, (eliminate_dropout net).layers[i]? = some D1 ∧ D1.type = "Dropout" ∧
        D1.scale = D.scale ∧ D1.bottoms = D.bottoms ∧ D1.name = D.name) := by
  refine ⟨?_, ?_, ?_⟩
  · constructor
    · rintro ⟨D1, hD1, hf⟩
      cases hp : dropout_partner net i with
      | none =>
        have : eliminate_dropout_step net i = net := by
          simp only [eliminate_dropout_step, hp]
        rw [this, hD] at hD1
        cases hD1
        rw [hty] at hf
        exact absurd hf (by decide)
      | some j =>
        obtain ⟨D0, hD0, _, hs⟩ := dropout_partner_some net i j hp
        rw [hD] at hD0; cases hD0
        obtain ⟨hji, ⟨L, hL, hLm⟩, _⟩ := (dropout_partner_eq_some net i j D hD hty hs).mp hp
        exact ⟨hs, j, L, hji, hL, hLm⟩
    · rintro ⟨hs, j, L, hji, hL, hLm⟩
      have hex : ∃ j, dropout_partner net i = some j := by
        by_contra hno
        have hnone : ∀ n, n ≤ i → ∀ k M, i - n ≤ k → k < i → net.layers[k]? = some M →
            ¬ is_back_match (D.bottoms.getD 0 0) M := by
          intro n
          induction n with
          | zero => intro _ k M h1 h2; omega
          | succ n ih =>
            intro hn k M h1 h2 hM hMm
            by_cases hk : i - n ≤ k
            · exact ih (by omega) k M hk h2 hM hMm
            · have hkeq : k = i - (n + 1) := by omega
              apply hno
              refine ⟨k, (dropout_partner_eq_some net i k D hD hty hs).mpr
                ⟨h2, ⟨M, hM, hMm⟩, ?_⟩⟩
              intro k1 M1 hk1 hk1i hM1
              exact ih (by omega) k1 M1 (by omega) hk1i hM1
        exact hnone i (le_refl i) j L (by omega) hji hL hLm
      obtain ⟨j1, hp⟩ := hex
      obtain ⟨_, ⟨L1, hL1, _⟩, _⟩ := (dropout_partner_eq_some net i j1 D hD hty hs).mp hp
      exact ⟨_, (eliminate_dropout_step_matched net i j1 D L1 hD hL1 hp).2.2.1, rfl⟩
  · intro j L hs hji hL hLm hmin
    have hp : dropout_partner net i = some j :=
      (dropout_partner_eq_some net i j D hD hty hs).mpr ⟨hji, ⟨L, hL, hLm⟩, hmin⟩
    obtain ⟨_, h1, _, _, h4⟩ := eliminate_dropout_step_matched net i j D L hD hL hp
    refine ⟨⟨_, h1, ?_⟩, ?_⟩
    · show (L.tops.set 0 (D.tops.getD 0 0)).getD 0 0 = _
      cases hL' : L.tops with
      | nil => rw [hL'] at hLm; simp at hLm
      | cons x xs => simp
    · intro hblob
      obtain ⟨b, hb⟩ : ∃ b, net.blobs[D.tops.getD 0 0]? = some b :=
        ⟨_, List.getElem?_eq_getElem hblob⟩
      refine ⟨{ b with producer := j }, ?_, rfl⟩
      rw [h4]
      simp only [set_producer_getElem?, if_true, hb, Option.map_some']
  · intro hs
    have hself : ∀ net1 : Net α, (∃ D1, net1.layers[i]? = some D1 ∧ D1.type = "Dropout" ∧
        D1.scale = D.scale ∧ D1.bottoms = D.bottoms ∧ D1.name = D.name) →
        dropout_partner net1 i = none := by
      rintro net1 ⟨D1, hD1, _, hs1, _⟩
      cases hp : dropout_partner net1 i with
      | none => rfl
      | some j =>
        obtain ⟨D0, hD0, _, hs0⟩ := dropout_partner_some net1 i j hp
        rw [hD1] at hD0; cases hD0
        rw [hs1] at hs0
        exact absurd hs0 hs
    refine ⟨by simp only [eliminate_dropout_step, hself net ⟨D, hD, hty, rfl, rfl, rfl⟩], ?_⟩
    apply foldl_invariant (fun net1 : Net α => ∃ D1, net1.layers[i]? = some D1 ∧
      D1.type = "Dropout" ∧ D1.scale = D.scale ∧ D1.bottoms = D.bottoms ∧ D1.name = D.name)
    · rintro net1 k ⟨D1, hD1, ht1, hs1, hb1, hn1⟩
      cases hp : dropout_partner net1 k with
      | none =>
        have : eliminate_dropout_step net1 k = net1 := by
          simp only [eliminate_dropout_step, hp]
        rw [this]
        exact ⟨D1, hD1, ht1, hs1, hb1, hn1⟩
      | some j =>
        obtain ⟨Dk, hDk, htk, hsk⟩ := dropout_partner_some net1 k j hp
        obtain ⟨hjk, ⟨L, hL, _⟩, _⟩ := (dropout_partner_eq_some net1 k j Dk hDk htk hsk).mp hp
        obtain ⟨_, g1, _, g3, _⟩ := eliminate_dropout_step_matched net1 k j Dk L hDk hL hp
        have hki : k ≠ i := by
          intro e
          subst e
          have := hself net1 ⟨D1, hD1, ht1, hs1, hb1, hn1⟩
          rw [this] at hp
          cases hp
        by_cases hji : i = j
        · subst hji
          rw [hD1] at hL; cases hL
          exact ⟨_, g1, ht1, hs1, hb1, hn1⟩
        · rw [g3 i hji (Ne.symm hki)]
          exact ⟨D1, hD1, ht1, hs1, hb1, hn1⟩
    · exact ⟨D, hD, hty, rfl, rfl, rfl⟩

/-- C10, instance: in `dropout_chain` the iteration for the Dropout at index 2 (`scale = 1`)
marks it fused, and the Dropout at index 1, the nearest producer of its input, takes over its
top blob 2. -/
theorem dropout_elimination_witness :
    (∃ D1, (eliminate_dropout_step dropout_chain 2).layers[2]? = some D1 ∧
      D1.type = "ncnnfused") ∧
    (∃ L1, (eliminate_dropout_step dropout_chain 2).layers[1]? = some L1 ∧
      L1.tops.getD 0 0 = 2) ∧
    (∃ b, (eliminate_dropout_step dropout_chain 2).blobs[2]? = some b ∧ b.producer = 1) :=
  have h := dropout_elimination dropout_chain 2 _ rfl rfl
  have h2 := h.2.1 1 _ rfl (by decide) rfl ⟨by decide, rfl, rfl⟩
    (fun k M h1 h2 => by omega)
  ⟨h.1.mpr ⟨rfl, 1, _, by decide, rfl, by decide, rfl, rfl⟩, h2.1, h2.2 (by decide)⟩

/-! ## Every pass is a sequence of rewirings and replacements -/

theorem isB_absorbed_kind [LinearOrderedField α] (sqrt : α → α) (p : ForwardPass) (t : String)
    (h : (p.rule sqrt).isB t = true) : absorbed_kind t := by
  unfold absorbed_kind
  cases p <;> simp only [ForwardPass.rule, decide_eq_true_eq] at h <;> tauto

theorem chain_step_rewired [LinearOrderedField α] (sqrt : α → α) (p : ForwardPass)
    (net : Net α) (i : Nat) :
    chain_step (p.rule sqrt) net i = net ∨
      ∃ j, Rewired net (chain_step (p.rule sqrt) net i) i j := by
  cases hm : chain_partner (p.rule sqrt) net i with
  | none => left; unfold chain_step; rw [hm]
  | some j =>
    right
    obtain ⟨A, hA, hg⟩ := chain_partner_some_guard _ net i j hm
    obtain ⟨_, ⟨B, hB, hisB, _, hbot⟩, _⟩ := (chain_partner_eq_some _ net i j A hA hg).mp hm
    obtain ⟨hij, h1, h2, h3, h4⟩ := chain_step_matched _ net i j A B hA hB hm
    obtain ⟨hty, hname, hbots, htops⟩ := absorb_header sqrt p A B
    refine ⟨j, A, ((p.rule sqrt).absorb A B).set_top0 (B.tops.getD 0 0), B, hA, hB, hij,
      guardA_not_fused sqrt p A hg, isB_absorbed_kind sqrt p _ hisB, hbot, hty, hname, hbots,
      ?_, h1, h2, h3, h4⟩
    show List.set _ 0 _ = _
    rw [htops]

theorem eliminate_dropout_step_rewired [LinearOrderedField α] (net : Net α) (i : Nat) :
    eliminate_dropout_step net i = net ∨
      ∃ j, Rewired net (eliminate_dropout_step net i) j i := by
  cases hm : dropout_partner net i with
  | none => left; unfold eliminate_dropout_step; rw [hm]
  | some j =>
    right
    obtain ⟨D, hD, hty, hs⟩ := dropout_partner_some net i j hm
    obtain ⟨_, ⟨L, hL, hnf, _, htop⟩, _⟩ := (dropout_partner_eq_some net i j D hD hty hs).mp hm
    obtain ⟨hji, h1, h2, h3, h4⟩ := eliminate_dropout_step_matched net i j D L hD hL hm
    refine ⟨j, L, L.set_top0 (D.tops.getD 0 0), D, hL, hD, hji, hnf, ?_, htop.symm, rfl, rfl,
      rfl, rfl, h1, h2, h3, h4⟩
    unfold absorbed_kind
    rw [hty]
    decide

theorem replace_step_replaced (fresh : Layer α) (R : ChainRule α)
    (hR : ∀ t, R.isB t = true → t = "Convolution") (net : Net α) (i : Nat) :
    replace_step fresh R net i = net ∨ ∃ j, Replaced fresh net (replace_step fresh R net i) j := by
  cases hm : chain_partner R net i with
  | none => left; unfold replace_step; rw [hm]
  | some j =>
    right
    obtain ⟨A, hA, hg⟩ := chain_partner_some_guard _ net i j hm
    obtain ⟨_, ⟨B, hB, hisB, _, _⟩, _⟩ := (chain_partner_eq_some _ net i j A hA hg).mp hm
    refine ⟨j, B, hB, hR _ hisB, ?_, ?_⟩ <;>
    · unfold replace_step
      rw [hm]
      simp only [hB]

theorem replace_sweep_invariant (fresh : Layer α) (I : Net α → Prop)
    (hrep : ∀ n n1 j, I n → Replaced fresh n n1 j → I n1) (net : Net α) (h : I net) :
    I (replace_sweep fresh net).1 := by
  unfold replace_sweep
  apply foldl_invariant (fun st : Net α × Bool => I st.1) _ _ _ _ h
  intro st i hst
  cases hm : chain_partner innerproduct_convolution st.1 i with
  | none => simpa only [hm] using hst
  | some j =>
    simp only [hm]
    rcases replace_step_replaced fresh innerproduct_convolution
      (fun t ht => by simpa [innerproduct_convolution] using ht) st.1 i with h1 | ⟨j1, h1⟩
    · rw [h1]; exact hst
    · exact hrep _ _ _ hst h1

theorem replace_loop_invariant (fresh : Layer α) (I : Net α → Prop)
    (hrep : ∀ n n1 j, I n → Replaced fresh n n1 j → I n1) :
    ∀ (fuel : Nat) (net net1 : Net α), I net → replace_loop fresh fuel net = some net1 →
      I net1 := by
  intro fuel
  induction fuel with
  | zero => intro net net1 _ h; simp [replace_loop] at h
  | succ n ih =>
    intro net net1 h hl
    have hs := replace_sweep_invariant fresh I hrep net h
    unfold replace_loop at hl
    by_cases hf : (replace_sweep fresh net).2 = true
    · simp only [hf, if_true] at hl
      exact ih _ _ hs hl
    · simp only [hf, if_false] at hl
      cases hl
      exact hs

/-- Induction over the iterations of a pass: a property of graphs that survives every
rewiring and every replacement survives every rewrite pass. -/
theorem pass_induction [LinearOrderedField α] (sqrt : α → α) (fresh : Layer α)
    (I : Net α → Prop)
    (hrew : ∀ n n1 a b, I n → Rewired n n1 a b → I n1)
    (hrep : ∀ n n1 j, I n → Replaced fresh n n1 j → I n1)
    (pass : RewritePass) (net : Net α) (h : I net) : I (pass.run sqrt fresh net) := by
  cases pass with
  | forward p =>
    show I (chain_pass _ net)
    unfold chain_pass
    apply foldl_invariant I _ _ _ _ h
    intro s i hs
    rcases chain_step_rewired sqrt p s i with h1 | ⟨j, h1⟩
    · rw [h1]; exact hs
    · exact hrew _ _ _ _ hs h1
  | dropout =>
    show I (eliminate_dropout net)
    unfold eliminate_dropout
    apply foldl_invariant I _ _ _ _ h
    intro s i hs
    rcases eliminate_dropout_step_rewired s i with h1 | ⟨j, h1⟩
    · rw [h1]; exact hs
    · exact hrew _ _ _ _ hs h1
  | replace_after_global_pooling =>
    show I (replace_convolution_with_innerproduct_after_global_pooling fresh net)
    unfold replace_convolution_with_innerproduct_after_global_pooling
    apply foldl_invariant I _ _ _ _ h
    intro s i hs
    rcases replace_step_replaced fresh pooling_convolution
      (fun t ht => by simpa [pooling_convolution] using ht) s i with h1 | ⟨j, h1⟩
    · rw [h1]; exact hs
    · exact hrep _ _ _ hs h1
  | replace_after_innerproduct =>
    show I (replace_convolution_with_innerproduct_after_innerproduct fresh net)
    unfold replace_convolution_with_innerproduct_after_innerproduct
    cases hl : replace_loop fresh (count_convolution net + 1) net with
    | none => exact h
    | some net1 => exact replace_loop_invariant fresh I hrep _ _ _ h hl

/-! ## The frame of the passes -/

theorem frame_refl (L : Layer α) : frame L L :=
  ⟨rfl, rfl, rfl, rfl, Or.inl rfl⟩

theorem frame_trans (L L1 L2 : Layer α) (h1 : frame L L1) (h2 : frame L1 L2) : frame L L2 := by
  obtain ⟨a1, b1, c1, d1, e1⟩ := h1
  obtain ⟨a2, b2, c2, d2, e2⟩ := h2
  refine ⟨a2.trans a1, b2.trans b1, c2.trans c1, d2.trans d1, ?_⟩
  rcases e2 with e2 | e2 | ⟨e2, e3⟩
  · rcases e1 with e1 | e1 | ⟨e1, e4⟩
    · exact Or.inl (e2.trans e1)
    · exact Or.inr (Or.inl (e2.trans e1))
    · exact Or.inr (Or.inr ⟨e1, e2.trans e4⟩)
  · exact Or.inr (Or.inl e2)
  · rcases e1 with e1 | e1 | ⟨e1, e4⟩
    · exact Or.inr (Or.inr ⟨e1 ▸ e2, e3⟩)
    · rw [e1] at e2; exact absurd e2 (by decide)
    · rw [e4] at e2; exact absurd e2 (by decide)

theorem framed_refl (net : Net α) : framed net net :=
  ⟨rfl, rfl, rfl, fun k L L1 h h1 => by
    rw [h] at h1; cases h1; exact frame_refl L⟩

theorem framed_trans (n n1 n2 : Net α) (h1 : framed n n1) (h2 : framed n1 n2) :
    framed n n2 := by
  obtain ⟨a1, b1, c1, d1⟩ := h1
  obtain ⟨a2, b2, c2, d2⟩ := h2
  refine ⟨a2.trans a1, b2.trans b1, c2.trans c1, ?_⟩
  intro k L L2 hL hL2
  have hk : k < n1.layers.length := by
    rw [a1]
    exact (List.getElem?_eq_some_iff.mp hL).1
  obtain ⟨L1, hL1⟩ : ∃ L1, n1.layers[k]? = some L1 := ⟨_, List.getElem?_eq_getElem hk⟩
  exact frame_trans L L1 L2 (d1 k L L1 hL hL1) (d2 k L1 L2 hL1 hL2)

theorem set_producer_length (blobs : List Blob) (idx : Nat) (i : Int) :
    (set_producer blobs idx i).length = blobs.length := by
  unfold set_producer
  cases blobs[idx]? <;> simp

theorem set_producer_names (blobs : List Blob) (idx : Nat) (i : Int) :
    (set_producer blobs idx i).map Blob.name = blobs.map Blob.name := by
  apply List.ext_getElem?
  intro k
  rw [List.getElem?_map, List.getElem?_map, set_producer_getElem?]
  by_cases hk : k = idx
  · rw [if_pos hk, hk]
    cases blobs[idx]? <;> rfl
  · rw [if_neg hk]

theorem rewired_length_eq {net net1 : Net α} {a b : Nat} (h : Rewired net net1 a b) :
    net1.layers.length = net.layers.length := by
  obtain ⟨K, K1, B, hK, hB, hab, _, _, _, _, _, _, _, h1, h2, h3, _⟩ := h
  have ha : a < net.layers.length := (List.getElem?_eq_some_iff.mp hK).1
  have hb : b < net.layers.length := (List.getElem?_eq_some_iff.mp hB).1
  have hb1 : b < net1.layers.length := (List.getElem?_eq_some_iff.mp h2).1
  apply le_antisymm
  · by_contra hlt
    have hk := h3 net.layers.length (by omega) (by omega)
    rw [List.getElem?_eq_none (le_refl _)] at hk
    have := List.getElem?_eq_none_iff.mp hk
    omega
  · by_contra hlt
    have hk := h3 net1.layers.length (by omega) (by omega)
    rw [List.getElem?_eq_none (le_refl _)] at hk
    have := List.getElem?_eq_none_iff.mp hk.symm
    omega

theorem rewired_framed {net net1 : Net α} {a b : Nat} (h : Rewired net net1 a b) :
    framed net net1 := by
  have hlen := rewired_length_eq h
  obtain ⟨K, K1, B, hK, hB, hab, _, _, _, hty, hname, hbot, htops, h1, h2, h3, h4⟩ := h
  refine ⟨hlen, ?_, ?_, ?_⟩
  · rw [h4, set_producer_length]
  · rw [h4, set_producer_names]
  · intro k L L1 hL hL1
    by_cases hka : k = a
    · subst hka
      rw [hK] at hL; cases hL
      rw [h1] at hL1; cases hL1
      refine ⟨hname, hbot, ?_, ?_, Or.inl hty⟩
      · rw [htops, List.length_set]
      · rw [htops]
        cases K.tops <;> rfl
    · by_cases hkb : k = b
      · subst hkb
        rw [hB] at hL; cases hL
        rw [h2] at hL1; cases hL1
        exact ⟨rfl, rfl, rfl, rfl, Or.inr (Or.inl rfl)⟩
      · rw [h3 k hka hkb, hL] at hL1
        cases hL1
        exact frame_refl L

theorem replaced_framed {fresh : Layer α} {net net1 : Net α} {j : Nat}
    (h : Replaced fresh net net1 j) : framed net net1 := by
  obtain ⟨C, hC, hty, hl, hb⟩ := h
  refine ⟨by rw [hl, List.length_set], by rw [hb], by rw [hb], ?_⟩
  intro k L L1 hL hL1
  rw [hl, List.getElem?_set] at hL1
  by_cases hjk : j = k
  · subst hjk
    rw [hC] at hL; cases hL
    rw [if_pos rfl, if_pos (List.getElem?_eq_some_iff.mp hC).1] at hL1
    cases hL1
    exact ⟨rfl, rfl, rfl, rfl, Or.inr (Or.inr ⟨hty, rfl⟩)⟩
  · rw [if_neg hjk, hL] at hL1
    cases hL1
    exact frame_refl L

/-- C13.  Every rewrite pass leaves the number of layers, the number of blobs and the blob
names unchanged, never changes a layer's name, its bottoms, the length of its tops or an entry
of `tops` other than `tops[0]`, and changes a type only to `"ncnnfused"` or from Convolution
to InnerProduct.  Moreover the pass is a finite sequence of iterations each of which either
rewires (a matched predecessor gets a new `tops[0]` and new parameters, the matched layer only
has its type set to `"ncnnfused"`, one producer entry is updated) or replaces a Convolution by
the InnerProduct built from it at the same index. -/
theorem pass_frame [LinearOrderedField α] (sqrt : α → α) (fresh : Layer α)
    (pass : RewritePass) (net : Net α) :
    framed net (pass.run sqrt fresh net) ∧
    Relation.ReflTransGen (Rewrite fresh) net (pass.run sqrt fresh net) := by
  constructor
  · apply pass_induction sqrt fresh (fun n => framed net n)
    · intro n n1 a b hn h
      exact framed_trans _ _ _ hn (rewired_framed h)
    · intro n n1 j hn h
      exact framed_trans _ _ _ hn (replaced_framed h)
    · exact framed_refl net
  · apply pass_induction sqrt fresh (fun n => Relation.ReflTransGen (Rewrite fresh) net n)
    · intro n n1 a b hn h
      exact Relation.ReflTransGen.tail hn (Or.inl ⟨a, b, h⟩)
    · intro n n1 j hn h
      exact Relation.ReflTransGen.tail hn (Or.inr ⟨j, h⟩)
    · exact Relation.ReflTransGen.refl

/-! ## The producer invariant -/

theorem rewired_lookup {net net1 : Net α} {a b : Nat} (h : Rewired net net1 a b) :
    ∃ K K1 B : Layer α,
      net.layers[a]? = some K ∧ net.layers[b]? = some B ∧ a < b ∧
      K.type ≠ "ncnnfused" ∧ absorbed_kind B.type ∧
      B.bottoms.getD 0 0 = K.tops.getD 0 0 ∧
      K1.type = K.type ∧ K1.name = K.name ∧ K1.bottoms = K.bottoms ∧
      K1.tops = K.tops.set 0 (B.tops.getD 0 0) ∧
      net1.blobs = set_producer net.blobs (B.tops.getD 0 0) a ∧
      ∀ (k : Nat) (L1 : Layer α), net1.layers[k]? = some L1 →
        (k = a ∧ L1 = K1) ∨ (k = b ∧ L1 = B.set_fused) ∨
        (k ≠ a ∧ k ≠ b ∧ net.layers[k]? = some L1) := by
  obtain ⟨K, K1, B, hK, hB, hab, hnf, hkind, hbt, hty, hname, hbot, htops, h1, h2, h3, h4⟩ := h
  refine ⟨K, K1, B, hK, hB, hab, hnf, hkind, hbt, hty, hname, hbot, htops, h4, ?_⟩
  intro k L1 hL1
  by_cases hka : k = a
  · subst hka
    rw [h1] at hL1
    cases hL1
    exact Or.inl ⟨rfl, rfl⟩
  · by_cases hkb : k = b
    · subst hkb
      rw [h2] at hL1
      cases hL1
      exact Or.inr (Or.inl ⟨rfl, rfl⟩)
    · rw [h3 k hka hkb] at hL1
      exact Or.inr (Or.inr ⟨hka, hkb, hL1⟩)

theorem absorbed_kind_not_fused (t : String) (h : absorbed_kind t) : t ≠ "ncnnfused" := by
  unfold absorbed_kind at h
  rcases h with h | h | h | h | h | h | h <;> rw [h] <;> decide

theorem mem_of_getD_zero (l : List Nat) (h : l ≠ []) : l.getD 0 0 ∈ l := by
  cases l with
  | nil => exact absurd rfl h
  | cons x xs => simp

theorem producer_unique (net : Net α)
    (h : ∀ (k : Nat) (L : Layer α), net.layers[k]? = some L → L.type ≠ "ncnnfused" →
      ∀ t ∈ L.tops, ∃ b, net.blobs[t]? = some b ∧ b.producer = (k : Int)) :
    producer_invariant net := by
  refine ⟨h, ?_⟩
  intro k k1 L L1 t hL hL1 hnf hnf1 ht ht1
  obtain ⟨b, hb, hp⟩ := h k L hL hnf t ht
  obtain ⟨b1, hb1, hp1⟩ := h k1 L1 hL1 hnf1 t ht1
  rw [hb] at hb1
  cases hb1
  rw [hp] at hp1
  exact_mod_cast hp1

theorem rewired_producer_invariant {net net1 : Net α} {a b : Nat} (h : Rewired net net1 a b)
    (hP : producer_invariant net) (hE : absorbed_tops_defined net) :
    producer_invariant net1 := by
  obtain ⟨K, K1, B, hK, hB, hab, hnf, hkind, _, hty, _, _, htops, hblobs, hlook⟩ := rewired_lookup h
  have htB : B.tops.getD 0 0 ∈ B.tops := mem_of_getD_zero _ (hE b B hB hkind)
  obtain ⟨bt, hbt, hbp⟩ := hP.1 b B hB (absorbed_kind_not_fused _ hkind) _ htB
  apply producer_unique
  intro k L1 hL1 hnf1 t ht
  rw [hblobs, set_producer_getElem?]
  rcases hlook k L1 hL1 with ⟨hk, hL⟩ | ⟨hk, hL⟩ | ⟨hka, hkb, hL⟩
  · subst hk; subst hL
    by_cases htt : t = B.tops.getD 0 0
    · rw [if_pos htt, hbt]
      exact ⟨_, rfl, rfl⟩
    · rw [if_neg htt]
      rw [htops] at ht
      rcases List.mem_or_eq_of_mem_set ht with ht | ht
      · exact hP.1 k K hK hnf t ht
      · exact absurd ht htt
  · subst hL
    exact absurd rfl hnf1
  · by_cases htt : t = B.tops.getD 0 0
    · exfalso
      obtain ⟨b1, hb1, hp1⟩ := hP.1 k L1 hL hnf1 t ht
      rw [htt, hbt] at hb1
      cases hb1
      rw [hbp] at hp1
      exact hkb (by exact_mod_cast hp1.symm)
    · rw [if_neg htt]
      exact hP.1 k L1 hL hnf1 t ht

theorem rewired_absorbed_tops_defined {net net1 : Net α} {a b : Nat}
    (h : Rewired net net1 a b) (hE : absorbed_tops_defined net) :
    absorbed_tops_defined net1 := by
  obtain ⟨K, K1, B, hK, hB, hab, hnf, hkind, _, hty, _, _, htops, hblobs, hlook⟩ := rewired_lookup h
  intro k L1 hL1 hk1
  rcases hlook k L1 hL1 with ⟨hk, hL⟩ | ⟨hk, hL⟩ | ⟨hka, hkb, hL⟩
  · subst hL
    rw [hty] at hk1
    have := hE a K hK hk1
    rw [htops]
    intro hnil
    apply this
    have hlen := congrArg List.length hnil
    rw [List.length_set] at hlen
    exact List.length_eq_zero.mp hlen
  · subst hL
    exact absurd rfl (absorbed_kind_not_fused _ hk1)
  · exact hE k L1 hL hk1

theorem replaced_lookup {fresh : Layer α} {net net1 : Net α} {j : Nat}
    (h : Replaced fresh net net1 j) :
    ∃ C : Layer α, net.layers[j]? = some C ∧ C.type = "Convolution" ∧
      net1.blobs = net.blobs ∧
      ∀ (k : Nat) (L1 : Layer α), net1.layers[k]? = some L1 →
        (k = j ∧ L1 = innerproduct_of fresh C) ∨ (k ≠ j ∧ net.layers[k]? = some L1) := by
  obtain ⟨C, hC, hty, hl, hb⟩ := h
  refine ⟨C, hC, hty, hb, ?_⟩
  intro k L1 hL1
  rw [hl, List.getElem?_set] at hL1
  by_cases hjk : j = k
  · subst hjk
    rw [if_pos rfl, if_pos (List.getElem?_eq_some_iff.mp hC).1] at hL1
    cases hL1
    exact Or.inl ⟨rfl, rfl⟩
  · rw [if_neg hjk] at hL1
    exact Or.inr ⟨fun h => hjk h.symm, hL1⟩

theorem replaced_producer_invariant {fresh : Layer α} {net net1 : Net α} {j : Nat}
    (h : Replaced fresh net net1 j) (hP : producer_invariant net) :
    producer_invariant net1 := by
  obtain ⟨C, hC, hty, hb, hlook⟩ := replaced_lookup h
  apply producer_unique
  intro k L1 hL1 hnf1 t ht
  rw [hb]
  rcases hlook k L1 hL1 with ⟨hk, hL⟩ | ⟨hk, hL⟩
  · subst hk; subst hL
    exact hP.1 k C hC (by rw [hty]; decide) t ht
  · exact hP.1 k L1 hL hnf1 t ht

theorem replaced_absorbed_tops_defined {fresh : Layer α} {net net1 : Net α} {j : Nat}
    (h : Replaced fresh net net1 j) (hE : absorbed_tops_defined net) :
    absorbed_tops_defined net1 := by
  obtain ⟨C, hC, hty, hb, hlook⟩ := replaced_lookup h
  intro k L1 hL1 hk1
  rcases hlook k L1 hL1 with ⟨hk, hL⟩ | ⟨hk, hL⟩
  · subst hL
    exfalso
    have : absorbed_kind "InnerProduct" := hk1
    unfold absorbed_kind at this
    revert this
    decide
  · exact hE k L1 hL hk1

/-- C11.  The producer invariant is preserved by each of the seventeen rewrite passes: if
every top `t` of a non-fused layer at index `k` has `blobs[t].producer == k` (and no blob
index is among the tops of two non-fused layers) before the pass, the same holds after it.
The read `B->tops[0]` of an absorbed layer is assumed to be defined. -/
theorem producer_invariant_preserved [LinearOrderedField α] (sqrt : α → α) (fresh : Layer α)
    (pass : RewritePass) (net : Net α) (hP : producer_invariant net)
    (hE : absorbed_tops_defined net) :
    producer_invariant (pass.run sqrt fresh net) := by
  have h := pass_induction sqrt fresh
    (fun n => producer_invariant n ∧ absorbed_tops_defined n)
    (fun n n1 a b hn hr =>
      ⟨rewired_producer_invariant hr hn.1 hn.2, rewired_absorbed_tops_defined hr hn.2⟩)
    (fun n n1 j hn hr =>
      ⟨replaced_producer_invariant hr hn.1, replaced_absorbed_tops_defined hr hn.2⟩)
    pass net ⟨hP, hE⟩
  exact h.1

theorem getElem?_three {β : Type} (x y z : β) (k : Nat) (L : β)
    (h : [x, y, z][k]? = some L) :
    (k = 0 ∧ L = x) ∨ (k = 1 ∧ L = y) ∨ (k = 2 ∧ L = z) := by
  rcases k with _ | _ | _ | k
  · left; simpa using h.symm
  · right; left; simpa using h.symm
  · right; right; simpa using h.symm
  · simp at h

/-- C11, instance: `conv_bn_relu` satisfies the producer invariant and every absorbed layer of
it has a top, so the invariant holds after `fuse_convolution_batchnorm`. -/
theorem producer_invariant_preserved_witness :
    producer_invariant conv_bn_relu ∧ absorbed_tops_defined conv_bn_relu ∧
    producer_invariant
      (RewritePass.run (id : ℚ → ℚ) Layer.blank (.forward (.batchnorm .Convolution))
        conv_bn_relu) := by
  have hP : producer_invariant conv_bn_relu := by
    apply producer_unique
    intro k L hk _ t ht
    rcases getElem?_three _ _ _ k L hk with ⟨rfl, rfl⟩ | ⟨rfl, rfl⟩ | ⟨rfl, rfl⟩
    · obtain rfl : t = 1 := by simpa using ht
      exact ⟨_, rfl, rfl⟩
    · obtain rfl : t = 2 := by simpa using ht
      exact ⟨_, rfl, rfl⟩
    · obtain rfl : t = 3 := by simpa using ht
      exact ⟨_, rfl, rfl⟩
  have hE : absorbed_tops_defined conv_bn_relu := by
    intro k L hk _
    rcases getElem?_three _ _ _ k L hk with ⟨rfl, rfl⟩ | ⟨rfl, rfl⟩ | ⟨rfl, rfl⟩ <;>
      exact List.cons_ne_nil _ _
  exact ⟨hP, hE, producer_invariant_preserved id Layer.blank _ conv_bn_relu hP hE⟩

/-! ## The topological invariant -/

theorem topological_check_iff (net : Net α) :
    topological_check net = true ↔ topological_invariant net := by
  unfold topological_check topological_invariant
  simp only [List.all_eq_true, List.mem_range]
  constructor
  · intro h k L hL hnf b hb
    have hk : k < net.layers.length := (List.getElem?_eq_some_iff.mp hL).1
    have h1 := h k hk
    simp only [hL, Bool.or_eq_true, decide_eq_true_eq, List.all_eq_true] at h1
    rcases h1 with h1 | h1
    · exact absurd h1 hnf
    · have h2 := h1 b hb
      cases hbl : net.blobs[b]? with
      | none => simp [hbl] at h2
      | some bl =>
        simp only [hbl, Bool.and_eq_true, decide_eq_true_eq] at h2
        obtain ⟨⟨h3, h4⟩, h5⟩ := h2
        cases hM : net.layers[bl.producer.toNat]? with
        | none => simp [hM] at h5
        | some M =>
          simp only [hM, decide_eq_true_eq] at h5
          exact ⟨bl, bl.producer.toNat, M, rfl, (Int.toNat_of_nonneg h3).symm, h4, hM, h5⟩
  · intro h k hk
    obtain ⟨L, hL⟩ : ∃ L, net.layers[k]? = some L := ⟨_, List.getElem?_eq_getElem hk⟩
    simp only [hL, Bool.or_eq_true, decide_eq_true_eq, List.all_eq_true]
    by_cases hnf : L.type = "ncnnfused"
    · exact Or.inl hnf
    · right
      intro b hb
      obtain ⟨bl, p, M, hbl, hp, hlt, hM, hMnf⟩ := h k L hL hnf b hb
      have hpn : bl.producer.toNat = p := by rw [hp]; exact Int.toNat_natCast p
      simp only [hbl, hpn, hM, Bool.and_eq_true, decide_eq_true_eq]
      exact ⟨⟨by rw [hp]; exact Int.natCast_nonneg p, hlt⟩, hMnf⟩

theorem well_formed_topological (net : Net α) (h : well_formed net) :
    topological_invariant net := by
  obtain ⟨hP, hT, _, _⟩ := h
  intro k L hL hnf b hb
  obtain ⟨p, M, hlt, hM, hMnf, hmem⟩ := hT k L hL hnf b hb
  obtain ⟨bl, hbl, hp⟩ := hP.1 p M hM hMnf b hmem
  exact ⟨bl, p, M, hbl, hp, hlt, hM, hMnf⟩

theorem mem_set_zero (l : List Nat) (t : Nat) (h : l ≠ []) : t ∈ l.set 0 t := by
  cases l with
  | nil => exact absurd rfl h
  | cons x xs => simp

theorem mem_set_zero_of_mem (l : List Nat) (t x : Nat) (hx : x ∈ l) :
    x ∈ l.set 0 t ∨ x = l.getD 0 0 := by
  cases l with
  | nil => simp at hx
  | cons y ys =>
    rcases List.mem_cons.mp hx with h | h
    · right; simp [h]
    · left; simp [h]

theorem rewired_back {net net1 : Net α} {a b : Nat} (h : Rewired net net1 a b)
    (k : Nat) (L1 : Layer α) (hL1 : net1.layers[k]? = some L1) (hnf : L1.type ≠ "ncnnfused") :
    k ≠ b ∧ ∃ L, net.layers[k]? = some L ∧ L.type = L1.type ∧ L.bottoms = L1.bottoms ∧
      L.tops.length = L1.tops.length := by
  obtain ⟨K, K1, B, hK, hB, hab, hKnf, hkind, _, hty, _, hbot, htops, hblobs, hlook⟩ := rewired_lookup h
  rcases hlook k L1 hL1 with ⟨hk, hL⟩ | ⟨hk, hL⟩ | ⟨hka, hkb, hL⟩
  · subst hk; subst hL
    exact ⟨by omega, K, hK, hty.symm, hbot.symm, by rw [htops, List.length_set]⟩
  · subst hL
    exact absurd rfl hnf
  · exact ⟨hkb, L1, hL, rfl, rfl, rfl⟩

theorem rewired_well_formed {net net1 : Net α} {a b : Nat} (h : Rewired net net1 a b)
    (hW : well_formed net) : well_formed net1 := by
  obtain ⟨hP, hT, hU, hS⟩ := hW
  have hr := h
  have hE : absorbed_tops_defined net := by
    intro k L hL hk hnil
    have := (hS k L hL (absorbed_kind_not_fused _ hk)).1
    exact this hnil
  obtain ⟨K, K1, B, hK, hB, hab, hKnf, hkind, hbk, hty, _, _, htops, h1, _, h3, _⟩ := h
  have hBnf := absorbed_kind_not_fused _ hkind
  obtain ⟨hBt, hBb⟩ := (hS b B hB hBnf).2 hkind
  have hKt := (hS a K hK hKnf).1
  have hK1 : K1.type ≠ "ncnnfused" := by rw [hty]; exact hKnf
  refine ⟨rewired_producer_invariant hr hP hE, ?_, ?_, ?_⟩
  · intro k L1 hL1 hnf x hx
    obtain ⟨hkb, L, hL, hLty, hLb, _⟩ := rewired_back hr k L1 hL1 hnf
    rw [← hLb] at hx
    rw [← hLty] at hnf
    obtain ⟨p, M, hlt, hM, hMnf, hmem⟩ := hT k L hL hnf x hx
    by_cases hpb : p = b
    · subst hpb
      rw [hB] at hM; cases hM
      have hxt : x = B.tops.getD 0 0 := by
        cases hBm : B.tops with
        | nil => rw [hBm] at hBt; simp at hBt
        | cons y ys =>
          rw [hBm] at hBt hmem
          have : ys = [] := by simpa using hBt
          subst this
          simpa using hmem
      refine ⟨a, K1, by omega, h1, hK1, ?_⟩
      rw [htops, hxt]
      exact mem_set_zero _ _ hKt
    · by_cases hpa : p = a
      · subst hpa
        rw [hK] at hM; cases hM
        refine ⟨p, K1, hlt, h1, hK1, ?_⟩
        rw [htops]
        rcases mem_set_zero_of_mem K.tops (B.tops.getD 0 0) x hmem with hm | hm
        · exact hm
        · exfalso
          have hxB : x ∈ B.bottoms := by
            rw [hm, ← hbk]
            exact mem_of_getD_zero _ hBb
          exact hkb (hU k b L B x hL hB hnf hBnf hx hxB)
      · exact ⟨p, M, hlt, by rw [h3 p hpa hpb]; exact hM, hMnf, hmem⟩
  · intro k k1 L1 L1' x hL1 hL1' hnf hnf' hx hx'
    obtain ⟨_, L, hL, hLty, hLb, _⟩ := rewired_back hr k L1 hL1 hnf
    obtain ⟨_, L', hL', hLty', hLb', _⟩ := rewired_back hr k1 L1' hL1' hnf'
    exact hU k k1 L L' x hL hL' (by rw [hLty]; exact hnf) (by rw [hLty']; exact hnf')
      (by rw [hLb]; exact hx) (by rw [hLb']; exact hx')
  · intro k L1 hL1 hnf
    obtain ⟨_, L, hL, hLty, hLb, hLt⟩ := rewired_back hr k L1 hL1 hnf
    obtain ⟨ht, hk⟩ := hS k L hL (by rw [hLty]; exact hnf)
    refine ⟨?_, ?_⟩
    · intro hnil
      apply ht
      apply List.length_eq_zero.mp
      rw [hLt, hnil]
      rfl
    · intro hak
      rw [← hLty] at hak
      obtain ⟨h4, h5⟩ := hk hak
      exact ⟨by rw [← hLt]; exact h4, by rw [← hLb]; exact h5⟩

theorem replaced_back {fresh : Layer α} {net net1 : Net α} {j : Nat}
    (h : Replaced fresh net net1 j) (k : Nat) (L1 : Layer α)
    (hL1 : net1.layers[k]? = some L1) :
    ∃ L, net.layers[k]? = some L ∧ (L1.type ≠ "ncnnfused" → L.type ≠ "ncnnfused") ∧
      (absorbed_kind L1.type → absorbed_kind L.type) ∧
      L.bottoms = L1.bottoms ∧ L.tops = L1.tops := by
  obtain ⟨C, hC, hty, hb, hlook⟩ := replaced_lookup h
  rcases hlook k L1 hL1 with ⟨hk, hL⟩ | ⟨hk, hL⟩
  · subst hk; subst hL
    refine ⟨C, hC, fun _ => by rw [hty]; decide, ?_, rfl, rfl⟩
    intro hk
    exfalso
    have : absorbed_kind "InnerProduct" := hk
    unfold absorbed_kind at this
    revert this
    decide
  · exact ⟨L1, hL, id, id, rfl, rfl⟩

theorem replaced_fwd {fresh : Layer α} {net net1 : Net α} {j : Nat}
    (h : Replaced fresh net net1 j) (k : Nat) (L : Layer α)
    (hL : net.layers[k]? = some L) (hnf : L.type ≠ "ncnnfused") :
    ∃ L1, net1.layers[k]? = some L1 ∧ L1.type ≠ "ncnnfused" ∧ L1.tops = L.tops := by
  obtain ⟨C, hC, hty, hl, hb⟩ := h
  by_cases hjk : j = k
  · subst hjk
    rw [hC] at hL; cases hL
    refine ⟨innerproduct_of fresh L, ?_, by show ("InnerProduct" : String) ≠ _; decide, rfl⟩
    rw [hl, List.getElem?_set, if_pos rfl, if_pos (List.getElem?_eq_some_iff.mp hC).1]
  · refine ⟨L, ?_, hnf, rfl⟩
    rw [hl, List.getElem?_set, if_neg hjk]
    exact hL

theorem replaced_well_formed {fresh : Layer α} {net net1 : Net α} {j : Nat}
    (h : Replaced fresh net net1 j) (hW : well_formed net) : well_formed net1 := by
  obtain ⟨hP, hT, hU, hS⟩ := hW
  refine ⟨replaced_producer_invariant h hP, ?_, ?_, ?_⟩
  · intro k L1 hL1 hnf x hx
    obtain ⟨L, hL, hLnf, _, hLb, _⟩ := replaced_back h k L1 hL1
    obtain ⟨p, M, hlt, hM, hMnf, hmem⟩ := hT k L hL (hLnf hnf) x (by rw [hLb]; exact hx)
    obtain ⟨M1, hM1, hM1nf, hM1t⟩ := replaced_fwd h p M hM hMnf
    exact ⟨p, M1, hlt, hM1, hM1nf, by rw [hM1t]; exact hmem⟩
  · intro k k1 L1 L1' x hL1 hL1' hnf hnf' hx hx'
    obtain ⟨L, hL, hLnf, _, hLb, _⟩ := replaced_back h k L1 hL1
    obtain ⟨L', hL', hLnf', _, hLb', _⟩ := replaced_back h k1 L1' hL1'
    exact hU k k1 L L' x hL hL' (hLnf hnf) (hLnf' hnf') (by rw [hLb]; exact hx)
      (by rw [hLb']; exact hx')
  · intro k L1 hL1 hnf
    obtain ⟨L, hL, hLnf, hLk, hLb, hLt⟩ := replaced_back h k L1 hL1
    obtain ⟨ht, hk⟩ := hS k L hL (hLnf hnf)
    rw [← hLt, ← hLb]
    exact ⟨ht, fun hak => hk (hLk hak)⟩

/-- C12, as stated, fails: the topological invariant alone is not preserved by a pass.
In the graph `Input -> Convolution -> BatchNorm -> Scale` whose BatchNorm top is also read by
a Softmax, the invariant holds at the start and still holds after `fuse_batchnorm_scale`, but
`fuse_convolution_batchnorm` then marks the BatchNorm as fused while the Softmax still reads
a blob whose producer is the BatchNorm.  In the graph whose ReLU has two tops the invariant
holds before `fuse_convolution_activation` and fails after it. -/
theorem topological_invariant_counterexample :
    (topological_invariant conv_bn_scale_branch ∧
      topological_invariant (fuse_batchnorm_scale conv_bn_scale_branch) ∧
      ¬ topological_invariant
          (fuse_convolution_batchnorm id (fuse_batchnorm_scale conv_bn_scale_branch))) ∧
    (topological_invariant conv_relu_two_tops ∧
      ¬ topological_invariant (fuse_convolution_activation conv_relu_two_tops)) := by
  refine ⟨⟨(topological_check_iff _).mp (by decide), (topological_check_iff _).mp (by decide),
    fun h => ?_⟩, (topological_check_iff _).mp (by decide), fun h => ?_⟩
  · have := (topological_check_iff _).mpr h
    revert this
    decide
  · have := (topological_check_iff _).mpr h
    revert this
    decide

/-- C12, amended.  Every rewrite pass preserves the topological invariant on well-formed
graphs: if before the pass the producer invariant holds, every bottom of a non-fused layer is
a top of an earlier non-fused layer, every blob has at most one non-fused consumer, every
non-fused layer has a top and every non-fused layer of an absorbed kind has exactly one top
and at least one bottom, then after the pass every bottom of a non-fused layer has as its
producer a non-fused layer at a smaller index, and the graph is well formed again. -/
theorem topological_invariant_preserved [LinearOrderedField α] (sqrt : α → α)
    (fresh : Layer α) (pass : RewritePass) (net : Net α) (hW : well_formed net) :
    topological_invariant (pass.run sqrt fresh net) ∧ well_formed (pass.run sqrt fresh net) := by
  have h := pass_induction sqrt fresh (fun n => well_formed n)
    (fun n n1 a b hn hr => rewired_well_formed hr hn)
    (fun n n1 j hn hr => replaced_well_formed hr hn)
    pass net hW
  exact ⟨well_formed_topological _ h, h⟩

/-- C12, instance: `dropout_chain` is well formed, so after `eliminate_dropout` it satisfies
the topological invariant and is well formed again. -/
theorem topological_invariant_preserved_witness :
    well_formed dropout_chain ∧
    topological_invariant (RewritePass.run (id : ℚ → ℚ) Layer.blank .dropout dropout_chain) ∧
    well_formed (RewritePass.run (id : ℚ → ℚ) Layer.blank .dropout dropout_chain) := by
  have hW : well_formed dropout_chain := by
    refine ⟨producer_unique _ ?_, ?_, ?_, ?_⟩
    · intro k L hk _ t ht
      rcases getElem?_three _ _ _ k L hk with ⟨rfl, rfl⟩ | ⟨rfl, rfl⟩ | ⟨rfl, rfl⟩
      · obtain rfl : t = 0 := by simpa using ht
        exact ⟨_, rfl, rfl⟩
      · obtain rfl : t = 1 := by simpa using ht
        exact ⟨_, rfl, rfl⟩
      · obtain rfl : t = 2 := by simpa using ht
        exact ⟨_, rfl, rfl⟩
    · intro k L hk _ x hx
      rcases getElem?_three _ _ _ k L hk with ⟨rfl, rfl⟩ | ⟨rfl, rfl⟩ | ⟨rfl, rfl⟩
      · simp [Layer.blank] at hx
      · obtain rfl : x = 0 := by simpa using hx
        exact ⟨0, _, by decide, rfl, by decide, List.mem_singleton.mpr rfl⟩
      · obtain rfl : x = 1 := by simpa using hx
        exact ⟨1, _, by decide, rfl, by decide, List.mem_singleton.mpr rfl⟩
    · intro k k1 L L1 x hk hk1 _ _ hx hx1
      rcases getElem?_three _ _ _ k L hk with ⟨rfl, rfl⟩ | ⟨rfl, rfl⟩ | ⟨rfl, rfl⟩ <;>
      rcases getElem?_three _ _ _ k1 L1 hk1 with ⟨rfl, rfl⟩ | ⟨rfl, rfl⟩ | ⟨rfl, rfl⟩ <;>
      first
      | rfl
      | (exfalso; simp [Layer.blank] at hx; done)
      | (exfalso; simp [Layer.blank] at hx1; done)
      | (exfalso; simp [Layer.blank] at hx hx1; omega)
    · intro k L hk _
      rcases getElem?_three _ _ _ k L hk with ⟨rfl, rfl⟩ | ⟨rfl, rfl⟩ | ⟨rfl, rfl⟩
      · exact ⟨List.cons_ne_nil _ _, fun h => absurd h (by unfold absorbed_kind; decide)⟩
      · exact ⟨List.cons_ne_nil _ _, fun _ => ⟨rfl, List.cons_ne_nil _ _⟩⟩
      · exact ⟨List.cons_ne_nil _ _, fun _ => ⟨rfl, List.cons_ne_nil _ _⟩⟩
  exact ⟨hW, topological_invariant_preserved id Layer.blank .dropout dropout_chain hW⟩

/-! ## Replacing a Convolution by an InnerProduct -/

/-- C14.  When an iteration of `replace_convolution_with_innerproduct_after_global_pooling` or
of `replace_convolution_with_innerproduct_after_innerproduct` finds the Convolution at index
`j`, the layer at `j` afterwards has type InnerProduct, the name, bottoms and tops of the
Convolution and its `num_output`, `bias_term`, `weight_data_size`, `weight_data`, `bias_data`,
`activation_type` and `activation_params`; every other field (`int8_scale_term` for an
InnerProduct) is the one of the freshly created and loaded InnerProduct; no other layer and
no blob changes. -/
theorem convolution_to_innerproduct (fresh : Layer α) (R : ChainRule α)
    (hR : R = pooling_convolution ∨ R = innerproduct_convolution)
    (net : Net α) (i j : Nat) (C : Layer α)
    (hm : chain_partner R net i = some j) (hC : net.layers[j]? = some C) :
    C.type = "Convolution" ∧
    ∃ L1, (replace_step fresh R net i).layers[j]? = some L1 ∧
      L1.type = "InnerProduct" ∧ L1.name = C.name ∧ L1.bottoms = C.bottoms ∧
      L1.tops = C.tops ∧
      L1.num_output = C.num_output ∧ L1.bias_term = C.bias_term ∧
      L1.weight_data_size = C.weight_data_size ∧ L1.weight_data = C.weight_data ∧
      L1.bias_data = C.bias_data ∧ L1.activation_type = C.activation_type ∧
      L1.activation_params = C.activation_params ∧
      L1.int8_scale_term = fresh.int8_scale_term ∧
      L1 = { fresh with
        type := "InnerProduct", name := C.name, bottoms := C.bottoms, tops := C.tops,
        num_output := C.num_output, bias_term := C.bias_term,
        weight_data_size := C.weight_data_size, weight_data := C.weight_data,
        bias_data := C.bias_data, activation_type := C.activation_type,
        activation_params := C.activation_params } ∧
      (∀ k, k ≠ j → (replace_step fresh R net i).layers[k]? = net.layers[k]?) ∧
      (replace_step fresh R net i).blobs = net.blobs := by
  obtain ⟨A, hA, hg⟩ := chain_partner_some_guard _ net i j hm
  obtain ⟨_, ⟨B, hB, hisB, _, _⟩, _⟩ := (chain_partner_eq_some _ net i j A hA hg).mp hm
  rw [hC] at hB
  cases hB
  have hty : C.type = "Convolution" := by
    rcases hR with rfl | rfl
    · simpa [pooling_convolution] using hisB
    · simpa [innerproduct_convolution] using hisB
  have hstep : replace_step fresh R net i =
      { layers := net.layers.set j (innerproduct_of fresh C), blobs := net.blobs } := by
    unfold replace_step
    rw [hm]
    simp only [hC]
  have hj : j < net.layers.length := (List.getElem?_eq_some_iff.mp hC).1
  refine ⟨hty, innerproduct_of fresh C, ?_, rfl, rfl, rfl, rfl, rfl, rfl, rfl, rfl, rfl, rfl,
    rfl, rfl, rfl, ?_, ?_⟩
  · rw [hstep]
    show (net.layers.set j _)[j]? = _
    rw [List.getElem?_set, if_pos rfl, if_pos hj]
  · intro k hk
    rw [hstep]
    show (net.layers.set j _)[k]? = _
    rw [List.getElem?_set, if_neg (fun h => hk h.symm)]
  · rw [hstep]

/-- C14, instance: in `pool_conv_flatten` the iteration of
`replace_convolution_with_innerproduct_after_global_pooling` for the Pooling at index 0 puts at
index 1 an InnerProduct with the name, bottoms, tops and weights of the Convolution and the
`kernel_w` of the fresh layer. -/
theorem convolution_to_innerproduct_witness :
    chain_partner (pooling_convolution : ChainRule ℚ) pool_conv_flatten 0 = some 1 ∧
    ∃ C, pool_conv_flatten.layers[1]? = some C ∧ C.type = "Convolution" ∧
    ∃ L1, (replace_step Layer.blank pooling_convolution pool_conv_flatten 0).layers[1]?
        = some L1 ∧
      L1.type = "InnerProduct" ∧ L1.name = "conv" ∧ L1.bottoms = [1] ∧ L1.tops = [2] ∧
      L1.weight_data = [1, 2, 3, 4] ∧ L1.kernel_w = 0 :=
  have h := convolution_to_innerproduct Layer.blank pooling_convolution (Or.inl rfl)
    pool_conv_flatten 0 1 _ (by decide) rfl
  ⟨by decide, _, rfl, h.1, by
    obtain ⟨_, L1, h1, h2, h3, h4, h5, _, _, _, h6, _, _, _, _, h7, _⟩ := h
    exact ⟨L1, h1, h2, h3, h4, h5, h6, by rw [h7]; rfl⟩⟩

/-! ## The fixed point of `replace_convolution_with_innerproduct_after_innerproduct` -/

theorem chain_partner_eq_none (R : ChainRule α) (net : Net α) (i : Nat) :
    chain_partner R net i = none ↔
      ∀ A, net.layers[i]? = some A → R.guardA A = true →
        ∀ k B, i < k → net.layers[k]? = some B → ¬ is_match R.isB (A.tops.getD 0 0) B := by
  cases hA : net.layers[i]? with
  | none => simp [chain_partner, hA]
  | some A =>
    by_cases hg : R.guardA A = true
    · have hi : i < net.layers.length := (List.getElem?_eq_some_iff.mp hA).1
      obtain ⟨h1, h2, h3, h4⟩ :=
        forward_search_spec R.isB (A.tops.getD 0 0) (net.layers.drop (i + 1)) (i + 1)
      have hlen : (net.layers.drop (i + 1)).length = net.layers.length - (i + 1) := by simp
      rw [hlen] at h2 h4
      have hget : ∀ k, (net.layers.drop (i + 1))[k]? = net.layers[i + 1 + k]? := by
        intro k; simp
      simp only [chain_partner, hA, hg]
      simp only [Bool.true_eq_false, if_false]
      generalize forward_search R.isB (A.tops.getD 0 0) (net.layers.drop (i + 1)) (i + 1) = r
        at h1 h2 h3 h4 ⊢
      constructor
      · intro h A1 hA1 _ k B hik hB
        cases hA1
        have hr : r = net.layers.length := by
          by_contra hne
          rw [if_neg hne] at h
          cases h
        have hk : k < net.layers.length := (List.getElem?_eq_some_iff.mp hB).1
        apply h3 (k - (i + 1)) (by omega) B
        rw [hget, ← hB]; congr 1; omega
      · intro h
        have hr : r = net.layers.length := by
          by_contra hne
          obtain ⟨M, hM, hMm⟩ := h4 (by omega)
          rw [hget] at hM
          exact h A rfl hg _ M (by omega) hM hMm
        rw [if_pos hr]
    · have hg1 : R.guardA A = false := by simpa using hg
      simp only [chain_partner, hA, hg1, if_true, true_iff]
      intro A1 hA1 hg2
      cases hA1
      rw [hg1] at hg2
      cases hg2

theorem countP_set_drop {β : Type} (p : β → Bool) (l : List β) (j : Nat) (x y : β)
    (hx : l[j]? = some x) (hpx : p x = true) (hpy : p y = false) :
    (l.set j y).countP p + 1 = l.countP p := by
  induction l generalizing j with
  | nil => simp at hx
  | cons z zs ih =>
    cases j with
    | zero =>
      simp only [List.getElem?_cons_zero, Option.some.injEq] at hx
      subst hx
      simp [List.countP_cons, hpx, hpy]
    | succ j =>
      simp only [List.getElem?_cons_succ] at hx
      have := ih j hx
      simp only [List.set_cons_succ, List.countP_cons]
      omega

theorem replaced_count_convolution {fresh : Layer α} {net net1 : Net α} {j : Nat}
    (h : Replaced fresh net net1 j) :
    count_convolution net1 + 1 = count_convolution net := by
  obtain ⟨C, hC, hty, hl, _⟩ := h
  unfold count_convolution
  rw [hl]
  apply countP_set_drop _ _ _ C _ hC
  · simpa using hty
  · show decide (("InnerProduct" : String) = "Convolution") = false
    decide

theorem replace_sweep_count (fresh : Layer α) (net : Net α) :
    count_convolution (replace_sweep fresh net).1
      + (if (replace_sweep fresh net).2 = true then 1 else 0) ≤ count_convolution net := by
  unfold replace_sweep
  apply foldl_invariant (fun st : Net α × Bool =>
    count_convolution st.1 + (if st.2 = true then 1 else 0) ≤ count_convolution net)
  · intro st i hst
    cases hm : chain_partner innerproduct_convolution st.1 i with
    | none => simpa only [hm] using hst
    | some j =>
      simp only [hm]
      rcases replace_step_replaced fresh innerproduct_convolution
        (fun t ht => by simpa [innerproduct_convolution] using ht) st.1 i with h1 | ⟨j1, h1⟩
      · exfalso
        unfold replace_step at h1
        rw [hm] at h1
        obtain ⟨A, hA, hg⟩ := chain_partner_some_guard _ st.1 i j hm
        obtain ⟨hij, ⟨B, hB, hisB, _, _⟩, _⟩ := (chain_partner_eq_some _ st.1 i j A hA hg).mp hm
        simp only [hB] at h1
        have h2 := congrArg (fun n : Net α => n.layers[j]?) h1
        simp only [hB] at h2
        rw [List.getElem?_set, if_pos rfl, if_pos (List.getElem?_eq_some_iff.mp hB).1] at h2
        have h3 : ("InnerProduct" : String) = B.type := by
          have := Option.some.inj h2
          exact congrArg Layer.type this
        have h4 : B.type = "Convolution" := by simpa [innerproduct_convolution] using hisB
        rw [h4] at h3
        revert h3
        decide
      · have := replaced_count_convolution h1
        simp only [if_true]
        by_cases hf : st.2 = true
        · rw [if_pos hf] at hst; omega
        · rw [if_neg hf] at hst; omega
  · simp

theorem replace_sweep_unflagged (fresh : Layer α) (net : Net α) :
    ∀ n, ((List.range n).foldl (fun (st : Net α × Bool) i =>
        match chain_partner innerproduct_convolution st.1 i with
        | none => st
        | some _ => (replace_step fresh innerproduct_convolution st.1 i, true))
        (net, false)).2 = false →
      ((List.range n).foldl (fun (st : Net α × Bool) i =>
        match chain_partner innerproduct_convolution st.1 i with
        | none => st
        | some _ => (replace_step fresh innerproduct_convolution st.1 i, true))
        (net, false)).1 = net ∧
      ∀ i, i < n → chain_partner innerproduct_convolution net i = none := by
  intro n
  induction n with
  | zero => intro _; exact ⟨rfl, fun i hi => absurd hi (Nat.not_lt_zero i)⟩
  | succ n ih =>
    rw [List.range_succ, List.foldl_append, List.foldl_cons, List.foldl_nil]
    generalize (List.range n).foldl (fun (st : Net α × Bool) i =>
        match chain_partner innerproduct_convolution st.1 i with
        | none => st
        | some _ => (replace_step fresh innerproduct_convolution st.1 i, true))
        (net, false) = st at ih ⊢
    cases hm : chain_partner innerproduct_convolution st.1 n with
    | none =>
      simp only [hm]
      intro hf
      obtain ⟨h1, h2⟩ := ih hf
      refine ⟨h1, ?_⟩
      intro i hi
      rcases Nat.lt_succ_iff_lt_or_eq.mp hi with h | h
      · exact h2 i h
      · rw [h, ← h1]; exact hm
    | some j =>
      simp only [hm]
      intro hf
      cases hf

theorem replace_loop_terminates (fresh : Layer α) :
    ∀ (fuel : Nat) (net : Net α), count_convolution net < fuel →
      ∃ net1, replace_loop fresh fuel net = some net1 := by
  intro fuel
  induction fuel with
  | zero => intro net h; exact absurd h (Nat.not_lt_zero _)
  | succ n ih =>
    intro net h
    have hc := replace_sweep_count fresh net
    unfold replace_loop
    by_cases hf : (replace_sweep fresh net).2 = true
    · simp only [hf, if_true] at hc ⊢
      exact ih _ (by omega)
    · simp only [hf, if_false]
      exact ⟨_, rfl⟩

theorem replace_loop_mono (fresh : Layer α) :
    ∀ (fuel : Nat) (net net1 : Net α), replace_loop fresh fuel net = some net1 →
      ∀ fuel1, fuel ≤ fuel1 → replace_loop fresh fuel1 net = some net1 := by
  intro fuel
  induction fuel with
  | zero => intro net net1 h; simp [replace_loop] at h
  | succ n ih =>
    intro net net1 h fuel1 hle
    obtain ⟨m, rfl⟩ : ∃ m, fuel1 = m + 1 := ⟨fuel1 - 1, by omega⟩
    unfold replace_loop at h ⊢
    by_cases hf : (replace_sweep fresh net).2 = true
    · simp only [hf, if_true] at h ⊢
      exact ih _ _ h m (by omega)
    · simp only [hf, if_false] at h ⊢
      exact h

theorem replace_loop_fixed (fresh : Layer α) :
    ∀ (fuel : Nat) (net net1 : Net α), replace_loop fresh fuel net = some net1 →
      ∀ i, i < net1.layers.length → chain_partner innerproduct_convolution net1 i = none := by
  intro fuel
  induction fuel with
  | zero => intro net net1 h; simp [replace_loop] at h
  | succ n ih =>
    intro net net1 h
    unfold replace_loop at h
    by_cases hf : (replace_sweep fresh net).2 = true
    · simp only [hf, if_true] at h
      exact ih _ _ h
    · have hf1 : (replace_sweep fresh net).2 = false := by simpa using hf
      simp only [hf1, Bool.false_eq_true, if_false, Option.some.injEq] at h
      obtain ⟨h1, h2⟩ := replace_sweep_unflagged fresh net net.layers.length hf1
      have h3 : (replace_sweep fresh net).1 = net := h1
      rw [h3] at h
      subst h
      exact h2

/-- C15.  The loop of `replace_convolution_with_innerproduct_after_innerproduct` terminates:
a sweep that sets the flag `replaced` strictly decreases the number of Convolution layers, so
one sweep per Convolution layer and one more (or any larger number of sweeps) reach the
`break`; and in the graph the pass returns there is no pair `i < j` with `layers[i]` an
InnerProduct and `layers[j]` a Convolution with exactly one bottom, equal to
`layers[i].tops[0]`. -/
theorem replace_after_innerproduct_fixed_point (fresh : Layer α) (net : Net α) :
    (∀ n : Net α, (replace_sweep fresh n).2 = true →
      count_convolution (replace_sweep fresh n).1 < count_convolution n) ∧
    (∀ fuel, count_convolution net + 1 ≤ fuel →
      replace_loop fresh fuel net
        = some (replace_convolution_with_innerproduct_after_innerproduct fresh net)) ∧
    ¬ ∃ (i j : Nat) (A B : Layer α), i < j ∧
      (replace_convolution_with_innerproduct_after_innerproduct fresh net).layers[i]? = some A ∧
      (replace_convolution_with_innerproduct_after_innerproduct fresh net).layers[j]? = some B ∧
      A.type = "InnerProduct" ∧ B.type = "Convolution" ∧ B.bottoms.length = 1 ∧
      B.bottoms.getD 0 0 = A.tops.getD 0 0 := by
  obtain ⟨net1, h1⟩ := replace_loop_terminates fresh (count_convolution net + 1) net
    (Nat.lt_succ_self _)
  have hpass : replace_convolution_with_innerproduct_after_innerproduct fresh net = net1 := by
    unfold replace_convolution_with_innerproduct_after_innerproduct
    rw [h1]
    rfl
  refine ⟨?_, ?_, ?_⟩
  · intro n hf
    have := replace_sweep_count fresh n
    rw [if_pos hf] at this
    omega
  · intro fuel hle
    rw [hpass]
    exact replace_loop_mono fresh _ _ _ h1 fuel hle
  · rw [hpass]
    rintro ⟨i, j, A, B, hij, hA, hB, hAty, hBty, hlen, hbot⟩
    have hi : i < net1.layers.length := (List.getElem?_eq_some_iff.mp hA).1
    have hnone := replace_loop_fixed fresh _ _ _ h1 i hi
    refine (chain_partner_eq_none _ _ _).mp hnone A hA ?_ j B hij hB ⟨?_, hlen, hbot⟩
    · simpa [innerproduct_convolution] using hAty
    · simpa [innerproduct_convolution] using hBty

/-! ## Whole-pipeline scenarios -/

theorem absorb_batchnorm_type [LinearOrderedField α] (sqrt : α → α) (A B : Layer α) :
    (absorb_batchnorm sqrt A B).type = A.type :=
  (absorb_header sqrt (.batchnorm .Convolution) A B).1

theorem absorb_batchnorm_bottoms [LinearOrderedField α] (sqrt : α → α) (A B : Layer α) :
    (absorb_batchnorm sqrt A B).bottoms = A.bottoms :=
  (absorb_header sqrt (.batchnorm .Convolution) A B).2.2.1

theorem absorb_batchnorm_tops [LinearOrderedField α] (sqrt : α → α) (A B : Layer α) :
    (absorb_batchnorm sqrt A B).tops = A.tops :=
  (absorb_header sqrt (.batchnorm .Convolution) A B).2.2.2

theorem scenario_a_optimize [LinearOrderedField α] (sqrt : α → α) (fresh : Layer α)
    (W : List α) :
    (optimize sqrt fresh (scenario_a W)).layers =
      [ { absorb_batchnorm sqrt (scenario_a_conv W) scenario_a_bn with
            activation_type := 1, tops := [3] },
        scenario_a_bn.set_fused, scenario_a_relu.set_fused ] := by
  simp +decide [scenario_a, scenario_a_conv, scenario_a_bn, scenario_a_relu,
    optimize, run_passes, driver_order, RewritePass.run,
    chain_pass, chain_step, chain_partner, chain_rewire, forward_search, ForwardPass.rule,
    Weighted.type, eliminate_dropout, eliminate_dropout_step, dropout_partner,
    replace_convolution_with_innerproduct_after_global_pooling,
    replace_convolution_with_innerproduct_after_innerproduct, replace_step, replace_sweep,
    replace_loop, count_convolution, pooling_convolution, innerproduct_convolution,
    innerproduct_of, Layer.set_top0, Layer.set_fused, absorb_activation,
    absorb_batchnorm_type, absorb_batchnorm_bottoms, absorb_batchnorm_tops,
    List.range_succ]

/-- C16.  Scenario A through the whole pipeline.  Running the passes in the driver's order on
`Conv(num_output=4, bias_term=0, weight_data_size=36) -> BN(channels=4, eps=1e-5,
slope=[1,2,3,4], mean=0, var=1, bias=[0.1,0.2,0.3,0.4]) -> ReLU(slope=0)` leaves the
Convolution as the only layer that is not fused, with `bias_term == 1`, weight element `n`
multiplied by `slope[n/9] / sqrt(var[n/9] + eps)`, bias `[0.1, 0.2, 0.3, 0.4]`,
`activation_type == 1` and the original top of the ReLU as its top. -/
theorem scenario_A_pipeline [LinearOrderedField α] (sqrt : α → α) (fresh : Layer α)
    (W : List α) :
    ∃ conv bn relu : Layer α,
      (optimize sqrt fresh (scenario_a W)).layers = [conv, bn, relu] ∧
      conv.type = "Convolution" ∧ bn.type = "ncnnfused" ∧ relu.type = "ncnnfused" ∧
      conv.bias_term = 1 ∧
      (∀ n, n < 36 → conv.weight_data.getD n 0 =
        W.getD n 0 * (([1, 2, 3, 4] : List α).getD (n / 9) 0 / sqrt (1 + 1 / 100000))) ∧
      conv.bias_data = [1 / 10, 2 / 10, 3 / 10, 4 / 10] ∧
      conv.activation_type = 1 ∧
      conv.tops = [3] ∧ (scenario_a_relu : Layer α).tops = [3] := by
  obtain ⟨h1, h2, h3, h4⟩ := absorb_batchnorm_spec sqrt (scenario_a_conv W) scenario_a_bn
  refine ⟨_, _, _, scenario_a_optimize sqrt fresh W, ?_, rfl, rfl, ?_, ?_, ?_, rfl, rfl, rfl⟩
  · exact absorb_batchnorm_type sqrt _ _
  · dsimp only
    rw [h1]
    simp [scenario_a_conv]
  · intro n hn
    dsimp only
    rw [h2 n]
    have hw : (scenario_a_conv W).weight_data = W := rfl
    have hq : n / 9 < 4 := by omega
    have hb : (bn_b sqrt (scenario_a_bn : Layer α)).getD (n / 9) 0 =
        ([1, 2, 3, 4] : List α).getD (n / 9) 0 / sqrt (1 + 1 / 100000) := by
      unfold bn_b
      rw [getD_range_map _ _ _ (by exact hq)]
      generalize n / 9 = q at hq
      interval_cases q <;> simp [scenario_a_bn]
    have ht : (Int.tdiv (scenario_a_conv W).weight_data_size
        (scenario_a_bn : Layer α).channels).toNat = 9 := rfl
    have hc : (scenario_a_bn : Layer α).channels.toNat = 4 := rfl
    rw [hw, ht, hc, hb]
    by_cases hlen : n < W.length
    · rw [if_pos ⟨by omega, hlen⟩]
    · have h0 : W.getD n 0 = 0 := by
        simp [List.getD_eq_getElem?_getD, List.getElem?_eq_none (not_lt.mp hlen)]
      rw [if_neg (fun h => hlen h.2), h0, zero_mul]
  · dsimp only
    apply list_eq_of_getD
    · rw [h3]; simp [scenario_a_conv, scenario_a_bn]
    · intro q hq
      rw [h3] at hq
      have hq4 : q < 4 := by simpa [scenario_a_conv, scenario_a_bn] using hq
      have hc : (scenario_a_bn : Layer α).channels.toNat = 4 := rfl
      have hbt : (scenario_a_conv W).bias_term = 0 := rfl
      rw [h4 q, hc, if_pos hbt, if_pos hbt, if_pos ⟨hq4, hq4⟩]
      unfold bn_a
      rw [getD_range_map _ _ _ (by exact hq4)]
      interval_cases q <;> simp [scenario_a_bn, scenario_a_conv]

/-- C15, instance: in `ip_two_convs` the first sweep sets the flag and lowers the number of
Convolution layers; two sweeps do not reach the `break`, three do, and the graph returned has
no Convolution left. -/
theorem replace_after_innerproduct_fixed_point_witness :
    (replace_sweep Layer.blank ip_two_convs).2 = true ∧
    count_convolution (replace_sweep Layer.blank ip_two_convs).1 < count_convolution ip_two_convs ∧
    replace_loop Layer.blank 2 ip_two_convs = none ∧
    replace_loop Layer.blank 3 ip_two_convs
      = some (replace_convolution_with_innerproduct_after_innerproduct Layer.blank
          ip_two_convs) ∧
    (replace_convolution_with_innerproduct_after_innerproduct Layer.blank
        ip_two_convs).layers.map (fun L => L.type)
      = ["Input", "InnerProduct", "InnerProduct", "InnerProduct"] :=
  have h := replace_after_innerproduct_fixed_point Layer.blank ip_two_convs
  ⟨by decide, h.1 ip_two_convs (by decide), rfl, h.2.1 3 (by decide), by decide⟩

/-- C17.  Scenario D through the whole pipeline.  For every graph
`Pooling(global_pooling != 0) -> Convolution -> Flatten` in which the Convolution reads the
single top `a` of the Pooling and the Flatten reads the single top `b` of the Convolution
(two different blobs, one consumer each), the driver's pass sequence leaves the Pooling
unchanged, puts at the index of the Convolution the InnerProduct built from it, whose
`bottoms[0]` is the top of the Pooling and whose `tops[0]` is the original top `c` of the
Flatten, and marks the Flatten as fused. -/
theorem scenario_D_pipeline [LinearOrderedField α] (sqrt : α → α) (fresh : Layer α)
    (P C F : Layer α) (blobs : List Blob) (a b c : Nat)
    (hP : P.type = "Pooling") (hgp : P.global_pooling ≠ 0) (hPt : P.tops = [a])
    (hC : C.type = "Convolution") (hCb : C.bottoms = [a]) (hCt : C.tops = [b])
    (hF : F.type = "Flatten") (hFb : F.bottoms = [b]) (hFt : F.tops = [c])
    (hab : a ≠ b) :
    ∃ IP F1 : Layer α,
      (optimize sqrt fresh { layers := [P, C, F], blobs := blobs }).layers = [P, IP, F1] ∧
      IP = (innerproduct_of fresh C).set_top0 c ∧
      IP.type = "InnerProduct" ∧ IP.bottoms.getD 0 0 = P.tops.getD 0 0 ∧
      IP.tops.getD 0 0 = F.tops.getD 0 0 ∧
      F1.type = "ncnnfused" ∧
      (optimize sqrt fresh { layers := [P, C, F], blobs := blobs }).blobs
        = set_producer blobs c 1 := by
  have h : optimize sqrt fresh { layers := [P, C, F], blobs := blobs } =
      { layers := [P, (innerproduct_of fresh C).set_top0 c, F.set_fused],
        blobs := set_producer blobs c 1 } := by
    simp +decide [optimize, run_passes, driver_order, RewritePass.run,
      chain_pass, chain_step, chain_partner, chain_rewire, forward_search, ForwardPass.rule,
      Weighted.type, eliminate_dropout, eliminate_dropout_step, dropout_partner,
      replace_convolution_with_innerproduct_after_global_pooling,
      replace_convolution_with_innerproduct_after_innerproduct, replace_step, replace_sweep,
      replace_loop, count_convolution, pooling_convolution, innerproduct_convolution,
      innerproduct_of, Layer.set_top0, Layer.set_fused,
      List.range_succ, hP, hC, hF, hPt, hCb, hCt, hFb, hFt, hgp, hab, Ne.symm hab]
  refine ⟨_, _, congrArg Net.layers h, rfl, rfl, ?_, ?_, rfl, congrArg Net.blobs h⟩
  · simp [innerproduct_of, Layer.set_top0, hCb, hPt]
  · simp [innerproduct_of, Layer.set_top0, hCt, hFt]

/-- C17, instance: on `pool_conv_flatten` the pipeline leaves an InnerProduct with bottoms
`[1]` (the top of the Pooling), tops `[3]` (the top of the Flatten) and the weights of the
Convolution, and the Flatten is fused. -/
theorem scenario_D_pipeline_witness :
    ∃ IP F1 : Layer ℚ,
      (optimize id Layer.blank pool_conv_flatten).layers
        = [pool_conv_flatten.layers.getD 0 Layer.blank, IP, F1] ∧
      IP.type = "InnerProduct" ∧ IP.bottoms = [1] ∧ IP.tops = [3] ∧
      IP.weight_data = [1, 2, 3, 4] ∧ F1.type = "ncnnfused" := by
  obtain ⟨IP, F1, h1, h2, h3, _, _, h6, _⟩ :=
    scenario_D_pipeline (id : ℚ → ℚ) Layer.blank
      (pool_conv_flatten.layers.getD 0 Layer.blank)
      (pool_conv_flatten.layers.getD 1 Layer.blank)
      (pool_conv_flatten.layers.getD 2 Layer.blank)
      pool_conv_flatten.blobs 1 2 3 rfl (by decide) rfl rfl rfl rfl rfl rfl rfl (by decide)
  refine ⟨IP, F1, h1, h3, ?_, ?_, ?_, h6⟩ <;> rw [h2] <;> rfl

/-- C18.  The order of the passes matters.  On the graph
`Pooling(global_pooling=1) -> Convolution -> Flatten` the driver's order (with
`eliminate_flatten_after_global_pooling` before the two replace passes and
`eliminate_flatten_after_innerproduct` after them) ends with the Flatten fused and the
InnerProduct writing the Flatten's top, whereas the same passes with
`eliminate_flatten_after_innerproduct` moved before the two replace passes end with the
Flatten not fused; the two final graphs differ. -/
theorem pass_order_significant :
    List.Perm flatten_first_order driver_order ∧
    (optimize (id : ℚ → ℚ) Layer.blank pool_conv_flatten).layers.map
        (fun L => (L.type, L.bottoms, L.tops))
      = [("Pooling", [0], [1]), ("InnerProduct", [1], [3]), ("ncnnfused", [2], [3])] ∧
    (run_passes (id : ℚ → ℚ) Layer.blank flatten_first_order pool_conv_flatten).layers.map
        (fun L => (L.type, L.bottoms, L.tops))
      = [("Pooling", [0], [1]), ("InnerProduct", [1], [2]), ("Flatten", [2], [3])] ∧
    run_passes (id : ℚ → ℚ) Layer.blank flatten_first_order pool_conv_flatten
      ≠ optimize (id : ℚ → ℚ) Layer.blank pool_conv_flatten := by
  have h1 : (optimize (id : ℚ → ℚ) Layer.blank pool_conv_flatten).layers.map
        (fun L => (L.type, L.bottoms, L.tops))
      = [("Pooling", [0], [1]), ("InnerProduct", [1], [3]), ("ncnnfused", [2], [3])] := by
    decide
  have h2 : (run_passes (id : ℚ → ℚ) Layer.blank flatten_first_order
        pool_conv_flatten).layers.map (fun L => (L.type, L.bottoms, L.tops))
      = [("Pooling", [0], [1]), ("InnerProduct", [1], [2]), ("Flatten", [2], [3])] := by
    decide
  refine ⟨by decide, h1, h2, ?_⟩
  intro h
  rw [h, h1] at h2
  revert h2
  decide

/-! ## The head of the param file -/

theorem foldl_insert_spec {β : Type} (f : β → String) (xs : List β) :
    ∀ acc : List String, acc.Nodup →
      (xs.foldl (fun (names : List String) x => names.insert (f x)) acc).Nodup ∧
      ∀ s, s ∈ xs.foldl (fun (names : List String) x => names.insert (f x)) acc ↔
        s ∈ acc ∨ ∃ x ∈ xs, f x = s := by
  induction xs with
  | nil => intro acc h; simp [h]
  | cons x xs ih =>
    intro acc h
    obtain ⟨h1, h2⟩ := ih (acc.insert (f x)) (h.insert)
    refine ⟨h1, ?_⟩
    intro s
    rw [List.foldl_cons, h2 s, List.mem_insert_iff]
    constructor
    · rintro (⟨h3 | h3⟩ | ⟨y, hy, h3⟩)
      · exact Or.inr ⟨x, List.mem_cons_self _ _, h3.symm⟩
      · exact Or.inl h3
      · exact Or.inr ⟨y, List.mem_cons_of_mem _ hy, h3⟩
    · rintro (h3 | ⟨y, hy, h3⟩)
      · exact Or.inl (Or.inr h3)
      · rcases List.mem_cons.mp hy with rfl | hy
        · exact Or.inl (Or.inl h3.symm)
        · exact Or.inr ⟨y, hy, h3⟩

theorem save_count_fold (net : Net α) (ls : List (Layer α)) :
    ∀ st : Nat × List String, st.2.Nodup →
      (ls.foldl (fun (st : Nat × List String) layer =>
        if layer.type = "ncnnfused" then st
        else
          let blob_names := layer.bottoms.foldl (fun (names : List String) bottom_blob_index =>
            names.insert (blob_name net bottom_blob_index)) st.2
          let blob_names := layer.tops.foldl (fun (names : List String) top_blob_index =>
            names.insert (blob_name net top_blob_index)) blob_names
          (st.1 + 1, blob_names)) st).1
        = st.1 + (ls.filter (fun L => decide (L.type ≠ "ncnnfused"))).length ∧
      (ls.foldl (fun (st : Nat × List String) layer =>
        if layer.type = "ncnnfused" then st
        else
          let blob_names := layer.bottoms.foldl (fun (names : List String) bottom_blob_index =>
            names.insert (blob_name net bottom_blob_index)) st.2
          let blob_names := layer.tops.foldl (fun (names : List String) top_blob_index =>
            names.insert (blob_name net top_blob_index)) blob_names
          (st.1 + 1, blob_names)) st).2.Nodup ∧
      ∀ s, s ∈ (ls.foldl (fun (st : Nat × List String) layer =>
        if layer.type = "ncnnfused" then st
        else
          let blob_names := layer.bottoms.foldl (fun (names : List String) bottom_blob_index =>
            names.insert (blob_name net bottom_blob_index)) st.2
          let blob_names := layer.tops.foldl (fun (names : List String) top_blob_index =>
            names.insert (blob_name net top_blob_index)) blob_names
          (st.1 + 1, blob_names)) st).2 ↔
        s ∈ st.2 ∨ ∃ L ∈ ls, L.type ≠ "ncnnfused" ∧
          ∃ idx ∈ L.bottoms ++ L.tops, blob_name net idx = s := by
  induction ls with
  | nil => intro st h; simp [h]
  | cons L ls ih =>
    intro st h
    rw [List.foldl_cons]
    by_cases hf : L.type = "ncnnfused"
    · rw [if_pos hf]
      obtain ⟨h1, h2, h3⟩ := ih st h
      refine ⟨?_, h2, ?_⟩
      · rw [h1]; simp [hf]
      · intro s
        rw [h3 s]
        constructor
        · rintro (h4 | ⟨M, hM, h5⟩)
          · exact Or.inl h4
          · exact Or.inr ⟨M, List.mem_cons_of_mem _ hM, h5⟩
        · rintro (h4 | ⟨M, hM, h5, h6⟩)
          · exact Or.inl h4
          · rcases List.mem_cons.mp hM with rfl | hM
            · exact absurd hf h5
            · exact Or.inr ⟨M, hM, h5, h6⟩
    · rw [if_neg hf]
      obtain ⟨hb1, hb2⟩ := foldl_insert_spec (blob_name net) L.bottoms st.2 h
      obtain ⟨ht1, ht2⟩ := foldl_insert_spec (blob_name net) L.tops _ hb1
      obtain ⟨h1, h2, h3⟩ := ih (st.1 + 1, L.tops.foldl (fun (names : List String) x =>
        names.insert (blob_name net x)) (L.bottoms.foldl (fun (names : List String) x =>
        names.insert (blob_name net x)) st.2)) ht1
      refine ⟨?_, h2, ?_⟩
      · rw [h1]; simp [hf]; omega
      · intro s
        rw [h3 s]
        show s ∈ L.tops.foldl _ _ ∨ _ ↔ _
        rw [ht2 s, hb2 s]
        constructor
        · rintro (((h4 | ⟨x, hx, h4⟩) | ⟨x, hx, h4⟩) | ⟨M, hM, h5⟩)
          · exact Or.inl h4
          · exact Or.inr ⟨L, List.mem_cons_self _ _, hf, x,
              List.mem_append.mpr (Or.inl hx), h4⟩
          · exact Or.inr ⟨L, List.mem_cons_self _ _, hf, x,
              List.mem_append.mpr (Or.inr hx), h4⟩
          · exact Or.inr ⟨M, List.mem_cons_of_mem _ hM, h5⟩
        · rintro (h4 | ⟨M, hM, h5, x, hx, h6⟩)
          · exact Or.inl (Or.inl (Or.inl h4))
          · rcases List.mem_cons.mp hM with rfl | hM
            · rcases List.mem_append.mp hx with hx | hx
              · exact Or.inl (Or.inl (Or.inr ⟨x, hx, h6⟩))
              · exact Or.inl (Or.inr ⟨x, hx, h6⟩)
            · exact Or.inr ⟨M, hM, h5, x, hx, h6⟩

theorem save_lines_fold (net : Net α) (ls : List (Layer α)) :
    ∀ lines : List LayerLine,
      ls.foldl (fun (lines : List LayerLine) layer =>
        if layer.type = "ncnnfused" then lines else lines ++ [layer_line net layer]) lines
      = lines ++ (ls.filter (fun L => decide (L.type ≠ "ncnnfused"))).map (layer_line net) := by
  induction ls with
  | nil => intro lines; simp
  | cons L ls ih =>
    intro lines
    rw [List.foldl_cons, ih]
    by_cases hf : L.type = "ncnnfused"
    · simp [hf]
    · simp [hf]

/-- C19.  The head of the param file written by `save`: the `layer_count` of line 2 is the
number of layers whose type is not `"ncnnfused"`, and so is the number of layer lines; the
lines are those of the non-fused layers, in order, so no line belongs to a fused layer; the
`blob_count` is the number of distinct blob names among the bottoms and tops of the non-fused
layers, and a name is counted only if a non-fused layer refers to it. -/
theorem save_header_counts (net : Net α) :
    (save net).layer_count
      = (net.layers.filter (fun L => decide (L.type ≠ "ncnnfused"))).length ∧
    (save net).lines.length = (save net).layer_count ∧
    (save net).lines
      = (net.layers.filter (fun L => decide (L.type ≠ "ncnnfused"))).map (layer_line net) ∧
    (∀ line ∈ (save net).lines, line.type ≠ "ncnnfused") ∧
    (save net).blob_count = (referenced_names net).toFinset.card ∧
    (save_count net).2.Nodup ∧
    (∀ s, s ∈ (save_count net).2 ↔
      ∃ L ∈ net.layers, L.type ≠ "ncnnfused" ∧
        ∃ idx ∈ L.bottoms ++ L.tops, blob_name net idx = s) := by
  obtain ⟨h1, h2', h3⟩ := save_count_fold net net.layers (0, []) List.nodup_nil
  have h2 : (save_count net).2.Nodup := h2'
  have hl : save_lines net
      = (net.layers.filter (fun L => decide (L.type ≠ "ncnnfused"))).map (layer_line net) := by
    unfold save_lines
    rw [save_lines_fold]
    rfl
  have hmem : ∀ s, s ∈ (save_count net).2 ↔
      ∃ L ∈ net.layers, L.type ≠ "ncnnfused" ∧
        ∃ idx ∈ L.bottoms ++ L.tops, blob_name net idx = s := by
    intro s
    have := h3 s
    simpa using this
  have hc : (save_count net).1
      = (net.layers.filter (fun L => decide (L.type ≠ "ncnnfused"))).length := by
    have := h1
    simpa [save_count] using this
  refine ⟨hc, ?_, hl, ?_, ?_, h2, hmem⟩
  · show (save_lines net).length = (save_count net).1
    rw [hl, hc, List.length_map]
  · intro line hline
    have hline1 : line ∈ save_lines net := hline
    rw [hl, List.mem_map] at hline1
    obtain ⟨L, hL, rfl⟩ := hline1
    have := (List.mem_filter.mp hL).2
    simpa using this
  · show (save_count net).2.length = _
    rw [← List.toFinset_card_of_nodup h2]
    congr 1
    ext s
    rw [List.mem_toFinset, List.mem_toFinset, hmem s]
    unfold referenced_names
    simp only [List.mem_flatMap, List.mem_filter, List.mem_map, decide_eq_true_eq]
    constructor
    · rintro ⟨L, hL, hnf, idx, hidx, h⟩
      exact ⟨L, ⟨hL, hnf⟩, idx, hidx, h⟩
    · rintro ⟨L, ⟨hL, hnf⟩, idx, hidx, h⟩
      exact ⟨L, hL, hnf, idx, hidx, h⟩

/-! ## The alignment of the weight records -/

theorem and_mask_eq (x : Nat) (h : x < 2 ^ 64) : x &&& (2 ^ 64 - 4) = 4 * (x / 4) := by
  apply Nat.eq_of_testBit_eq
  intro i
  rw [show (2 ^ 64 - 4 : Nat) = (2 ^ 62 - 1) <<< 2 from by decide]
  rw [Nat.testBit_and, Nat.testBit_shiftLeft, Nat.testBit_two_pow_sub_one]
  rw [show 4 * (x / 4) = (x >>> 2) <<< 2 from by
    rw [Nat.shiftLeft_eq, Nat.shiftRight_eq_div_pow]; ring]
  rw [Nat.testBit_shiftLeft, Nat.testBit_shiftRight]
  by_cases hi : 2 ≤ i
  · have e : 2 + (i - 2) = i := by omega
    simp only [hi, decide_True, Bool.true_and, ge_iff_le, e]
    by_cases h2 : i - 2 < 62
    · simp [h2]
    · simp only [h2, decide_False, Bool.and_false]
      symm
      apply Nat.testBit_lt_two_pow
      calc x < 2 ^ 64 := h
        _ ≤ 2 ^ i := Nat.pow_le_pow_right (by decide) (by omega)
  · simp [hi]

theorem alignSize_four (n : Nat) (h : n ≤ 2 ^ 64 - 4) : alignSize n 4 = 4 * ((n + 3) / 4) := by
  unfold alignSize
  have h1 : (((4 : Int) % 2 ^ 64).toNat) = 4 := by decide
  have h2 : ((-(4 : Int)) % 2 ^ 64).toNat = 2 ^ 64 - 4 := by decide
  rw [h1, h2]
  have h3 : (n + 4 + (2 ^ 64 - 1)) % 2 ^ 64 = n + 3 := by omega
  rw [h3]
  exact and_mask_eq _ (by omega)

theorem padding_bytes_spec (nwrite : Nat) (h : nwrite ≤ 2 ^ 64 - 4) :
    padding_bytes nwrite = List.replicate (alignSize nwrite 4 - nwrite) 0 ∧
    alignSize nwrite 4 - nwrite ≤ 3 ∧ (nwrite + (alignSize nwrite 4 - nwrite)) % 4 = 0 := by
  have ha := alignSize_four nwrite h
  have hle : alignSize nwrite 4 - nwrite ≤ 3 := by omega
  refine ⟨?_, hle, by omega⟩
  unfold padding_bytes
  have hk : (((alignSize nwrite 4 : Nat) : Int) - (nwrite : Int)).toNat
      = alignSize nwrite 4 - nwrite := by omega
  simp only [hk]
  generalize alignSize nwrite 4 - nwrite = k at hle
  interval_cases k <;> rfl

theorem record_padding (storage_type tag : Int) (data : Mat α) (r : WeightRecord)
    (hr : r = fwrite_weight_tag_data storage_type tag data ∨ r = fwrite_weight_data data) :
    r.padding = padding_bytes r.nwrite := by
  rcases hr with rfl | rfl
  · unfold fwrite_weight_tag_data
    by_cases h : storage_type = 1 ∧ tag = 0
    · rw [if_pos h]; rfl
    · rw [if_neg h]; rfl
  · unfold fwrite_weight_data WeightRecord.nwrite
    simp only [Nat.zero_add]

/-- C20, as stated, fails: for the largest value of `size_t` the sum in `alignSize` wraps:
`alignSize(2^64 - 1, 4)` is `0`, which is not a multiple of 4 that is at least `2^64 - 1`. -/
theorem alignSize_counterexample :
    alignSize (2 ^ 64 - 1) 4 = 0 ∧ ¬ (2 ^ 64 - 1 ≤ alignSize (2 ^ 64 - 1) 4) := by
  decide

/-- C20, amended.  For every tensor and both storage types, if the bytes of the tag and the
payload leave room for the padding in an `int` (`nwrite + 3 < 2^31`), the record written by
`fwrite_weight_tag_data` or by `fwrite_weight_data` has a number of bytes that is a multiple
of 4; its padding consists of zero bytes and has length `nalign - nwrite`, which is at most 3;
and for every `n <= 2^64 - 4`, `alignSize(n, 4)` is the least multiple of 4 that is at least
`n`. -/
theorem weight_record_alignment (storage_type tag : Int) (data : Mat α) (r : WeightRecord)
    (hr : r = fwrite_weight_tag_data storage_type tag data ∨ r = fwrite_weight_data data)
    (hfit : r.nwrite + 3 < 2 ^ 31) :
    r.nbytes % 4 = 0 ∧
    r.padding = List.replicate r.padding.length 0 ∧
    (r.padding.length : Int) = (alignSize r.nwrite 4 : Int) - (r.nwrite : Int) ∧
    r.padding.length ≤ 3 ∧
    ∀ n, n ≤ 2 ^ 64 - 4 →
      4 ∣ alignSize n 4 ∧ n ≤ alignSize n 4 ∧ ∀ m, 4 ∣ m → n ≤ m → alignSize n 4 ≤ m := by
  have hp := record_padding storage_type tag data r hr
  have hn : r.nwrite ≤ 2 ^ 64 - 4 := by omega
  obtain ⟨h1, h2, h3⟩ := padding_bytes_spec r.nwrite hn
  have ha := alignSize_four r.nwrite hn
  have hlen : r.padding.length = alignSize r.nwrite 4 - r.nwrite := by
    rw [hp, h1, List.length_replicate]
  refine ⟨?_, ?_, ?_, ?_, ?_⟩
  · unfold WeightRecord.nbytes
    rw [hlen]
    exact h3
  · rw [hlen, hp, h1]
  · rw [hlen]
    omega
  · rw [hlen]
    exact h2
  · intro n hn4
    have hn1 := alignSize_four n hn4
    refine ⟨⟨(n + 3) / 4, hn1⟩, by omega, ?_⟩
    rintro m ⟨k, rfl⟩ hle
    omega

/-- C20, instance: a tensor of three elements written with `storage_type == 1` and tag `0`
takes `4 + 2 * 3 = 10` bytes, is padded with two zero bytes and so fills 12 bytes. -/
theorem weight_record_alignment_witness :
    (fwrite_weight_tag_data 1 0 ({ w := 3, h := 1, c := 1, data := [1, 2, 3] } : Mat ℚ)).nwrite
      = 10 ∧
    (fwrite_weight_tag_data 1 0 ({ w := 3, h := 1, c := 1, data := [1, 2, 3] } : Mat ℚ)).padding
      = [0, 0] ∧
    (fwrite_weight_tag_data 1 0 ({ w := 3, h := 1, c := 1, data := [1, 2, 3] } : Mat ℚ)).nbytes
      % 4 = 0 :=
  ⟨by decide, by decide,
    (weight_record_alignment 1 0 ({ w := 3, h := 1, c := 1, data := [1, 2, 3] } : Mat ℚ) _
      (Or.inl rfl) (by decide)).1⟩

/-- C19, instance: after the pipeline `conv_bn_relu` has one layer that is not fused; `save`
writes `layer_count = 1`, one layer line and `blob_count = 2`: the names `data` and `relu`,
and not the names `conv` and `bn`, which only fused layers refer to. -/
theorem save_header_counts_witness :
    (save (optimize (id : ℚ → ℚ) Layer.blank conv_bn_relu)).layer_count = 1 ∧
    (save (optimize (id : ℚ → ℚ) Layer.blank conv_bn_relu)).lines.length = 1 ∧
    (save (optimize (id : ℚ → ℚ) Layer.blank conv_bn_relu)).blob_count = 2 ∧
    (save_count (optimize (id : ℚ → ℚ) Layer.blank conv_bn_relu)).2 = ["relu", "data"] :=
  ⟨by decide,
    (save_header_counts (optimize (id : ℚ → ℚ) Layer.blank conv_bn_relu)).2.1.trans
      (by decide),
    by decide, by decide⟩

/-! ## The passes by name -/

theorem run_named [LinearOrderedField α] (sqrt : α → α) (fresh : Layer α) (net : Net α) :
    RewritePass.run sqrt fresh (.forward .batchnorm_scale) net = fuse_batchnorm_scale net ∧
    RewritePass.run sqrt fresh (.forward (.batchnorm .Convolution)) net
      = fuse_convolution_batchnorm sqrt net ∧
    RewritePass.run sqrt fresh (.forward (.batchnorm .ConvolutionDepthWise)) net
      = fuse_convolutiondepthwise_batchnorm sqrt net ∧
    RewritePass.run sqrt fresh (.forward (.batchnorm .Deconvolution)) net
      = fuse_deconvolution_batchnorm sqrt net ∧
    RewritePass.run sqrt fresh (.forward (.batchnorm .DeconvolutionDepthWise)) net
      = fuse_deconvolutiondepthwise_batchnorm sqrt net ∧
    RewritePass.run sqrt fresh (.forward (.batchnorm .InnerProduct)) net
      = fuse_innerproduct_batchnorm sqrt net ∧
    RewritePass.run sqrt fresh (.forward .innerproduct_dropout) net
      = fuse_innerproduct_dropout net ∧
    RewritePass.run sqrt fresh (.forward (.activation .Convolution)) net
      = fuse_convolution_activation net ∧
    RewritePass.run sqrt fresh (.forward (.activation .ConvolutionDepthWise)) net
      = fuse_convolutiondepthwise_activation net ∧
    RewritePass.run sqrt fresh (.forward (.activation .Deconvolution)) net
      = fuse_deconvolution_activation net ∧
    RewritePass.run sqrt fresh (.forward (.activation .DeconvolutionDepthWise)) net
      = fuse_deconvolutiondepthwise_activation net ∧
    RewritePass.run sqrt fresh (.forward (.activation .InnerProduct)) net
      = fuse_innerproduct_activation net ∧
    RewritePass.run sqrt fresh .dropout net = eliminate_dropout net ∧
    RewritePass.run sqrt fresh (.forward .flatten_after_global_pooling) net
      = eliminate_flatten_after_global_pooling net ∧
    RewritePass.run sqrt fresh .replace_after_global_pooling net
      = replace_convolution_with_innerproduct_after_global_pooling fresh net ∧
    RewritePass.run sqrt fresh .replace_after_innerproduct net
      = replace_convolution_with_innerproduct_after_innerproduct fresh net ∧
    RewritePass.run sqrt fresh (.forward .flatten_after_innerproduct) net
      = eliminate_flatten_after_innerproduct net :=
  ⟨rfl, rfl, rfl, rfl, rfl, rfl, rfl, rfl, rfl, rfl, rfl, rfl, rfl, rfl, rfl, rfl, rfl⟩

/-! ## The storage type and the weight records -/

/-- C21.  Storage selection.  With the right argument count `main` gives `storage_type` the
value `1` if and only if `flag == 65536`, and `0` otherwise.  With `storage_type == 1` a
tensor passed with tag `0` is written as the tag `0x01306B47` followed by two bytes per
element; in every other case the tag passed is written, followed by `elemsize` bytes per
element, which is four for the weights of a layer; `fwrite_weight_data` writes no tag and
`elemsize` bytes per element, and does not depend on the storage type. -/
theorem storage_selection [LinearOrderedField α] (sqrt : α → α) (fresh : Layer α)
    (flag : Int) (loaded : Loaded α) (data : Mat α) (weights : List α) :
    ((main sqrt fresh 6 flag loaded).storage_type = some 1 ↔ flag = 65536) ∧
    (flag ≠ 65536 → (main sqrt fresh 6 flag loaded).storage_type = some 0) ∧
    ((fwrite_weight_tag_data 1 0 data).tag = some 0x01306B47 ∧
      (fwrite_weight_tag_data 1 0 data).elemsize = 2 ∧
      (fwrite_weight_tag_data 1 0 data).count = data.w * data.h * data.c ∧
      (fwrite_weight_tag_data 1 0 data).nwrite = 4 + 2 * (data.w * data.h * data.c)) ∧
    (∀ storage_type tag : Int, ¬ (storage_type = 1 ∧ tag = 0) →
      (fwrite_weight_tag_data storage_type tag data).tag = some tag ∧
      (fwrite_weight_tag_data storage_type tag data).elemsize = data.elemsize ∧
      (fwrite_weight_tag_data storage_type tag data).count = data.w * data.h * data.c ∧
      (fwrite_weight_tag_data storage_type tag data).nwrite
        = 4 + data.elemsize * (data.w * data.h * data.c)) ∧
    ((fwrite_weight_data data).tag = none ∧
      (fwrite_weight_data data).elemsize = data.elemsize ∧
      (fwrite_weight_data data).count = data.w * data.h * data.c ∧
      (fwrite_weight_data data).nwrite = data.elemsize * (data.w * data.h * data.c)) ∧
    (Mat.of_weights weights).elemsize = 4 := by
  refine ⟨?_, ?_, ⟨rfl, rfl, rfl, rfl⟩, ?_, ⟨rfl, rfl, rfl, ?_⟩, rfl⟩
  · unfold main
    by_cases h : flag = 65536
    · simp [h]
    · simp [h]
  · intro h
    unfold main
    simp [h]
  · intro storage_type tag h
    unfold fwrite_weight_tag_data
    rw [if_neg h]
    exact ⟨rfl, rfl, rfl, rfl⟩
  · unfold fwrite_weight_data WeightRecord.nwrite
    simp only [Nat.zero_add]

/-! ## The parameters of a layer line -/

theorem mem_fprintf_param_value (key phase phase_default : Int) (x : Param α) :
    x ∈ (fprintf_param_value key phase phase_default : List (Param α)) ↔
      phase ≠ phase_default ∧ x = .int key phase := by
  unfold fprintf_param_value
  by_cases h : phase = phase_default <;> simp [h]

theorem mem_fprintf_param_secondary (key secondary primary : Int) (x : Param α) :
    x ∈ (fprintf_param_secondary key secondary primary : List (Param α)) ↔
      secondary ≠ primary ∧ x = .int key secondary := by
  unfold fprintf_param_secondary
  by_cases h : secondary = primary <;> simp [h]

theorem mem_fprintf_activation_params (activation_params : List α) (x : Param α) :
    x ∈ fprintf_activation_params activation_params ↔
      activation_params ≠ [] ∧ x = .float_array 10 activation_params := by
  unfold fprintf_activation_params
  cases activation_params <;> simp

theorem load_param_empty (fresh : Layer α) :
    (Deconvolution.load_param ParamDict.empty fresh).num_output = 0 ∧
    (Deconvolution.load_param ParamDict.empty fresh).kernel_w = 0 ∧
    (Deconvolution.load_param ParamDict.empty fresh).kernel_h = 0 ∧
    (Deconvolution.load_param ParamDict.empty fresh).dilation_w = 1 ∧
    (Deconvolution.load_param ParamDict.empty fresh).dilation_h = 1 ∧
    (Deconvolution.load_param ParamDict.empty fresh).stride_w = 1 ∧
    (Deconvolution.load_param ParamDict.empty fresh).stride_h = 1 ∧
    (Deconvolution.load_param ParamDict.empty fresh).pad_w = 0 ∧
    (Deconvolution.load_param ParamDict.empty fresh).pad_h = 0 ∧
    (Deconvolution.load_param ParamDict.empty fresh).bias_term = 0 ∧
    (Deconvolution.load_param ParamDict.empty fresh).weight_data_size = 0 ∧
    (Deconvolution.load_param ParamDict.empty fresh).output_pad_w = 0 ∧
    (Deconvolution.load_param ParamDict.empty fresh).output_pad_h = 0 ∧
    (Deconvolution.load_param ParamDict.empty fresh).activation_type = 0 ∧
    (Deconvolution.load_param ParamDict.empty fresh).activation_params = [] :=
  ⟨rfl, rfl, rfl, rfl, rfl, rfl, rfl, rfl, rfl, rfl, rfl, rfl, rfl, rfl, rfl⟩

/-- C23.  Sparse keys of a Deconvolution.  With the default object that
`Deconvolution::load_param` produces on an empty dictionary, `save` prints the item of a
primary scalar parameter (`0` num_output, `1` kernel_w, `2` dilation_w, `3` stride_w, `4`
pad_w, `5` bias_term, `6` weight_data_size, `8` output_pad_w, `9` activation_type), with
its value, if and only if the value differs from the default (`0, 0, 1, 1, 0, 0, 0, 0, 0`),
and prints the array item with id `10` (key `-23310`), holding `activation_params`, if and
only if `activation_params` is not empty. -/
theorem deconvolution_sparse_keys (fresh op : Layer α) :
    (∀ v, Param.int 0 v ∈ save_Deconvolution op (Deconvolution.load_param ParamDict.empty fresh)
      ↔ op.num_output ≠ 0 ∧ v = op.num_output) ∧
    (∀ v, Param.int 1 v ∈ save_Deconvolution op (Deconvolution.load_param ParamDict.empty fresh)
      ↔ op.kernel_w ≠ 0 ∧ v = op.kernel_w) ∧
    (∀ v, Param.int 2 v ∈ save_Deconvolution op (Deconvolution.load_param ParamDict.empty fresh)
      ↔ op.dilation_w ≠ 1 ∧ v = op.dilation_w) ∧
    (∀ v, Param.int 3 v ∈ save_Deconvolution op (Deconvolution.load_param ParamDict.empty fresh)
      ↔ op.stride_w ≠ 1 ∧ v = op.stride_w) ∧
    (∀ v, Param.int 4 v ∈ save_Deconvolution op (Deconvolution.load_param ParamDict.empty fresh)
      ↔ op.pad_w ≠ 0 ∧ v = op.pad_w) ∧
    (∀ v, Param.int 5 v ∈ save_Deconvolution op (Deconvolution.load_param ParamDict.empty fresh)
      ↔ op.bias_term ≠ 0 ∧ v = op.bias_term) ∧
    (∀ v, Param.int 6 v ∈ save_Deconvolution op (Deconvolution.load_param ParamDict.empty fresh)
      ↔ op.weight_data_size ≠ 0 ∧ v = op.weight_data_size) ∧
    (∀ v, Param.int 8 v ∈ save_Deconvolution op (Deconvolution.load_param ParamDict.empty fresh)
      ↔ op.output_pad_w ≠ 0 ∧ v = op.output_pad_w) ∧
    (∀ v, Param.int 9 v ∈ save_Deconvolution op (Deconvolution.load_param ParamDict.empty fresh)
      ↔ op.activation_type ≠ 0 ∧ v = op.activation_type) ∧
    (∀ id vs, Param.float_array id vs
        ∈ save_Deconvolution op (Deconvolution.load_param ParamDict.empty fresh)
      ↔ op.activation_params ≠ [] ∧ id = 10 ∧ vs = op.activation_params) ∧
    (Param.float_array 10 op.activation_params : Param α).key = -23310 := by
  obtain ⟨h0, h1, -, h2, -, h3, -, h4, -, h5, h6, h8, -, h9, -⟩ := load_param_empty fresh
  refine ⟨?_, ?_, ?_, ?_, ?_, ?_, ?_, ?_, ?_, ?_, rfl⟩ <;>
    intros <;>
    simp only [save_Deconvolution, List.mem_append, mem_fprintf_param_value,
      mem_fprintf_param_secondary, mem_fprintf_activation_params, h0, h1, h2, h3, h4, h5, h6,
      h8, h9] <;>
    simp +decide [eq_comm]

/-- C24, as stated, fails: for the Pooling `pooling_pad_right` (`pad_left = 0`,
`pad_right = 1`, `global_pooling = 1`) `save` prints `14=1 4=1`.  The secondary member
`pad_right` has key 14 and is compared with `pad_left`, whose key is 3, not 4; and the
parameter with key `14 - 10 = 4`, `global_pooling`, has the same value as `pad_right`, which
is printed all the same. -/
theorem paired_parameter_counterexample :
    save_paired pooling_pad_right Layer.blank = some [.int 14 1, .int 4 1] ∧
    pooling_pad_right.pad_right = 1 ∧ pooling_pad_right.pad_left = 0 ∧
    pooling_pad_right.global_pooling = 1 ∧
    (∃ pair ∈ (paired_parameters "Pooling" : List (ParamPair ℚ)),
      pair.secondary_key = 14 ∧ pair.primary_key = 3 ∧
      pair.secondary pooling_pad_right = pooling_pad_right.pad_right ∧
      pair.primary pooling_pad_right = pooling_pad_right.pad_left ∧
      pair.secondary_key ≠ pair.primary_key + 10) := by
  refine ⟨by decide, rfl, rfl, rfl,
    ⟨3, fun op => op.pad_left, 14, fun op => op.pad_right⟩, ?_, rfl, rfl, rfl, rfl, by decide⟩
  simp [paired_parameters]

/-- C24, amended.  For a layer of one of the five kinds with paired parameters, each
secondary member is printed, with its own value, if and only if that value differs from the
value of its primary member, and the item with the key of the primary member carries the
value of the primary member.  The key of the secondary member is the key of the primary
member plus 10 for Convolution, ConvolutionDepthWise, Deconvolution and
DeconvolutionDepthWise and for `kernel_h`, `stride_h` and `pad_top` of a Pooling; `pad_right`
of a Pooling has key 14 and primary member `pad_left` (key 3), `pad_bottom` has key 15 and
primary member `pad_top` (key 13). -/
theorem paired_parameter_encoding (op op_default : Layer α) (ps : List (Param α))
    (h : save_paired op op_default = some ps) :
    ∀ pair ∈ (paired_parameters op.type : List (ParamPair α)),
      (∀ v, Param.int pair.secondary_key v ∈ ps ↔
        pair.secondary op ≠ pair.primary op ∧ v = pair.secondary op) ∧
      (∀ v, Param.int pair.primary_key v ∈ ps → v = pair.primary op) ∧
      (op.type ≠ "Pooling" → pair.secondary_key = pair.primary_key + 10) ∧
      (op.type = "Pooling" → pair.secondary_key = pair.primary_key + 10 ∨
        (pair.primary_key = 3 ∧ pair.secondary_key = 14) ∨
        (pair.primary_key = 13 ∧ pair.secondary_key = 15)) := by
  unfold save_paired at h
  by_cases h1 : op.type = "Convolution"
  · rw [if_pos h1] at h
    cases h
    intro pair hp
    simp only [paired_parameters, h1, true_or, if_true, List.mem_cons, List.mem_singleton,
      List.not_mem_nil, or_false] at hp
    rcases hp with rfl | rfl | rfl | rfl <;>
      simp only [save_Convolution, List.mem_append, mem_fprintf_param_value,
        mem_fprintf_param_secondary, mem_fprintf_activation_params] <;>
      simp +decide [eq_comm, h1]
  · rw [if_neg h1] at h
    by_cases h2 : op.type = "ConvolutionDepthWise"
    · rw [if_pos h2] at h
      cases h
      intro pair hp
      simp only [paired_parameters, h2, true_or, or_true, if_true, List.mem_cons,
        List.mem_singleton, List.not_mem_nil, or_false] at hp
      rcases hp with rfl | rfl | rfl | rfl <;>
        simp only [save_ConvolutionDepthWise, List.mem_append, mem_fprintf_param_value,
          mem_fprintf_param_secondary, mem_fprintf_activation_params] <;>
        simp +decide [eq_comm, h2]
    · rw [if_neg h2] at h
      by_cases h3 : op.type = "Deconvolution"
      · rw [if_pos h3] at h
        cases h
        intro pair hp
        simp +decide only [paired_parameters, h3, false_or, or_false, if_true, if_false,
          List.mem_cons, List.mem_singleton, List.not_mem_nil] at hp
        rcases hp with rfl | rfl | rfl | rfl | rfl <;>
          simp only [save_Deconvolution, List.mem_append, mem_fprintf_param_value,
            mem_fprintf_param_secondary, mem_fprintf_activation_params] <;>
          simp +decide [eq_comm, h3]
      · rw [if_neg h3] at h
        by_cases h4 : op.type = "DeconvolutionDepthWise"
        · rw [if_pos h4] at h
          cases h
          intro pair hp
          simp only [paired_parameters, h4, true_or, or_true, if_true, List.mem_cons,
            List.mem_singleton, List.not_mem_nil, or_false] at hp
          rcases hp with rfl | rfl | rfl | rfl <;>
            simp only [save_DeconvolutionDepthWise, List.mem_append, mem_fprintf_param_value,
              mem_fprintf_param_secondary, mem_fprintf_activation_params] <;>
            simp +decide [eq_comm, h4]
        · rw [if_neg h4] at h
          by_cases h5 : op.type = "Pooling"
          · rw [if_pos h5] at h
            cases h
            intro pair hp
            simp +decide only [paired_parameters, h5, false_or, or_false, if_true, if_false,
              List.mem_cons, List.mem_singleton, List.not_mem_nil] at hp
            rcases hp with rfl | rfl | rfl | rfl | rfl <;>
              simp only [save_Pooling, List.mem_append, mem_fprintf_param_value,
                mem_fprintf_param_secondary, mem_fprintf_activation_params] <;>
              simp +decide [eq_comm, h5]
          · rw [if_neg h5] at h
            cases h

/-- C24, instance: for the Pooling `pooling_pad_right`, whose parameters are printed as
`14=1 4=1`, every secondary member of the table is among the printed items exactly when it
differs from its primary member. -/
theorem paired_parameter_encoding_witness :
    save_paired pooling_pad_right Layer.blank = some [.int 14 1, .int 4 1] ∧
    ∀ pair ∈ (paired_parameters pooling_pad_right.type : List (ParamPair ℚ)),
      ∀ v, Param.int pair.secondary_key v ∈ ([.int 14 1, .int 4 1] : List (Param ℚ)) ↔
        pair.secondary pooling_pad_right ≠ pair.primary pooling_pad_right ∧
          v = pair.secondary pooling_pad_right :=
  ⟨by decide, fun pair hp =>
    (paired_parameter_encoding pooling_pad_right Layer.blank [.int 14 1, .int 4 1]
      (by decide) pair hp).1⟩

theorem get_nil (id dflt : Int) : ParamDict.get ({ items := [] } : ParamDict α) id dflt = dflt :=
  rfl

theorem get_fprintf_param_value (key phase phase_default : Int) (rest : List (Param α))
    (id dflt : Int) :
    ParamDict.get { items := fprintf_param_value key phase phase_default ++ rest } id dflt =
      if key = id ∧ phase ≠ phase_default then phase
      else ParamDict.get { items := rest } id dflt := by
  unfold fprintf_param_value ParamDict.get
  by_cases h : phase = phase_default <;> by_cases hk : key = id <;> simp [h, hk]

theorem get_fprintf_param_secondary (key secondary primary : Int) (rest : List (Param α))
    (id dflt : Int) :
    ParamDict.get { items := fprintf_param_secondary key secondary primary ++ rest } id dflt =
      if key = id ∧ secondary ≠ primary then secondary
      else ParamDict.get { items := rest } id dflt := by
  unfold fprintf_param_secondary ParamDict.get
  by_cases h : secondary = primary <;> by_cases hk : key = id <;> simp [h, hk]

theorem get_fprintf_activation_params (activation_params : List α) (id dflt : Int) :
    ParamDict.get { items := fprintf_activation_params activation_params } id dflt = dflt := by
  unfold fprintf_activation_params ParamDict.get
  cases activation_params <;> simp

theorem get_of_not_mem (pd : ParamDict α) (id dflt : Int)
    (h : ∀ v, Param.int id v ∉ pd.items) : pd.get id dflt = dflt := by
  unfold ParamDict.get
  have : (pd.items.findSome? fun
      | .int key value => if key = id then some value else none
      | .float_array _ _ => none) = none := by
    rw [List.findSome?_eq_none_iff]
    intro x hx
    cases x with
    | int key value =>
      by_cases hk : key = id
      · subst hk
        exact absurd hx (h value)
      · simp [hk]
    | float_array i vs => rfl
  rw [this]
  rfl

theorem load_param_fields (pd : ParamDict α) (fresh : Layer α) :
    (Deconvolution.load_param pd fresh).num_output = pd.get 0 0 ∧
    (Deconvolution.load_param pd fresh).kernel_w = pd.get 1 0 ∧
    (Deconvolution.load_param pd fresh).kernel_h = pd.get 11 (pd.get 1 0) ∧
    (Deconvolution.load_param pd fresh).dilation_w = pd.get 2 1 ∧
    (Deconvolution.load_param pd fresh).dilation_h = pd.get 12 (pd.get 2 1) ∧
    (Deconvolution.load_param pd fresh).stride_w = pd.get 3 1 ∧
    (Deconvolution.load_param pd fresh).stride_h = pd.get 13 (pd.get 3 1) ∧
    (Deconvolution.load_param pd fresh).pad_w = pd.get 4 0 ∧
    (Deconvolution.load_param pd fresh).pad_h = pd.get 14 (pd.get 4 0) ∧
    (Deconvolution.load_param pd fresh).bias_term = pd.get 5 0 ∧
    (Deconvolution.load_param pd fresh).weight_data_size = pd.get 6 0 ∧
    (Deconvolution.load_param pd fresh).output_pad_w = pd.get 8 0 ∧
    (Deconvolution.load_param pd fresh).output_pad_h = pd.get 18 (pd.get 8 0) ∧
    (Deconvolution.load_param pd fresh).activation_type = pd.get 9 0 :=
  ⟨rfl, rfl, rfl, rfl, rfl, rfl, rfl, rfl, rfl, rfl, rfl, rfl, rfl, rfl⟩

/-- C25.  Round trip of the integer parameters of a Deconvolution.  Let `saved` be the items
that `save` prints for the Deconvolution `L` (the default object being the one that
`Deconvolution::load_param` makes of an empty dictionary).  `Deconvolution::load_param` on
the dictionary holding exactly `saved` gives every one of the fourteen integer fields the
value it has in `L`.  And for every dictionary, a secondary key (11, 12, 13, 14, 18) that is
absent is loaded as the loaded value of its primary. -/
theorem deconvolution_param_round_trip (L fresh fresh2 : Layer α) :
    (Deconvolution.load_param
      { items := save_Deconvolution L (Deconvolution.load_param ParamDict.empty fresh) }
      fresh2).num_output = L.num_output ∧
    (Deconvolution.load_param
      { items := save_Deconvolution L (Deconvolution.load_param ParamDict.empty fresh) }
      fresh2).kernel_w = L.kernel_w ∧
    (Deconvolution.load_param
      { items := save_Deconvolution L (Deconvolution.load_param ParamDict.empty fresh) }
      fresh2).kernel_h = L.kernel_h ∧
    (Deconvolution.load_param
      { items := save_Deconvolution L (Deconvolution.load_param ParamDict.empty fresh) }
      fresh2).dilation_w = L.dilation_w ∧
    (Deconvolution.load_param
      { items := save_Deconvolution L (Deconvolution.load_param ParamDict.empty fresh) }
      fresh2).dilation_h = L.dilation_h ∧
    (Deconvolution.load_param
      { items := save_Deconvolution L (Deconvolution.load_param ParamDict.empty fresh) }
      fresh2).stride_w = L.stride_w ∧
    (Deconvolution.load_param
      { items := save_Deconvolution L (Deconvolution.load_param ParamDict.empty fresh) }
      fresh2).stride_h = L.stride_h ∧
    (Deconvolution.load_param
      { items := save_Deconvolution L (Deconvolution.load_param ParamDict.empty fresh) }
      fresh2).pad_w = L.pad_w ∧
    (Deconvolution.load_param
      { items := save_Deconvolution L (Deconvolution.load_param ParamDict.empty fresh) }
      fresh2).pad_h = L.pad_h ∧
    (Deconvolution.load_param
      { items := save_Deconvolution L (Deconvolution.load_param ParamDict.empty fresh) }
      fresh2).bias_term = L.bias_term ∧
    (Deconvolution.load_param
      { items := save_Deconvolution L (Deconvolution.load_param ParamDict.empty fresh) }
      fresh2).weight_data_size = L.weight_data_size ∧
    (Deconvolution.load_param
      { items := save_Deconvolution L (Deconvolution.load_param ParamDict.empty fresh) }
      fresh2).output_pad_w = L.output_pad_w ∧
    (Deconvolution.load_param
      { items := save_Deconvolution L (Deconvolution.load_param ParamDict.empty fresh) }
      fresh2).output_pad_h = L.output_pad_h ∧
    (Deconvolution.load_param
      { items := save_Deconvolution L (Deconvolution.load_param ParamDict.empty fresh) }
      fresh2).activation_type = L.activation_type ∧
    (∀ pd : ParamDict α,
      ((∀ v, Param.int 11 v ∉ pd.items) →
        (Deconvolution.load_param pd fresh2).kernel_h =
          (Deconvolution.load_param pd fresh2).kernel_w) ∧
      ((∀ v, Param.int 12 v ∉ pd.items) →
        (Deconvolution.load_param pd fresh2).dilation_h =
          (Deconvolution.load_param pd fresh2).dilation_w) ∧
      ((∀ v, Param.int 13 v ∉ pd.items) →
        (Deconvolution.load_param pd fresh2).stride_h =
          (Deconvolution.load_param pd fresh2).stride_w) ∧
      ((∀ v, Param.int 14 v ∉ pd.items) →
        (Deconvolution.load_param pd fresh2).pad_h =
          (Deconvolution.load_param pd fresh2).pad_w) ∧
      ((∀ v, Param.int 18 v ∉ pd.items) →
        (Deconvolution.load_param pd fresh2).output_pad_h =
          (Deconvolution.load_param pd fresh2).output_pad_w)) := by
  obtain ⟨h0, h1, -, h2, -, h3, -, h4, -, h5, h6, h8, -, h9, -⟩ := load_param_empty fresh
  have hget : ∀ id dflt : Int,
      ParamDict.get
        { items := save_Deconvolution L (Deconvolution.load_param ParamDict.empty fresh) }
        id dflt =
      if 0 = id ∧ L.num_output ≠ 0 then L.num_output
      else if 1 = id ∧ L.kernel_w ≠ 0 then L.kernel_w
      else if 11 = id ∧ L.kernel_h ≠ L.kernel_w then L.kernel_h
      else if 2 = id ∧ L.dilation_w ≠ 1 then L.dilation_w
      else if 12 = id ∧ L.dilation_h ≠ L.dilation_w then L.dilation_h
      else if 3 = id ∧ L.stride_w ≠ 1 then L.stride_w
      else if 13 = id ∧ L.stride_h ≠ L.stride_w then L.stride_h
      else if 4 = id ∧ L.pad_w ≠ 0 then L.pad_w
      else if 14 = id ∧ L.pad_h ≠ L.pad_w then L.pad_h
      else if 5 = id ∧ L.bias_term ≠ 0 then L.bias_term
      else if 6 = id ∧ L.weight_data_size ≠ 0 then L.weight_data_size
      else if 8 = id ∧ L.output_pad_w ≠ 0 then L.output_pad_w
      else if 18 = id ∧ L.output_pad_h ≠ L.output_pad_w then L.output_pad_h
      else if 9 = id ∧ L.activation_type ≠ 0 then L.activation_type
      else dflt := by
    intro id dflt
    simp only [save_Deconvolution, List.append_assoc, get_fprintf_param_value,
      get_fprintf_param_secondary, get_fprintf_activation_params, h0, h1, h2, h3, h4, h5, h6,
      h8, h9]
  have e0 : ∀ x : Int, (if x ≠ 0 then x else 0) = x := by
    intro x; by_cases h : x = 0 <;> simp [h]
  have e1 : ∀ x : Int, (if x ≠ 1 then x else 1) = x := by
    intro x; by_cases h : x = 1 <;> simp [h]
  have e2 : ∀ x y : Int, (if x ≠ y then x else y) = x := by
    intro x y; by_cases h : x = y <;> simp [h]
  have g0 := hget 0 0
  have g1 := hget 1 0
  have g2 := hget 2 1
  have g3 := hget 3 1
  have g4 := hget 4 0
  have g5 := hget 5 0
  have g6 := hget 6 0
  have g8 := hget 8 0
  have g9 := hget 9 0
  simp +decide only [true_and, false_and, if_false, e0, e1] at g0 g1 g2 g3 g4 g5 g6 g8 g9
  have g11 := hget 11 L.kernel_w
  have g12 := hget 12 L.dilation_w
  have g13 := hget 13 L.stride_w
  have g14 := hget 14 L.pad_w
  have g18 := hget 18 L.output_pad_w
  simp +decide only [true_and, false_and, if_false, e2] at g11 g12 g13 g14 g18
  obtain ⟨f0, f1, f11, f2, f12, f3, f13, f4, f14, f5, f6, f8, f18, f9⟩ := load_param_fields
    { items := save_Deconvolution L (Deconvolution.load_param ParamDict.empty fresh) } fresh2
  rw [f0, f1, f11, f2, f12, f3, f13, f4, f14, f5, f6, f8, f18, f9, g1, g2, g3, g4, g8, g11,
    g12, g13, g14, g18]
  refine ⟨g0, rfl, rfl, rfl, rfl, rfl, rfl, rfl, rfl, g5, g6, rfl, rfl, g9, ?_⟩
  intro pd
  obtain ⟨-, p1, p11, p2, p12, p3, p13, p4, p14, -, -, p8, p18, -⟩ := load_param_fields pd fresh2
  rw [p1, p11, p2, p12, p3, p13, p4, p14, p8, p18]
  exact ⟨fun h => get_of_not_mem pd 11 _ h, fun h => get_of_not_mem pd 12 _ h,
    fun h => get_of_not_mem pd 13 _ h, fun h => get_of_not_mem pd 14 _ h,
    fun h => get_of_not_mem pd 18 _ h⟩

/-- C25, instance: the Deconvolution with `kernel_w = kernel_h = 3`, `stride_w = 2`,
`stride_h = 1` is printed as `1=3 3=2 13=1`; key 11 is absent and `kernel_h` is loaded as
the loaded `kernel_w`, which is 3. -/
theorem deconvolution_param_round_trip_witness :
    save_Deconvolution
      ({ (Layer.blank : Layer ℚ) with kernel_w := 3, kernel_h := 3, stride_w := 2 })
      (Deconvolution.load_param ParamDict.empty Layer.blank) =
      [.int 1 3, .int 3 2, .int 13 1] ∧
    (∀ v, Param.int 11 v ∉ ([.int 1 3, .int 3 2, .int 13 1] : List (Param ℚ))) ∧
    (Deconvolution.load_param { items := [.int 1 3, .int 3 2, .int 13 1] }
      (Layer.blank : Layer ℚ)).kernel_h =
    (Deconvolution.load_param { items := [.int 1 3, .int 3 2, .int 13 1] }
      (Layer.blank : Layer ℚ)).kernel_w ∧
    (Deconvolution.load_param { items := [.int 1 3, .int 3 2, .int 13 1] }
      (Layer.blank : Layer ℚ)).kernel_w = 3 :=
  ⟨by decide, by simp,
    ((deconvolution_param_round_trip
      ({ (Layer.blank : Layer ℚ) with kernel_w := 3, kernel_h := 3, stride_w := 2 })
      Layer.blank Layer.blank).2.2.2.2.2.2.2.2.2.2.2.2.2.2
        { items := [.int 1 3, .int 3 2, .int 13 1] }).1 (by simp),
    by decide⟩

/-- C26.  `Deconvolution::load_model` asks the reader first for `weight_data_size` elements
with type 0 and then, exactly when that tensor is not empty and `bias_term != 0`, for
`num_output` elements with type 1, from the reader as the first request left it.  It returns
0 exactly when the weight tensor is not empty and (`bias_term == 0` or the bias tensor is not
empty), and -100 otherwise; after an empty weight tensor the only request is the first, and
the tensors obtained are stored in `weight_data` and `bias_data`. -/
theorem load_model_order {σ : Type} (load : σ → Int → Int → Mat α × σ) (mb : σ)
    (L : Layer α) :
    (Deconvolution.load_model load mb L).2.2.2 =
      (L.weight_data_size, 0) ::
        (if ¬ (load mb L.weight_data_size 0).1.empty ∧ L.bias_term ≠ 0
         then [(L.num_output, 1)] else []) ∧
    ((Deconvolution.load_model load mb L).1 = 0 ↔
      ¬ (load mb L.weight_data_size 0).1.empty ∧
        (L.bias_term = 0 ∨
          ¬ (load (load mb L.weight_data_size 0).2 L.num_output 1).1.empty)) ∧
    ((Deconvolution.load_model load mb L).1 = 0 ∨
      (Deconvolution.load_model load mb L).1 = -100) ∧
    ((load mb L.weight_data_size 0).1.empty ↔
      (Deconvolution.load_model load mb L).1 = -100 ∧
        (Deconvolution.load_model load mb L).2.2.2 = [(L.weight_data_size, 0)]) ∧
    (Deconvolution.load_model load mb L).2.1.weight_data =
      (load mb L.weight_data_size 0).1.data ∧
    (Deconvolution.load_model load mb L).2.1.bias_data =
      (if ¬ (load mb L.weight_data_size 0).1.empty ∧ L.bias_term ≠ 0
       then (load (load mb L.weight_data_size 0).2 L.num_output 1).1.data
       else L.bias_data) := by
  unfold Deconvolution.load_model
  by_cases hw : (load mb L.weight_data_size 0).1.empty
  · simp [hw]
  · by_cases hb : L.bias_term = 0
    · simp [hw, hb]
    · by_cases he : (load (load mb L.weight_data_size 0).2 L.num_output 1).1.empty
      · simp [hw, hb, he]
      · simp [hw, hb, he]

/-- C28.  Multi-consumer intermediates are not protected.  In `conv_bn_branch` the top blob 1
of the Convolution is read by the BatchNorm and by the Softmax.  After
`fuse_convolution_batchnorm` the BatchNorm is fused, `tops[0]` of the Convolution is blob 2,
the former top of the BatchNorm, and the Softmax, not fused, still reads blob 1, which is in
the tops of no layer that is not fused. -/
theorem multi_consumer_unprotected :
    (conv_bn_branch.layers.map fun L => (L.type, L.bottoms, L.tops)) =
      [("Input", [], [0]), ("Convolution", [0], [1]), ("BatchNorm", [1], [2]),
       ("Softmax", [1], [3])] ∧
    ((fuse_convolution_batchnorm id conv_bn_branch).layers.map
        fun L => (L.type, L.bottoms, L.tops)) =
      [("Input", [], [0]), ("Convolution", [0], [2]), ("ncnnfused", [1], [2]),
       ("Softmax", [1], [3])] ∧
    (∀ L ∈ (fuse_convolution_batchnorm id conv_bn_branch).layers,
      L.type ≠ "ncnnfused" → 1 ∉ L.tops) := by
  refine ⟨by decide, by decide, by decide⟩

theorem rewired_fused_kept {net net1 : Net α} {a b : Nat} (h : Rewired net net1 a b)
    (k : Nat) (L : Layer α) (hk : net.layers[k]? = some L) (hf : L.type = "ncnnfused") :
    net1.layers[k]? = some L := by
  have hlen := rewired_length_eq h
  obtain ⟨K, K1, B, hK, hB, _, hKnf, hkind, _, _, _, _, _, _, hlook⟩ := rewired_lookup h
  have hk1 : k < net1.layers.length := by
    rw [hlen]; exact (List.getElem?_eq_some_iff.mp hk).1
  have hL1 : net1.layers[k]? = some (net1.layers[k]) := List.getElem?_eq_getElem hk1
  rcases hlook k _ hL1 with ⟨hka, _⟩ | ⟨hkb, _⟩ | ⟨_, _, hL⟩
  · subst hka
    rw [hK] at hk; cases hk
    exact absurd hf hKnf
  · subst hkb
    rw [hB] at hk; cases hk
    exact absurd hf (absorbed_kind_not_fused _ hkind)
  · rw [hk] at hL
    rw [hL1, ← hL]

theorem replaced_fused_kept {fresh : Layer α} {net net1 : Net α} {j : Nat}
    (h : Replaced fresh net net1 j)
    (k : Nat) (L : Layer α) (hk : net.layers[k]? = some L) (hf : L.type = "ncnnfused") :
    net1.layers[k]? = some L := by
  obtain ⟨C, hC, hty, hl, _⟩ := h
  rw [hl, List.getElem?_set]
  by_cases hjk : j = k
  · subst hjk
    rw [hC] at hk; cases hk
    rw [hf] at hty
    exact absurd hty (by decide)
  · rw [if_neg hjk]
    exact hk

/-- C29.  Fused is absorbing.  A layer whose type is the fused sentinel before a rewrite pass
is, after the pass, the same layer at the same index: its type, bottoms, tops and all its
fields are unchanged.  Hence it is still there, unchanged, after any sequence of rewrite
passes, and in particular after the whole pipeline of the driver: the set of indices of fused
layers only grows. -/
theorem fused_absorbing [LinearOrderedField α] (sqrt : α → α) (fresh : Layer α)
    (net : Net α) (k : Nat) (L : Layer α) (hk : net.layers[k]? = some L)
    (hf : L.type = "ncnnfused") :
    (∀ pass : RewritePass, (pass.run sqrt fresh net).layers[k]? = some L) ∧
    (∀ passes : List RewritePass, (run_passes sqrt fresh passes net).layers[k]? = some L) ∧
    (optimize sqrt fresh net).layers[k]? = some L := by
  have hpass : ∀ (pass : RewritePass) (n : Net α), n.layers[k]? = some L →
      (pass.run sqrt fresh n).layers[k]? = some L := by
    intro pass n hn
    exact pass_induction sqrt fresh (fun n => n.layers[k]? = some L)
      (fun n n1 a b hI hr => rewired_fused_kept hr k L hI hf)
      (fun n n1 j hI hr => replaced_fused_kept hr k L hI hf) pass n hn
  have hrun : ∀ passes : List RewritePass,
      (run_passes sqrt fresh passes net).layers[k]? = some L := by
    intro passes
    exact foldl_invariant (fun n : Net α => n.layers[k]? = some L)
      (fun n pass => pass.run sqrt fresh n) (fun n pass hn => hpass pass n hn) passes net hk
  exact ⟨fun pass => hpass pass net hk, hrun, hrun driver_order⟩

/-- C29, instance: in `conv_bn_relu` after `fuse_convolution_batchnorm` the BatchNorm at
index 1 is fused; `fuse_convolution_activation`, which then folds the ReLU into the
Convolution, leaves it as it is. -/
theorem fused_absorbing_witness :
    ∃ L : Layer ℚ, (fuse_convolution_batchnorm id conv_bn_relu).layers[1]? = some L ∧
      L.type = "ncnnfused" ∧
      ((RewritePass.forward (.activation .Convolution)).run id Layer.blank
        (fuse_convolution_batchnorm id conv_bn_relu)).layers[1]? = some L ∧
      (((RewritePass.forward (.activation .Convolution)).run id Layer.blank
        (fuse_convolution_batchnorm id conv_bn_relu)).layers.map fun L => L.type) =
        ["Convolution", "ncnnfused", "ncnnfused"] := by
  have ht : ((fuse_convolution_batchnorm id conv_bn_relu).layers[1]?).map (fun L => L.type) =
      some "ncnnfused" := by decide
  cases hL : (fuse_convolution_batchnorm id conv_bn_relu).layers[1]? with
  | none => rw [hL] at ht; cases ht
  | some L =>
    rw [hL] at ht
    have hf : L.type = "ncnnfused" := by simpa using ht
    exact ⟨L, rfl, hf,
      (fused_absorbing id Layer.blank (fuse_convolution_batchnorm id conv_bn_relu) 1 L hL hf).1
        (.forward (.activation .Convolution)), by decide⟩

theorem foldl_fixed {σ β : Type} (f : σ → β → σ) (s : σ) (h : ∀ x, f s x = s) (l : List β) :
    l.foldl f s = s :=
  foldl_invariant (fun t => t = s) f (fun t x ht => by rw [ht]; exact h x) l s rfl

theorem no_match_partner_none (R : ChainRule α) (net : Net α) (h : ¬ pattern_match R net)
    (i : Nat) : chain_partner R net i = none := by
  cases hp : chain_partner R net i with
  | none => rfl
  | some j =>
    exfalso
    obtain ⟨A, hA, hg⟩ := chain_partner_some_guard R net i j hp
    obtain ⟨hij, ⟨B, hB, hty, hlen, hbot⟩, _⟩ := (chain_partner_eq_some R net i j A hA hg).mp hp
    exact h ⟨i, j, A, B, hij, hA, hB, hg, hty, hlen, hbot⟩

theorem no_match_dropout_partner_none [LinearOrderedField α] (net : Net α)
    (h : ¬ dropout_match net) (i : Nat) : dropout_partner net i = none := by
  cases hp : dropout_partner net i with
  | none => rfl
  | some j =>
    exfalso
    obtain ⟨D, hD, hty, hs⟩ := dropout_partner_some net i j hp
    obtain ⟨hji, ⟨L, hL, hnf, hlen, htop⟩, _⟩ :=
      (dropout_partner_eq_some net i j D hD hty hs).mp hp
    exact h ⟨i, j, D, L, hji, hD, hL, hty, hs, hnf, hlen, htop⟩

theorem chain_pass_no_match (R : ChainRule α) (net : Net α) (h : ¬ pattern_match R net) :
    chain_pass R net = net := by
  unfold chain_pass
  apply foldl_fixed
  intro i
  unfold chain_step
  rw [no_match_partner_none R net h i]

/-- C21, instance: with flag 0 the storage type is 0, with flag 65536 it is 1. -/
theorem storage_selection_witness :
    (0 : Int) ≠ 65536 ∧
    (main id Layer.blank 6 0
      { param_status := 0, model_status := 0, net := conv_bn_relu }).storage_type = some 0 ∧
    (main id Layer.blank 6 65536
      { param_status := 0, model_status := 0, net := conv_bn_relu }).storage_type = some 1 :=
  ⟨by decide,
    (storage_selection id Layer.blank 0
      { param_status := 0, model_status := 0, net := conv_bn_relu }
      (Mat.of_weights [1, 2]) [1, 2]).2.1 (by decide),
    (storage_selection id Layer.blank 65536
      { param_status := 0, model_status := 0, net := conv_bn_relu }
      (Mat.of_weights [1, 2]) [1, 2]).1.mpr rfl⟩

/-! ## The Softmax block, the capability query and the ARM layer -/

/-- C32.  Softmax companion key.  For a Softmax, `save` prints the item `1=1` if and only if
`axis != 0`; every item it prints is the axis item `0=axis` or the item `1=1`; the axis item
is printed if and only if `axis` differs from its default; and when both items are printed
the output is exactly `0=axis 1=1`, the companion right after the axis item.  With the default
`axis = 0` the output is `0=axis 1=1` when `axis != 0` and nothing otherwise. -/
theorem softmax_companion_key (op op_default : Layer α) :
    (∀ v, Param.int 1 v ∈ save_Softmax op op_default ↔ op.axis ≠ 0 ∧ v = 1) ∧
    (∀ x ∈ save_Softmax op op_default, x = Param.int 0 op.axis ∨ x = Param.int 1 1) ∧
    (∀ v, Param.int 0 v ∈ save_Softmax op op_default ↔
      op.axis ≠ op_default.axis ∧ v = op.axis) ∧
    (op.axis ≠ op_default.axis → op.axis ≠ 0 →
      save_Softmax op op_default = [.int 0 op.axis, .int 1 1]) ∧
    (op_default.axis = 0 →
      save_Softmax op op_default = if op.axis ≠ 0 then [.int 0 op.axis, .int 1 1] else []) := by
  have hmem : ∀ x, x ∈ save_Softmax op op_default ↔
      (op.axis ≠ op_default.axis ∧ x = Param.int 0 op.axis) ∨
        (op.axis ≠ 0 ∧ x = Param.int 1 1) := by
    intro x
    unfold save_Softmax
    rw [List.mem_append, mem_fprintf_param_value]
    by_cases h0 : op.axis = 0 <;> simp [h0]
  refine ⟨?_, ?_, ?_, ?_, ?_⟩
  · intro v
    rw [hmem]
    simp +decide [eq_comm]
  · intro x hx
    rcases (hmem x).mp hx with ⟨_, h⟩ | ⟨_, h⟩
    · exact Or.inl h
    · exact Or.inr h
  · intro v
    rw [hmem]
    simp +decide [eq_comm]
  · intro h1 h0
    simp [save_Softmax, fprintf_param_value, h1, h0]
  · intro hd
    by_cases h0 : op.axis = 0
    · simp [save_Softmax, fprintf_param_value, h0, hd]
    · simp [save_Softmax, fprintf_param_value, h0, hd]

/-- C32, instance: a Softmax with `axis = 1` is printed as `0=1 1=1`. -/
theorem softmax_companion_key_witness :
    softmax_axis1.axis ≠ (Layer.blank : Layer ℚ).axis ∧ softmax_axis1.axis ≠ 0 ∧
    save_Softmax softmax_axis1 Layer.blank = [.int 0 1, .int 1 1] :=
  ⟨by decide, by decide,
    (softmax_companion_key softmax_axis1 Layer.blank).2.2.2.1 (by decide) (by decide)⟩

theorem support_fp32_conv_type_in_table (op : Layer α) (bottom : Mat α)
    (hkw : op.kernel_w = op.kernel_h) (hsw : op.stride_w = op.stride_h)
    (hdw : op.dilation_w = op.dilation_h) (hd : op.dilation_h = 1)
    (hk1 : 1 ≤ op.kernel_h) (hk7 : op.kernel_h ≤ 7) (hs1 : 1 ≤ op.stride_h)
    (hs4 : op.stride_h ≤ 4) :
    support_fp32_conv_type op bottom 4 =
      some (if (op.kernel_h, op.stride_h) ∈ direct_conv_pairs then 1 else -1) := by
  unfold support_fp32_conv_type
  rw [if_neg (by simp [hkw, hsw, hdw, hd])]
  obtain ⟨k, hk⟩ : ∃ k, op.kernel_h = k := ⟨_, rfl⟩
  obtain ⟨s, hs⟩ : ∃ s, op.stride_h = s := ⟨_, rfl⟩
  rw [hk] at hk1 hk7
  rw [hs] at hs1 hs4
  simp only [hk, hs]
  interval_cases k <;> interval_cases s <;> rfl

theorem support_fp32_conv_type_other (op : Layer α) (bottom : Mat α) :
    ((op.kernel_w ≠ op.kernel_h ∨ op.stride_w ≠ op.stride_h ∨ op.dilation_w ≠ op.dilation_h ∨
        op.dilation_h ≠ 1) → ∀ type, support_fp32_conv_type op bottom type = some (-1)) ∧
    (¬ (op.kernel_w ≠ op.kernel_h ∨ op.stride_w ≠ op.stride_h ∨
        op.dilation_w ≠ op.dilation_h ∨ op.dilation_h ≠ 1) →
      (support_fp32_conv_type op bottom 1 =
        some (if op.kernel_h = 3 ∧ op.stride_h = 1 then 1 else -1)) ∧
      (support_fp32_conv_type op bottom 2 =
        some (if bottom.h = 1 ∧ bottom.w = 1 ∧ op.stride_h = 1 then 1 else -1)) ∧
      support_fp32_conv_type op bottom 3 = some 1 ∧
      (support_fp32_conv_type op bottom 5 =
        some (if op.kernel_h = 3 ∧ op.stride_h = 2 then 1 else -1))) := by
  constructor
  · intro h type
    unfold support_fp32_conv_type
    rw [if_pos h]
  · intro h
    unfold support_fp32_conv_type
    simp only [if_neg h]
    refine ⟨?_, ?_, ?_, ?_⟩
    · by_cases h3 : op.kernel_h = 3 <;> by_cases h1 : op.stride_h = 1 <;> simp [h3, h1]
    · by_cases a : bottom.h = 1 <;> by_cases b : bottom.w = 1 <;>
        by_cases h1 : op.stride_h = 1 <;> simp [a, b, h1]
    · simp
    · by_cases h3 : op.kernel_h = 3 <;> by_cases h2 : op.stride_h = 2 <;> simp [h3, h2]

/-- C38, divergence.  For the Convolution `conv11s4` (kernel 11x11, stride 4, dilation 1),
which passes the first test of `support_fp32_conv_type` and whose `(kernel, stride)` is not
among the pairs of the comment, the query for type 4 does not return `-1`: it reads
`support_table[10][3]`, and the table has seven rows. -/
theorem support_table_read_out_of_bounds :
    conv11s4.kernel_w = conv11s4.kernel_h ∧ conv11s4.stride_w = conv11s4.stride_h ∧
    conv11s4.dilation_w = conv11s4.dilation_h ∧ conv11s4.dilation_h = 1 ∧
    1 ≤ conv11s4.kernel_h ∧ 1 ≤ conv11s4.stride_h ∧
    (conv11s4.kernel_h, conv11s4.stride_h) ∉ direct_conv_pairs ∧
    conv11s4.kernel_h - 1 = 10 ∧ support_table.length = 7 ∧
    array_at support_table (conv11s4.kernel_h - 1) = none ∧
    support_fp32_conv_type conv11s4 one_pixel 4 = none ∧
    support_fp32_conv_type conv11s4 one_pixel 4 ≠ some (-1) := by
  refine ⟨rfl, rfl, rfl, rfl, by decide, by decide, by decide, rfl, rfl, rfl, rfl, ?_⟩
  intro h
  have h2 : support_fp32_conv_type conv11s4 one_pixel 4 = none := rfl
  rw [h2] at h
  cases h

/-- C36, as stated, fails: the Deconvolution `deconv3s0` (kernel 3x3, stride 0, dilation 1)
passes both tests of `Deconvolution_arm::forward`, and the column index `stride - 1` is `-1`:
the table is indexed outside its bounds. -/
theorem deconv_table_index_counterexample :
    ¬ Deconvolution_arm.guard1 deconv3s0 ∧ ¬ Deconvolution_arm.guard2 deconv3s0 ∧
    deconv3s0.kernel_w - 3 = 0 ∧ deconv3s0.stride_w - 1 = -1 ∧
    ((array_at (deconv_func_table idle_kernels) (deconv3s0.kernel_w - 3)).bind
      fun row => array_at row (deconv3s0.stride_w - 1)).isNone = true := by
  refine ⟨by decide, by decide, rfl, rfl, rfl⟩

/-- C36, amended.  For every parameter setting with `stride_w >= 1` that passes the two
tests of `Deconvolution_arm::forward`, the indices `kernel_size - 3` and `stride - 1` both
lie in `{0, 1}`, and the table has an entry there. -/
theorem deconv_table_index_in_bounds (K : NeonKernels α) (L : Layer α)
    (_h1 : ¬ Deconvolution_arm.guard1 L) (h2 : ¬ Deconvolution_arm.guard2 L)
    (hs : 1 ≤ L.stride_w) :
    (L.kernel_w - 3 = 0 ∨ L.kernel_w - 3 = 1) ∧ (L.stride_w - 1 = 0 ∨ L.stride_w - 1 = 1) ∧
    ((array_at (deconv_func_table K) (L.kernel_w - 3)).bind
      fun row => array_at row (L.stride_w - 1)).isSome = true := by
  unfold Deconvolution_arm.guard2 at h2
  have hk : L.kernel_w = 3 ∨ L.kernel_w = 4 := by
    by_contra hk
    exact h2 (Or.inl ⟨fun h => hk (Or.inl h), fun h => hk (Or.inr h)⟩)
  have hs2 : L.stride_w ≤ 2 := by
    by_contra hs2
    exact h2 (Or.inr (Or.inl (by omega)))
  have hs' : L.stride_w = 1 ∨ L.stride_w = 2 := by omega
  rcases hk with hk | hk <;> rcases hs' with hs' | hs' <;> rw [hk, hs'] <;>
    exact ⟨by decide, by decide, rfl⟩

/-- C36, instance: the Deconvolution `deconv4s2` (kernel 4x4, stride 2) passes both tests;
its indices are 1 and 1. -/
theorem deconv_table_index_in_bounds_witness :
    ¬ Deconvolution_arm.guard1 deconv4s2 ∧ ¬ Deconvolution_arm.guard2 deconv4s2 ∧
    1 ≤ deconv4s2.stride_w ∧
    (deconv4s2.kernel_w - 3 = 0 ∨ deconv4s2.kernel_w - 3 = 1) ∧
    (deconv4s2.stride_w - 1 = 0 ∨ deconv4s2.stride_w - 1 = 1) :=
  ⟨by decide, by decide, by decide,
    (deconv_table_index_in_bounds idle_kernels deconv4s2 (by decide) (by decide)
      (by decide)).1,
    (deconv_table_index_in_bounds idle_kernels deconv4s2 (by decide) (by decide)
      (by decide)).2.1⟩

/-- C37.  Round trip of the fused activation.  When `fuse_deconvolution_activation` folds
the activation `B` (a ReLU, a Clip or a Sigmoid) into a Deconvolution,
`Deconvolution_arm::create_pipeline` on the rewritten layer returns 0 and builds an activation
layer of the kind of `B` with the parameters of `B`: a ReLU with an empty dictionary when the
slope is 0, a ReLU with `0=slope` when it is not, a Clip with `0=min` and `1=max`, a Sigmoid
with an empty dictionary.  On a layer with `activation_type == 0` it builds none. -/
theorem activation_round_trip [LinearOrderedField α] (sqrt : α → α) (net : Net α)
    (i j : Nat) (A B : Layer α) (hA : net.layers[i]? = some A) (hB : net.layers[j]? = some B)
    (hm : chain_partner (ForwardPass.rule sqrt (.activation .Deconvolution)) net i = some j) :
    (∃ K1 : Layer α,
      (chain_step (ForwardPass.rule sqrt (.activation .Deconvolution)) net i).layers[i]?
        = some K1 ∧
      (Deconvolution_arm.create_pipeline K1).1 = 0 ∧
      (B.type = "ReLU" ∨ B.type = "Clip" ∨ B.type = "Sigmoid") ∧
      (B.type = "ReLU" → B.slope = 0 →
        (Deconvolution_arm.create_pipeline K1).2 = some { type := "ReLU", pd := [] }) ∧
      (B.type = "ReLU" → B.slope ≠ 0 →
        (Deconvolution_arm.create_pipeline K1).2
          = some { type := "ReLU", pd := [(0, B.slope)] }) ∧
      (B.type = "Clip" →
        (Deconvolution_arm.create_pipeline K1).2
          = some { type := "Clip", pd := [(0, B.min), (1, B.max)] }) ∧
      (B.type = "Sigmoid" →
        (Deconvolution_arm.create_pipeline K1).2 = some { type := "Sigmoid", pd := [] })) ∧
    (∀ L : Layer α, L.activation_type = 0 →
      Deconvolution_arm.create_pipeline L = (0, none)) := by
  constructor
  · obtain ⟨A0, hA0, hg⟩ := chain_partner_some_guard _ net i j hm
    rw [hA] at hA0; cases hA0
    obtain ⟨_, ⟨B0, hB0, hisB, _, _⟩, _⟩ := (chain_partner_eq_some _ net i j A hA hg).mp hm
    rw [hB] at hB0; cases hB0
    obtain ⟨_, h1, _, _, _⟩ := chain_step_matched _ net i j A B hA hB hm
    have hty : B.type = "ReLU" ∨ B.type = "Clip" ∨ B.type = "Sigmoid" := by
      simpa [ForwardPass.rule] using hisB
    refine ⟨_, h1, rfl, hty, ?_, ?_, ?_, ?_⟩
    · intro ht hs
      simp [ForwardPass.rule, absorb_activation, Layer.set_top0,
        Deconvolution_arm.create_pipeline, ht, hs]
    · intro ht hs
      simp [ForwardPass.rule, absorb_activation, Layer.set_top0,
        Deconvolution_arm.create_pipeline, ht, hs]
    · intro ht
      simp [ForwardPass.rule, absorb_activation, Layer.set_top0,
        Deconvolution_arm.create_pipeline, ht]
    · intro ht
      simp [ForwardPass.rule, absorb_activation, Layer.set_top0,
        Deconvolution_arm.create_pipeline, ht]
  · intro L h0
    simp [Deconvolution_arm.create_pipeline, h0]

/-- C37, instance: the Deconvolution of `deconv_clip` absorbs `Clip(0, 6)`, and
`create_pipeline` builds a Clip with `0=0` and `1=6`. -/
theorem activation_round_trip_witness :
    ∃ K1 : Layer ℚ,
      (chain_step (ForwardPass.rule id (.activation .Deconvolution)) deconv_clip 0).layers[0]?
        = some K1 ∧
      (Deconvolution_arm.create_pipeline K1).2 = some { type := "Clip", pd := [(0, 0), (1, 6)] } :=
  have h := (activation_round_trip id deconv_clip 0 1 _ _ rfl rfl (by decide)).1
  h.imp fun _ h => ⟨h.1, h.2.2.2.2.2.1 rfl⟩

/-! ## Deconvolution::forward: the offset table and the scatter loops -/

theorem foldl_range_inv {σ : Type} (P : Nat → σ → Prop) (f : σ → Nat → σ) (s0 : σ)
    (h0 : P 0 s0) (hstep : ∀ n s, P n s → P (n + 1) (f s n)) (n : Nat) :
    P n ((List.range n).foldl f s0) := by
  induction n with
  | zero => exact h0
  | succ n ih =>
    rw [List.range_succ, List.foldl_append]
    exact hstep n _ ih

/-- A property of layers that holds for every layer of a graph, for every fused layer and for
the layer that an iteration of a forward pass writes at `i` holds for every layer after the
pass; the iteration is only asked about pairs that match the pattern in the graph before the
pass. -/
theorem chain_pass_layerwise [LinearOrderedField α] (sqrt : α → α) (p : ForwardPass)
    (P : Layer α → Prop) (hfused : ∀ X : Layer α, P X.set_fused) (net : Net α)
    (hnet : ∀ (k : Nat) (L : Layer α), net.layers[k]? = some L → P L)
    (habs : ∀ (i j : Nat) (A B : Layer α), i < j → net.layers[i]? = some A →
      net.layers[j]? = some B → (p.rule sqrt).guardA A = true →
      (p.rule sqrt).isB B.type = true → B.bottoms.length = 1 →
      B.bottoms.getD 0 0 = A.tops.getD 0 0 →
      P (((p.rule sqrt).absorb A B).set_top0 (B.tops.getD 0 0))) :
    ∀ (k : Nat) (L : Layer α), (chain_pass (p.rule sqrt) net).layers[k]? = some L → P L := by
  have key := foldl_range_inv
    (fun (n : Nat) (s : Net α) =>
      (∀ (k : Nat) (L : Layer α), s.layers[k]? = some L → P L) ∧
      (∀ (k : Nat) (L : Layer α), n ≤ k → s.layers[k]? = some L → L.type ≠ "ncnnfused" →
        net.layers[k]? = some L))
    (chain_step (p.rule sqrt)) net ⟨hnet, fun k L _ h _ => h⟩ ?_ net.layers.length
  · exact key.1
  · intro n s ⟨hP, horig⟩
    cases hm : chain_partner (p.rule sqrt) s n with
    | none =>
      have hs : chain_step (p.rule sqrt) s n = s := by unfold chain_step; rw [hm]
      rw [hs]
      exact ⟨hP, fun k L hk h hnf => horig k L (by omega) h hnf⟩
    | some j =>
      obtain ⟨A, hA, hg⟩ := chain_partner_some_guard _ s n j hm
      obtain ⟨hij, ⟨B, hB, hisB, hlen, hbot⟩, _⟩ :=
        (chain_partner_eq_some _ s n j A hA hg).mp hm
      obtain ⟨_, h1, h2, h3, _⟩ := chain_step_matched _ s n j A B hA hB hm
      have hBnf : B.type ≠ "ncnnfused" := by
        intro hf
        rw [hf, isB_fused] at hisB
        cases hisB
      have hA0 := horig n A (le_refl n) hA (guardA_not_fused sqrt p A hg)
      have hB0 := horig j B (by omega) hB hBnf
      constructor
      · intro k L hL
        by_cases hkn : k = n
        · subst hkn
          rw [h1] at hL
          cases hL
          exact habs k j A B hij hA0 hB0 hg hisB hlen hbot
        · by_cases hkj : k = j
          · subst hkj
            rw [h2] at hL
            cases hL
            exact hfused B
          · rw [h3 k hkn hkj] at hL
            exact hP k L hL
      · intro k L hk hL hnf
        have hkn : k ≠ n := by omega
        by_cases hkj : k = j
        · subst hkj
          rw [h2] at hL
          cases hL
          exact absurd rfl hnf
        · rw [h3 k hkn hkj] at hL
          exact horig k L (by omega) hL hnf

theorem eliminate_dropout_layerwise [LinearOrderedField α] (P : Layer α → Prop)
    (htop : ∀ (X : Layer α) (t : Nat), P X → P (X.set_top0 t))
    (hfused : ∀ X : Layer α, P X.set_fused) (net : Net α)
    (hnet : ∀ (k : Nat) (L : Layer α), net.layers[k]? = some L → P L) :
    ∀ (k : Nat) (L : Layer α), (eliminate_dropout net).layers[k]? = some L → P L := by
  unfold eliminate_dropout
  apply foldl_invariant (fun s : Net α => ∀ (k : Nat) (L : Layer α), s.layers[k]? = some L → P L)
    _ _ _ _ hnet
  intro s i hP
  cases hm : dropout_partner s i with
  | none =>
    have hs : eliminate_dropout_step s i = s := by unfold eliminate_dropout_step; rw [hm]
    rw [hs]; exact hP
  | some j =>
    obtain ⟨D, hD, hty, hsc⟩ := dropout_partner_some s i j hm
    obtain ⟨hji, ⟨L0, hL0, _⟩, _⟩ := (dropout_partner_eq_some s i j D hD hty hsc).mp hm
    obtain ⟨_, h1, h2, h3, _⟩ := eliminate_dropout_step_matched s i j D L0 hD hL0 hm
    intro k L hL
    by_cases hkj : k = j
    · subst hkj
      rw [h1] at hL
      cases hL
      exact htop L0 _ (hP k L0 hL0)
    · by_cases hki : k = i
      · subst hki
        rw [h2] at hL
        cases hL
        exact hfused D
      · rw [h3 k hkj hki] at hL
        exact hP k L hL

theorem replaced_layerwise {fresh : Layer α} (P : Layer α → Prop)
    (hip : ∀ C : Layer α, C.type = "Convolution" → P C → P (innerproduct_of fresh C))
    (n n1 : Net α) (j : Nat)
    (hP : ∀ (k : Nat) (L : Layer α), n.layers[k]? = some L → P L)
    (h : Replaced fresh n n1 j) :
    ∀ (k : Nat) (L : Layer α), n1.layers[k]? = some L → P L := by
  obtain ⟨C, hC, hty, _, hlook⟩ := replaced_lookup h
  intro k L hL
  rcases hlook k L hL with ⟨_, hL1⟩ | ⟨_, hL1⟩
  · rw [hL1]
    exact hip C hty (hP j C hC)
  · exact hP k L hL1

theorem replace_passes_layerwise (fresh : Layer α) (P : Layer α → Prop)
    (hip : ∀ C : Layer α, C.type = "Convolution" → P C → P (innerproduct_of fresh C))
    (net : Net α) (hnet : ∀ (k : Nat) (L : Layer α), net.layers[k]? = some L → P L) :
    (∀ (k : Nat) (L : Layer α),
      (replace_convolution_with_innerproduct_after_global_pooling fresh net).layers[k]?
        = some L → P L) ∧
    (∀ (k : Nat) (L : Layer α),
      (replace_convolution_with_innerproduct_after_innerproduct fresh net).layers[k]?
        = some L → P L) := by
  constructor
  · unfold replace_convolution_with_innerproduct_after_global_pooling
    apply foldl_invariant
      (fun s : Net α => ∀ (k : Nat) (L : Layer α), s.layers[k]? = some L → P L) _ _ _ _ hnet
    intro s i hP
    rcases replace_step_replaced fresh pooling_convolution
      (fun t ht => by simpa [pooling_convolution] using ht) s i with h1 | ⟨j, h1⟩
    · rw [h1]; exact hP
    · exact replaced_layerwise P hip _ _ j hP h1
  · unfold replace_convolution_with_innerproduct_after_innerproduct
    cases hl : replace_loop fresh (count_convolution net + 1) net with
    | none => exact hnet
    | some n1 =>
      exact replace_loop_invariant fresh
        (fun s : Net α => ∀ (k : Nat) (L : Layer α), s.layers[k]? = some L → P L)
        (fun n n1 j hP h => replaced_layerwise P hip n n1 j hP h) _ net n1 hnet hl

theorem weighted_kind_not_batchnorm (t : String) (h : weighted_kind t) : t ≠ "BatchNorm" := by
  unfold weighted_kind at h
  rcases h with h | h | h | h | h <;> rw [h] <;> decide

theorem weighted_type_weighted_kind (L : Weighted) : weighted_kind L.type := by
  unfold weighted_kind
  cases L <;> simp [Weighted.type]

theorem absorb_dropout_bias [LinearOrderedField α] (A B : Layer α) :
    (absorb_dropout A B).bias_term = A.bias_term ∧
    (absorb_dropout A B).bias_data.length = A.bias_data.length := by
  have hb := (foldl_set_getD (fun _ x => x * B.scale) A.num_output.toNat A.bias_data).1
  unfold absorb_dropout
  simp only []
  split_ifs
  · exact ⟨rfl, hb⟩
  · exact ⟨rfl, rfl⟩
  · exact ⟨rfl, rfl⟩

theorem absorb_activation_bias [LinearOrderedField α] (A B : Layer α) :
    (absorb_activation A B).bias_term = A.bias_term ∧
    (absorb_activation A B).bias_data = A.bias_data := by
  unfold absorb_activation
  split_ifs <;> exact ⟨rfl, rfl⟩

theorem ne_nil_iff_length_pos {β : Type} (l : List β) : l ≠ [] ↔ 0 < l.length := by
  cases l <;> simp

/-- The layer written by an iteration of a forward pass is bias consistent when the layer it
is made from is, provided an absorbed BatchNorm has `channels > 0`. -/
theorem absorb_bias_consistent [LinearOrderedField α] (sqrt : α → α) (p : ForwardPass)
    (A B : Layer α) (t : Nat) (hg : (p.rule sqrt).guardA A = true)
    (hisB : (p.rule sqrt).isB B.type = true)
    (hA : weighted_kind A.type → (A.bias_data ≠ [] ↔ A.bias_term ≠ 0))
    (hB : B.type = "BatchNorm" → 0 < B.channels)
    (hw : weighted_kind (((p.rule sqrt).absorb A B).set_top0 t).type) :
    (((p.rule sqrt).absorb A B).set_top0 t).bias_data ≠ [] ↔
      (((p.rule sqrt).absorb A B).set_top0 t).bias_term ≠ 0 := by
  have hty : ((p.rule sqrt).absorb A B).type = A.type := (absorb_header sqrt p A B).1
  have hwA : weighted_kind A.type := by
    have : (((p.rule sqrt).absorb A B).set_top0 t).type = A.type := hty
    rw [this] at hw
    exact hw
  have hA' := hA hwA
  show ((p.rule sqrt).absorb A B).bias_data ≠ [] ↔ ((p.rule sqrt).absorb A B).bias_term ≠ 0
  cases p with
  | batchnorm_scale =>
    exfalso
    have : A.type = "BatchNorm" := by simpa [ForwardPass.rule] using hg
    exact weighted_kind_not_batchnorm _ hwA this
  | batchnorm L =>
    have hBN : B.type = "BatchNorm" := by simpa [ForwardPass.rule] using hisB
    have hch := hB hBN
    obtain ⟨s1, _, s3, _⟩ := absorb_batchnorm_spec sqrt A B
    show (absorb_batchnorm sqrt A B).bias_data ≠ [] ↔ (absorb_batchnorm sqrt A B).bias_term ≠ 0
    rw [ne_nil_iff_length_pos, s1, s3]
    by_cases h0 : A.bias_term = 0
    · rw [if_pos h0, if_pos h0]
      constructor
      · intro _; decide
      · intro _; omega
    · rw [if_neg h0, if_neg h0, ← ne_nil_iff_length_pos]
      exact hA'
  | innerproduct_dropout =>
    obtain ⟨d1, d2⟩ := absorb_dropout_bias A B
    show (absorb_dropout A B).bias_data ≠ [] ↔ (absorb_dropout A B).bias_term ≠ 0
    rw [ne_nil_iff_length_pos, d1, d2, ← ne_nil_iff_length_pos]
    exact hA'
  | activation L =>
    obtain ⟨a1, a2⟩ := absorb_activation_bias A B
    show (absorb_activation A B).bias_data ≠ [] ↔ (absorb_activation A B).bias_term ≠ 0
    rw [a1, a2]
    exact hA'
  | flatten_after_global_pooling => exact hA'
  | flatten_after_innerproduct => exact hA'

/-- The layer written by an iteration of a forward pass is not a BatchNorm with
`channels <= 0` when the layer it is made from is not. -/
theorem absorb_batchnorm_positive [LinearOrderedField α] (sqrt : α → α) (p : ForwardPass)
    (A B : Layer α) (t : Nat)
    (hA : A.type = "BatchNorm" → 0 < A.channels)
    (hw : (((p.rule sqrt).absorb A B).set_top0 t).type = "BatchNorm") :
    0 < (((p.rule sqrt).absorb A B).set_top0 t).channels := by
  have hty : ((p.rule sqrt).absorb A B).type = A.type := (absorb_header sqrt p A B).1
  have hAB : A.type = "BatchNorm" := by
    have : (((p.rule sqrt).absorb A B).set_top0 t).type = A.type := hty
    rw [this] at hw
    exact hw
  have hch := hA hAB
  show 0 < ((p.rule sqrt).absorb A B).channels
  cases p with
  | batchnorm_scale =>
    show 0 < (absorb_scale A B).channels
    rw [(absorb_scale_spec A B).2.2.2.1]
    exact hch
  | batchnorm L =>
    show 0 < (absorb_batchnorm sqrt A B).channels
    unfold absorb_batchnorm
    simp only []
    split_ifs <;> exact hch
  | innerproduct_dropout =>
    show 0 < (absorb_dropout A B).channels
    unfold absorb_dropout
    simp only []
    split_ifs <;> exact hch
  | activation L =>
    show 0 < (absorb_activation A B).channels
    unfold absorb_activation
    split_ifs <;> exact hch
  | flatten_after_global_pooling => exact hch
  | flatten_after_innerproduct => exact hch

theorem pass_bias_consistent [LinearOrderedField α] (sqrt : α → α) (fresh : Layer α)
    (pass : RewritePass) (net : Net α) (hC : bias_consistent net)
    (hM : pass.matched_batchnorm_positive sqrt net) :
    bias_consistent (pass.run sqrt fresh net) := by
  have hfused : ∀ X : Layer α, X.set_fused.type ≠ "ncnnfused" → weighted_kind X.set_fused.type →
      (X.set_fused.bias_data ≠ [] ↔ X.set_fused.bias_term ≠ 0) :=
    fun X hnf => absurd rfl hnf
  have hip : ∀ C : Layer α, C.type = "Convolution" →
      (C.type ≠ "ncnnfused" → weighted_kind C.type → (C.bias_data ≠ [] ↔ C.bias_term ≠ 0)) →
      ((innerproduct_of fresh C).type ≠ "ncnnfused" →
        weighted_kind (innerproduct_of fresh C).type →
        ((innerproduct_of fresh C).bias_data ≠ [] ↔ (innerproduct_of fresh C).bias_term ≠ 0)) :=
    fun C hty hPC _ _ => hPC (by rw [hty]; decide) (Or.inl hty)
  cases pass with
  | forward p =>
    have hM' : ∀ (i j : Nat) (A B : Layer α), i < j → net.layers[i]? = some A →
        net.layers[j]? = some B → (p.rule sqrt).guardA A = true →
        (p.rule sqrt).isB B.type = true → B.bottoms.length = 1 →
        B.bottoms.getD 0 0 = A.tops.getD 0 0 → B.type = "BatchNorm" → 0 < B.channels := hM
    exact chain_pass_layerwise sqrt p
      (fun L => L.type ≠ "ncnnfused" → weighted_kind L.type →
        (L.bias_data ≠ [] ↔ L.bias_term ≠ 0))
      hfused net hC
      (fun i j A B hij hA hB hg hisB hlen hbot _ hw =>
        absorb_bias_consistent sqrt p A B _ hg hisB
          (fun hwA => hC i A hA (guardA_not_fused sqrt p A hg) hwA)
          (fun hBN => hM' i j A B hij hA hB hg hisB hlen hbot hBN) hw)
  | dropout =>
    exact eliminate_dropout_layerwise
      (fun L => L.type ≠ "ncnnfused" → weighted_kind L.type →
        (L.bias_data ≠ [] ↔ L.bias_term ≠ 0))
      (fun X t h => h) hfused net hC
  | replace_after_global_pooling =>
    exact (replace_passes_layerwise fresh
      (fun L => L.type ≠ "ncnnfused" → weighted_kind L.type →
        (L.bias_data ≠ [] ↔ L.bias_term ≠ 0)) hip net hC).1
  | replace_after_innerproduct =>
    exact (replace_passes_layerwise fresh
      (fun L => L.type ≠ "ncnnfused" → weighted_kind L.type →
        (L.bias_data ≠ [] ↔ L.bias_term ≠ 0)) hip net hC).2

theorem pass_batchnorm_positive [LinearOrderedField α] (sqrt : α → α) (fresh : Layer α)
    (pass : RewritePass) (net : Net α) (hB : batchnorm_positive net) :
    batchnorm_positive (pass.run sqrt fresh net) := by
  have hfused : ∀ X : Layer α, X.set_fused.type = "BatchNorm" → 0 < X.set_fused.channels := by
    intro X h
    have h' : ("ncnnfused" : String) = "BatchNorm" := h
    exact absurd h' (by decide)
  have hip : ∀ C : Layer α, C.type = "Convolution" →
      (C.type = "BatchNorm" → 0 < C.channels) →
      ((innerproduct_of fresh C).type = "BatchNorm" → 0 < (innerproduct_of fresh C).channels) := by
    intro C _ _ h
    have h' : ("InnerProduct" : String) = "BatchNorm" := h
    exact absurd h' (by decide)
  cases pass with
  | forward p =>
    exact chain_pass_layerwise sqrt p (fun L => L.type = "BatchNorm" → 0 < L.channels)
      hfused net hB
      (fun i j A B _ hA _ _ _ _ _ hw =>
        absorb_batchnorm_positive sqrt p A B _ (hB i A hA) hw)
  | dropout =>
    exact eliminate_dropout_layerwise (fun L => L.type = "BatchNorm" → 0 < L.channels)
      (fun X t h => h) hfused net hB
  | replace_after_global_pooling =>
    exact (replace_passes_layerwise fresh (fun L => L.type = "BatchNorm" → 0 < L.channels)
      hip net hB).1
  | replace_after_innerproduct =>
    exact (replace_passes_layerwise fresh (fun L => L.type = "BatchNorm" → 0 < L.channels)
      hip net hB).2

theorem matched_of_batchnorm_positive [LinearOrderedField α] (sqrt : α → α)
    (pass : RewritePass) (net : Net α) (hB : batchnorm_positive net) :
    pass.matched_batchnorm_positive sqrt net := by
  cases pass with
  | forward p => exact fun i j A B _ _ hBj _ _ _ _ hBN => hB j B hBj hBN
  | dropout => exact trivial
  | replace_after_global_pooling => exact trivial
  | replace_after_innerproduct => exact trivial

/-- C39.  Bias consistency is preserved by the pipeline.  If in a graph every layer of the
five weighted kinds that is not fused has a non-empty `bias_data` if and only if its
`bias_term` is not 0, then the same holds after any rewrite pass for which every BatchNorm
that matches the pattern of the pass has `channels > 0`, the two substitution passes
included.  If moreover every BatchNorm of the graph has `channels > 0`, both properties hold
after any sequence of rewrite passes, and in the graph that the driver saves the bias record
written for a weighted layer has a non-zero number of elements exactly when `bias_term` is
not 0. -/
theorem bias_consistency_preserved [LinearOrderedField α] (sqrt : α → α) (fresh : Layer α)
    (net : Net α) (hC : bias_consistent net) :
    (∀ pass : RewritePass, pass.matched_batchnorm_positive sqrt net →
      bias_consistent (pass.run sqrt fresh net)) ∧
    (batchnorm_positive net → ∀ passes : List RewritePass,
      bias_consistent (run_passes sqrt fresh passes net) ∧
      batchnorm_positive (run_passes sqrt fresh passes net)) ∧
    (batchnorm_positive net → ∀ (k : Nat) (op : Layer α),
      (optimize sqrt fresh net).layers[k]? = some op → op.type ≠ "ncnnfused" →
      weighted_kind op.type →
      ((fwrite_weight_data (Mat.of_weights op.bias_data)).count ≠ 0 ↔ op.bias_term ≠ 0)) := by
  have hrun : batchnorm_positive net → ∀ passes : List RewritePass,
      bias_consistent (run_passes sqrt fresh passes net) ∧
      batchnorm_positive (run_passes sqrt fresh passes net) := by
    intro hB passes
    exact foldl_invariant (fun n : Net α => bias_consistent n ∧ batchnorm_positive n)
      (fun n pass => pass.run sqrt fresh n)
      (fun n pass hn =>
        ⟨pass_bias_consistent sqrt fresh pass n hn.1
            (matched_of_batchnorm_positive sqrt pass n hn.2),
          pass_batchnorm_positive sqrt fresh pass n hn.2⟩)
      passes net ⟨hC, hB⟩
  refine ⟨fun pass hM => pass_bias_consistent sqrt fresh pass net hC hM, hrun, ?_⟩
  intro hB k op hop hnf hw
  have h := (hrun hB driver_order).1 k op hop hnf hw
  rw [← h, ne_nil_iff_length_pos]
  show op.bias_data.length * 1 * 1 ≠ 0 ↔ 0 < op.bias_data.length
  omega

/-- C39, instance: `conv_bn_relu` is bias consistent (its Convolution has `bias_term = 0` and
no bias) and its BatchNorm has 2 channels; after the pipeline of the driver, in which the
Convolution gets `bias_term = 1` and a bias of length 2, the graph is bias consistent. -/
theorem bias_consistency_preserved_witness :
    bias_consistent conv_bn_relu ∧ batchnorm_positive conv_bn_relu ∧
    bias_consistent (optimize id Layer.blank conv_bn_relu) ∧
    ((optimize id Layer.blank conv_bn_relu).layers.map fun L =>
      (L.type, L.bias_term, L.bias_data.length)) =
      [("Convolution", 1, 2), ("ncnnfused", 0, 2), ("ncnnfused", 0, 0)] := by
  have hC : bias_consistent conv_bn_relu := by
    intro k L hL hnf hw
    have hmem : L ∈ conv_bn_relu.layers := List.mem_iff_getElem?.mpr ⟨k, hL⟩
    simp only [conv_bn_relu, List.mem_cons, List.mem_singleton, List.not_mem_nil,
      or_false] at hmem
    rcases hmem with rfl | rfl | rfl
    · simp [Layer.blank]
    · exact absurd rfl (weighted_kind_not_batchnorm _ hw)
    · exfalso
      have hw' : weighted_kind "ReLU" := hw
      unfold weighted_kind at hw'
      revert hw'
      decide
  have hB : batchnorm_positive conv_bn_relu := by
    intro k L hL hty
    have hmem : L ∈ conv_bn_relu.layers := List.mem_iff_getElem?.mpr ⟨k, hL⟩
    simp only [conv_bn_relu, List.mem_cons, List.mem_singleton, List.not_mem_nil,
      or_false] at hmem
    rcases hmem with rfl | rfl | rfl
    · have h' : ("Convolution" : String) = "BatchNorm" := hty
      exact absurd h' (by decide)
    · decide
    · have h' : ("ReLU" : String) = "BatchNorm" := hty
      exact absurd h' (by decide)
  exact ⟨hC, hB,
    ((bias_consistency_preserved id Layer.blank conv_bn_relu hC).2.1 hB driver_order).1,
    by decide⟩

/-! ## The substitution after a global pooling -/

theorem deconv_activation_congr [LinearOrderedField α] (exp : α → α) (L L1 : Layer α)
    (ht : L1.activation_type = L.activation_type)
    (hp : L1.activation_params = L.activation_params) (out : List α) :
    deconv_activation exp L1 out = deconv_activation exp L out := by
  unfold deconv_activation
  rw [ht, hp]

theorem flatMap_map_singleton {β : Type} (g : β → β) (v : Nat → β) (l : List Nat) :
    (l.flatMap fun p => List.map g [v p]) = List.map g (l.map v) := by
  induction l with
  | nil => rfl
  | cons a l ih =>
    rw [List.flatMap_cons, ih]
    rfl

theorem flatMap_singleton_map {β : Type} (v : Nat → β) (l : List Nat) :
    (l.flatMap fun p => [v p]) = l.map v := by
  induction l with
  | nil => rfl
  | cons a l ih =>
    rw [List.flatMap_cons, ih]
    rfl

theorem deconv_activation_singletons [LinearOrderedField α] (exp : α → α) (L : Layer α)
    (v : Nat → α) (l : List Nat) :
    (l.flatMap fun p => deconv_activation exp L [v p]) = deconv_activation exp L (l.map v) := by
  unfold deconv_activation
  split_ifs
  · exact flatMap_map_singleton _ v l
  · exact flatMap_map_singleton _ v l
  · exact flatMap_map_singleton _ v l
  · exact flatMap_map_singleton _ v l
  · exact flatMap_singleton_map v l

/-- C31, as stated, fails: in `pool_conv3x3` the pass replaces the Convolution `conv3x3_same`
(3x3 kernel, padded by 1, central weight 1) that follows the global Pooling; on the input
`[1]` of one channel of one pixel the Convolution gives `[1]` and the InnerProduct built from
it gives `[0]`. -/
theorem substitution_exact_counterexample :
    (replace_convolution_with_innerproduct_after_global_pooling Layer.blank
        pool_conv3x3).layers[1]? = some (innerproduct_of Layer.blank conv3x3_same) ∧
    (Convolution.forward id conv3x3_same one_pixel).data = [1] ∧
    (InnerProduct.forward id (innerproduct_of Layer.blank conv3x3_same) one_pixel).data = [0] := by
  refine ⟨rfl, ?_, ?_⟩
  · norm_num [Convolution.forward, deconv_activation, conv3x3_same, one_pixel, Layer.blank,
      List.range_succ, (by decide : Int.tdiv 0 1 = 0), (by decide : Int.toNat 1 = 1),
      (by decide : Int.toNat 3 = 3)]
  · norm_num [InnerProduct.forward, innerproduct_of, deconv_activation, conv3x3_same,
      one_pixel, Layer.blank, List.range_succ, (by decide : Int.toNat 1 = 1)]

/-- C31, amended.  For every Convolution with a 1x1 kernel and no padding that
`replace_convolution_with_innerproduct_after_global_pooling` replaces, and every input of
one pixel per channel, the InnerProduct built from it computes the values that the
Convolution computes, whatever the stride and the dilation of the Convolution. -/
theorem substitution_exact [LinearOrderedField α] (exp : α → α) (fresh : Layer α)
    (net : Net α) (i j : Nat) (C : Layer α) (bottom_blob : Mat α)
    (hm : chain_partner pooling_convolution net i = some j)
    (hC : net.layers[j]? = some C)
    (hkw : C.kernel_w = 1) (hkh : C.kernel_h = 1) (hpw : C.pad_w = 0) (hph : C.pad_h = 0)
    (hw : bottom_blob.w = 1) (hh : bottom_blob.h = 1) :
    (replace_step fresh pooling_convolution net i).layers[j]?
      = some (innerproduct_of fresh C) ∧
    (InnerProduct.forward exp (innerproduct_of fresh C) bottom_blob).data =
      (Convolution.forward exp C bottom_blob).data := by
  constructor
  · have hj : j < net.layers.length := (List.getElem?_eq_some_iff.mp hC).1
    unfold replace_step
    rw [hm]
    simp only [hC]
    rw [List.getElem?_set, if_pos rfl, if_pos hj]
  · unfold Convolution.forward InnerProduct.forward
    simp only [hkw, hkh, hpw, hph, hw, hh]
    have e1 : Int.tdiv (((1 : Nat) : Int) + 2 * 0 - (C.dilation_w * (1 - 1) + 1)) C.stride_w + 1
        = 1 := by
      have : ((1 : Nat) : Int) + 2 * 0 - (C.dilation_w * (1 - 1) + 1) = 0 := by
        push_cast; ring
      rw [this, Int.zero_tdiv]
      rfl
    have e2 : Int.tdiv (((1 : Nat) : Int) + 2 * 0 - (C.dilation_h * (1 - 1) + 1)) C.stride_h + 1
        = 1 := by
      have : ((1 : Nat) : Int) + 2 * 0 - (C.dilation_h * (1 - 1) + 1) = 0 := by
        push_cast; ring
      rw [this, Int.zero_tdiv]
      rfl
    rw [e1, e2]
    have hact : ∀ out, deconv_activation exp (innerproduct_of fresh C) out
        = deconv_activation exp C out :=
      deconv_activation_congr exp C (innerproduct_of fresh C) rfl rfl
    rw [hact]
    have hval : ∀ p : Nat,
        ((List.range (Int.toNat 1)).flatMap fun (y : Nat) =>
          (List.range (Int.toNat 1)).map fun (x : Nat) =>
            (if C.bias_term ≠ 0 then C.bias_data.getD p 0 else 0) +
            ((List.range bottom_blob.c).map fun (q : Nat) =>
              ((List.range (Int.toNat 1)).map fun (ky : Nat) =>
                ((List.range (Int.toNat 1)).map fun (kx : Nat) =>
                  let iy : Int := (y : Int) * C.stride_h + (ky : Int) * C.dilation_h - 0
                  let ix : Int := (x : Int) * C.stride_w + (kx : Int) * C.dilation_w - 0
                  if 0 ≤ iy ∧ iy < ((1 : Nat) : Int) ∧ 0 ≤ ix ∧ ix < ((1 : Nat) : Int) then
                    bottom_blob.data.getD ((q * 1 + iy.toNat) * 1 + ix.toNat) 0 *
                    C.weight_data.getD
                      (((p * bottom_blob.c + q) * Int.toNat 1 + ky) * Int.toNat 1 + kx) 0
                  else 0).sum).sum).sum) =
        [(if (innerproduct_of fresh C).bias_term ≠ 0
            then (innerproduct_of fresh C).bias_data.getD p 0 else 0) +
          ((List.range (1 * 1 * bottom_blob.c)).map fun (i : Nat) =>
            bottom_blob.data.getD i 0 *
              (innerproduct_of fresh C).weight_data.getD (p * (1 * 1 * bottom_blob.c) + i)
                0).sum] := by
      intro p
      simp [innerproduct_of, List.range_succ]
    simp only [hval]
    exact (deconv_activation_singletons exp C _ _).symm

/-- C31, instance: in `pool_conv_flatten` the pass replaces the 1x1 Convolution that follows
the global Pooling, and on one pixel the InnerProduct computes what the Convolution
computes. -/
theorem substitution_exact_witness :
    chain_partner pooling_convolution pool_conv_flatten 0 = some 1 ∧
    ∃ C : Layer ℚ, pool_conv_flatten.layers[1]? = some C ∧ C.kernel_w = 1 ∧ C.pad_w = 0 ∧
      (InnerProduct.forward id (innerproduct_of Layer.blank C) one_pixel).data =
        (Convolution.forward id C one_pixel).data :=
  ⟨by decide,
    ({ (Layer.blank : Layer ℚ) with
        type := "Convolution", name := "conv", bottoms := [1], tops := [2],
        num_output := 2, kernel_w := 1, kernel_h := 1, weight_data_size := 4,
        weight_data := [1, 2, 3, 4] } : Layer ℚ),
    rfl, rfl, rfl,
    (substitution_exact id Layer.blank pool_conv_flatten 0 1 _ one_pixel (by decide) rfl
      rfl rfl rfl rfl rfl rfl).2⟩

/-! ## Calls that do not return -/

theorem checked_loop_succ {σ : Type} (fault : σ → Nat → Option Fault) (step : σ → Nat → σ)
    (n : Nat) (s : σ) :
    checked_loop fault step (n + 1) s =
      match checked_loop fault step n s with
      | .error f => .error f
      | .ok t =>
        match fault t n with
        | some f => .error f
        | none => .ok (step t n) := by
  unfold checked_loop
  rw [List.range_succ, List.foldl_append]
  rfl

/-- A loop that runs into no fault leaves the state that the loop without the tests leaves. -/
theorem checked_loop_ok {σ : Type} (fault : σ → Nat → Option Fault) (step : σ → Nat → σ)
    (n : Nat) (s r : σ) (h : checked_loop fault step n s = .ok r) :
    r = (List.range n).foldl step s := by
  induction n generalizing r with
  | zero =>
    have h1 : checked_loop fault step 0 s = .ok s := rfl
    rw [h1] at h
    cases h
    rfl
  | succ n ih =>
    rw [checked_loop_succ] at h
    cases hc : checked_loop fault step n s with
    | error f => rw [hc] at h; cases h
    | ok t =>
      rw [hc] at h
      cases hf : fault t n with
      | some f => simp only [hf] at h; cases h
      | none =>
        simp only [hf] at h
        cases h
        rw [List.range_succ, List.foldl_append, ← ih t hc]
        rfl

/-- A loop whose iterations keep an invariant under which no iteration has a fault runs to
its end. -/
theorem checked_loop_inv {σ : Type} (P : Nat → σ → Prop) (fault : σ → Nat → Option Fault)
    (step : σ → Nat → σ) (s : σ) (h0 : P 0 s)
    (hstep : ∀ k t, P k t → fault t k = none ∧ P (k + 1) (step t k)) (n : Nat) :
    checked_loop fault step n s = .ok ((List.range n).foldl step s) ∧
      P n ((List.range n).foldl step s) := by
  induction n with
  | zero => exact ⟨rfl, h0⟩
  | succ n ih =>
    obtain ⟨h1, h2⟩ := ih
    obtain ⟨h3, h4⟩ := hstep n _ h2
    rw [checked_loop_succ, h1]
    simp only [h3]
    rw [List.range_succ, List.foldl_append]
    exact ⟨rfl, h4⟩

theorem chain_partner_none_of_guard (R : ChainRule α) (net : Net α) (i : Nat)
    (h : ∀ A, net.layers[i]? = some A → R.guardA A = false) :
    chain_partner R net i = none := by
  cases hp : chain_partner R net i with
  | none => rfl
  | some j =>
    obtain ⟨A, hA, hg⟩ := chain_partner_some_guard R net i j hp
    rw [h A hA] at hg
    cases hg

/-- The iteration of a forward pass has no fault when `layers[i]`, if it passes the tests,
has a top and, if the inner loop finds `layers[j]`, the block has no fault and the top of
`layers[j]` is a blob. -/
theorem chain_fault_none (R : ChainRule α) (block : Layer α → Layer α → Option Fault)
    (net : Net α) (i : Nat)
    (h1 : ∀ A, net.layers[i]? = some A → R.guardA A = true → A.tops.length ≠ 0)
    (h2 : ∀ j A B, net.layers[i]? = some A → net.layers[j]? = some B →
      chain_partner R net i = some j →
      block A B = none ∧ B.tops.length ≠ 0 ∧ B.tops.getD 0 0 < net.blobs.length) :
    chain_fault R block net i = none := by
  unfold chain_fault
  cases hA : net.layers[i]? with
  | none => rfl
  | some A =>
    simp only []
    by_cases hg : R.guardA A = false
    · rw [if_pos hg]
    · rw [if_neg hg]
      have hg1 : R.guardA A = true := by simpa using hg
      rw [if_neg (h1 A hA hg1)]
      cases hm : chain_partner R net i with
      | none => rfl
      | some j =>
        simp only []
        cases hB : net.layers[j]? with
        | none => rfl
        | some B =>
          obtain ⟨hf, ht, hb⟩ := h2 j A B hA hB hm
          simp only [hf]
          rw [if_neg]
          intro hc
          rcases hc with hc | hc
          · exact ht hc
          · omega

theorem forward_call_defined [LinearOrderedField α] (sqrt : α → α) (p : ForwardPass)
    (net : Net α) (hdef : (RewritePass.forward p).defined sqrt net) :
    checked_loop (chain_fault (p.rule sqrt) p.fault) (chain_step (p.rule sqrt))
      net.layers.length net = .ok (chain_pass (p.rule sqrt) net) := by
  obtain ⟨hd1, hd2⟩ := hdef
  refine (checked_loop_inv
    (fun (n : Nat) (s : Net α) =>
      (∀ (k : Nat) (L : Layer α), n ≤ k → s.layers[k]? = some L → L.type ≠ "ncnnfused" →
        net.layers[k]? = some L) ∧ s.blobs.length = net.blobs.length)
    _ _ net ⟨fun k L _ h _ => h, rfl⟩ ?_ net.layers.length).1
  intro n s ⟨horig, hbl⟩
  have horigA : ∀ A, s.layers[n]? = some A → (p.rule sqrt).guardA A = true →
      net.layers[n]? = some A :=
    fun A hA hg => horig n A (le_refl n) hA (guardA_not_fused sqrt p A hg)
  have hpair : ∀ j A B, s.layers[n]? = some A → s.layers[j]? = some B →
      chain_partner (p.rule sqrt) s n = some j →
      n < j ∧ net.layers[n]? = some A ∧ net.layers[j]? = some B ∧
      (p.rule sqrt).guardA A = true ∧ (p.rule sqrt).isB B.type = true ∧
      B.bottoms.length = 1 ∧ B.bottoms.getD 0 0 = A.tops.getD 0 0 := by
    intro j A B hA hB hm
    obtain ⟨A0, hA0, hg⟩ := chain_partner_some_guard _ s n j hm
    rw [hA] at hA0; cases hA0
    obtain ⟨hij, ⟨B0, hB0, hisB, hlen, hbot⟩, _⟩ :=
      (chain_partner_eq_some _ s n j A hA hg).mp hm
    rw [hB] at hB0; cases hB0
    have hBnf : B.type ≠ "ncnnfused" := by
      intro hf
      rw [hf, isB_fused] at hisB
      cases hisB
    exact ⟨hij, horigA A hA hg, horig j B (by omega) hB hBnf, hg, hisB, hlen, hbot⟩
  constructor
  · apply chain_fault_none
    · intro A hA hg
      exact hd1 A (List.mem_iff_getElem?.mpr ⟨n, horigA A hA hg⟩) hg
    · intro j A B hA hB hm
      obtain ⟨hij, hA0, hB0, hg, hisB, hlen, hbot⟩ := hpair j A B hA hB hm
      obtain ⟨hf, ht, hb⟩ := hd2 n j A B hij hA0 hB0 hg hisB hlen hbot
      exact ⟨hf, ht, by omega⟩
  · cases hm : chain_partner (p.rule sqrt) s n with
    | none =>
      have hs : chain_step (p.rule sqrt) s n = s := by unfold chain_step; rw [hm]
      rw [hs]
      exact ⟨fun k L hk h hnf => horig k L (by omega) h hnf, hbl⟩
    | some j =>
      obtain ⟨A, hA, hg⟩ := chain_partner_some_guard _ s n j hm
      obtain ⟨hij, ⟨B, hB, _⟩, _⟩ := (chain_partner_eq_some _ s n j A hA hg).mp hm
      obtain ⟨_, _, h2, h3, h4⟩ := chain_step_matched _ s n j A B hA hB hm
      constructor
      · intro k L hk hL hnf
        have hkn : k ≠ n := by omega
        by_cases hkj : k = j
        · subst hkj
          rw [h2] at hL
          cases hL
          exact absurd rfl hnf
        · rw [h3 k hkn hkj] at hL
          exact horig k L (by omega) hL hnf
      · rw [h4, set_producer_length]
        exact hbl

theorem dropout_call_defined [LinearOrderedField α] (sqrt : α → α) (net : Net α)
    (hdef : RewritePass.dropout.defined sqrt net) :
    checked_loop eliminate_dropout_fault eliminate_dropout_step net.layers.length net
      = .ok (eliminate_dropout net) := by
  refine (checked_loop_inv
    (fun (n : Nat) (s : Net α) =>
      (∀ (k : Nat) (L : Layer α), n ≤ k → s.layers[k]? = some L → net.layers[k]? = some L) ∧
        s.blobs.length = net.blobs.length)
    _ _ net ⟨fun k L _ h => h, rfl⟩ ?_ net.layers.length).1
  intro n s ⟨horig, hbl⟩
  constructor
  · unfold eliminate_dropout_fault
    cases hD : s.layers[n]? with
    | none => rfl
    | some D =>
      simp only []
      by_cases hty : D.type ≠ "Dropout"
      · rw [if_pos hty]
      rw [if_neg hty]
      by_cases hsc : D.scale ≠ 1
      · rw [if_pos hsc]
      rw [if_neg hsc]
      have hmem : D ∈ net.layers := List.mem_iff_getElem?.mpr ⟨n, horig n D (le_refl n) hD⟩
      obtain ⟨hb, ht, hlt⟩ := hdef D hmem (not_not.mp hty) (not_not.mp hsc)
      rw [if_neg hb]
      cases dropout_partner s n with
      | none => rfl
      | some j =>
        simp only []
        rw [if_neg]
        intro hc
        rcases hc with hc | hc
        · exact ht hc
        · omega
  · cases hm : dropout_partner s n with
    | none =>
      have hs : eliminate_dropout_step s n = s := by unfold eliminate_dropout_step; rw [hm]
      rw [hs]
      exact ⟨fun k L hk h => horig k L (by omega) h, hbl⟩
    | some j =>
      obtain ⟨D, hD, hty, hsc⟩ := dropout_partner_some s n j hm
      obtain ⟨hji, ⟨L0, hL0, _⟩, _⟩ := (dropout_partner_eq_some s n j D hD hty hsc).mp hm
      obtain ⟨_, _, _, h3, h4⟩ := eliminate_dropout_step_matched s n j D L0 hD hL0 hm
      constructor
      · intro k L hk hL
        rw [h3 k (by omega) (by omega)] at hL
        exact horig k L (by omega) hL
      · rw [h4, set_producer_length]
        exact hbl

theorem replace_step_mem (fresh : Layer α) (R : ChainRule α)
    (hR : ∀ t, R.isB t = true → t = "Convolution") (net : Net α) (i : Nat) (L : Layer α)
    (hL : L ∈ (replace_step fresh R net i).layers) :
    L ∈ net.layers ∨
      ∃ C, C ∈ net.layers ∧ C.type = "Convolution" ∧ L = innerproduct_of fresh C := by
  rcases replace_step_replaced fresh R hR net i with h | ⟨j, C, hC, hty, hl, _⟩
  · rw [h] at hL
    exact Or.inl hL
  · rw [hl] at hL
    rcases List.mem_or_eq_of_mem_set hL with h | h
    · exact Or.inl h
    · exact Or.inr ⟨C, List.mem_iff_getElem?.mpr ⟨j, hC⟩, hty, h⟩

theorem replace_fault_none (R : ChainRule α) (net : Net α) (i : Nat)
    (h : ∀ A ∈ net.layers, R.guardA A = true → A.tops.length ≠ 0) :
    replace_fault R net i = none := by
  unfold replace_fault
  cases hA : net.layers[i]? with
  | none => rfl
  | some A =>
    simp only []
    by_cases hg : R.guardA A = false
    · rw [if_pos hg]
    · rw [if_neg hg, if_neg]
      exact h A (List.mem_iff_getElem?.mpr ⟨i, hA⟩) (by simpa using hg)

theorem replace_pooling_call_defined [LinearOrderedField α] (sqrt : α → α) (fresh : Layer α)
    (net : Net α) (hdef : RewritePass.replace_after_global_pooling.defined sqrt net) :
    checked_loop (replace_fault pooling_convolution) (replace_step fresh pooling_convolution)
      net.layers.length net
      = .ok (replace_convolution_with_innerproduct_after_global_pooling fresh net) := by
  refine (checked_loop_inv
    (fun (_ : Nat) (s : Net α) =>
      ∀ A ∈ s.layers, (pooling_convolution : ChainRule α).guardA A = true → A.tops.length ≠ 0)
    _ _ net hdef ?_ net.layers.length).1
  intro n s hs
  refine ⟨replace_fault_none _ s n hs, ?_⟩
  intro A hA hg
  rcases replace_step_mem fresh pooling_convolution
    (fun t ht => by simpa [pooling_convolution] using ht) s n A hA with h | ⟨C, _, _, h⟩
  · exact hs A h hg
  · rw [h] at hg
    simp [pooling_convolution, innerproduct_of] at hg

theorem replace_sweep_checked_defined (fresh : Layer α) (net : Net α)
    (hQ : ∀ A ∈ net.layers, A.type = "InnerProduct" ∨ A.type = "Convolution" →
      A.tops.length ≠ 0) :
    replace_sweep_checked fresh net = .ok (replace_sweep fresh net) ∧
      ∀ A ∈ (replace_sweep fresh net).1.layers,
        A.type = "InnerProduct" ∨ A.type = "Convolution" → A.tops.length ≠ 0 := by
  unfold replace_sweep_checked
  refine checked_loop_inv
    (fun (_ : Nat) (st : Net α × Bool) =>
      ∀ A ∈ st.1.layers, A.type = "InnerProduct" ∨ A.type = "Convolution" →
        A.tops.length ≠ 0)
    _ _ (net, false) hQ ?_ net.layers.length
  intro n st hs
  constructor
  · apply replace_fault_none
    intro A hA hg
    exact hs A hA (Or.inl (by simpa [innerproduct_convolution] using hg))
  · cases hm : chain_partner innerproduct_convolution st.1 n with
    | none => exact hs
    | some j =>
      intro A hA hty
      rcases replace_step_mem fresh innerproduct_convolution
        (fun t ht => by simpa [innerproduct_convolution] using ht) st.1 n A hA
        with h | ⟨C, hC, hCty, h⟩
      · exact hs A h hty
      · rw [h]
        exact hs C hC (Or.inr hCty)

theorem replace_loop_checked_defined (fresh : Layer α) :
    ∀ (fuel : Nat) (net : Net α),
      (∀ A ∈ net.layers, A.type = "InnerProduct" ∨ A.type = "Convolution" →
        A.tops.length ≠ 0) →
      replace_loop_checked fresh fuel net = .ok (replace_loop fresh fuel net) := by
  intro fuel
  induction fuel with
  | zero => intro net _; rfl
  | succ n ih =>
    intro net hQ
    obtain ⟨h1, h2⟩ := replace_sweep_checked_defined fresh net hQ
    rw [replace_loop_checked, h1]
    simp only []
    rw [replace_loop]
    by_cases hf : (replace_sweep fresh net).2 = true
    · simp only [hf, if_true]
      exact ih _ h2
    · simp only [hf]
      rfl

theorem replace_loop_checked_ok (fresh : Layer α) :
    ∀ (fuel : Nat) (net : Net α) (x : Option (Net α)),
      replace_loop_checked fresh fuel net = .ok x → x = replace_loop fresh fuel net := by
  intro fuel
  induction fuel with
  | zero =>
    intro net x h
    have h1 : replace_loop_checked fresh 0 net = .ok none := rfl
    rw [h1] at h
    cases h
    rfl
  | succ n ih =>
    intro net x h
    rw [replace_loop_checked] at h
    rw [replace_loop]
    split at h
    · cases h
    · rename_i st hst
      have hs : st = replace_sweep fresh net := by
        unfold replace_sweep_checked at hst
        exact checked_loop_ok _ _ _ _ _ hst
      rw [hs] at h
      by_cases hf : (replace_sweep fresh net).2 = true
      · simp only [hf, if_true] at h ⊢
        exact ih _ _ h
      · simp only [hf] at h ⊢
        cases h
        rfl

/-- A call of a rewrite pass that returns returns 0 and leaves the graph that the pass
without the tests for faults leaves. -/
theorem call_ok_run [LinearOrderedField α] (sqrt : α → α) (fresh : Layer α)
    (pass : RewritePass) (net : Net α) (r : Int × Net α)
    (h : pass.call sqrt fresh net = .ok r) : r = (0, pass.run sqrt fresh net) := by
  cases pass with
  | forward p =>
    simp only [RewritePass.call] at h
    cases hc : checked_loop (chain_fault (p.rule sqrt) p.fault) (chain_step (p.rule sqrt))
        net.layers.length net with
    | error f => rw [hc] at h; cases h
    | ok t =>
      rw [hc] at h
      cases h
      rw [checked_loop_ok _ _ _ _ _ hc]
      rfl
  | dropout =>
    simp only [RewritePass.call] at h
    cases hc : checked_loop eliminate_dropout_fault eliminate_dropout_step
        net.layers.length net with
    | error f => rw [hc] at h; cases h
    | ok t =>
      rw [hc] at h
      cases h
      rw [checked_loop_ok _ _ _ _ _ hc]
      rfl
  | replace_after_global_pooling =>
    simp only [RewritePass.call] at h
    cases hc : checked_loop (replace_fault pooling_convolution)
        (replace_step fresh pooling_convolution) net.layers.length net with
    | error f => rw [hc] at h; cases h
    | ok t =>
      rw [hc] at h
      cases h
      rw [checked_loop_ok _ _ _ _ _ hc]
      rfl
  | replace_after_innerproduct =>
    simp only [RewritePass.call] at h
    cases hc : replace_loop_checked fresh (count_convolution net + 1) net with
    | error f => rw [hc] at h; cases h
    | ok t =>
      rw [hc] at h
      cases h
      rw [replace_loop_checked_ok fresh _ _ _ hc]
      rfl

/-- Under the conditions of `RewritePass.defined` a call of a rewrite pass returns 0. -/
theorem call_of_defined [LinearOrderedField α] (sqrt : α → α) (fresh : Layer α)
    (pass : RewritePass) (net : Net α) (h : pass.defined sqrt net) :
    pass.call sqrt fresh net = .ok (0, pass.run sqrt fresh net) := by
  cases pass with
  | forward p =>
    simp only [RewritePass.call]
    rw [forward_call_defined sqrt p net h]
    rfl
  | dropout =>
    simp only [RewritePass.call]
    rw [dropout_call_defined sqrt net h]
    rfl
  | replace_after_global_pooling =>
    simp only [RewritePass.call]
    rw [replace_pooling_call_defined sqrt fresh net h]
    rfl
  | replace_after_innerproduct =>
    simp only [RewritePass.call]
    rw [replace_loop_checked_defined fresh _ net h]
    rfl

/-- A rewrite pass whose pattern has no match in the graph leaves the graph as it is. -/
theorem run_no_match [LinearOrderedField α] (sqrt : α → α) (fresh : Layer α)
    (pass : RewritePass) (net : Net α) (h : ¬ pass.has_match sqrt net) :
    pass.run sqrt fresh net = net := by
  cases pass with
  | forward p => exact chain_pass_no_match _ net h
  | dropout =>
    show eliminate_dropout net = net
    unfold eliminate_dropout
    apply foldl_fixed
    intro i
    unfold eliminate_dropout_step
    rw [no_match_dropout_partner_none net h i]
  | replace_after_global_pooling =>
    show replace_convolution_with_innerproduct_after_global_pooling fresh net = net
    unfold replace_convolution_with_innerproduct_after_global_pooling
    apply foldl_fixed
    intro i
    unfold replace_step
    rw [no_match_partner_none pooling_convolution net h i]
  | replace_after_innerproduct =>
    show replace_convolution_with_innerproduct_after_innerproduct fresh net = net
    have hs : replace_sweep fresh net = (net, false) := by
      unfold replace_sweep
      apply foldl_fixed
      intro i
      show (match chain_partner innerproduct_convolution net i with
        | none => (net, false)
        | some _ => (replace_step fresh innerproduct_convolution net i, true)) = (net, false)
      rw [no_match_partner_none innerproduct_convolution net h i]
    unfold replace_convolution_with_innerproduct_after_innerproduct replace_loop
    simp [hs]
theorem checked_loop_fixed {σ : Type} (fault : σ → Nat → Option Fault) (step : σ → Nat → σ)
    (s : σ) (m : Nat) (h : ∀ k, k < m → fault s k = none ∧ step s k = s) :
    checked_loop fault step m s = .ok s := by
  induction m with
  | zero => rfl
  | succ m ih =>
    rw [checked_loop_succ, ih fun k hk => h k (by omega)]
    obtain ⟨h1, h2⟩ := h m (by omega)
    simp only [h1, h2]

/-- Once an iteration has run into a fault, the loop ends with that fault. -/
theorem checked_loop_fault {σ : Type} (fault : σ → Nat → Option Fault) (step : σ → Nat → σ)
    (s t : σ) (m : Nat) (f : Fault) (hm : checked_loop fault step m s = .ok t)
    (hf : fault t m = some f) (n : Nat) (hn : m < n) :
    checked_loop fault step n s = .error f := by
  induction n with
  | zero => omega
  | succ n ih =>
    rw [checked_loop_succ]
    by_cases hmn : m = n
    · subst hmn
      rw [hm]
      simp only [hf]
    · rw [ih (by omega)]

/-- A forward pass whose first matching iteration runs into a fault in its block does not
return. -/
theorem forward_call_fault [LinearOrderedField α] (sqrt : α → α) (fresh : Layer α)
    (p : ForwardPass) (net : Net α) (i j : Nat) (A B : Layer α) (f : Fault)
    (hbefore : ∀ k, k < i → chain_partner (p.rule sqrt) net k = none)
    (htops : ∀ k C, k ≤ i → net.layers[k]? = some C → (p.rule sqrt).guardA C = true →
      C.tops.length ≠ 0)
    (hA : net.layers[i]? = some A) (hB : net.layers[j]? = some B)
    (hm : chain_partner (p.rule sqrt) net i = some j) (hf : p.fault A B = some f) :
    (RewritePass.forward p).call sqrt fresh net = .error f := by
  have hi : i < net.layers.length := (List.getElem?_eq_some_iff.mp hA).1
  have h0 : checked_loop (chain_fault (p.rule sqrt) p.fault) (chain_step (p.rule sqrt)) i net
      = .ok net := by
    apply checked_loop_fixed
    intro k hk
    constructor
    · apply chain_fault_none
      · intro C hC hg
        exact htops k C (by omega) hC hg
      · intro j1 _ _ _ _ hm1
        rw [hbefore k hk] at hm1
        cases hm1
    · unfold chain_step
      rw [hbefore k hk]
  have hfault : chain_fault (p.rule sqrt) p.fault net i = some f := by
    obtain ⟨A0, hA0, hg⟩ := chain_partner_some_guard _ net i j hm
    rw [hA] at hA0; cases hA0
    unfold chain_fault
    simp only [hA, hm, hB, hf]
    rw [if_neg (by simp [hg]), if_neg (htops i A (le_refl i) hA hg)]
  simp only [RewritePass.call]
  rw [checked_loop_fault _ _ net net i f h0 hfault _ hi]
  rfl

theorem batchnorm_fault_division [LinearOrderedField α] (L : Weighted) (A B : Layer α)
    (h : B.channels = 0) : (ForwardPass.batchnorm L).fault A B = some .division := by
  simp [ForwardPass.fault, h]

theorem batchnorm_fault_none [LinearOrderedField α] (L : Weighted) (A B : Layer α)
    (h : (ForwardPass.batchnorm L).fault A B = none) : 0 < B.channels := by
  by_contra hc
  by_cases h0 : B.channels = 0
  · rw [batchnorm_fault_division L A B h0] at h
    cases h
  · have hneg : B.channels < 0 := by omega
    simp [ForwardPass.fault, hneg] at h

theorem dropout_fault_division [LinearOrderedField α] (A B : Layer α) (hs : B.scale ≠ 1)
    (h : A.num_output = 0) :
    ForwardPass.innerproduct_dropout.fault A B = some .division := by
  simp [ForwardPass.fault, hs, h]

/-- C30, as stated, fails: in `conv_bn_zero` the Convolution feeds a BatchNorm with
`channels = 0`; the iteration of `fuse_convolution_batchnorm` for the Convolution finds the
BatchNorm, and the block divides `weight_data_size` by `channels`, a division by zero that
stops the call before its `return 0;`. -/
theorem pass_noop_on_mismatch_counterexample :
    (∃ A B, conv_bn_zero.layers[0]? = some A ∧ conv_bn_zero.layers[1]? = some B ∧
      chain_partner (ForwardPass.rule id (.batchnorm .Convolution)) conv_bn_zero 0 = some 1 ∧
      B.channels = 0 ∧
      (ForwardPass.batchnorm .Convolution).fault A B = some .division) ∧
    (RewritePass.forward (.batchnorm .Convolution)).call id Layer.blank conv_bn_zero
      = .error .division ∧
    ∀ r, (RewritePass.forward (.batchnorm .Convolution)).call id Layer.blank conv_bn_zero
      ≠ .ok r := by
  have h : (RewritePass.forward (.batchnorm .Convolution)).call id Layer.blank conv_bn_zero
      = .error .division := by rfl
  refine ⟨⟨_, _, rfl, rfl, by decide, rfl, by rfl⟩, h, ?_⟩
  intro r hr
  rw [h] at hr
  cases hr

/-- C30, amended.  A rewrite pass has no return value other than 0: a call that returns
returns 0 and leaves the graph of the pass.  It returns whenever the conditions of
`RewritePass.defined` hold: every layer that passes the tests on `layers[i]` has a top (every
Dropout with `scale == 1` a bottom and a top that is a blob), and for every pair that matches
the pattern of a forward pass the arrays that the block indexes are long enough, the top of
the second layer is a blob, the `channels` of a BatchNorm folded into a weighted layer is
positive and the `num_output` of an InnerProduct that absorbs a Dropout with `scale != 1` is
not 0.  On a graph in which the pattern of the pass has no match (no layer that passes the
tests on `layers[i]` with a later layer of the kind looked for that has one bottom, the
`tops[0]` of the former; for `eliminate_dropout`, no Dropout with `scale == 1` with an earlier
layer, not fused, whose only top is its `bottoms[0]`) the pass leaves the graph, all its
layers and all its blobs, exactly as it was.  A forward pass does not return when the first
iteration that finds its pair (the layers that pass the tests up to there having a top) runs
into a fault of its block, which is a division by zero in `fuse_<L>_batchnorm` for a
BatchNorm with `channels == 0` and in `fuse_innerproduct_dropout` for a Dropout with
`scale != 1` and an InnerProduct with `num_output == 0`. -/
theorem pass_noop_on_mismatch [LinearOrderedField α] (sqrt : α → α) (fresh : Layer α)
    (pass : RewritePass) (net : Net α) :
    (∀ r, pass.call sqrt fresh net = .ok r → r = (0, pass.run sqrt fresh net)) ∧
    (pass.defined sqrt net → pass.call sqrt fresh net = .ok (0, pass.run sqrt fresh net)) ∧
    (¬ pass.has_match sqrt net →
      pass.run sqrt fresh net = net ∧
      (∀ r, pass.call sqrt fresh net = .ok r → r = (0, net)) ∧
      (pass.defined sqrt net → pass.call sqrt fresh net = .ok (0, net))) ∧
    (∀ (p : ForwardPass) (i j : Nat) (A B : Layer α) (f : Fault), pass = .forward p →
      (∀ k, k < i → chain_partner (p.rule sqrt) net k = none) →
      (∀ k C, k ≤ i → net.layers[k]? = some C → (p.rule sqrt).guardA C = true →
        C.tops.length ≠ 0) →
      net.layers[i]? = some A → net.layers[j]? = some B →
      chain_partner (p.rule sqrt) net i = some j → p.fault A B = some f →
      pass.call sqrt fresh net = .error f) ∧
    (∀ (L : Weighted) (A B : Layer α), B.channels = 0 →
      (ForwardPass.batchnorm L).fault A B = some .division) ∧
    (∀ A B : Layer α, B.scale ≠ 1 → A.num_output = 0 →
      ForwardPass.innerproduct_dropout.fault A B = some .division) := by
  refine ⟨fun r h => call_ok_run sqrt fresh pass net r h,
    fun h => call_of_defined sqrt fresh pass net h, fun hno => ?_, ?_,
    fun L A B h => batchnorm_fault_division L A B h,
    fun A B hs h => dropout_fault_division A B hs h⟩
  · have hrun := run_no_match sqrt fresh pass net hno
    refine ⟨hrun, fun r h => ?_, fun h => ?_⟩
    · rw [call_ok_run sqrt fresh pass net r h, hrun]
    · rw [call_of_defined sqrt fresh pass net h, hrun]
  · intro p i j A B f hp hbefore htops hA hB hm hf
    subst hp
    exact forward_call_fault sqrt fresh p net i j A B f hbefore htops hA hB hm hf

/-- The conditions of `RewritePass.defined` hold of `fuse_convolution_batchnorm` on
`conv_bn_relu`: the Convolution has a top, and for the one pair that matches the pattern the
BatchNorm has two channels, four arrays of two entries, and the four weights are two slices
of two. -/
theorem conv_bn_relu_defined :
    (RewritePass.forward (.batchnorm .Convolution)).defined id conv_bn_relu := by
  constructor
  · decide
  · intro i j A B hij hA hB hg hisB _ _
    have hj : j < 3 := (List.getElem?_eq_some_iff.mp hB).1
    have hi : i < 3 := (List.getElem?_eq_some_iff.mp hA).1
    interval_cases j <;> interval_cases i <;>
      simp [conv_bn_relu] at hA hB <;> subst hA hB <;>
      first
        | omega
        | (revert hg; decide)
        | (revert hisB; decide)

/-- C30, instance: `pool_conv_flatten` has no BatchNorm, so `fuse_batchnorm_scale` has no
match in it, runs into no fault, returns 0 and leaves it unchanged; and
`fuse_convolution_batchnorm` returns 0 on `conv_bn_relu`, where it folds the BatchNorm into
the Convolution. -/
theorem pass_noop_on_mismatch_witness :
    ¬ (RewritePass.forward .batchnorm_scale).has_match id pool_conv_flatten ∧
    (RewritePass.forward .batchnorm_scale).defined id pool_conv_flatten ∧
    (RewritePass.forward .batchnorm_scale).call id Layer.blank pool_conv_flatten =
      .ok (0, pool_conv_flatten) ∧
    (RewritePass.forward (.batchnorm .Convolution)).defined id conv_bn_relu ∧
    (RewritePass.forward (.batchnorm .Convolution)).call id Layer.blank conv_bn_relu =
      .ok (0, fuse_convolution_batchnorm id conv_bn_relu) := by
  have hg : ∀ A ∈ pool_conv_flatten.layers,
      (ForwardPass.rule id .batchnorm_scale).guardA A = false := by decide
  have hno : ¬ (RewritePass.forward .batchnorm_scale).has_match id pool_conv_flatten := by
    rintro ⟨i, j, A, B, _, hA, _, hgA, _⟩
    have hmem : A ∈ pool_conv_flatten.layers := List.mem_iff_getElem?.mpr ⟨i, hA⟩
    rw [hg A hmem] at hgA
    cases hgA
  have hdef : (RewritePass.forward .batchnorm_scale).defined id pool_conv_flatten := by
    constructor
    · intro A hA hgA
      rw [hg A hA] at hgA
      cases hgA
    · intro i j A B _ hA _ hgA
      rw [hg A (List.mem_iff_getElem?.mpr ⟨i, hA⟩)] at hgA
      cases hgA
  exact ⟨hno, hdef, ((pass_noop_on_mismatch id Layer.blank (.forward .batchnorm_scale)
    pool_conv_flatten).2.2.1 hno).2.2 hdef, conv_bn_relu_defined,
    (pass_noop_on_mismatch id Layer.blank (.forward (.batchnorm .Convolution))
      conv_bn_relu).2.1 conv_bn_relu_defined⟩

/-! ## The exit status of the driver -/

theorem call_passes_ok [LinearOrderedField α] (sqrt : α → α) (fresh : Layer α) :
    ∀ (passes : List RewritePass) (net net1 : Net α),
      (call_passes sqrt fresh passes net).2 = .ok net1 →
      (call_passes sqrt fresh passes net).1 = passes ∧
        net1 = run_passes sqrt fresh passes net := by
  intro passes
  induction passes with
  | nil =>
    intro net net1 h
    cases h
    exact ⟨rfl, rfl⟩
  | cons pass rest ih =>
    intro net net1 h
    rw [call_passes] at h ⊢
    cases hc : pass.call sqrt fresh net with
    | error f => rw [hc] at h; cases h
    | ok r =>
      rw [hc] at h
      dsimp only at h ⊢
      obtain ⟨h1, h2⟩ := ih r.2 net1 h
      have hr := call_ok_run sqrt fresh pass net r hc
      refine ⟨?_, ?_⟩
      · show pass :: (call_passes sqrt fresh rest r.2).1 = pass :: rest
        rw [h1]
      · rw [h2, hr]
        rfl

theorem call_passes_error [LinearOrderedField α] (sqrt : α → α) (fresh : Layer α) :
    ∀ (passes : List RewritePass) (net : Net α) (f : Fault),
      (call_passes sqrt fresh passes net).2 = .error f →
      ∃ (called : List RewritePass) (pass : RewritePass) (rest : List RewritePass),
        passes = called ++ pass :: rest ∧
        (call_passes sqrt fresh passes net).1 = called ++ [pass] ∧
        pass.call sqrt fresh (run_passes sqrt fresh called net) = .error f := by
  intro passes
  induction passes with
  | nil =>
    intro net f h
    cases h
  | cons pass rest ih =>
    intro net f h
    rw [call_passes] at h ⊢
    cases hc : pass.call sqrt fresh net with
    | error g =>
      rw [hc] at h
      dsimp only at h ⊢
      cases h
      exact ⟨[], pass, rest, rfl, rfl, hc⟩
    | ok r =>
      rw [hc] at h
      dsimp only at h ⊢
      obtain ⟨called, q, rest1, h1, h2, h3⟩ := ih r.2 f h
      have hr := call_ok_run sqrt fresh pass net r hc
      refine ⟨pass :: called, q, rest1, by rw [h1]; rfl, ?_, ?_⟩
      · show pass :: (call_passes sqrt fresh rest r.2).1 = pass :: called ++ [q]
        rw [h2]
        rfl
      · rw [hr] at h3
        exact h3

theorem call_passes_no_match [LinearOrderedField α] (sqrt : α → α) (fresh : Layer α)
    (net : Net α) :
    ∀ passes : List RewritePass,
      (∀ pass ∈ passes, ¬ pass.has_match sqrt net ∧ pass.defined sqrt net) →
      call_passes sqrt fresh passes net = (passes, .ok net) := by
  intro passes
  induction passes with
  | nil => intro _; rfl
  | cons pass rest ih =>
    intro h
    obtain ⟨hno, hdef⟩ := h pass (List.mem_cons_self _ _)
    have hc : pass.call sqrt fresh net = .ok (0, net) := by
      rw [call_of_defined sqrt fresh pass net hdef, run_no_match sqrt fresh pass net hno]
    rw [call_passes, hc]
    simp only []
    rw [ih fun q hq => h q (List.mem_cons_of_mem _ hq)]

theorem guardA_input [LinearOrderedField α] (sqrt : α → α) (p : ForwardPass) (A : Layer α)
    (h : A.type = "Input") : (p.rule sqrt).guardA A = false := by
  cases p with
  | batchnorm L => cases L <;> simp [ForwardPass.rule, Weighted.type, h]
  | activation L => cases L <;> simp [ForwardPass.rule, Weighted.type, h]
  | _ => simp [ForwardPass.rule, h]

/-- In a graph of one Input layer no rewrite pass has a match or a fault. -/
theorem single_input_idle [LinearOrderedField α] (sqrt : α → α) (net : Net α) (L : Layer α)
    (hl : net.layers = [L]) (hty : L.type = "Input") (pass : RewritePass) :
    ¬ pass.has_match sqrt net ∧ pass.defined sqrt net := by
  have hone : ∀ (i j : Nat) (A B : Layer α), i < j → net.layers[i]? = some A →
      net.layers[j]? = some B → False := by
    intro i j A B hij _ hB
    have hj : j < net.layers.length := (List.getElem?_eq_some_iff.mp hB).1
    rw [hl] at hj
    simp at hj
    omega
  have hmem : ∀ A ∈ net.layers, A.type = "Input" := by
    intro A hA
    rw [hl] at hA
    simp at hA
    rw [hA]
    exact hty
  cases pass with
  | forward p =>
    refine ⟨?_, ?_, ?_⟩
    · rintro ⟨i, j, A, B, hij, hA, hB, _⟩
      exact hone i j A B hij hA hB
    · intro A hA hg
      rw [guardA_input sqrt p A (hmem A hA)] at hg
      cases hg
    · intro i j A B hij hA hB
      exact (hone i j A B hij hA hB).elim
  | dropout =>
    refine ⟨?_, ?_⟩
    · rintro ⟨i, j, D, M, hji, hD, hM, _⟩
      exact hone j i M D hji hM hD
    · intro D hD hDty
      rw [hmem D hD] at hDty
      exact absurd hDty (by decide)
  | replace_after_global_pooling =>
    refine ⟨?_, ?_⟩
    · rintro ⟨i, j, A, B, hij, hA, hB, _⟩
      exact hone i j A B hij hA hB
    · intro A hA hg
      simp [pooling_convolution, hmem A hA] at hg
  | replace_after_innerproduct =>
    refine ⟨?_, ?_⟩
    · rintro ⟨i, j, A, B, hij, hA, hB, _⟩
      exact hone i j A B hij hA hB
    · intro A hA hg
      rw [hmem A hA] at hg
      rcases hg with hg | hg <;> exact absurd hg (by decide)

/-- C27, as stated, fails.  With six arguments and a `load_param` and a `load_model` that
both report -1, the driver still runs the seventeen rewrite passes, saves, and returns 0.
And with loads that report 0 it does not return 0 when a pass does not return: on
`conv_bn_zero` the second pass divides by zero, and nothing is saved. -/
theorem driver_exit_status_counterexample :
    (main id Layer.blank 6 0
      { param_status := -1, model_status := -1, net := conv_bn_relu }).status = .ok 0 ∧
    (main id Layer.blank 6 0
      { param_status := -1, model_status := -1, net := conv_bn_relu }).passes = driver_order ∧
    (main id Layer.blank 6 0
      { param_status := -1, model_status := -1, net := conv_bn_relu }).saved =
        some (optimize id Layer.blank conv_bn_relu) ∧
    driver_order.length = 17 ∧
    (main id Layer.blank 6 0
      { param_status := 0, model_status := 0, net := conv_bn_zero }).status
        = .error .division ∧
    (main id Layer.blank 6 0
      { param_status := 0, model_status := 0, net := conv_bn_zero }).passes
        = [.forward .batchnorm_scale, .forward (.batchnorm .Convolution)] ∧
    (main id Layer.blank 6 0
      { param_status := 0, model_status := 0, net := conv_bn_zero }).saved = none := by
  have h : (call_passes id Layer.blank driver_order conv_bn_relu).2
      = .ok (optimize id Layer.blank conv_bn_relu) := by rfl
  have h1 := (call_passes_ok id Layer.blank driver_order conv_bn_relu _ h).1
  refine ⟨?_, h1, ?_, rfl, by rfl, by rfl, by rfl⟩
  · show (call_passes id Layer.blank driver_order conv_bn_relu).2.map (fun _ => (0 : Int))
      = .ok 0
    rw [h]
    rfl
  · show (call_passes id Layer.blank driver_order conv_bn_relu).2.toOption = _
    rw [h]
    rfl

/-- C27, amended.  The driver returns -1 without loading or writing anything when the
argument count is not 6.  Otherwise it loads and does not look at the status that
`load_param` or `load_model` reports: the run is the same whatever they report.  It calls the
rewrite passes in their order on the graph it holds; when all of them return, it calls `save`
on the graph they leave and, `save` returning, returns 0, which is so whenever no pass has a
match or a fault in the graph loaded; when a pass does not return, the passes before it have
been called, nothing is saved and the driver does not return. -/
theorem driver_exit_status [LinearOrderedField α] (sqrt : α → α) (fresh : Layer α)
    (argc flag : Int) (loaded : Loaded α) :
    (argc ≠ 6 →
      (main sqrt fresh argc flag loaded).status = .ok (-1) ∧
      (main sqrt fresh argc flag loaded).loads = false ∧
      (main sqrt fresh argc flag loaded).passes = [] ∧
      (main sqrt fresh argc flag loaded).saved = none) ∧
    (∀ param_status model_status : Int,
      main sqrt fresh argc flag
          { param_status := param_status, model_status := model_status, net := loaded.net }
        = main sqrt fresh argc flag loaded) ∧
    (argc = 6 →
      (main sqrt fresh argc flag loaded).loads = true ∧
      ((main sqrt fresh argc flag loaded).status = .ok 0 ∨
        ∃ f, (main sqrt fresh argc flag loaded).status = .error f) ∧
      ((main sqrt fresh argc flag loaded).status = .ok 0 →
        (main sqrt fresh argc flag loaded).passes = driver_order ∧
        (main sqrt fresh argc flag loaded).saved = some (optimize sqrt fresh loaded.net)) ∧
      (∀ f, (main sqrt fresh argc flag loaded).status = .error f →
        (main sqrt fresh argc flag loaded).saved = none ∧
        ∃ (called : List RewritePass) (pass : RewritePass) (rest : List RewritePass),
          driver_order = called ++ pass :: rest ∧
          (main sqrt fresh argc flag loaded).passes = called ++ [pass] ∧
          pass.call sqrt fresh (run_passes sqrt fresh called loaded.net) = .error f) ∧
      ((∀ pass ∈ driver_order,
          ¬ pass.has_match sqrt loaded.net ∧ pass.defined sqrt loaded.net) →
        (main sqrt fresh argc flag loaded).status = .ok 0 ∧
        (main sqrt fresh argc flag loaded).passes = driver_order ∧
        (main sqrt fresh argc flag loaded).saved = some loaded.net)) := by
  refine ⟨?_, fun _ _ => rfl, ?_⟩
  · intro h
    simp [main, h]
  · intro h
    subst h
    have hm : main sqrt fresh 6 flag loaded =
        { status := (call_passes sqrt fresh driver_order loaded.net).2.map fun _ => 0,
          loads := true, storage_type := some (if flag = 65536 then 1 else 0),
          passes := (call_passes sqrt fresh driver_order loaded.net).1,
          saved := (call_passes sqrt fresh driver_order loaded.net).2.toOption } := by
      simp [main]
    rw [hm]
    dsimp only
    cases hc : (call_passes sqrt fresh driver_order loaded.net).2 with
    | error f =>
      obtain ⟨called, pass, rest, h1, h2, h3⟩ :=
        call_passes_error sqrt fresh driver_order loaded.net f hc
      have e1 : Except.map (fun _ => (0 : Int)) (Except.error f : Except Fault (Net α))
          = .error f := rfl
      have e2 : (Except.error f : Except Fault (Net α)).toOption = none := rfl
      rw [e1, e2]
      refine ⟨rfl, Or.inr ⟨f, rfl⟩, ?_, ?_, ?_⟩
      · intro h
        cases h
      · intro g hg
        cases hg
        exact ⟨rfl, called, pass, rest, h1, h2, h3⟩
      · intro hall
        rw [call_passes_no_match sqrt fresh loaded.net driver_order hall] at hc
        cases hc
    | ok net1 =>
      obtain ⟨h1, h2⟩ := call_passes_ok sqrt fresh driver_order loaded.net net1 hc
      have e1 : Except.map (fun _ => (0 : Int)) (Except.ok net1 : Except Fault (Net α))
          = .ok 0 := rfl
      have e2 : (Except.ok net1 : Except Fault (Net α)).toOption = some net1 := rfl
      rw [e1, e2]
      refine ⟨rfl, Or.inl rfl, ?_, ?_, ?_⟩
      · intro _
        exact ⟨h1, by rw [h2]; rfl⟩
      · intro g hg
        cases hg
      · intro hall
        rw [call_passes_no_match sqrt fresh loaded.net driver_order hall] at hc
        cases hc
        exact ⟨rfl, h1, rfl⟩

/-- C27, instance: with five arguments the driver returns -1 and neither loads nor saves;
with six arguments and the graph `input_only`, in which no pass has a match, it returns 0 and
saves the graph, also when both loads report -1. -/
theorem driver_exit_status_witness :
    (5 : Int) ≠ 6 ∧
    (main id Layer.blank 5 0
      { param_status := 0, model_status := 0, net := conv_bn_relu }).status = .ok (-1) ∧
    (main id Layer.blank 5 0
      { param_status := 0, model_status := 0, net := conv_bn_relu }).saved = none ∧
    (∀ pass ∈ driver_order,
      ¬ pass.has_match id input_only ∧ pass.defined id input_only) ∧
    (main id Layer.blank 6 0
      { param_status := -1, model_status := -1, net := input_only }).status = .ok 0 ∧
    (main id Layer.blank 6 0
      { param_status := -1, model_status := -1, net := input_only }).saved
        = some input_only :=
  have hall : ∀ pass ∈ driver_order,
      ¬ pass.has_match id input_only ∧ pass.defined id input_only :=
    fun pass _ => single_input_idle id input_only _ rfl rfl pass
  ⟨by decide,
    ((driver_exit_status id Layer.blank 5 0
      { param_status := 0, model_status := 0, net := conv_bn_relu }).1 (by decide)).1,
    ((driver_exit_status id Layer.blank 5 0
      { param_status := 0, model_status := 0, net := conv_bn_relu }).1 (by decide)).2.2.2,
    hall,
    (((driver_exit_status id Layer.blank 6 0
      { param_status := -1, model_status := -1, net := input_only }).2.2 rfl).2.2.2.2
        hall).1,
    (((driver_exit_status id Layer.blank 6 0
      { param_status := -1, model_status := -1, net := input_only }).2.2 rfl).2.2.2.2
        hall).2.2⟩
/-! ## Scenario F -/

/-- C35.  The fast path of `Deconvolution_arm::forward` and the generic layer agree on the
shape.  If `Deconvolution_arm::forward` takes the fast path then `kernel_w == kernel_h`,
`stride_w == stride_h`, the kernel size is 3 or 4, the stride is at most 2 and both dilations
are 1; the blob it creates is the one that `create` makes of
`(w-1)*stride + kernel_size + output_pad_w` by `(h-1)*stride + kernel_size + output_pad_h` by
`num_output` elements of the size of the input's, which are the width and the height that
`Deconvolution::forward` computes and the sizes of the blob it fills; and what it returns is
`-100` when that blob is empty and otherwise the result of the border cut and the activation
on what the NEON kernel of the table makes of that blob.  Under these conditions and with a
stride of at least 1 it does take the fast path.  If one of the conditions on the parameters
fails, it returns what `Deconvolution::forward` returns. -/
theorem arm_fast_path_shape [LinearOrderedField α] (exp : α → α) (K : NeonKernels α)
    (activation : Option (Mat α → Mat α)) (L : Layer α) (bottom_blob : Mat α) :
    (∀ created r,
      Deconvolution_arm.forward exp K activation L bottom_blob = .neon created r →
        L.kernel_w = L.kernel_h ∧ L.stride_w = L.stride_h ∧
        (L.kernel_w = 3 ∨ L.kernel_w = 4) ∧ L.stride_w ≤ 2 ∧
        L.dilation_w = 1 ∧ L.dilation_h = 1 ∧
        created = Mat.create
          (((bottom_blob.w : Int) - 1) * L.stride_w + L.kernel_w + L.output_pad_w)
          (((bottom_blob.h : Int) - 1) * L.stride_w + L.kernel_w + L.output_pad_h)
          L.num_output bottom_blob.elemsize ∧
        ((bottom_blob.w : Int) - 1) * L.stride_w + L.kernel_w + L.output_pad_w
          = Deconvolution.outw L bottom_blob ∧
        ((bottom_blob.h : Int) - 1) * L.stride_w + L.kernel_w + L.output_pad_h
          = Deconvolution.outh L bottom_blob ∧
        created.w = (Deconvolution.top_blob_bordered exp L bottom_blob).w ∧
        created.h = (Deconvolution.top_blob_bordered exp L bottom_blob).h ∧
        created.c = (Deconvolution.top_blob_bordered exp L bottom_blob).c ∧
        created.elemsize = (Deconvolution.top_blob_bordered exp L bottom_blob).elemsize ∧
        ∃ deconv,
          (array_at (deconv_func_table K) (L.kernel_w - 3)).bind
            (fun row => array_at row (L.stride_w - 1)) = some deconv ∧
          r = if created.empty then none
            else Deconvolution_arm.cut_and_activate activation L
              (deconv bottom_blob created L.weight_data L.bias_data)) ∧
    (L.kernel_w = L.kernel_h ∧ L.stride_w = L.stride_h ∧
        (L.kernel_w = 3 ∨ L.kernel_w = 4) ∧ L.stride_w ≤ 2 ∧
        L.dilation_w = 1 ∧ L.dilation_h = 1 →
      1 ≤ L.stride_w →
      ∃ deconv,
        (array_at (deconv_func_table K) (L.kernel_w - 3)).bind
          (fun row => array_at row (L.stride_w - 1)) = some deconv ∧
        Deconvolution_arm.forward exp K activation L bottom_blob =
          .neon
            (Mat.create (Deconvolution.outw L bottom_blob) (Deconvolution.outh L bottom_blob)
              L.num_output bottom_blob.elemsize)
            (if (Mat.create (Deconvolution.outw L bottom_blob)
                  (Deconvolution.outh L bottom_blob) L.num_output
                  bottom_blob.elemsize : Mat α).empty then none
              else Deconvolution_arm.cut_and_activate activation L
                (deconv bottom_blob
                  (Mat.create (Deconvolution.outw L bottom_blob)
                    (Deconvolution.outh L bottom_blob) L.num_output bottom_blob.elemsize)
                  L.weight_data L.bias_data))) ∧
    (¬ (L.kernel_w = L.kernel_h ∧ L.stride_w = L.stride_h ∧
        (L.kernel_w = 3 ∨ L.kernel_w = 4) ∧ L.stride_w ≤ 2 ∧
        L.dilation_w = 1 ∧ L.dilation_h = 1) →
      Deconvolution_arm.forward exp K activation L bottom_blob =
        .generic (Deconvolution.forward exp L bottom_blob)) := by
  have hcond : ¬ Deconvolution_arm.guard1 L → ¬ Deconvolution_arm.guard2 L →
      L.kernel_w = L.kernel_h ∧ L.stride_w = L.stride_h ∧
        (L.kernel_w = 3 ∨ L.kernel_w = 4) ∧ L.stride_w ≤ 2 ∧
        L.dilation_w = 1 ∧ L.dilation_h = 1 := by
    intro g1 g2
    unfold Deconvolution_arm.guard1 at g1
    unfold Deconvolution_arm.guard2 at g2
    refine ⟨?_, ?_, ?_, ?_, ?_, ?_⟩
    · by_contra hc; exact g1 (Or.inl hc)
    · by_contra hc; exact g1 (Or.inr hc)
    · by_contra hk
      exact g2 (Or.inl ⟨fun h => hk (Or.inl h), fun h => hk (Or.inr h)⟩)
    · by_contra hs2
      exact g2 (Or.inr (Or.inl (by omega)))
    · by_contra hc; exact g2 (Or.inr (Or.inr (Or.inl hc)))
    · by_contra hc; exact g2 (Or.inr (Or.inr (Or.inr hc)))
  have hsize : L.kernel_w = L.kernel_h → L.stride_w = L.stride_h → L.dilation_w = 1 →
      L.dilation_h = 1 →
      ((bottom_blob.w : Int) - 1) * L.stride_w + L.kernel_w + L.output_pad_w
          = Deconvolution.outw L bottom_blob ∧
      ((bottom_blob.h : Int) - 1) * L.stride_w + L.kernel_w + L.output_pad_h
          = Deconvolution.outh L bottom_blob := by
    intro hkw hsw hdw hdh
    constructor
    · unfold Deconvolution.outw
      simp only [hdw]
      ring
    · unfold Deconvolution.outh
      simp only [hdh, ← hkw, ← hsw]
      ring
  have hfast : ¬ Deconvolution_arm.guard1 L → ¬ Deconvolution_arm.guard2 L →
      ∀ deconv, (array_at (deconv_func_table K) (L.kernel_w - 3)).bind
          (fun row => array_at row (L.stride_w - 1)) = some deconv →
        Deconvolution_arm.forward exp K activation L bottom_blob =
          .neon
            (Mat.create
              (((bottom_blob.w : Int) - 1) * L.stride_w + L.kernel_w + L.output_pad_w)
              (((bottom_blob.h : Int) - 1) * L.stride_w + L.kernel_w + L.output_pad_h)
              L.num_output bottom_blob.elemsize)
            (if (Mat.create
                  (((bottom_blob.w : Int) - 1) * L.stride_w + L.kernel_w + L.output_pad_w)
                  (((bottom_blob.h : Int) - 1) * L.stride_w + L.kernel_w + L.output_pad_h)
                  L.num_output bottom_blob.elemsize : Mat α).empty then none
              else Deconvolution_arm.cut_and_activate activation L
                (deconv bottom_blob
                  (Mat.create
                    (((bottom_blob.w : Int) - 1) * L.stride_w + L.kernel_w + L.output_pad_w)
                    (((bottom_blob.h : Int) - 1) * L.stride_w + L.kernel_w
                      + L.output_pad_h)
                    L.num_output bottom_blob.elemsize)
                  L.weight_data L.bias_data)) := by
    intro g1 g2 deconv hd
    unfold Deconvolution_arm.forward
    rw [if_neg g1, if_neg g2]
    simp only [hd]
    split_ifs <;> rfl
  refine ⟨?_, ?_, ?_⟩
  · intro created r h
    by_cases g1 : Deconvolution_arm.guard1 L
    · unfold Deconvolution_arm.forward at h
      rw [if_pos g1] at h; cases h
    by_cases g2 : Deconvolution_arm.guard2 L
    · unfold Deconvolution_arm.forward at h
      rw [if_neg g1, if_pos g2] at h; cases h
    obtain ⟨hkw, hsw, hk, hs2, hdw, hdh⟩ := hcond g1 g2
    obtain ⟨hw, hh⟩ := hsize hkw hsw hdw hdh
    cases hd : (array_at (deconv_func_table K) (L.kernel_w - 3)).bind
        (fun row => array_at row (L.stride_w - 1)) with
    | none =>
      unfold Deconvolution_arm.forward at h
      rw [if_neg g1, if_neg g2] at h
      simp only [hd] at h
      cases h
    | some deconv =>
      rw [hfast g1 g2 deconv hd] at h
      cases h
      refine ⟨hkw, hsw, hk, hs2, hdw, hdh, rfl, hw, hh, ?_, ?_, rfl, rfl, deconv, rfl, rfl⟩
      · rw [hw]; rfl
      · rw [hh]; rfl
  · rintro ⟨hkw, hsw, hk, hs2, hdw, hdh⟩ hs1
    have g1 : ¬ Deconvolution_arm.guard1 L := by
      unfold Deconvolution_arm.guard1
      rintro (h | h)
      · exact h hkw
      · exact h hsw
    have g2 : ¬ Deconvolution_arm.guard2 L := by
      unfold Deconvolution_arm.guard2
      rintro (⟨h3, h4⟩ | h | h | h)
      · rcases hk with hk | hk
        · exact h3 hk
        · exact h4 hk
      · omega
      · exact h hdw
      · exact h hdh
    obtain ⟨hw, hh⟩ := hsize hkw hsw hdw hdh
    have hd : ∃ deconv, (array_at (deconv_func_table K) (L.kernel_w - 3)).bind
        (fun row => array_at row (L.stride_w - 1)) = some deconv := by
      have hs : L.stride_w = 1 ∨ L.stride_w = 2 := by omega
      rcases hk with hk | hk <;> rcases hs with hs | hs <;>
        exact ⟨_, by rw [hk, hs]; rfl⟩
    obtain ⟨deconv, hd⟩ := hd
    refine ⟨deconv, hd, ?_⟩
    rw [hfast g1 g2 deconv hd, hw, hh]
  · intro hc
    unfold Deconvolution_arm.forward
    by_cases g1 : Deconvolution_arm.guard1 L
    · rw [if_pos g1]
    rw [if_neg g1]
    by_cases g2 : Deconvolution_arm.guard2 L
    · rw [if_pos g2]
    exact absurd (hcond g1 g2) hc

/-- C35, instance: for the Deconvolution `deconv4s2` (kernel 4x4, stride 2) on one pixel the
fast path creates a bordered output of 4 by 4 by 1, the size of the generic layer, and hands
it to a kernel of the table. -/
theorem arm_fast_path_shape_witness :
    (deconv4s2.kernel_w = deconv4s2.kernel_h ∧ deconv4s2.stride_w = deconv4s2.stride_h ∧
      (deconv4s2.kernel_w = 3 ∨ deconv4s2.kernel_w = 4) ∧ deconv4s2.stride_w ≤ 2 ∧
      deconv4s2.dilation_w = 1 ∧ deconv4s2.dilation_h = 1) ∧
    (1 : Int) ≤ deconv4s2.stride_w ∧
    Deconvolution.outw deconv4s2 one_pixel = 4 ∧
    Deconvolution.outh deconv4s2 one_pixel = 4 ∧
    (Deconvolution.top_blob_bordered id deconv4s2 one_pixel).w = 4 ∧
    (Deconvolution.top_blob_bordered id deconv4s2 one_pixel).h = 4 ∧
    (Deconvolution.top_blob_bordered id deconv4s2 one_pixel).c = 1 ∧
    ∃ deconv,
      (array_at (deconv_func_table idle_kernels) (deconv4s2.kernel_w - 3)).bind
        (fun row => array_at row (deconv4s2.stride_w - 1)) = some deconv ∧
      Deconvolution_arm.forward id idle_kernels none deconv4s2 one_pixel =
        .neon
          (Mat.create (Deconvolution.outw deconv4s2 one_pixel)
            (Deconvolution.outh deconv4s2 one_pixel) deconv4s2.num_output one_pixel.elemsize)
          (if (Mat.create (Deconvolution.outw deconv4s2 one_pixel)
                (Deconvolution.outh deconv4s2 one_pixel) deconv4s2.num_output
                one_pixel.elemsize : Mat ℚ).empty then none
            else Deconvolution_arm.cut_and_activate none deconv4s2
              (deconv one_pixel
                (Mat.create (Deconvolution.outw deconv4s2 one_pixel)
                  (Deconvolution.outh deconv4s2 one_pixel) deconv4s2.num_output
                  one_pixel.elemsize)
                deconv4s2.weight_data deconv4s2.bias_data)) :=
  ⟨by decide, by decide, by decide, by decide, rfl, rfl, rfl,
    (arm_fast_path_shape id idle_kernels none deconv4s2 one_pixel).2.1 (by decide)
      (by decide)⟩
/-! ## The domain in which the scatter stays inside its channel -/

end Properties

end NcnnOptimize
